import Mathlib

/-!
# OcMachoLib: a shallow embedding of `Library/OcMachoLib/Header.c`

The later parts of the definitions embed the vtable functions of
`Library/OcAppleKernelLib/Vtables.c` (`InternalPatchVtableSymbol`,
`InternalGetOcVtableByName`, `InternalInitializeVtableByEntriesAndRelocations64`,
`InternalInitializeVtablePatchData` and the two parts of
`InternalPatchByVtables64`), which work on symbols, names and kexts rather than
on bytes, and the Darwin version functions and the patch loop of
`OcKernelApplyPatches` of `Platform/OpenCore/OpenCoreKernel.c`.

The Mach-O reader works on raw bytes behind pointers.  The embedding keeps that
shape: memory is a map from addresses to bytes, a pointer is a natural number,
multi-byte fields are read little-endian at the offsets of the 64-bit Mach-O
wire format, and every machine integer is a natural number reduced modulo
`2 ^ 32` or `2 ^ 64` exactly where the C code can wrap.  `UINTN` is 64 bits wide
(the X64 build).
-/

namespace OcMacho

/-! ## Memory -/

/-- Byte-addressed memory: the byte stored at each address. -/
abbrev Mem := Nat → Nat

/-- One byte of memory. -/
def rd8 (m : Mem) (a : Nat) : Nat := m a % 256

/-- A little-endian `UINT32` field. -/
def rd32 (m : Mem) (a : Nat) : Nat :=
  rd8 m a + 256 * rd8 m (a + 1) + 65536 * rd8 m (a + 2) + 16777216 * rd8 m (a + 3)

/-- A little-endian `UINT64` field. -/
def rd64 (m : Mem) (a : Nat) : Nat :=
  rd32 m a + 4294967296 * rd32 m (a + 4)

/-- Store of a little-endian `UINT32` field. -/
def wr32 (m : Mem) (a v : Nat) : Mem := fun x =>
  if x = a then v % 256
  else if x = a + 1 then v / 256 % 256
  else if x = a + 2 then v / 65536 % 256
  else if x = a + 3 then v / 16777216 % 256
  else m x

/-- Store of a little-endian `UINT64` field. -/
def wr64 (m : Mem) (a v : Nat) : Mem :=
  wr32 (wr32 m a (v % 4294967296)) (a + 4) (v / 4294967296 % 4294967296)

/-- The value `MAX_UINT32 + 1`. -/
def U32 : Nat := 4294967296

/-- The value `MAX_UINT64 + 1`; `UINTN` has the same range. -/
def U64 : Nat := 18446744073709551616

/-! ## Constants and layout of the Mach-O headers

`IndustryStandard/AppleMachoImage.h`, `IndustryStandard/AppleFatBinaryImage.h`
and `Library/OcMachoLib.h` are not among the sources.  The tag values they
define are parameters of the embedding; the structure layout is the wire
format of the specification (32-byte header, 8-byte load command prefix,
72-byte segment command followed by 80-byte section records, 24-byte symtab
command, 80-byte dysymtab command). -/

/-- The enumeration and signature constants of the Mach-O headers, which the
functions of `Header.c` compare fields against. -/
structure MachoConstants where
  MACH_HEADER_64_SIGNATURE : Nat
  MACH_FAT_BINARY_SIGNATURE : Nat
  MACH_FAT_BINARY_INVERT_SIGNATURE : Nat
  MachCpuTypeX8664 : Nat
  MachHeaderFileTypeKextBundle : Nat
  MachHeaderFileTypeExecute : Nat
  MACH_LOAD_COMMAND_SEGMENT_64 : Nat
  MACH_LOAD_COMMAND_SYMTAB : Nat
  MACH_LOAD_COMMAND_DYSYMTAB : Nat
  MACH_LOAD_COMMAND_CODE_SIGNATURE : Nat
  MACH_LOAD_COMMAND_DYLD_INFO : Nat
  MACH_LOAD_COMMAND_DYLD_INFO_ONLY : Nat
  MACH_LOAD_COMMAND_FUNCTION_STARTS : Nat
  MACH_LOAD_COMMAND_DATA_IN_CODE : Nat
  MACH_LOAD_COMMAND_DYLIB_CODE_SIGN_DRS : Nat
  MACH_HEADER_FLAG_DYNAMIC_LINKER_LINK : Nat

/-- The values Apple's headers give the constants; used for concrete images. -/
def appleConstants : MachoConstants where
  MACH_HEADER_64_SIGNATURE := 0xFEEDFACF
  MACH_FAT_BINARY_SIGNATURE := 0xCAFEBABE
  MACH_FAT_BINARY_INVERT_SIGNATURE := 0xBEBAFECA
  MachCpuTypeX8664 := 0x01000007
  MachHeaderFileTypeKextBundle := 11
  MachHeaderFileTypeExecute := 2
  MACH_LOAD_COMMAND_SEGMENT_64 := 0x19
  MACH_LOAD_COMMAND_SYMTAB := 2
  MACH_LOAD_COMMAND_DYSYMTAB := 11
  MACH_LOAD_COMMAND_CODE_SIGNATURE := 0x1D
  MACH_LOAD_COMMAND_DYLD_INFO := 0x22
  MACH_LOAD_COMMAND_DYLD_INFO_ONLY := 0x80000022
  MACH_LOAD_COMMAND_FUNCTION_STARTS := 0x26
  MACH_LOAD_COMMAND_DATA_IN_CODE := 0x29
  MACH_LOAD_COMMAND_DYLIB_CODE_SIGN_DRS := 0x2B
  MACH_HEADER_FLAG_DYNAMIC_LINKER_LINK := 4

/-- The size `sizeof (MACH_FAT_HEADER)`: the two `UINT32` fields `Signature` and
`NumberOfFatArch` in front of the records. -/
def sizeofFatHeader : Nat := 8

/-- The size `sizeof (MACH_FAT_ARCH)`: the five 32-bit fields `CpuType`,
`CpuSubtype`, `Offset`, `Size` and `Alignment`. -/
def sizeofFatArch : Nat := 20

/-- The size `sizeof (MACH_HEADER_64)`; `Commands` starts right behind it. -/
def sizeofHeader64 : Nat := 32

/-- The size `sizeof (MACH_LOAD_COMMAND)`: command type and command size. -/
def sizeofLoadCommand : Nat := 8

/-- The size `sizeof (MACH_SEGMENT_COMMAND_64)`; `Sections` starts right behind it. -/
def sizeofSegment64 : Nat := 72

/-- The size `sizeof (MACH_SECTION_64)`. -/
def sizeofSection64 : Nat := 80

/-- The size `sizeof (MACH_RELOCATION_INFO)`. -/
def sizeofRelocationInfo : Nat := 8

/-- The macro `OC_TYPE_ALIGNED (Type, Ptr)` of OcGuardLib, which is not among
the sources: the pointer is a multiple of the alignment of `Type`, given here as
a number. -/
def OC_TYPE_ALIGNED (alignment ptr : Nat) : Bool := ptr % alignment == 0

/-- Alignment of `MACH_FAT_HEADER` and `MACH_HEADER_64` in the X64 build: all of
their fields are `UINT32`. -/
def alignofHeader : Nat := 4

/-- Alignment of `MACH_SEGMENT_COMMAND_64` in the X64 build: it has `UINT64`
fields. -/
def alignofSegment64 : Nat := 8

/-! ### Field accessors -/

/-- Field `MachHeader->Signature`. -/
def hdrSignature (m : Mem) (h : Nat) : Nat := rd32 m h
/-- Field `MachHeader->CpuType`. -/
def hdrCpuType (m : Mem) (h : Nat) : Nat := rd32 m (h + 4)
/-- Field `MachHeader->FileType`. -/
def hdrFileType (m : Mem) (h : Nat) : Nat := rd32 m (h + 12)
/-- Field `MachHeader->NumCommands`. -/
def hdrNumCommands (m : Mem) (h : Nat) : Nat := rd32 m (h + 16)
/-- Field `MachHeader->CommandsSize`. -/
def hdrCommandsSize (m : Mem) (h : Nat) : Nat := rd32 m (h + 20)
/-- Field `MachHeader->Flags`. -/
def hdrFlags (m : Mem) (h : Nat) : Nat := rd32 m (h + 24)
/-- The address `MachHeader->Commands`, that of the first load command. -/
def hdrCommands (h : Nat) : Nat := h + sizeofHeader64

/-- Field `Command->CommandType`. -/
def cmdType (m : Mem) (c : Nat) : Nat := rd32 m c
/-- Field `Command->CommandSize`. -/
def cmdSize (m : Mem) (c : Nat) : Nat := rd32 m (c + 4)
/-- The macro `NEXT_MACH_LOAD_COMMAND`, an addition in `UINTN`. -/
def NEXT_MACH_LOAD_COMMAND (m : Mem) (c : Nat) : Nat := (c + cmdSize m c) % U64

/-- Field `Segment->VirtualAddress`. -/
def segVirtualAddress (m : Mem) (s : Nat) : Nat := rd64 m (s + 24)
/-- Field `Segment->Size`, the virtual size. -/
def segSize (m : Mem) (s : Nat) : Nat := rd64 m (s + 32)
/-- Field `Segment->FileOffset`. -/
def segFileOffset (m : Mem) (s : Nat) : Nat := rd64 m (s + 40)
/-- Field `Segment->FileSize`. -/
def segFileSize (m : Mem) (s : Nat) : Nat := rd64 m (s + 48)
/-- Field `Segment->NumSections`. -/
def segNumSections (m : Mem) (s : Nat) : Nat := rd32 m (s + 64)
/-- The address `&Segment->Sections[i]`. -/
def segSection (s i : Nat) : Nat := s + sizeofSegment64 + sizeofSection64 * i

/-- Field `Section->Address`. -/
def sectAddress (m : Mem) (s : Nat) : Nat := rd64 m (s + 32)
/-- Field `Section->Size`. -/
def sectSize (m : Mem) (s : Nat) : Nat := rd64 m (s + 40)
/-- Field `Section->Offset`. -/
def sectOffset (m : Mem) (s : Nat) : Nat := rd32 m (s + 48)
/-- Field `Section->Alignment`. -/
def sectAlignment (m : Mem) (s : Nat) : Nat := rd32 m (s + 52)
/-- Field `Section->RelocationsOffset`. -/
def sectRelocationsOffset (m : Mem) (s : Nat) : Nat := rd32 m (s + 56)
/-- Field `Section->NumRelocations`. -/
def sectNumRelocations (m : Mem) (s : Nat) : Nat := rd32 m (s + 60)

/-! ## Checked arithmetic (`OcGuardLib`) and `SwapBytes32` -/

/-- Modelled from the spec: `OcOverflowAddU32` of OcGuardLib, which is not among
the sources.  "Any overflow during bounds computation" is reported: the flag
says that the exact sum does not fit, the value is the truncated sum. -/
def OcOverflowAddU32 (a b : Nat) : Bool × Nat := (decide (U32 ≤ a + b), (a + b) % U32)

/-- Modelled from the spec: `OcOverflowAddU64` of OcGuardLib (see `OcOverflowAddU32`). -/
def OcOverflowAddU64 (a b : Nat) : Bool × Nat := (decide (U64 ≤ a + b), (a + b) % U64)

/-- Modelled from the spec: `OcOverflowAddUN` of OcGuardLib, `UINTN` being 64 bits. -/
def OcOverflowAddUN (a b : Nat) : Bool × Nat := OcOverflowAddU64 a b

/-- Modelled from the spec: `OcOverflowMulAddU32 (A, B, C)` of OcGuardLib: a
checked product followed by a checked sum, either overflow being reported. -/
def OcOverflowMulAddU32 (a b c : Nat) : Bool × Nat :=
  (decide (U32 ≤ a * b) || (OcOverflowAddU32 (a * b % U32) c).1,
    (OcOverflowAddU32 (a * b % U32) c).2)

/-- Modelled from the spec: `OcOverflowMulAddUN (A, B, C)` of OcGuardLib. -/
def OcOverflowMulAddUN (a b c : Nat) : Bool × Nat :=
  (decide (U64 ≤ a * b) || (OcOverflowAddU64 (a * b % U64) c).1,
    (OcOverflowAddU64 (a * b % U64) c).2)

/-- Modelled from the spec: `OcOverflowTriAddU64 (A, B, C)` of OcGuardLib: two
checked sums, either overflow being reported. -/
def OcOverflowTriAddU64 (a b c : Nat) : Bool × Nat :=
  ((OcOverflowAddU64 a b).1 || (OcOverflowAddU64 (OcOverflowAddU64 a b).2 c).1,
    (OcOverflowAddU64 (OcOverflowAddU64 a b).2 c).2)

/-- The BaseLib function `SwapBytes32`: the four bytes of a `UINT32` reversed. -/
def SwapBytes32 (v : Nat) : Nat :=
  v % 256 * 16777216 + v / 256 % 256 * 65536 + v / 65536 % 256 * 256 + v / 16777216 % 256

/-! ## `MachoFilterFatArchitecture64` -/

/-- Field `FatHeader->FatArch[Index].CpuType`, as stored. -/
def fatArchCpuType (m : Mem) (fat i : Nat) : Nat :=
  rd32 m (fat + sizeofFatHeader + sizeofFatArch * i)
/-- Field `FatHeader->FatArch[Index].Offset`, as stored. -/
def fatArchOffset (m : Mem) (fat i : Nat) : Nat :=
  rd32 m (fat + sizeofFatHeader + sizeofFatArch * i + 8)
/-- Field `FatHeader->FatArch[Index].Size`, as stored. -/
def fatArchSize (m : Mem) (fat i : Nat) : Nat :=
  rd32 m (fat + sizeofFatHeader + sizeofFatArch * i + 12)

/-- A field of the fat header in host byte order. -/
def fatField (SwapBytes : Bool) (v : Nat) : Nat := if SwapBytes then SwapBytes32 v else v

/-- The loop of `MachoFilterFatArchitecture64` over the architecture records:
`n` records are left, the next one has index `Index`.  The result is the return
value with the final `*FileData` and `*FileSize`. -/
def fatArchLoop (K : MachoConstants) (m : Mem) (FileData FileSize : Nat) (SwapBytes : Bool) :
    Nat → Nat → Bool × Nat × Nat
  | 0, _ => (false, FileData, FileSize)
  | n + 1, Index =>
    if fatField SwapBytes (fatArchCpuType m FileData Index) = K.MachCpuTypeX8664 then
      let Offset := fatField SwapBytes (fatArchOffset m FileData Index)
      let Size := fatField SwapBytes (fatArchSize m FileData Index)
      if Offset = 0 ∨ (OcOverflowAddU32 Offset Size).1 = true
          ∨ (OcOverflowAddU32 Offset Size).2 > FileSize then
        (false, FileData, FileSize)
      else
        (true, FileData + Offset, Size)
    else
      fatArchLoop K m FileData FileSize SwapBytes n (Index + 1)

/-- The function `MachoFilterFatArchitecture64`: return value, `*FileData`, `*FileSize`. -/
def MachoFilterFatArchitecture64 (K : MachoConstants) (m : Mem) (FileData FileSize : Nat) :
    Bool × Nat × Nat :=
  if FileSize < sizeofFatHeader ∨ OC_TYPE_ALIGNED alignofHeader FileData = false then
    (false, FileData, FileSize)
  else if rd32 m FileData ≠ K.MACH_FAT_BINARY_INVERT_SIGNATURE
      ∧ rd32 m FileData ≠ K.MACH_FAT_BINARY_SIGNATURE then
    (false, FileData, FileSize)
  else
    let SwapBytes := decide (rd32 m FileData = K.MACH_FAT_BINARY_INVERT_SIGNATURE)
    let NumberOfFatArch := fatField SwapBytes (rd32 m (FileData + 4))
    if (OcOverflowMulAddU32 NumberOfFatArch sizeofFatArch sizeofFatHeader).1 = true
        ∨ (OcOverflowMulAddU32 NumberOfFatArch sizeofFatArch sizeofFatHeader).2 > FileSize then
      (false, FileData, FileSize)
    else
      fatArchLoop K m FileData FileSize SwapBytes NumberOfFatArch 0

/-! ## `MachoInitializeContext` -/

/-- The structure `OC_MACHO_CONTEXT`; a pointer field holds an address, 0 is `NULL`. -/
structure OC_MACHO_CONTEXT where
  MachHeader : Nat
  FileSize : Nat
  Symtab : Nat
  SymbolTable : Nat
  StringTable : Nat
  DySymtab : Nat
  IndirectSymbolTable : Nat
  LocalRelocations : Nat
  ExternRelocations : Nat
deriving DecidableEq

/-- The load-command loop of `MachoInitializeContext`: `n` commands are left to
check, `Command` is the current one and `CommandsSize` the running 32-bit sum.
The result is `none` where the C loop returns `FALSE`, else the final sum. -/
def initCommandLoop (m : Mem) (TopOfCommands : Nat) : Nat → Nat → Nat → Option Nat
  | 0, _, CommandsSize => some CommandsSize
  | n + 1, Command, CommandsSize =>
    if (OcOverflowAddUN Command sizeofLoadCommand).1 = true
        ∨ (OcOverflowAddUN Command sizeofLoadCommand).2 > TopOfCommands
        ∨ cmdSize m Command < sizeofLoadCommand
        ∨ cmdSize m Command % 8 ≠ 0 then
      none
    else if (OcOverflowAddU32 CommandsSize (cmdSize m Command)).1 = true then
      none
    else
      initCommandLoop m TopOfCommands n (NEXT_MACH_LOAD_COMMAND m Command)
        (OcOverflowAddU32 CommandsSize (cmdSize m Command)).2

/-- The checks `MachoInitializeContext` runs after the fat filter, on the
(possibly re-based) `FileData` and `FileSize` and with the `TopOfFile` it
computed before the filter. -/
def initChecks (K : MachoConstants) (m : Mem) (FileData FileSize TopOfFile : Nat) : Bool :=
  if FileSize < sizeofHeader64 ∨ OC_TYPE_ALIGNED alignofHeader FileData = false then false
  else if hdrSignature m FileData ≠ K.MACH_HEADER_64_SIGNATURE then false
  else if (OcOverflowAddUN (hdrCommands FileData) (hdrCommandsSize m FileData)).1 = true
      ∨ (OcOverflowAddUN (hdrCommands FileData) (hdrCommandsSize m FileData)).2 > TopOfFile then
    false
  else
    match initCommandLoop m (OcOverflowAddUN (hdrCommands FileData) (hdrCommandsSize m FileData)).2
        (hdrNumCommands m FileData) (hdrCommands FileData) 0 with
    | none => false
    | some CommandsSize =>
      if hdrCommandsSize m FileData ≠ CommandsSize then false
      else if hdrCpuType m FileData ≠ K.MachCpuTypeX8664
          ∨ (hdrFileType m FileData ≠ K.MachHeaderFileTypeKextBundle
            ∧ hdrFileType m FileData ≠ K.MachHeaderFileTypeExecute) then
        false
      else true

/-- The context `MachoInitializeContext` leaves on success: `ZeroMem`, then the
two stores. -/
def initializedContext (MachHeader FileSize : Nat) : OC_MACHO_CONTEXT :=
  { MachHeader := MachHeader, FileSize := FileSize, Symtab := 0, SymbolTable := 0,
    StringTable := 0, DySymtab := 0, IndirectSymbolTable := 0, LocalRelocations := 0,
    ExternRelocations := 0 }

/-- The function `MachoInitializeContext`: the return value and the `Context`
after the call (`Context` is an out parameter, so its state before the call is
an input). -/
def MachoInitializeContext (K : MachoConstants) (m : Mem) (Context : OC_MACHO_CONTEXT)
    (FileData FileSize : Nat) : Bool × OC_MACHO_CONTEXT :=
  let TopOfFile := (FileData + FileSize) % U64
  let filtered := MachoFilterFatArchitecture64 K m FileData FileSize
  if initChecks K m filtered.2.1 filtered.2.2 TopOfFile then
    (true, initializedContext filtered.2.1 filtered.2.2)
  else
    (false, Context)

/-! ## Load commands, segments and sections

A loop whose termination depends on the data carries a `fuel` argument: the
result `none` says that the fuel ran out before the C loop ended, `some r` that
the C function returned `r` (where `r = none` stands for `NULL`). -/

/-- The loop of `InternalGetNextCommand64`, from `Command` on. -/
def nextCommandLoop (m : Mem) (TopOfCommands LoadCommandType : Nat) :
    Nat → Nat → Option (Option Nat)
  | 0, Command =>
    if Command < TopOfCommands then
      if cmdType m Command = LoadCommandType then some (some Command) else none
    else some none
  | fuel + 1, Command =>
    if Command < TopOfCommands then
      if cmdType m Command = LoadCommandType then some (some Command)
      else nextCommandLoop m TopOfCommands LoadCommandType fuel (NEXT_MACH_LOAD_COMMAND m Command)
    else some none

/-- The function `InternalGetNextCommand64`; `LoadCommand = none` is `NULL`. -/
def InternalGetNextCommand64 (m : Mem) (fuel : Nat) (Context : OC_MACHO_CONTEXT)
    (LoadCommandType : Nat) (LoadCommand : Option Nat) : Option (Option Nat) :=
  let TopOfCommands :=
    (hdrCommands Context.MachHeader + hdrCommandsSize m Context.MachHeader) % U64
  match LoadCommand with
  | some c =>
    nextCommandLoop m TopOfCommands LoadCommandType fuel (NEXT_MACH_LOAD_COMMAND m c)
  | none => nextCommandLoop m TopOfCommands LoadCommandType fuel (hdrCommands Context.MachHeader)

/-- The checks of `MachoGetNextSegment64` on the command `Tmp` it found. -/
def segmentChecks (m : Mem) (Context : OC_MACHO_CONTEXT) (Tmp : Nat) : Bool :=
  if OC_TYPE_ALIGNED alignofSegment64 Tmp = false then false
  else if cmdSize m Tmp < sizeofSegment64 then false
  else if (OcOverflowMulAddUN (segNumSections m Tmp) sizeofSection64 (segSection Tmp 0)).1 = true
      ∨ (Tmp + cmdSize m Tmp) % U64
          < (OcOverflowMulAddUN (segNumSections m Tmp) sizeofSection64 (segSection Tmp 0)).2 then
    false
  else if (OcOverflowAddU64 (segFileOffset m Tmp) (segFileSize m Tmp)).1 = true
      ∨ (OcOverflowAddU64 (segFileOffset m Tmp) (segFileSize m Tmp)).2 > Context.FileSize then
    false
  else true

/-- The function `MachoGetNextSegment64`; `Segment = none` is `NULL`. -/
def MachoGetNextSegment64 (K : MachoConstants) (m : Mem) (fuel : Nat)
    (Context : OC_MACHO_CONTEXT) (Segment : Option Nat) : Option (Option Nat) :=
  match InternalGetNextCommand64 m fuel Context K.MACH_LOAD_COMMAND_SEGMENT_64 Segment with
  | none => none
  | some none => some none
  | some (some Tmp) => if segmentChecks m Context Tmp then some (some Tmp) else some none

/-- The expression `Segment->VirtualAddress + Segment->Size`, a `UINT64` sum, as
`MachoGetLastAddress64`, `InternalSectionIsSane`, `MachoGetSectionByAddress64`
and `MachoGetFilePointerByAddress64` compute it. -/
def TopOfSegment (m : Mem) (Segment : Nat) : Nat :=
  (segVirtualAddress m Segment + segSize m Segment) % U64

/-- The function `InternalSectionIsSane`. -/
def InternalSectionIsSane (m : Mem) (Context : OC_MACHO_CONTEXT) (Section Segment : Nat) : Bool :=
  if sectAlignment m Section > 31
      ∨ (sectOffset m Section ≠ 0 ∧ sectOffset m Section < segFileOffset m Segment) then
    false
  else if (OcOverflowAddU64 (sectAddress m Section) (sectSize m Section)).1 = true
      ∨ (OcOverflowAddU64 (sectAddress m Section) (sectSize m Section)).2
          > TopOfSegment m Segment then
    false
  else if (OcOverflowAddU64 (sectOffset m Section) (sectSize m Section)).1 = true
      ∨ (OcOverflowAddU64 (sectOffset m Section) (sectSize m Section)).2
          > (segFileOffset m Segment + segFileSize m Segment) % U64 then
    false
  else if sectNumRelocations m Section ≠ 0 then
    if (OcOverflowMulAddU32 (sectNumRelocations m Section) sizeofRelocationInfo
          (sectRelocationsOffset m Section)).1 = true
        ∨ (OcOverflowMulAddU32 (sectNumRelocations m Section) sizeofRelocationInfo
          (sectRelocationsOffset m Section)).2 > Context.FileSize then
      false
    else true
  else true

/-- The function `MachoGetNextSection64`; `Section = none` is `NULL`, as is the
result `none`. -/
def MachoGetNextSection64 (m : Mem) (Context : OC_MACHO_CONTEXT) (Segment : Nat)
    (Section : Option Nat) : Option Nat :=
  match Section with
  | some s =>
    if s + sizeofSection64 ≥ segSection Segment (segNumSections m Segment) then none
    else if InternalSectionIsSane m Context (s + sizeofSection64) Segment then
      some (s + sizeofSection64)
    else none
  | none =>
    if segNumSections m Segment > 0 then
      if InternalSectionIsSane m Context (segSection Segment 0) Segment then
        some (segSection Segment 0)
      else none
    else none

/-- The segment loop of `MachoGetSectionByIndex64`: `Segment` is the segment
before the next one, `SectionIndex` the running 32-bit count of sections. -/
def sectionByIndexLoop (K : MachoConstants) (m : Mem) (cfuel : Nat) (Context : OC_MACHO_CONTEXT)
    (Index : Nat) : Nat → Option Nat → Nat → Option (Option Nat)
  | 0, _, _ => none
  | fuel + 1, Segment, SectionIndex =>
    match MachoGetNextSegment64 K m cfuel Context Segment with
    | none => none
    | some none => some none
    | some (some Next) =>
      if (OcOverflowAddU32 SectionIndex (segNumSections m Next)).1 = true
          ∨ Index < (OcOverflowAddU32 SectionIndex (segNumSections m Next)).2 then
        if InternalSectionIsSane m Context
            (segSection Next ((Index + U32 - SectionIndex) % U32)) Next then
          some (some (segSection Next ((Index + U32 - SectionIndex) % U32)))
        else some none
      else
        sectionByIndexLoop K m cfuel Context Index fuel (some Next)
          (OcOverflowAddU32 SectionIndex (segNumSections m Next)).2

/-- The function `MachoGetSectionByIndex64`. -/
def MachoGetSectionByIndex64 (K : MachoConstants) (m : Mem) (fuel : Nat)
    (Context : OC_MACHO_CONTEXT) (Index : Nat) : Option (Option Nat) :=
  sectionByIndexLoop K m fuel Context Index fuel none 0

/-- The segment loop of `MachoGetLastAddress64`. -/
def lastAddressLoop (K : MachoConstants) (m : Mem) (cfuel : Nat) (Context : OC_MACHO_CONTEXT) :
    Nat → Option Nat → Nat → Option Nat
  | 0, _, _ => none
  | fuel + 1, Segment, LastAddress =>
    match MachoGetNextSegment64 K m cfuel Context Segment with
    | none => none
    | some none => some LastAddress
    | some (some Next) =>
      lastAddressLoop K m cfuel Context fuel (some Next)
        (if TopOfSegment m Next > LastAddress then TopOfSegment m Next else LastAddress)

/-- The function `MachoGetLastAddress64`. -/
def MachoGetLastAddress64 (K : MachoConstants) (m : Mem) (fuel : Nat)
    (Context : OC_MACHO_CONTEXT) : Option Nat :=
  lastAddressLoop K m fuel Context fuel none 0

/-- The section loop of `MachoGetSectionByAddress64` over the sections of
`Segment` behind `Section`, with `n` calls of `MachoGetNextSection64` left:
the first section whose range `[Address, TopOfSection)` holds `Address`, where
`TopOfSection = Section->Address + Section->Size` is a `UINT64` sum; `some none`
when `MachoGetNextSection64` returns `NULL` first. -/
def sectionByAddressScan (m : Mem) (Context : OC_MACHO_CONTEXT) (Address Segment : Nat) :
    Nat → Option Nat → Option (Option Nat)
  | 0, _ => none
  | n + 1, Section =>
    match MachoGetNextSection64 m Context Segment Section with
    | none => some none
    | some Next =>
      if Address ≥ sectAddress m Next
          ∧ Address < (sectAddress m Next + sectSize m Next) % U64 then
        some (some Next)
      else sectionByAddressScan m Context Address Segment n (some Next)

/-- The segment loop of `MachoGetSectionByAddress64`; `Segment` is the segment
before the next one.  The sections of a segment are walked when `Address` is
at least `Segment->VirtualAddress` and below `TopOfSegment`; a segment has
`NumSections` sections, so `NumSections + 1` calls end its section loop. -/
def sectionByAddressLoop (K : MachoConstants) (m : Mem) (cfuel : Nat) (Context : OC_MACHO_CONTEXT)
    (Address : Nat) : Nat → Option Nat → Option (Option Nat)
  | 0, _ => none
  | fuel + 1, Segment =>
    match MachoGetNextSegment64 K m cfuel Context Segment with
    | none => none
    | some none => some none
    | some (some Next) =>
      if Address ≥ segVirtualAddress m Next ∧ Address < TopOfSegment m Next then
        match sectionByAddressScan m Context Address Next (segNumSections m Next + 1) none with
        | none => none
        | some (some Section) => some (some Section)
        | some none => sectionByAddressLoop K m cfuel Context Address fuel (some Next)
      else sectionByAddressLoop K m cfuel Context Address fuel (some Next)

/-- The function `MachoGetSectionByAddress64`; `some none` is `NULL`. -/
def MachoGetSectionByAddress64 (K : MachoConstants) (m : Mem) (fuel : Nat)
    (Context : OC_MACHO_CONTEXT) (Address : Nat) : Option (Option Nat) :=
  sectionByAddressLoop K m fuel Context Address fuel none

/-! ## `MachoExpandImage64`

The destination buffer is a memory of its own, indexed from `Destination`: the
byte `Destination[i]` is `dst i`, and the copy of the source structure at
address `p` is at index `p - Source`.  Source and destination do not overlap. -/

/-- The call `CopyMem (&Destination[d], &src[s], len)`. -/
def CopyMem (dst : Mem) (d : Nat) (src : Mem) (s len : Nat) : Mem := fun x =>
  if d ≤ x ∧ x < d + len then src (s + (x - d)) else dst x

/-- The call `ZeroMem (&Destination[d], len)`. -/
def ZeroMem (dst : Mem) (d len : Nat) : Mem := fun x =>
  if d ≤ x ∧ x < d + len then 0 else dst x

/-- Modelled from the spec: the macro `MACHO_ALIGN` of OcMachoLib.h, which is
not among the sources.  It "rounds delta up to the page alignment"; on a `UINT32`
that is `ALIGN_VALUE (x, 4096U)`, `x + ((4096 - x) & 4095)` in 32-bit arithmetic,
which wraps to 0 above `2 ^ 32 - 4096`. -/
def MACHO_ALIGN (x : Nat) : Nat := (x + (4096 + U32 - x) % U32 % 4096) % U32

/-- The bytes of the string `"__LINKEDIT"` with its terminator. -/
def linkeditName : List Nat := [0x5F, 0x5F, 0x4C, 0x49, 0x4E, 0x4B, 0x45, 0x44, 0x49, 0x54, 0]

/-- The test `AsciiStrnCmp (DstSegment->SegmentName, "__LINKEDIT", 16) == 0`:
the name field, at offset 8 of the segment command, holds the ten characters and
a terminator. -/
def isLinkedit (dst : Mem) (DstSegment : Nat) : Bool :=
  (List.range 11).all fun i => rd8 dst (DstSegment + 8 + i) == linkeditName.getD i 0

/-- The statement `if (Field != 0) Field += CurrentDelta` on a `UINT32` field. -/
def addIfNonzero32 (dst : Mem) (a CurrentDelta : Nat) : Mem :=
  if rd32 dst a ≠ 0 then wr32 dst a ((rd32 dst a + CurrentDelta) % U32) else dst

/-- The update of the symtab command at index `c` of the destination:
`SymbolsOffset` (offset 8) and `StringsOffset` (offset 16). -/
def expandSymtab (dst : Mem) (c CurrentDelta : Nat) : Mem :=
  addIfNonzero32 (addIfNonzero32 dst (c + 8) CurrentDelta) (c + 16) CurrentDelta

/-- The update of the dysymtab command at index `c` of the destination:
`TableOfContentsNumEntries` (offset 36), `ModuleTableFileOffset` (40),
`ReferencedSymbolTableFileOffset` (48), `IndirectSymbolsOffset` (56),
`ExternalRelocationsOffset` (64) and `LocalRelocationsOffset` (72). -/
def expandDySymtab (dst : Mem) (c CurrentDelta : Nat) : Mem :=
  addIfNonzero32 (addIfNonzero32 (addIfNonzero32 (addIfNonzero32 (addIfNonzero32
    (addIfNonzero32 dst (c + 36) CurrentDelta) (c + 40) CurrentDelta) (c + 48) CurrentDelta)
    (c + 56) CurrentDelta) (c + 64) CurrentDelta) (c + 72) CurrentDelta

/-- The update of the copy of the symtab command the source lookup returned,
if it returned one. -/
def expandSymtabAt (dst : Mem) (Source : Nat) (Symtab : Option Nat) (CurrentDelta : Nat) : Mem :=
  match Symtab with
  | none => dst
  | some c => expandSymtab dst (c - Source) CurrentDelta

/-- The update of the copy of the dysymtab command the source lookup returned,
if it returned one. -/
def expandDySymtabAt (dst : Mem) (Source : Nat) (DySymtab : Option Nat) (CurrentDelta : Nat) :
    Mem :=
  match DySymtab with
  | none => dst
  | some c => expandDySymtab dst (c - Source) CurrentDelta

/-- The `__LINKEDIT` branch of the segment loop: the first symtab and dysymtab
commands of the source are located and their copies updated. -/
def expandLinkedit (K : MachoConstants) (m : Mem) (cfuel : Nat) (Context : OC_MACHO_CONTEXT)
    (dst : Mem) (CurrentDelta : Nat) : Option Mem :=
  match InternalGetNextCommand64 m cfuel Context K.MACH_LOAD_COMMAND_SYMTAB none,
      InternalGetNextCommand64 m cfuel Context K.MACH_LOAD_COMMAND_DYSYMTAB none with
  | some Symtab, some DySymtab =>
    some (expandDySymtabAt (expandSymtabAt dst Context.MachHeader Symtab CurrentDelta)
      Context.MachHeader DySymtab CurrentDelta)
  | _, _ => none

/-- The update of the symbol table commands, run when the destination segment
at index `DstSegment` is named `__LINKEDIT`. -/
def expandTables (K : MachoConstants) (m : Mem) (cfuel : Nat) (Context : OC_MACHO_CONTEXT)
    (dst : Mem) (DstSegment CurrentDelta : Nat) : Option Mem :=
  if isLinkedit dst DstSegment then expandLinkedit K m cfuel Context dst CurrentDelta
  else some dst

/-- The section loop of the segment loop: `n` sections are left, the next has
index `Index`.  The state is the destination, `CurrentDelta` and
`CopyFileOffset`.  The stores of the loop go to `Sections[Index].Offset`, never
to `NumSections`, so the bound read on entry is the bound of every iteration. -/
def expandSectionLoop (DstSegment : Nat) : Nat → Nat → Mem × Nat × Nat → Mem × Nat × Nat
  | 0, _, st => st
  | n + 1, Index, (dst, CurrentDelta, CopyFileOffset) =>
    if sectOffset dst (segSection DstSegment Index) = 0 then
      expandSectionLoop DstSegment n (Index + 1)
        (wr32 dst (segSection DstSegment Index + 48) ((CopyFileOffset % U32 + CurrentDelta) % U32),
          (CurrentDelta + sectSize (wr32 dst (segSection DstSegment Index + 48)
            ((CopyFileOffset % U32 + CurrentDelta) % U32)) (segSection DstSegment Index) % U32)
            % U32,
          CopyFileOffset)
    else
      expandSectionLoop DstSegment n (Index + 1)
        (wr32 dst (segSection DstSegment Index + 48)
            ((sectOffset dst (segSection DstSegment Index) + CurrentDelta) % U32),
          CurrentDelta,
          (sectOffset (wr32 dst (segSection DstSegment Index + 48)
              ((sectOffset dst (segSection DstSegment Index) + CurrentDelta) % U32))
              (segSection DstSegment Index)
            + sectSize (wr32 dst (segSection DstSegment Index + 48)
              ((sectOffset dst (segSection DstSegment Index) + CurrentDelta) % U32))
              (segSection DstSegment Index)) % U64)

/-- The variables the segment loop of `MachoExpandImage64` carries from one
iteration to the next, with the destination buffer. -/
structure ExpandState where
  dst : Mem
  CurrentDelta : Nat
  FirstSegment : Option Nat
  CurrentSize : Nat

/-- The variable `CopyFileOffset` after the "do not overwrite header" step. -/
def copyFileOffset (m : Mem) (Segment HeaderSize : Nat) : Nat :=
  if segFileOffset m Segment ≤ HeaderSize then HeaderSize else segFileOffset m Segment

/-- The variable `CopyFileSize` after the "do not overwrite header" step; the
subtraction is a `UINT64` one. -/
def copyFileSize (m : Mem) (Segment HeaderSize : Nat) : Nat :=
  if segFileOffset m Segment ≤ HeaderSize then (segFileSize m Segment + U64 - HeaderSize) % U64
  else segFileSize m Segment

/-- The variable `CopyVmSize` after the "do not overwrite header" step. -/
def copyVmSize (m : Mem) (Segment HeaderSize : Nat) : Nat :=
  if segFileOffset m Segment ≤ HeaderSize then (segSize m Segment + U64 - HeaderSize) % U64
  else segSize m Segment

/-- The three stores of segment data: `ZeroMem` of the alignment gap, `CopyMem`
of the file bytes of the segment, `ZeroMem` of the tail up to the virtual size.
The indices are `UINT64` sums. -/
def expandData (dst m : Mem) (Source CopyFileOffset CopyFileSize CopyVmSize OriginalDelta
    CurrentDelta : Nat) : Mem :=
  ZeroMem
    (CopyMem
      (ZeroMem dst ((CopyFileOffset + OriginalDelta) % U64)
        ((CurrentDelta + U32 - OriginalDelta) % U32))
      ((CopyFileOffset + CurrentDelta) % U64) m (Source + CopyFileOffset) CopyFileSize)
    ((CopyFileOffset + CurrentDelta + CopyFileSize) % U64)
    ((CopyVmSize + U64 - CopyFileSize) % U64)

/-- The statements `DstSegment->FileOffset += CurrentDelta` and
`DstSegment->FileSize = DstSegment->Size`. -/
def expandFields (dst : Mem) (DstSegment CurrentDelta : Nat) : Mem :=
  wr64 (wr64 dst (DstSegment + 40) ((segFileOffset dst DstSegment + CurrentDelta) % U64))
    (DstSegment + 48)
    (segSize (wr64 dst (DstSegment + 40) ((segFileOffset dst DstSegment + CurrentDelta) % U64))
      DstSegment)

/-- One iteration of the segment loop of `MachoExpandImage64`, for the source
segment `Segment`.  The flag is `false` where the C code returns 0. -/
def expandSegment (K : MachoConstants) (m : Mem) (cfuel : Nat) (Context : OC_MACHO_CONTEXT)
    (DestinationSize HeaderSize : Nat) (st : ExpandState) (Segment : Nat) :
    Option (Bool × ExpandState) :=
  let CurrentDelta := MACHO_ALIGN st.CurrentDelta
  let FirstSegment := st.FirstSegment.getD Segment
  let DstSegment := Segment - Context.MachHeader
  let CopyFileOffset := copyFileOffset m Segment HeaderSize
  let CopyFileSize := copyFileSize m Segment HeaderSize
  let CopyVmSize := copyVmSize m Segment HeaderSize
  if segFileSize m Segment > segSize m Segment then some (false, st)
  else if segFileOffset m Segment ≤ HeaderSize
      ∧ (CopyFileSize > segFileSize m Segment ∨ CopyVmSize > segSize m Segment) then
    some (false, st)
  else if (OcOverflowTriAddU64 CopyFileOffset CurrentDelta CopyVmSize).1 = true
      ∨ (OcOverflowTriAddU64 CopyFileOffset CurrentDelta CopyVmSize).2 > DestinationSize then
    some (false, st)
  else
    let d5 := expandFields
      (expandData st.dst m Context.MachHeader CopyFileOffset CopyFileSize CopyVmSize
        st.CurrentDelta CurrentDelta) DstSegment CurrentDelta
    if (segVirtualAddress d5 DstSegment + U64 - segFileOffset d5 DstSegment) % U64
        ≠ segVirtualAddress m FirstSegment then
      some (false, { st with dst := d5 })
    else
      match expandTables K m cfuel Context d5 DstSegment CurrentDelta with
      | none => none
      | some d6 =>
        some (true,
          { dst := (expandSectionLoop DstSegment (segNumSections d6 DstSegment) 0
              (d6, CurrentDelta, segFileOffset m Segment)).1
            CurrentDelta :=
              (CurrentDelta + (segSize m Segment + U64 - segFileSize m Segment) % U64 % U32) % U32
            FirstSegment := some FirstSegment
            CurrentSize := (OcOverflowTriAddU64 CopyFileOffset CurrentDelta CopyVmSize).2 })

/-- The segment loop of `MachoExpandImage64`; `Segment` is the segment before
the next one.  The flag is `false` where the C code returns 0. -/
def expandLoop (K : MachoConstants) (m : Mem) (cfuel : Nat) (Context : OC_MACHO_CONTEXT)
    (DestinationSize HeaderSize : Nat) : Nat → Option Nat → ExpandState → Option (Bool × ExpandState)
  | 0, _, _ => none
  | fuel + 1, Segment, st =>
    match MachoGetNextSegment64 K m cfuel Context Segment with
    | none => none
    | some none => some (true, st)
    | some (some Next) =>
      match expandSegment K m cfuel Context DestinationSize HeaderSize st Next with
      | none => none
      | some (false, st1) => some (false, st1)
      | some (true, st1) =>
        expandLoop K m cfuel Context DestinationSize HeaderSize fuel (some Next) st1

/-- The load command types `InternalStripLoadCommands64` removes. -/
def LoadCommandsToStrip (K : MachoConstants) : List Nat :=
  [K.MACH_LOAD_COMMAND_CODE_SIGNATURE, K.MACH_LOAD_COMMAND_DYLD_INFO,
   K.MACH_LOAD_COMMAND_DYLD_INFO_ONLY, K.MACH_LOAD_COMMAND_FUNCTION_STARTS,
   K.MACH_LOAD_COMMAND_DATA_IN_CODE, K.MACH_LOAD_COMMAND_DYLIB_CODE_SIGN_DRS]

/-- The variables of the loop of `InternalStripLoadCommands64`, with the buffer
that holds the header (at index 0). -/
structure StripState where
  dst : Mem
  LoadCommand : Nat
  SizeOfLeftCommands : Nat

/-- The loop of `InternalStripLoadCommands64`.  `Index` grows by one per
iteration and `NumCommands` never grows, so the loop ends within as many
iterations as the header has commands on entry; that count is the bound here. -/
def stripLoop (K : MachoConstants) : Nat → Nat → StripState → StripState
  | 0, _, st => st
  | n + 1, Index, st =>
    if Index < hdrNumCommands st.dst 0 then
      let SizeOfLeftCommands := (st.SizeOfLeftCommands + U32 - cmdSize st.dst st.LoadCommand) % U32
      let d :=
        if cmdType st.dst st.LoadCommand ∈ LoadCommandsToStrip K then
          let d1 :=
            if Index ≠ (hdrNumCommands st.dst 0 + U32 - 1) % U32 then
              CopyMem st.dst st.LoadCommand st.dst
                (st.LoadCommand + cmdSize st.dst st.LoadCommand) SizeOfLeftCommands
            else st.dst
          let d2 := wr32 d1 16 ((hdrNumCommands d1 0 + U32 - 1) % U32)
          wr32 d2 20 ((hdrCommandsSize d2 0 + U32 - cmdSize d2 st.LoadCommand) % U32)
        else st.dst
      stripLoop K n (Index + 1)
        { dst := d, LoadCommand := st.LoadCommand + cmdSize d st.LoadCommand,
          SizeOfLeftCommands := SizeOfLeftCommands }
    else st

/-- The function `InternalStripLoadCommands64` on the header at index 0 of `dst`. -/
def InternalStripLoadCommands64 (K : MachoConstants) (dst : Mem) : Mem :=
  let st := stripLoop K (hdrNumCommands dst 0) 0
    { dst := dst, LoadCommand := sizeofHeader64, SizeOfLeftCommands := hdrCommandsSize dst 0 }
  ZeroMem st.dst st.LoadCommand ((hdrCommandsSize dst 0 + U32 - hdrCommandsSize st.dst 0) % U32)

/-- The function `MachoExpandImage64`: the destination buffer after the call and
the return value.  `dst` is the destination buffer before the call. -/
def MachoExpandImage64 (K : MachoConstants) (m : Mem) (fuel : Nat) (Context : OC_MACHO_CONTEXT)
    (dst : Mem) (DestinationSize : Nat) (Strip : Bool) : Option (Mem × Nat) :=
  let Header := Context.MachHeader
  let HeaderSize := (sizeofHeader64 + hdrCommandsSize m Header) % U32
  if HeaderSize > DestinationSize then some (dst, 0)
  else
    match expandLoop K m fuel Context DestinationSize HeaderSize fuel none
        { dst := CopyMem dst 0 m Header HeaderSize, CurrentDelta := 0, FirstSegment := none,
          CurrentSize := 0 } with
    | none => none
    | some (false, st) => some (st.dst, 0)
    | some (true, st) =>
      if st.CurrentSize = 0 then
        if Context.FileSize > DestinationSize then some (st.dst, 0)
        else
          let d := CopyMem st.dst HeaderSize m (Header + HeaderSize)
            ((Context.FileSize + U32 - HeaderSize) % U32)
          some (if Strip then InternalStripLoadCommands64 K d else d, Context.FileSize % U32)
      else
        some (if Strip then InternalStripLoadCommands64 K st.dst else st.dst,
          st.CurrentSize % U32)

/-- The segments the loop `for (Segment = MachoGetNextSegment64 (Context, NULL);
Segment != NULL; Segment = MachoGetNextSegment64 (Context, Segment))` visits,
in order, from the segment after `Segment` on. -/
def segmentWalk (K : MachoConstants) (m : Mem) (cfuel : Nat) (Context : OC_MACHO_CONTEXT) :
    Nat → Option Nat → List Nat
  | 0, _ => []
  | fuel + 1, Segment =>
    match MachoGetNextSegment64 K m cfuel Context Segment with
    | some (some Next) => Next :: segmentWalk K m cfuel Context fuel (some Next)
    | _ => []

/-- The address of the `i`-th load command reached from `c` by repeated
`NEXT_MACH_LOAD_COMMAND`. -/
def cmdAddr (m : Mem) (c : Nat) : Nat → Nat
  | 0 => c
  | i + 1 => cmdAddr m (NEXT_MACH_LOAD_COMMAND m c) i

/-- The exact (unbounded) sum of the `CommandSize` fields of the first `n` load
commands reached from `c`. -/
def cmdSizeSum (m : Mem) (c : Nat) : Nat → Nat
  | 0 => 0
  | n + 1 => cmdSize m c + cmdSizeSum m (NEXT_MACH_LOAD_COMMAND m c) n

/-- A context that a successful `MachoInitializeContext` produced over the
memory `m`, from a buffer that does not wrap around the address space and whose
size is a `UINT32`. -/
def Initialized (K : MachoConstants) (m : Mem) (Context : OC_MACHO_CONTEXT) : Prop :=
  ∃ (Context0 : OC_MACHO_CONTEXT) (FileData FileSize : Nat),
    FileData + FileSize < U64 ∧ FileSize < U32
      ∧ MachoInitializeContext K m Context0 FileData FileSize = (true, Context)

/-- The load commands of the header at `h` tile its command window: the
commands follow each other without a wrap of the pointer, each is at least 8
bytes long, and the last one ends where the window ends. -/
structure Tiled (m : Mem) (h : Nat) : Prop where
  window : hdrCommands h + hdrCommandsSize m h < U64
  total : cmdSizeSum m (hdrCommands h) (hdrNumCommands m h) = hdrCommandsSize m h
  addr : ∀ i, i ≤ hdrNumCommands m h →
    cmdAddr m (hdrCommands h) i = hdrCommands h + cmdSizeSum m (hdrCommands h) i
  size : ∀ i, i < hdrNumCommands m h → sizeofLoadCommand ≤ cmdSize m (cmdAddr m (hdrCommands h) i)

/-- The pointer `p` is one of the `NumCommands` load commands of the header at `h`. -/
def IsLoadCommand (m : Mem) (h p : Nat) : Prop :=
  ∃ j, j < hdrNumCommands m h ∧ p = cmdAddr m (hdrCommands h) j

/-- The buffers `d` and `d2` hold the same bytes at the indices from `lo` up to,
not including, `hi`. -/
def AgreeOn (d d2 : Mem) (lo hi : Nat) : Prop := ∀ x, lo ≤ x → x < hi → d2 x = d x

/-- The two properties of an expanded segment command at index `o` of the
destination: the file size is the virtual size, and `VirtualAddress -
FileOffset`, a 64-bit difference, is the virtual address of the first segment
of the source, at address `F`. -/
def ExpandedSegment (m dst : Mem) (o F : Nat) : Prop :=
  segFileSize dst o = segSize dst o
  ∧ (segVirtualAddress dst o + U64 - segFileOffset dst o) % U64 = segVirtualAddress m F

/-- The range of destination indices from `lo` up to `hi` is not touched by the
`__LINKEDIT` branch: it is clear of the two fields the branch may store to in
the copy of the first symtab command (offsets 8 to 20) and of the six fields
in the copy of the first dysymtab command (offsets 36 to 76). -/
def AvoidsTables (K : MachoConstants) (m : Mem) (cfuel : Nat) (Context : OC_MACHO_CONTEXT)
    (lo hi : Nat) : Prop :=
  (∀ c, InternalGetNextCommand64 m cfuel Context K.MACH_LOAD_COMMAND_SYMTAB none = some (some c) →
    c - Context.MachHeader + 20 ≤ lo ∨ hi ≤ c - Context.MachHeader + 8)
  ∧ (∀ c, InternalGetNextCommand64 m cfuel Context K.MACH_LOAD_COMMAND_DYSYMTAB none
        = some (some c) →
    c - Context.MachHeader + 76 ≤ lo ∨ hi ≤ c - Context.MachHeader + 36)

/-! ## `MachoGetFilePointerByAddress64` -/

/-- The pointer `MachoGetFilePointerByAddress64` returns for the segment that
contains `Address`: `Offset = Address - Segment->VirtualAddress`, then
`Offset += Segment->FileOffset`, a `UINT64` sum, and the `UINTN` sum
`(UINTN)Context->MachHeader + (UINTN)Offset`. -/
def filePointer (m : Mem) (Context : OC_MACHO_CONTEXT) (Address Segment : Nat) : Nat :=
  (Context.MachHeader
    + ((Address - segVirtualAddress m Segment) + segFileOffset m Segment) % U64) % U64

/-- The value stored to `*MaxSize`: `(UINT32)(Segment->Size - Offset)`. -/
def filePointerMaxSize (m : Mem) (Address Segment : Nat) : Nat :=
  (segSize m Segment + U64 - (Address - segVirtualAddress m Segment)) % U64 % U32

/-- The test of the loop of `MachoGetFilePointerByAddress64` on a segment. -/
def segmentHasAddress (m : Mem) (Address Segment : Nat) : Bool :=
  decide (Address ≥ segVirtualAddress m Segment ∧ Address < TopOfSegment m Segment)

/-- The segment loop of `MachoGetFilePointerByAddress64`; `Segment` is the
segment before the next one.  The result is the pointer with the value stored
to `*MaxSize`, or `none` for `NULL`. -/
def filePointerLoop (K : MachoConstants) (m : Mem) (cfuel : Nat) (Context : OC_MACHO_CONTEXT)
    (Address : Nat) : Nat → Option Nat → Option (Option (Nat × Nat))
  | 0, _ => none
  | fuel + 1, Segment =>
    match MachoGetNextSegment64 K m cfuel Context Segment with
    | none => none
    | some none => some none
    | some (some Next) =>
      if segmentHasAddress m Address Next then
        some (some (filePointer m Context Address Next, filePointerMaxSize m Address Next))
      else filePointerLoop K m cfuel Context Address fuel (some Next)

/-- The function `MachoGetFilePointerByAddress64`, called with a `MaxSize` that
is not `NULL`. -/
def MachoGetFilePointerByAddress64 (K : MachoConstants) (m : Mem) (fuel : Nat)
    (Context : OC_MACHO_CONTEXT) (Address : Nat) : Option (Option (Nat × Nat)) :=
  filePointerLoop K m fuel Context Address fuel none

/-! ## `InternalRetrieveSymtabs64`

The symtab command is 24 bytes long (`SymbolsOffset` at offset 8, `NumSymbols`
at 12, `StringsOffset` at 16, `StringsSize` at 20), the dysymtab command 80
bytes, a symbol (`MACH_NLIST_64`) 16 bytes with an 8-byte member, a relocation
8 bytes.  A cached pointer of the context is `NULL` when it is 0. -/

/-- The value `sizeof (MACH_SYMTAB_COMMAND)`. -/
def sizeofSymtabCommand : Nat := 24

/-- The value `sizeof (MACH_DYSYMTAB_COMMAND)`. -/
def sizeofDysymtabCommand : Nat := 80

/-- The value `sizeof (MACH_NLIST_64)`. -/
def sizeofNlist64 : Nat := 16

/-- The alignment of `MACH_SYMTAB_COMMAND`, `MACH_DYSYMTAB_COMMAND` and
`MACH_RELOCATION_INFO`, structures of 32-bit members. -/
def alignofTableCommand : Nat := 4

/-- The alignment of `MACH_NLIST_64`, which has a `UINT64` member. -/
def alignofNlist64 : Nat := 8

/-- Field `SymbolsOffset` of a symtab command. -/
def symSymbolsOffset (m : Mem) (c : Nat) : Nat := rd32 m (c + 8)
/-- Field `NumSymbols` of a symtab command. -/
def symNumSymbols (m : Mem) (c : Nat) : Nat := rd32 m (c + 12)
/-- Field `StringsOffset` of a symtab command. -/
def symStringsOffset (m : Mem) (c : Nat) : Nat := rd32 m (c + 16)
/-- Field `StringsSize` of a symtab command. -/
def symStringsSize (m : Mem) (c : Nat) : Nat := rd32 m (c + 20)

/-- Field `LocalSymbolsIndex` of a dysymtab command. -/
def dysLocalSymbolsIndex (m : Mem) (c : Nat) : Nat := rd32 m (c + 8)
/-- Field `NumLocalSymbols` of a dysymtab command. -/
def dysNumLocalSymbols (m : Mem) (c : Nat) : Nat := rd32 m (c + 12)
/-- Field `ExternalSymbolsIndex` of a dysymtab command. -/
def dysExternalSymbolsIndex (m : Mem) (c : Nat) : Nat := rd32 m (c + 16)
/-- Field `NumExternalSymbols` of a dysymtab command. -/
def dysNumExternalSymbols (m : Mem) (c : Nat) : Nat := rd32 m (c + 20)
/-- Field `UndefinedSymbolsIndex` of a dysymtab command. -/
def dysUndefinedSymbolsIndex (m : Mem) (c : Nat) : Nat := rd32 m (c + 24)
/-- Field `NumUndefinedSymbols` of a dysymtab command. -/
def dysNumUndefinedSymbols (m : Mem) (c : Nat) : Nat := rd32 m (c + 28)
/-- Field `IndirectSymbolsOffset` of a dysymtab command. -/
def dysIndirectSymbolsOffset (m : Mem) (c : Nat) : Nat := rd32 m (c + 56)
/-- Field `NumIndirectSymbols` of a dysymtab command. -/
def dysNumIndirectSymbols (m : Mem) (c : Nat) : Nat := rd32 m (c + 60)
/-- Field `ExternalRelocationsOffset` of a dysymtab command. -/
def dysExternalRelocationsOffset (m : Mem) (c : Nat) : Nat := rd32 m (c + 64)
/-- Field `NumExternalRelocations` of a dysymtab command. -/
def dysNumExternalRelocations (m : Mem) (c : Nat) : Nat := rd32 m (c + 68)
/-- Field `LocalRelocationsOffset` of a dysymtab command. -/
def dysLocalRelocationsOffset (m : Mem) (c : Nat) : Nat := rd32 m (c + 72)
/-- Field `NumOfLocalRelocations` of a dysymtab command. -/
def dysNumOfLocalRelocations (m : Mem) (c : Nat) : Nat := rd32 m (c + 76)

/-- The checks of `InternalRetrieveSymtabs64` on the aligned symtab command
`Symtab`, up to the alignment test of the symbol table. -/
def symtabChecks (m : Mem) (Context : OC_MACHO_CONTEXT) (Symtab : Nat) : Bool :=
  if cmdSize m Symtab ≠ sizeofSymtabCommand then false
  else if (OcOverflowMulAddU32 (symNumSymbols m Symtab) sizeofNlist64
        (symSymbolsOffset m Symtab)).1 = true
      ∨ (OcOverflowMulAddU32 (symNumSymbols m Symtab) sizeofNlist64
        (symSymbolsOffset m Symtab)).2 > Context.FileSize then
    false
  else if (OcOverflowAddU32 (symStringsOffset m Symtab) (symStringsSize m Symtab)).1 = true
      ∨ (OcOverflowAddU32 (symStringsOffset m Symtab) (symStringsSize m Symtab)).2
          > Context.FileSize then
    false
  else if symStringsSize m Symtab = 0
      ∨ rd8 m (((Context.MachHeader + symStringsOffset m Symtab) % U64
          + (symStringsSize m Symtab - 1)) % U64) ≠ 0 then
    false
  else if OC_TYPE_ALIGNED alignofNlist64
      ((Context.MachHeader + symSymbolsOffset m Symtab) % U64) = false then
    false
  else true

/-- The checks of `InternalRetrieveSymtabs64` on the aligned dysymtab command
`DySymtab`. -/
def dysymtabChecks (m : Mem) (Context : OC_MACHO_CONTEXT) (Symtab DySymtab : Nat) : Bool :=
  if cmdSize m DySymtab ≠ sizeofDysymtabCommand then false
  else if (OcOverflowAddU32 (dysLocalSymbolsIndex m DySymtab)
        (dysNumLocalSymbols m DySymtab)).1 = true
      ∨ (OcOverflowAddU32 (dysLocalSymbolsIndex m DySymtab)
        (dysNumLocalSymbols m DySymtab)).2 > symNumSymbols m Symtab then
    false
  else if (OcOverflowAddU32 (dysExternalSymbolsIndex m DySymtab)
        (dysNumExternalSymbols m DySymtab)).1 = true
      ∨ (OcOverflowAddU32 (dysExternalSymbolsIndex m DySymtab)
        (dysNumExternalSymbols m DySymtab)).2 > symNumSymbols m Symtab then
    false
  else if (OcOverflowAddU32 (dysUndefinedSymbolsIndex m DySymtab)
        (dysNumUndefinedSymbols m DySymtab)).1 = true
      ∨ (OcOverflowAddU32 (dysUndefinedSymbolsIndex m DySymtab)
        (dysNumUndefinedSymbols m DySymtab)).2 > symNumSymbols m Symtab then
    false
  else if (OcOverflowMulAddU32 (dysNumIndirectSymbols m DySymtab) sizeofNlist64
        (dysIndirectSymbolsOffset m DySymtab)).1 = true
      ∨ (OcOverflowMulAddU32 (dysNumIndirectSymbols m DySymtab) sizeofNlist64
        (dysIndirectSymbolsOffset m DySymtab)).2 > Context.FileSize then
    false
  else if (OcOverflowMulAddU32 (dysNumOfLocalRelocations m DySymtab) sizeofRelocationInfo
        (dysLocalRelocationsOffset m DySymtab)).1 = true
      ∨ (OcOverflowMulAddU32 (dysNumOfLocalRelocations m DySymtab) sizeofRelocationInfo
        (dysLocalRelocationsOffset m DySymtab)).2 > Context.FileSize then
    false
  else if (OcOverflowMulAddU32 (dysNumExternalRelocations m DySymtab) sizeofRelocationInfo
        (dysExternalRelocationsOffset m DySymtab)).1 = true
      ∨ (OcOverflowMulAddU32 (dysNumExternalRelocations m DySymtab) sizeofRelocationInfo
        (dysExternalRelocationsOffset m DySymtab)).2 > Context.FileSize then
    false
  else if OC_TYPE_ALIGNED alignofNlist64
      ((Context.MachHeader + dysIndirectSymbolsOffset m DySymtab) % U64) = false then
    false
  else if OC_TYPE_ALIGNED alignofTableCommand
      ((Context.MachHeader + dysLocalRelocationsOffset m DySymtab) % U64) = false then
    false
  else if OC_TYPE_ALIGNED alignofTableCommand
      ((Context.MachHeader + dysExternalRelocationsOffset m DySymtab) % U64) = false then
    false
  else true

/-- The assignments at the end of `InternalRetrieveSymtabs64` for a header
without the dynamic-linker flag: the dysymtab pointers are stored as `NULL`. -/
def storeSymtab (m : Mem) (Context : OC_MACHO_CONTEXT) (Symtab : Nat) : OC_MACHO_CONTEXT :=
  { Context with
    Symtab := Symtab
    SymbolTable := (Context.MachHeader + symSymbolsOffset m Symtab) % U64
    StringTable := (Context.MachHeader + symStringsOffset m Symtab) % U64
    DySymtab := 0
    IndirectSymbolTable := 0
    LocalRelocations := 0
    ExternRelocations := 0 }

/-- The assignments at the end of `InternalRetrieveSymtabs64` for a header with
the dynamic-linker flag. -/
def storeSymtabs (m : Mem) (Context : OC_MACHO_CONTEXT) (Symtab DySymtab : Nat) :
    OC_MACHO_CONTEXT :=
  { Context with
    Symtab := Symtab
    SymbolTable := (Context.MachHeader + symSymbolsOffset m Symtab) % U64
    StringTable := (Context.MachHeader + symStringsOffset m Symtab) % U64
    DySymtab := DySymtab
    IndirectSymbolTable := (Context.MachHeader + dysIndirectSymbolsOffset m DySymtab) % U64
    LocalRelocations := (Context.MachHeader + dysLocalRelocationsOffset m DySymtab) % U64
    ExternRelocations := (Context.MachHeader + dysExternalRelocationsOffset m DySymtab) % U64 }

/-- The part of `InternalRetrieveSymtabs64` that retrieves the dysymtab
command, run when the header has the dynamic-linker flag. -/
def retrieveDySymtab (K : MachoConstants) (m : Mem) (fuel : Nat) (Context : OC_MACHO_CONTEXT)
    (Symtab : Nat) : Option (Bool × OC_MACHO_CONTEXT) :=
  match InternalGetNextCommand64 m fuel Context K.MACH_LOAD_COMMAND_DYSYMTAB none with
  | none => none
  | some none => some (false, Context)
  | some (some DySymtab) =>
    if OC_TYPE_ALIGNED alignofTableCommand DySymtab = false then some (false, Context)
    else if dysymtabChecks m Context Symtab DySymtab = false then some (false, Context)
    else some (true, storeSymtabs m Context Symtab DySymtab)

/-- The function `InternalRetrieveSymtabs64`: the return value and the context
after the call. -/
def InternalRetrieveSymtabs64 (K : MachoConstants) (m : Mem) (fuel : Nat)
    (Context : OC_MACHO_CONTEXT) : Option (Bool × OC_MACHO_CONTEXT) :=
  if Context.SymbolTable ≠ 0 then some (true, Context)
  else
    match InternalGetNextCommand64 m fuel Context K.MACH_LOAD_COMMAND_SYMTAB none with
    | none => none
    | some none => some (false, Context)
    | some (some Symtab) =>
      if OC_TYPE_ALIGNED alignofTableCommand Symtab = false then some (false, Context)
      else if symtabChecks m Context Symtab = false then some (false, Context)
      else if hdrFlags m Context.MachHeader &&& K.MACH_HEADER_FLAG_DYNAMIC_LINKER_LINK ≠ 0 then
        retrieveDySymtab K m fuel Context Symtab
      else some (true, storeSymtab m Context Symtab)

/-! ## `InternalPatchVtableSymbol` (`Library/OcAppleKernelLib/Vtables.c`)

A C string is the list of its characters before the terminator.  The symbol
predicates and the name helpers the function calls are functions of OcMachoLib
and of the prelinking code whose sources are not among the files embedded
here; they are parameters of the embedding.  None of them takes the symbol by
a pointer it may store through, except `InternalSolveSymbolValue64`, whose
result is the symbol after the call. -/

/-- The function `AsciiStrCmp` of the base library: zero when the strings are
equal, else the difference of the first two characters that differ, where the
terminator counts as character 0. -/
def asciiStrCmp : List Char → List Char → Int
  | [], [] => 0
  | [], b :: _ => - (b.toNat : Int)
  | a :: _, [] => (a.toNat : Int)
  | a :: as, b :: bs => if a = b then asciiStrCmp as bs else (a.toNat : Int) - (b.toNat : Int)

/-- The function `AsciiStrCmp` on strings. -/
def AsciiStrCmp (FirstString SecondString : String) : Int :=
  asciiStrCmp FirstString.data SecondString.data

/-- A symbol table entry, `MACH_NLIST_64`; the field `Type` is `SymbolType` here. -/
structure MACH_NLIST_64 where
  StringIndex : Nat
  SymbolType : Nat
  Section : Nat
  Descriptor : Nat
  Value : Nat
deriving DecidableEq

/-- An entry of a linked vtable, `PRELINKED_VTABLE_ENTRY`; `Name = none` is `NULL`. -/
structure PRELINKED_VTABLE_ENTRY where
  Name : Option String
  Address : Nat
deriving DecidableEq

/-- The functions `InternalPatchVtableSymbol` calls, for a fixed Mach-O context.
`MachoGetFunctionPrefixFromClassName` takes the class name and the size of the
buffer and gives the prefix it wrote, or `none` where it returns `FALSE`. -/
structure VtableHelpers where
  SYM_MAX_NAME_LEN : Nat
  MachoSymbolIsLocalDefined : MACH_NLIST_64 → Bool
  MachoGetSymbolName64 : MACH_NLIST_64 → String
  MachoSymbolNameIsPureVirtual : String → Bool
  MachoSymbolNameIsPadslot : String → Bool
  MachoSymbolIsDefined : MACH_NLIST_64 → Bool
  MachoGetClassNameFromVtableName : String → String
  MachoGetFunctionPrefixFromClassName : String → Nat → Option String
  InternalSolveSymbolValue64 : Nat → MACH_NLIST_64 → MACH_NLIST_64

/-- Step 6 of `InternalPatchVtableSymbol`: the symbol is solved to the address
of the parent entry and the function returns `TRUE`; the test of the least
significant bit only logs a warning. -/
def patchVtableSymbol (H : VtableHelpers) (ParentEntry : PRELINKED_VTABLE_ENTRY)
    (Symbol : MACH_NLIST_64) : Bool × MACH_NLIST_64 :=
  (true, H.InternalSolveSymbolValue64 ParentEntry.Address Symbol)

/-- The function `InternalPatchVtableSymbol`: the return value and the symbol
after the call. -/
def InternalPatchVtableSymbol (H : VtableHelpers) (ParentEntry : PRELINKED_VTABLE_ENTRY)
    (VtableName : String) (Symbol : MACH_NLIST_64) : Bool × MACH_NLIST_64 :=
  match ParentEntry.Name with
  | none => (true, Symbol)
  | some ParentName =>
    if H.MachoSymbolIsLocalDefined Symbol then (true, Symbol)
    else if H.MachoSymbolNameIsPureVirtual (H.MachoGetSymbolName64 Symbol) then (true, Symbol)
    else if AsciiStrCmp (H.MachoGetSymbolName64 Symbol) ParentName = 0 then (true, Symbol)
    else if H.MachoSymbolNameIsPadslot ParentName then (false, Symbol)
    else if H.MachoSymbolIsDefined Symbol = false then
      match H.MachoGetFunctionPrefixFromClassName
          (H.MachoGetClassNameFromVtableName VtableName) H.SYM_MAX_NAME_LEN with
      | none => (false, Symbol)
      | some FunctionPrefix =>
        if AsciiStrCmp (H.MachoGetSymbolName64 Symbol) FunctionPrefix = 0 then (false, Symbol)
        else patchVtableSymbol H ParentEntry Symbol
    else patchVtableSymbol H ParentEntry Symbol

/-! ## Predicates for the theorems about `MachoExpandImage64` -/

/-- The destination `d` holds, at the indices from `lo` up to `hi`, the bytes
the source has at these offsets from its header at address `h`. -/
def HeaderKept (m : Mem) (h : Nat) (d : Mem) (lo hi : Nat) : Prop :=
  ∀ x, lo ≤ x → x < hi → d x = m (h + x)

/-- The standing assumptions about the source of an expansion: the header at
`Context->MachHeader` is tiled by its load commands and takes `HeaderSize`
bytes with them, a `UINT32`; the file size is a `UINT32`; the command walk has
as much fuel as the header has commands; and the first symtab and the first
dysymtab command, where present, have at least the size of their structures
and are no segment commands. -/
structure ExpandSetup (K : MachoConstants) (m : Mem) (cfuel : Nat) (Context : OC_MACHO_CONTEXT)
    (HeaderSize : Nat) : Prop where
  tiled : Tiled m Context.MachHeader
  headerSize : sizeofHeader64 + hdrCommandsSize m Context.MachHeader = HeaderSize
  headerSize_lt : HeaderSize < U32
  fileSize_lt : Context.FileSize < U32
  fuel : hdrNumCommands m Context.MachHeader ≤ cfuel
  symtabType : K.MACH_LOAD_COMMAND_SYMTAB ≠ K.MACH_LOAD_COMMAND_SEGMENT_64
  dysymtabType : K.MACH_LOAD_COMMAND_DYSYMTAB ≠ K.MACH_LOAD_COMMAND_SEGMENT_64
  symtabSize : ∀ c, InternalGetNextCommand64 m cfuel Context K.MACH_LOAD_COMMAND_SYMTAB none
    = some (some c) → 24 ≤ cmdSize m c
  dysymtabSize : ∀ c, InternalGetNextCommand64 m cfuel Context K.MACH_LOAD_COMMAND_DYSYMTAB none
    = some (some c) → 80 ≤ cmdSize m c

/-- The layout `MachoExpandImage64` accepts, read off the source alone.  The
list holds the segments still to be visited, `Delta` is the growth accumulated
by the segments before them and `F` the first segment.  The expansion moves a
segment by `MACHO_ALIGN (Delta)`; it goes through when the file size of the
segment is at most its virtual size, a segment that starts at or below the end
of the header holds the whole header, the expanded segment ends at or below
`DestinationSize`, and the moved file offset is `VirtualAddress -
F->VirtualAddress` (a 64-bit difference). -/
def expandPlan (m : Mem) (HeaderSize DestinationSize F : Nat) : List Nat → Nat → Bool
  | [], _ => true
  | S :: rest, Delta =>
    decide (segFileSize m S ≤ segSize m S)
    && decide (segFileOffset m S ≤ HeaderSize → HeaderSize ≤ segFileSize m S)
    && decide (copyFileOffset m S HeaderSize + MACHO_ALIGN Delta + copyVmSize m S HeaderSize
        ≤ DestinationSize)
    && decide ((segVirtualAddress m S + U64 - (segFileOffset m S + MACHO_ALIGN Delta) % U64) % U64
        = segVirtualAddress m F)
    && expandPlan m HeaderSize DestinationSize F rest
        ((MACHO_ALIGN Delta + (segSize m S - segFileSize m S) % U32) % U32)

/-- What the segment loop of `MachoExpandImage64` keeps of the copied header
while it runs, `prev` being the segment it visited last.  In every segment
command that `MachoGetNextSegment64` can return, the destination `d` holds the
source bytes of the first 72 bytes except `FileOffset` and `FileSize` (offsets
40 to 56), and these two as well in the commands behind `prev`. -/
def SegmentsKept (K : MachoConstants) (m : Mem) (Context : OC_MACHO_CONTEXT)
    (prev : Option Nat) (d : Mem) : Prop :=
  ∀ k, k < hdrNumCommands m Context.MachHeader →
    segmentChecks m Context (cmdAddr m (hdrCommands Context.MachHeader) k) = true →
    cmdType m (cmdAddr m (hdrCommands Context.MachHeader) k) = K.MACH_LOAD_COMMAND_SEGMENT_64 →
    HeaderKept m Context.MachHeader d
        (cmdAddr m (hdrCommands Context.MachHeader) k - Context.MachHeader)
        (cmdAddr m (hdrCommands Context.MachHeader) k - Context.MachHeader + 40)
    ∧ HeaderKept m Context.MachHeader d
        (cmdAddr m (hdrCommands Context.MachHeader) k - Context.MachHeader + 56)
        (cmdAddr m (hdrCommands Context.MachHeader) k - Context.MachHeader + 72)
    ∧ ((∀ j, prev = some (cmdAddr m (hdrCommands Context.MachHeader) j) →
          j < hdrNumCommands m Context.MachHeader → j < k) →
        HeaderKept m Context.MachHeader d
          (cmdAddr m (hdrCommands Context.MachHeader) k - Context.MachHeader + 40)
          (cmdAddr m (hdrCommands Context.MachHeader) k - Context.MachHeader + 56))

/-- The data of the segment `S` in the destination `d`, which the expansion
moved by `cd`: the file offset in the copy of the segment command is the one of
the source plus `cd`, the copy window holds the file bytes of the segment and
then zeros up to the virtual size, and it ends at or below `DestinationSize`. -/
def SegmentData (m : Mem) (Context : OC_MACHO_CONTEXT) (HeaderSize DestinationSize : Nat)
    (d : Mem) (S cd : Nat) : Prop :=
  copyFileOffset m S HeaderSize + cd + copyVmSize m S HeaderSize ≤ DestinationSize
  ∧ segFileOffset d (S - Context.MachHeader) = (segFileOffset m S + cd) % U64
  ∧ (∀ i, i < copyFileSize m S HeaderSize →
      d (copyFileOffset m S HeaderSize + cd + i)
        = m (Context.MachHeader + copyFileOffset m S HeaderSize + i))
  ∧ (∀ i, copyFileSize m S HeaderSize ≤ i → i < copyVmSize m S HeaderSize →
      d (copyFileOffset m S HeaderSize + cd + i) = 0)

/-! ## Darwin versions (`Platform/OpenCore/OpenCoreKernel.c`)

A C string is given by the characters before its terminator; reading `*String`
at the end of the list gives the terminator, character 0. -/

/-- The character `*String`, as a number. -/
def cstrHead (s : List Char) : Nat :=
  match s with
  | [] => 0
  | c :: _ => c.toNat

/-- One round of the inner loop of `OcParseDarwinVersion` on the rest `s` of the
string: the rest and `VersionPart` after the round, or `none` where the
function returns 0.  The character codes are those of `'.'` (46), `'0'` (48)
and `'9'` (57). -/
def parseDigitStep (s : List Char) (VersionPart : Nat) : Option (List Char × Nat) :=
  if cstrHead s ≥ 48 ∧ cstrHead s ≤ 57 then
    some (s.tail,
      ((if cstrHead s ≠ 46 ∧ cstrHead s ≠ 0 then VersionPart * 10 % U32 else VersionPart)
        + (cstrHead s - 48)) % U32)
  else if cstrHead s ≠ 46 ∧ cstrHead s ≠ 0 then none
  else some (s, if cstrHead s ≠ 46 ∧ cstrHead s ≠ 0 then VersionPart * 10 % U32 else VersionPart)

/-- The inner loop of `OcParseDarwinVersion`, two rounds from `VersionPart = 0`. -/
def parsePart (s : List Char) : Option (List Char × Nat) :=
  match parseDigitStep s 0 with
  | none => none
  | some (s1, VersionPart) => parseDigitStep s1 VersionPart

/-- The outer loop of `OcParseDarwinVersion` with `n` rounds left; the result is
the value the function returns. -/
def parseLoop : Nat → List Char → Nat → Nat
  | 0, _, Version => Version
  | n + 1, s, Version =>
    match parsePart s with
    | none => 0
    | some (s2, VersionPart) =>
      parseLoop n (if cstrHead s2 = 46 then s2.tail else s2)
        ((Version * 100 % U32 + VersionPart) % U32)

/-- The function `OcParseDarwinVersion`. -/
def OcParseDarwinVersion (String : String) : Nat :=
  if cstrHead String.data = 0 ∨ cstrHead String.data < 48 ∨ cstrHead String.data > 57 then 0
  else parseLoop 3 String.data 0

/-- The function `OcMatchDarwinVersion`. -/
def OcMatchDarwinVersion (CurrentVersion MinVersion MaxVersion : Nat) : Bool :=
  if CurrentVersion = 0 then
    decide ((if MaxVersion = 0 then CurrentVersion else MaxVersion) = 0)
  else if CurrentVersion > (if MaxVersion = 0 then CurrentVersion else MaxVersion) then false
  else if CurrentVersion < MinVersion then false
  else true

/-- The number `n`, below 100, written with two decimal digits. -/
def twoDigits (n : Nat) : List Char := [Nat.digitChar (n / 10), Nat.digitChar (n % 10)]

/-- The characters `r` write the number `n` in decimal with one or two digits. -/
def IsComponent (n : Nat) (r : List Char) : Prop :=
  r = twoDigits n ∨ (n < 10 ∧ r = [Nat.digitChar n])

/-- The formatter of the round-trip property, in the words of the
specification: `x` is written as its three two-digit components `x / 10000`,
`(x / 100) mod 100` and `x mod 100`, separated by dots. -/
def OcFormatDarwinVersion (x : Nat) : String :=
  String.mk (twoDigits (x / 10000) ++ '.' :: twoDigits (x / 100 % 100) ++ '.' :: twoDigits (x % 100))

/-! ## OcKernelApplyPatches (`Platform/OpenCore/OpenCoreKernel.c`)

The patch loop of `OcKernelApplyPatches`.  A configured blob is given by its
bytes, its `Size` being their number, and a configured string by its
characters.  The patcher library is not among the sources: whether
`PatcherInitContextFromPrelinked` finds the target is a parameter, and the
model returns the patches the loop hands to `PatcherApplyGenericPatch`, in
order (the status of that call is only logged).  The quirks applied after the
loop are left out. -/

/-- The fields of a configured kernel patch, `OC_KERNEL_PATCH_ENTRY`. -/
structure OC_KERNEL_PATCH_ENTRY where
  Base : String
  Comment : String
  Count : Nat
  Enabled : Bool
  Find : List Nat
  Identifier : String
  Limit : Nat
  Mask : List Nat
  MaxKernel : String
  MinKernel : String
  Replace : List Nat
  ReplaceMask : List Nat
  Skip : Nat
deriving DecidableEq

/-- The structure `PATCHER_GENERIC_PATCH`; a pointer left `NULL` by `ZeroMem`
is `none`. -/
structure PATCHER_GENERIC_PATCH where
  Comment : Option String
  Base : Option String
  Find : Option (List Nat)
  Replace : List Nat
  Mask : Option (List Nat)
  ReplaceMask : Option (List Nat)
  Size : Nat
  Count : Nat
  Skip : Nat
  Limit : Nat
deriving DecidableEq

/-- The test of the loop of `OcKernelApplyPatches` that logs a patch as "borked". -/
def patchIsBorked (UserPatch : OC_KERNEL_PATCH_ENTRY) : Bool :=
  decide (UserPatch.Replace.length = 0
    ∨ (UserPatch.Base.data = [] ∧ UserPatch.Find.length ≠ UserPatch.Replace.length)
    ∨ (UserPatch.Mask.length > 0 ∧ UserPatch.Find.length ≠ UserPatch.Mask.length)
    ∨ (UserPatch.ReplaceMask.length > 0 ∧ UserPatch.Find.length ≠ UserPatch.ReplaceMask.length))

/-- The `PATCHER_GENERIC_PATCH` the loop of `OcKernelApplyPatches` fills in. -/
def genericPatch (UserPatch : OC_KERNEL_PATCH_ENTRY) : PATCHER_GENERIC_PATCH :=
  { Comment := if UserPatch.Comment.data ≠ [] then some UserPatch.Comment else none
    Base := if UserPatch.Base.data ≠ [] then some UserPatch.Base else none
    Find := if UserPatch.Find.length > 0 then some UserPatch.Find else none
    Replace := UserPatch.Replace
    Mask := if UserPatch.Mask.length > 0 then some UserPatch.Mask else none
    ReplaceMask := if UserPatch.ReplaceMask.length > 0 then some UserPatch.ReplaceMask else none
    Size := UserPatch.Replace.length
    Count := UserPatch.Count
    Skip := UserPatch.Skip
    Limit := UserPatch.Limit }

/-- One round of the loop of `OcKernelApplyPatches`: the patch handed to
`PatcherApplyGenericPatch`, or `none` where the round ends in `continue`. -/
def kernelPatchRound (PatcherInitContextFromPrelinked : String → Bool)
    (DarwinVersion : Nat) (IsKernelPatch : Bool) (UserPatch : OC_KERNEL_PATCH_ENTRY) :
    Option PATCHER_GENERIC_PATCH :=
  if UserPatch.Enabled = false
      ∨ decide (AsciiStrCmp UserPatch.Identifier "kernel" = 0) ≠ IsKernelPatch then none
  else if OcMatchDarwinVersion DarwinVersion (OcParseDarwinVersion UserPatch.MinKernel)
      (OcParseDarwinVersion UserPatch.MaxKernel) = false then none
  else if IsKernelPatch = false
      ∧ PatcherInitContextFromPrelinked UserPatch.Identifier = false then none
  else if patchIsBorked UserPatch then none
  else some (genericPatch UserPatch)

/-- The loop of `OcKernelApplyPatches` over the configured patches `Values`. -/
def kernelPatchLoop (PatcherInitContextFromPrelinked : String → Bool)
    (DarwinVersion : Nat) (IsKernelPatch : Bool) :
    List OC_KERNEL_PATCH_ENTRY → List PATCHER_GENERIC_PATCH
  | [] => []
  | UserPatch :: Values =>
    match kernelPatchRound PatcherInitContextFromPrelinked DarwinVersion IsKernelPatch
        UserPatch with
    | none => kernelPatchLoop PatcherInitContextFromPrelinked DarwinVersion IsKernelPatch Values
    | some Patch =>
      Patch :: kernelPatchLoop PatcherInitContextFromPrelinked DarwinVersion IsKernelPatch Values

/-- The function `OcKernelApplyPatches` up to the end of its patch loop, on the
configured patches `Values`: the patches handed to `PatcherApplyGenericPatch`.
`Context` is `none` for the `NULL` context of a patch of the kernel itself, and
else names the prelinked context; `PatcherInitContextFromBuffer` says whether
the patcher context of the kernel could be set up. -/
def OcKernelApplyPatches (PatcherInitContextFromBuffer : Bool)
    (PatcherInitContextFromPrelinked : String → Bool) (Values : List OC_KERNEL_PATCH_ENTRY)
    (DarwinVersion : Nat) (Context : Option Nat) : List PATCHER_GENERIC_PATCH :=
  if Context.isNone ∧ PatcherInitContextFromBuffer = false then []
  else kernelPatchLoop PatcherInitContextFromPrelinked DarwinVersion Context.isNone Values

/-- The characters of the C string a `String` holds: those before the first
terminator. -/
def cString (s : String) : List Char := s.data.takeWhile fun c => c.toNat ≠ 0

/-! ## Vtable lookup (`InternalGetOcVtableByName`, Vtables.c)

A prelinked context is given by its kexts, and a pointer to a kext by the
position of the kext in that list.  The dependencies of a kext are the
entries of its array `Dependencies` before the first `NULL`. -/

/-- A linked vtable, `PRELINKED_VTABLE`; `NumEntries` is the number of `Entries`. -/
structure PRELINKED_VTABLE where
  Name : String
  Entries : List PRELINKED_VTABLE_ENTRY
deriving DecidableEq

/-- The fields of `PRELINKED_KEXT` the vtable functions use: the vtables stored
from `LinkedVtables` on, in order, the count `NumberOfVtables`, the
dependencies and the flag `Processed`. -/
structure PRELINKED_KEXT where
  LinkedVtables : List PRELINKED_VTABLE
  NumberOfVtables : Nat
  Dependencies : List Nat
  Processed : Bool
deriving DecidableEq, Inhabited

/-- The kexts of a `PRELINKED_CONTEXT`. -/
abbrev PRELINKED_CONTEXT := List PRELINKED_KEXT

/-- The kext a pointer refers to. -/
def kextAt (Context : PRELINKED_CONTEXT) (Kext : Nat) : PRELINKED_KEXT := Context.getD Kext default

/-- Modelled from the spec: `InternalUnlockContextKexts`, which is not among the
sources; it clears the flag `Processed` of every kext of the context. -/
def InternalUnlockContextKexts (Context : PRELINKED_CONTEXT) : PRELINKED_CONTEXT :=
  Context.map fun Kext => { Kext with Processed := false }

/-- The context after `Kext->Processed = TRUE`. -/
def lockKext (Context : PRELINKED_CONTEXT) (Kext : Nat) : PRELINKED_CONTEXT :=
  Context.set Kext { kextAt Context Kext with Processed := true }

/-- The first loop of `InternalGetOcVtableByNameWorker`: the first of the
`NumberOfVtables` vtables of the kext with the name `Name`. -/
def findVtable (Kext : PRELINKED_KEXT) (Name : String) : Option PRELINKED_VTABLE :=
  (Kext.LinkedVtables.take Kext.NumberOfVtables).find? fun Vtable =>
    decide (AsciiStrCmp Vtable.Name Name = 0)

/-- The loop of `InternalGetOcVtableByNameWorker` over the dependencies that are
left, where `query` is the call of `InternalGetOcVtableByName` on one of them:
the vtable found (or `NULL`) and the context after the loop.  The result is
`none` when a call does not return. -/
def dependencyLoop
    (query : PRELINKED_CONTEXT → Nat → Option (Option PRELINKED_VTABLE × PRELINKED_CONTEXT)) :
    List Nat → PRELINKED_CONTEXT → Option (Option PRELINKED_VTABLE × PRELINKED_CONTEXT)
  | [], Context => some (none, Context)
  | Dependency :: rest, Context =>
    if (kextAt Context Dependency).Processed then dependencyLoop query rest Context
    else
      match query Context Dependency with
      | none => none
      | some (some Vtable, Context1) => some (some Vtable, Context1)
      | some (none, Context1) => dependencyLoop query rest Context1

/-- The function `InternalGetOcVtableByNameWorker` with `fuel` for the depth of
the recursion.  It calls `InternalGetOcVtableByName` on a dependency, that is
itself followed by `InternalUnlockContextKexts`. -/
def InternalGetOcVtableByNameWorker (Name : String) :
    Nat → PRELINKED_CONTEXT → Nat → Option (Option PRELINKED_VTABLE × PRELINKED_CONTEXT)
  | 0, _, _ => none
  | fuel + 1, Context, Kext =>
    match findVtable (kextAt (lockKext Context Kext) Kext) Name with
    | some Vtable => some (some Vtable, lockKext Context Kext)
    | none =>
      dependencyLoop
        (fun Context1 Dependency =>
          match InternalGetOcVtableByNameWorker Name fuel Context1 Dependency with
          | none => none
          | some (Vtable, Context2) => some (Vtable, InternalUnlockContextKexts Context2))
        (kextAt (lockKext Context Kext) Kext).Dependencies (lockKext Context Kext)

/-- The function `InternalGetOcVtableByName`: the vtable found, or `NULL`, and
the context after the call; `none` when the call does not return with this
`fuel`. -/
def InternalGetOcVtableByName (Name : String) (fuel : Nat) (Context : PRELINKED_CONTEXT)
    (Kext : Nat) : Option (Option PRELINKED_VTABLE × PRELINKED_CONTEXT) :=
  match InternalGetOcVtableByNameWorker Name fuel Context Kext with
  | none => none
  | some (Vtable, Context1) => some (Vtable, InternalUnlockContextKexts Context1)

/-! ## InternalInitializeVtableByEntriesAndRelocations64 and the patch loop of InternalPatchByVtables64 (Vtables.c)

A pointer to a symbol is the index of the symbol in the symbol table `Symbols`
of the kext, whose entries the patches change; `none` is `NULL`. -/

/-- The functions the vtable functions call besides those of `VtableHelpers`,
for a fixed context and kext; none of them is among the sources.  A function
that fills a name buffer takes the size of the buffer and gives the name, or
`none` where it returns `FALSE`; `InternalOcGetSymbolValue` gives the name and
the value of the C++ symbol found for an address, and the two lookups by name
say whether a symbol is found. -/
structure LinkHelpers where
  VTABLE_HEADER_LEN_64 : Nat
  OS_METACLASS_VTABLE_NAME : String
  InternalOcGetSymbolValue : Nat → Option (String × Nat)
  MachoGetClassNameFromSuperMetaClassPointer : String → Nat → Option String
  MachoGetVtableNameFromClassName : String → Nat → Option String
  MachoGetMetaclassSymbolFromSmcpSymbol64 : Nat → Option Nat
  MachoGetClassNameFromMetaClassPointer : String → Nat → Option String
  MachoGetFinalSymbolNameFromClassName : String → Nat → Option String
  InternalOcGetSymbolName : String → Bool
  MachoGetLocalDefinedSymbolByName : String → Bool
  MachoGetMetaVtableNameFromClassName : String → Nat → Option String

/-- The symbol table after a store to the symbol `Index`. -/
def setSymbol (Symbols : Nat → MACH_NLIST_64) (Index : Nat) (Symbol : MACH_NLIST_64) :
    Nat → MACH_NLIST_64 :=
  fun i => if i = Index then Symbol else Symbols i

/-- The loop of `InternalInitializeVtableByEntriesAndRelocations64` from slot
`Index` on, over the entries of the super vtable from that slot on and the
solve symbols not yet taken: the symbol table after the loop and the entries
written from `Index` on, or `none` where the function returns `FALSE`. -/
def initializeVtableLoop (H : VtableHelpers) (L : LinkHelpers) (VtableName : String)
    (VtableData : Nat → Nat) :
    List PRELINKED_VTABLE_ENTRY → Nat → List (Option Nat) → (Nat → MACH_NLIST_64) →
      Option ((Nat → MACH_NLIST_64) × List PRELINKED_VTABLE_ENTRY)
  | [], _, _, Symbols => some (Symbols, [])
  | SuperEntry :: SuperEntries, Index, SolveSymbols, Symbols =>
    if VtableData (Index + L.VTABLE_HEADER_LEN_64) ≠ 0 then
      match initializeVtableLoop H L VtableName VtableData SuperEntries (Index + 1) SolveSymbols
          Symbols with
      | none => none
      | some (Symbols1, Entries) =>
        match L.InternalOcGetSymbolValue (VtableData (Index + L.VTABLE_HEADER_LEN_64)) with
        | some OcSymbol => some (Symbols1, { Name := some OcSymbol.1, Address := OcSymbol.2 } :: Entries)
        | none => some (Symbols1, { Name := none, Address := 0 } :: Entries)
    else
      match SolveSymbols with
      | [] => some (Symbols, [])
      | none :: rest =>
        match initializeVtableLoop H L VtableName VtableData SuperEntries (Index + 1) rest
            Symbols with
        | none => none
        | some (Symbols1, Entries) => some (Symbols1, { Name := none, Address := 0 } :: Entries)
      | some Symbol :: rest =>
        if (InternalPatchVtableSymbol H SuperEntry VtableName (Symbols Symbol)).1 = false then none
        else
          match initializeVtableLoop H L VtableName VtableData SuperEntries (Index + 1) rest
              (setSymbol Symbols Symbol
                (InternalPatchVtableSymbol H SuperEntry VtableName (Symbols Symbol)).2) with
          | none => none
          | some (Symbols1, Entries) =>
            some (Symbols1,
              { Name := some (H.MachoGetSymbolName64
                  (InternalPatchVtableSymbol H SuperEntry VtableName (Symbols Symbol)).2)
                Address := (InternalPatchVtableSymbol H SuperEntry VtableName
                  (Symbols Symbol)).2.Value } :: Entries)

/-- The function `InternalInitializeVtableByEntriesAndRelocations64`: the symbol
table after the call and the vtable written, or `none` where it returns
`FALSE`.  `SolveSymbols` holds at least `NumSolveSymbols` pointers. -/
def InternalInitializeVtableByEntriesAndRelocations64 (H : VtableHelpers) (L : LinkHelpers)
    (SuperVtable : PRELINKED_VTABLE) (VtableSymbol : Nat) (VtableData : Nat → Nat)
    (NumSolveSymbols : Nat) (SolveSymbols : List (Option Nat)) (Symbols : Nat → MACH_NLIST_64) :
    Option ((Nat → MACH_NLIST_64) × PRELINKED_VTABLE) :=
  match initializeVtableLoop H L (H.MachoGetSymbolName64 (Symbols VtableSymbol)) VtableData
      SuperVtable.Entries 0 (SolveSymbols.take NumSolveSymbols) Symbols with
  | none => none
  | some (Symbols1, Entries) =>
    some (Symbols1, { Name := H.MachoGetSymbolName64 (Symbols VtableSymbol), Entries := Entries })

/-- A scratch entry of the patch loop, `OC_VTABLE_PATCH_ENTRY`, as left by the
first part of `InternalPatchByVtables64`; `Smcp = none` is `NULL`. -/
structure OC_VTABLE_PATCH_ENTRY where
  Smcp : Option Nat
  Vtable : Nat
  VtableData : Nat → Nat
  MetaVtable : Nat
  MetaVtableData : Nat → Nat
  MetaSymsIndex : Nat
  NumSolveSymbols : Nat
  SolveSymbols : List (Option Nat)

/-- The context after a vtable was written at `CurrentVtable`, behind the
vtables written to the buffer `LinkedVtables` of the kext before. -/
def writeVtable (Context : PRELINKED_CONTEXT) (Kext : Nat) (Vtable : PRELINKED_VTABLE) :
    PRELINKED_CONTEXT :=
  Context.set Kext
    { kextAt Context Kext with LinkedVtables := (kextAt Context Kext).LinkedVtables ++ [Vtable] }

/-- The context after `Kext->NumberOfVtables += 2`. -/
def countVtables (Context : PRELINKED_CONTEXT) (Kext : Nat) : PRELINKED_CONTEXT :=
  Context.set Kext
    { kextAt Context Kext with NumberOfVtables := ((kextAt Context Kext).NumberOfVtables + 2) % U32 }

/-- How one round of the inner loop of the patch loop ends for an entry that is
not patched yet: a vtable lookup does not return (`hang`), the function returns
`FALSE` (`fail`), the round ends in `continue` because the vtable of the super
class is not linked (`skip`), or the class is patched. -/
inductive PatchRound where
  | hang : PatchRound
  | fail : PatchRound
  | skip : PRELINKED_CONTEXT → PatchRound
  | patched : PRELINKED_CONTEXT → (Nat → MACH_NLIST_64) → PatchRound

/-- The names a round of the patch loop builds before the first lookup: the
names of the class, of its vtable, of the super class and of the vtable of the
super class; `none` where the function returns `FALSE`. -/
def patchNames (H : VtableHelpers) (L : LinkHelpers) (Symbols : Nat → MACH_NLIST_64)
    (Smcp : Nat) : Option (String × String × String × String) :=
  match L.MachoGetClassNameFromSuperMetaClassPointer (H.MachoGetSymbolName64 (Symbols Smcp))
      H.SYM_MAX_NAME_LEN with
  | none => none
  | some ClassName =>
    match L.MachoGetVtableNameFromClassName ClassName H.SYM_MAX_NAME_LEN with
    | none => none
    | some VtableName =>
      match L.MachoGetMetaclassSymbolFromSmcpSymbol64 Smcp with
      | none => none
      | some MetaClass =>
        match L.MachoGetClassNameFromMetaClassPointer (H.MachoGetSymbolName64 (Symbols MetaClass))
            H.SYM_MAX_NAME_LEN with
        | none => none
        | some SuperClassName =>
          match L.MachoGetVtableNameFromClassName SuperClassName H.SYM_MAX_NAME_LEN with
          | none => none
          | some SuperVtableName => some (ClassName, VtableName, SuperClassName, SuperVtableName)

/-- The end of a round of the patch loop, from the lookup of the metaclass
vtable on; the class vtable has been written. -/
def patchMetaVtable (H : VtableHelpers) (L : LinkHelpers) (lookupFuel Kext : Nat)
    (Entry : OC_VTABLE_PATCH_ENTRY) (ClassName : String) (Context : PRELINKED_CONTEXT)
    (Symbols : Nat → MACH_NLIST_64) : PatchRound :=
  match L.MachoGetMetaVtableNameFromClassName ClassName H.SYM_MAX_NAME_LEN with
  | none => PatchRound.fail
  | some VtableName =>
    match InternalGetOcVtableByName VtableName lookupFuel Context Kext with
    | none => PatchRound.hang
    | some (some _, _) => PatchRound.fail
    | some (none, Context1) =>
      match InternalGetOcVtableByName L.OS_METACLASS_VTABLE_NAME lookupFuel Context1 Kext with
      | none => PatchRound.hang
      | some (none, _) => PatchRound.fail
      | some (some SuperVtable, Context2) =>
        match InternalInitializeVtableByEntriesAndRelocations64 H L SuperVtable Entry.MetaVtable
            Entry.MetaVtableData ((Entry.NumSolveSymbols + U32 - Entry.MetaSymsIndex) % U32)
            (Entry.SolveSymbols.drop Entry.MetaSymsIndex) Symbols with
        | none => PatchRound.fail
        | some (Symbols1, Vtable) =>
          PatchRound.patched (countVtables (writeVtable Context2 Kext Vtable) Kext) Symbols1

/-- A round of the patch loop from the check of the final symbol on; the
vtable of the super class has been found. -/
def patchClassVtable (H : VtableHelpers) (L : LinkHelpers) (lookupFuel Kext : Nat)
    (Entry : OC_VTABLE_PATCH_ENTRY) (ClassName SuperClassName : String)
    (SuperVtable : PRELINKED_VTABLE) (Context : PRELINKED_CONTEXT)
    (Symbols : Nat → MACH_NLIST_64) : PatchRound :=
  match L.MachoGetFinalSymbolNameFromClassName SuperClassName H.SYM_MAX_NAME_LEN with
  | none => PatchRound.fail
  | some FinalSymbolName =>
    if L.InternalOcGetSymbolName FinalSymbolName then PatchRound.fail
    else if L.MachoGetLocalDefinedSymbolByName FinalSymbolName then PatchRound.fail
    else
      match InternalInitializeVtableByEntriesAndRelocations64 H L SuperVtable Entry.Vtable
          Entry.VtableData Entry.MetaSymsIndex Entry.SolveSymbols Symbols with
      | none => PatchRound.fail
      | some (Symbols1, Vtable) =>
        patchMetaVtable H L lookupFuel Kext Entry ClassName (writeVtable Context Kext Vtable)
          Symbols1

/-- One round of the inner loop of the patch loop, for the entry `Entry` whose
`Smcp` is not `NULL`. -/
def patchRound (H : VtableHelpers) (L : LinkHelpers) (lookupFuel Kext : Nat)
    (Entry : OC_VTABLE_PATCH_ENTRY) (Smcp : Nat) (Context : PRELINKED_CONTEXT)
    (Symbols : Nat → MACH_NLIST_64) : PatchRound :=
  match patchNames H L Symbols Smcp with
  | none => PatchRound.fail
  | some (ClassName, _, SuperClassName, SuperVtableName) =>
    match InternalGetOcVtableByName SuperVtableName lookupFuel Context Kext with
    | none => PatchRound.hang
    | some (none, Context1) => PatchRound.skip Context1
    | some (some SuperVtable, Context1) =>
      patchClassVtable H L lookupFuel Kext Entry ClassName SuperClassName SuperVtable Context1
        Symbols

/-- The state of the patch loop of `InternalPatchByVtables64`: the context, the
symbol table of the kext, the scratch entries and `NumPatched`.  `NumTables` is
the number of entries. -/
structure PatchState where
  Context : PRELINKED_CONTEXT
  Symbols : Nat → MACH_NLIST_64
  Entries : List OC_VTABLE_PATCH_ENTRY
  NumPatched : Nat

/-- How a pass of the inner loop ends: a vtable lookup does not return, the
function returns `FALSE`, or the pass is done with a state and
`SuccessfulIteration`. -/
inductive PatchPass where
  | hang : PatchPass
  | fail : PatchPass
  | done : PatchState → Bool → PatchPass

/-- The inner loop of the patch loop over the entries that are left; the
entries of the state are those the pass has walked. -/
def patchPass (H : VtableHelpers) (L : LinkHelpers) (lookupFuel Kext : Nat) :
    List OC_VTABLE_PATCH_ENTRY → PatchState → Bool → PatchPass
  | [], st, SuccessfulIteration => PatchPass.done st SuccessfulIteration
  | Entry :: rest, st, SuccessfulIteration =>
    match Entry.Smcp with
    | none =>
      patchPass H L lookupFuel Kext rest { st with Entries := st.Entries ++ [Entry] }
        SuccessfulIteration
    | some Smcp =>
      match patchRound H L lookupFuel Kext Entry Smcp st.Context st.Symbols with
      | PatchRound.hang => PatchPass.hang
      | PatchRound.fail => PatchPass.fail
      | PatchRound.skip Context1 =>
        patchPass H L lookupFuel Kext rest
          { st with Context := Context1, Entries := st.Entries ++ [Entry] } SuccessfulIteration
      | PatchRound.patched Context1 Symbols1 =>
        patchPass H L lookupFuel Kext rest
          { Context := Context1, Symbols := Symbols1,
            Entries := st.Entries ++ [{ Entry with Smcp := none }],
            NumPatched := st.NumPatched + 1 } true

/-- The patch loop of `InternalPatchByVtables64` with `fuel` passes: `some none`
where the function returns `FALSE`, the final state where it returns `TRUE`,
and `none` where it does not return, because the passes are used up or a
vtable lookup does not return. -/
def patchLoop (H : VtableHelpers) (L : LinkHelpers) (lookupFuel Kext : Nat) :
    Nat → PatchState → Option (Option PatchState)
  | 0, _ => none
  | fuel + 1, st =>
    if st.NumPatched < st.Entries.length then
      match patchPass H L lookupFuel Kext st.Entries { st with Entries := [] } false with
      | PatchPass.hang => none
      | PatchPass.fail => some none
      | PatchPass.done st1 SuccessfulIteration =>
        if SuccessfulIteration then patchLoop H L lookupFuel Kext fuel st1 else some none
    else some (some st)

/-- The function `InternalPatchByVtables64` from the allocation of
`Kext->LinkedVtables` on, the allocation succeeding: `Entries` are the scratch
entries its first part has stored, one for each class it discovered, in the
order of their super metaclass pointer symbols in the symbol table.  The new
buffer holds no vtable yet. -/
def InternalPatchByVtables64 (H : VtableHelpers) (L : LinkHelpers) (lookupFuel fuel : Nat)
    (Context : PRELINKED_CONTEXT) (Kext : Nat) (Symbols : Nat → MACH_NLIST_64)
    (Entries : List OC_VTABLE_PATCH_ENTRY) : Option (Option PatchState) :=
  patchLoop H L lookupFuel Kext fuel
    { Context := Context.set Kext { kextAt Context Kext with LinkedVtables := [] }
      Symbols := Symbols, Entries := Entries, NumPatched := 0 }

/-! ## Predicates for the theorems about the patch loop -/

/-- The number of entries that are not patched yet (`Smcp` is not `NULL`). -/
def unpatched (Entries : List OC_VTABLE_PATCH_ENTRY) : Nat :=
  (Entries.filter fun e => e.Smcp.isSome).length

/-! ## Predicates for the theorems about the segment data of `MachoExpandImage64` -/

/-- The running shifts of the expansion, read off the source: for each segment
of the list, the growth `Delta` accumulated by the segments before it (the sum
of `Size - FileSize`, rounded up to the page size before each segment) and the
page-aligned shift `MACHO_ALIGN (Delta)` the segment is moved by. -/
def expandShifts (m : Mem) : List Nat → Nat → List (Nat × Nat × Nat)
  | [], _ => []
  | S :: rest, Delta =>
    (S, Delta, MACHO_ALIGN Delta)
      :: expandShifts m rest ((MACHO_ALIGN Delta + (segSize m S - segFileSize m S) % U32) % U32)

/-- No segment is written over the data of a segment behind the header that was
expanded before it.  For a segment `S` moved by `cd`, the destination range is
`[FileOffset + cd, FileOffset + cd + Size)`.  For a later segment `T` with the
accumulated growth `od` and the shift `cd2`, the expansion writes the
pre-alignment gap `[CopyFileOffset + od, CopyFileOffset + cd2)` and behind it
the destination range of `T`; the shift is at least the growth (the 32-bit
alignment does not wrap), and all of these bytes lie below or above the
destination range of `S`. -/
def expandClear (m : Mem) (HeaderSize : Nat) : List (Nat × Nat × Nat) → Bool
  | [] => true
  | (S, _, cd) :: rest =>
    (decide (segFileOffset m S ≤ HeaderSize)
      || rest.all fun T =>
        decide (T.2.1 ≤ T.2.2)
        && (decide (copyFileOffset m T.1 HeaderSize + T.2.2 + copyVmSize m T.1 HeaderSize
              ≤ segFileOffset m S + cd)
          || decide (segFileOffset m S + cd + segSize m S
              ≤ copyFileOffset m T.1 HeaderSize + T.2.1)))
    && expandClear m HeaderSize rest

/-! ## The kexts a vtable lookup visits -/

/-- The loop of `dependencyLoop`, which also lists the kexts the calls visit, in
the order of the visits. -/
def dependencyVisits
    (query : PRELINKED_CONTEXT → Nat →
      Option (Option PRELINKED_VTABLE × PRELINKED_CONTEXT × List Nat)) :
    List Nat → PRELINKED_CONTEXT → Option (Option PRELINKED_VTABLE × PRELINKED_CONTEXT × List Nat)
  | [], Context => some (none, Context, [])
  | Dependency :: rest, Context =>
    if (kextAt Context Dependency).Processed then dependencyVisits query rest Context
    else
      match query Context Dependency with
      | none => none
      | some (some Vtable, Context1, visits) => some (some Vtable, Context1, visits)
      | some (none, Context1, visits) =>
        match dependencyVisits query rest Context1 with
        | none => none
        | some (Vtable, Context2, visits2) => some (Vtable, Context2, visits ++ visits2)

/-- The function `InternalGetOcVtableByNameWorker` with the list of the kexts on
which the worker is entered during the call, the kext of the call first. -/
def workerVisits (Name : String) :
    Nat → PRELINKED_CONTEXT → Nat →
      Option (Option PRELINKED_VTABLE × PRELINKED_CONTEXT × List Nat)
  | 0, _, _ => none
  | fuel + 1, Context, Kext =>
    match findVtable (kextAt (lockKext Context Kext) Kext) Name with
    | some Vtable => some (some Vtable, lockKext Context Kext, [Kext])
    | none =>
      match dependencyVisits
          (fun Context1 Dependency =>
            match workerVisits Name fuel Context1 Dependency with
            | none => none
            | some (Vtable, Context2, visits) =>
              some (Vtable, InternalUnlockContextKexts Context2, visits))
          (kextAt (lockKext Context Kext) Kext).Dependencies (lockKext Context Kext) with
      | none => none
      | some (Vtable, Context2, visits) => some (Vtable, Context2, Kext :: visits)

/-! ## Quantities for the theorems about `OcParseDarwinVersion` -/

/-- The decimal value of the digit characters `ds`, read left to right, in
unbounded arithmetic. -/
def decimalValue (ds : List Char) : Nat :=
  ds.foldl (fun acc c => acc * 10 + (c.toNat - 48)) 0

/-- The step `if (*String == '.') ++String` after a component. -/
def skipDot (s : List Char) : List Char := if cstrHead s = 46 then s.tail else s

/-! ## `MachoGetIndirectSymbolTable`

`InternalSymbolIsSane` is declared in `OcMachoLibInternal.h` and defined with
the symbol functions; it is a parameter here, called with the context and the
address of the symbol. -/

/-- The outcome of `MachoGetIndirectSymbolTable`: it either reads
`Context->DySymtab->NumIndirectSymbols` while `Context->DySymtab` is `NULL`, or
returns a count, with the table stored to `*SymbolTable` if any. -/
inductive IndirectSymbols where
  | absentRead
  | returned (Count : Nat) (SymbolTable : Option Nat)
deriving DecidableEq

/-- The function `MachoGetIndirectSymbolTable`. -/
def MachoGetIndirectSymbolTable (K : MachoConstants) (m : Mem) (fuel : Nat)
    (InternalSymbolIsSane : OC_MACHO_CONTEXT → Nat → Bool) (Context : OC_MACHO_CONTEXT) :
    Option IndirectSymbols :=
  match InternalRetrieveSymtabs64 K m fuel Context with
  | none => none
  | some (false, _) => some (.returned 0 none)
  | some (true, Retrieved) =>
    if Retrieved.DySymtab = 0 then some .absentRead
    else if (List.range (dysNumIndirectSymbols m Retrieved.DySymtab)).all
        (fun Index => InternalSymbolIsSane Retrieved
          (Retrieved.IndirectSymbolTable + sizeofNlist64 * Index)) then
      some (.returned (dysNumIndirectSymbols m Retrieved.DySymtab)
        (some Retrieved.IndirectSymbolTable))
    else some (.returned 0 none)

/-! ## Section offsets of `MachoExpandImage64` -/

/-- The `Offset` and `Size` fields of the `n` section records from index
`Index` on of the segment command at `DstSegment`. -/
def sectionFields (dst : Mem) (DstSegment Index n : Nat) : List (Nat × Nat) :=
  (List.range n).map fun i =>
    (sectOffset dst (segSection DstSegment (Index + i)),
      sectSize dst (segSection DstSegment (Index + i)))

/-- The rewritten section offsets as a function of the `(Offset, Size)` pairs
alone, as the section loop of `MachoExpandImage64` computes them, `Position`
being its `CopyFileOffset`:
a section with `Offset` zero is assigned `Position + Delta` and `Delta` then
grows by its `Size`; a section with nonzero `Offset` gets `Offset + Delta`, and
`Position` becomes the end of that section, its new `Offset` plus its `Size`.
`Delta` and the offsets are 32-bit, `Position` is 64-bit. -/
def rewrittenOffsets : List (Nat × Nat) → Nat → Nat → List Nat
  | [], _, _ => []
  | (Offset, Size) :: rest, Delta, Position =>
    if Offset = 0 then
      (Position % U32 + Delta) % U32 :: rewrittenOffsets rest ((Delta + Size % U32) % U32) Position
    else
      (Offset + Delta) % U32
        :: rewrittenOffsets rest Delta (((Offset + Delta) % U32 + Size) % U64)

/-- The running delta when the section loop reaches section `i`, in the words
of the specification: it starts at `Delta` and grows by the `Size` of every
section before `i` whose `Offset` is zero (32-bit sums). -/
def runningDelta : List (Nat × Nat) → Nat → Nat → Nat
  | [], Delta, _ => Delta
  | _ :: _, Delta, 0 => Delta
  | (Offset, Size) :: rest, Delta, i + 1 =>
    runningDelta rest (if Offset = 0 then (Delta + Size % U32) % U32 else Delta) i

/-- The segment commands the segment loop of `MachoExpandImage64` has not
visited yet, `prev` being the segment it visited last, are in the destination
`d` as the header copy left them: every byte of the command, section records
included, is the byte of the source. -/
def CommandsKept (K : MachoConstants) (m : Mem) (Context : OC_MACHO_CONTEXT)
    (prev : Option Nat) (d : Mem) : Prop :=
  ∀ k, k < hdrNumCommands m Context.MachHeader →
    segmentChecks m Context (cmdAddr m (hdrCommands Context.MachHeader) k) = true →
    cmdType m (cmdAddr m (hdrCommands Context.MachHeader) k) = K.MACH_LOAD_COMMAND_SEGMENT_64 →
    (∀ j, prev = some (cmdAddr m (hdrCommands Context.MachHeader) j) →
      j < hdrNumCommands m Context.MachHeader → j < k) →
    HeaderKept m Context.MachHeader d
      (cmdAddr m (hdrCommands Context.MachHeader) k - Context.MachHeader)
      (cmdAddr m (hdrCommands Context.MachHeader) k - Context.MachHeader
        + cmdSize m (cmdAddr m (hdrCommands Context.MachHeader) k))

/-! ## Slot-wise description of `InternalInitializeVtableByEntriesAndRelocations64`

The quantities the statement about the function names: how many solve symbols
the slots below a slot have taken, the slot at which the loop ends, the symbol
table when the loop reaches a slot, and the entry written for a slot. -/

/-- The number of slots below `i` whose data word is zero: the number of solve
symbols taken when the loop reaches slot `i`. -/
def zeroWordsBefore (L : LinkHelpers) (VtableData : Nat → Nat) : Nat → Nat
  | 0 => 0
  | i + 1 =>
    zeroWordsBefore L VtableData i
      + (if VtableData (i + L.VTABLE_HEADER_LEN_64) = 0 then 1 else 0)

/-- The slot at which the loop ends when it runs from slot `i` with `k` entries
of the super vtable left and `NumSolve` solve symbols in all: the first slot
from `i` on whose data word is zero while all solve symbols are taken, or
`i + k` when there is none. -/
def endSlot (L : LinkHelpers) (VtableData : Nat → Nat) (NumSolve : Nat) : Nat → Nat → Nat
  | 0, i => i
  | k + 1, i =>
    if VtableData (i + L.VTABLE_HEADER_LEN_64) = 0
        ∧ NumSolve ≤ zeroWordsBefore L VtableData i then i
    else endSlot L VtableData NumSolve k (i + 1)

/-- The symbol table when the loop reaches slot `i`: every slot below `i` with a
zero data word and a solve symbol that is not `NULL` has patched that symbol
against the entry of the super vtable in its slot. -/
def symbolsBefore (H : VtableHelpers) (L : LinkHelpers) (VtableName : String)
    (VtableData : Nat → Nat) (SuperEntries : List PRELINKED_VTABLE_ENTRY)
    (SolveSymbols : List (Option Nat)) (Symbols : Nat → MACH_NLIST_64) :
    Nat → (Nat → MACH_NLIST_64)
  | 0 => Symbols
  | i + 1 =>
    if VtableData (i + L.VTABLE_HEADER_LEN_64) = 0 then
      match SolveSymbols[zeroWordsBefore L VtableData i]?, SuperEntries[i]? with
      | some (some Symbol), some SuperEntry =>
        setSymbol
          (symbolsBefore H L VtableName VtableData SuperEntries SolveSymbols Symbols i) Symbol
          (InternalPatchVtableSymbol H SuperEntry VtableName
            (symbolsBefore H L VtableName VtableData SuperEntries SolveSymbols Symbols i
              Symbol)).2
      | _, _ => symbolsBefore H L VtableName VtableData SuperEntries SolveSymbols Symbols i
    else symbolsBefore H L VtableName VtableData SuperEntries SolveSymbols Symbols i

/-- The result of the patch of slot `i`, if the slot has a zero data word and a
solve symbol that is not `NULL`: the return value of `InternalPatchVtableSymbol`
and the symbol after the call. -/
def slotPatch (H : VtableHelpers) (L : LinkHelpers) (VtableName : String)
    (VtableData : Nat → Nat) (SuperEntries : List PRELINKED_VTABLE_ENTRY)
    (SolveSymbols : List (Option Nat)) (Symbols : Nat → MACH_NLIST_64) (i : Nat) :
    Option (Bool × MACH_NLIST_64) :=
  if VtableData (i + L.VTABLE_HEADER_LEN_64) = 0 then
    match SolveSymbols[zeroWordsBefore L VtableData i]?, SuperEntries[i]? with
    | some (some Symbol), some SuperEntry =>
      some (InternalPatchVtableSymbol H SuperEntry VtableName
        (symbolsBefore H L VtableName VtableData SuperEntries SolveSymbols Symbols i Symbol))
    | _, _ => none
  else none

/-- The entry of slot `i`: for a nonzero data word the name and value of the
C++ symbol found for it, or `{NULL, 0}` when none is found; for a zero data
word the name and value of the patched solve symbol, or `{NULL, 0}` when the
solve symbol is `NULL`. -/
def slotEntry (H : VtableHelpers) (L : LinkHelpers) (VtableName : String)
    (VtableData : Nat → Nat) (SuperEntries : List PRELINKED_VTABLE_ENTRY)
    (SolveSymbols : List (Option Nat)) (Symbols : Nat → MACH_NLIST_64) (i : Nat) :
    PRELINKED_VTABLE_ENTRY :=
  if VtableData (i + L.VTABLE_HEADER_LEN_64) ≠ 0 then
    match L.InternalOcGetSymbolValue (VtableData (i + L.VTABLE_HEADER_LEN_64)) with
    | some OcSymbol => { Name := some OcSymbol.1, Address := OcSymbol.2 }
    | none => { Name := none, Address := 0 }
  else
    match slotPatch H L VtableName VtableData SuperEntries SolveSymbols Symbols i with
    | some Patched =>
      { Name := some (H.MachoGetSymbolName64 Patched.2), Address := Patched.2.Value }
    | none => { Name := none, Address := 0 }

/-! ## `InternalInitializeVtablePatchData` (Vtables.c)

`MachoSymbolGetFileOffset64` and `MachoGetSymbolByExternRelocationOffset64`
belong to OcMachoLib and are not among the sources; they are parameters, for a
fixed Mach-O context.  The first gives `VtableOffset` and `VtableMaxSize`, the
second the symbol stored to `*Symbol`, which may be `NULL`; `none` is the
return value `FALSE`. -/

/-- Modelled from the spec: the macro `VTABLE_ENTRY_SIZE_64`, which is not among
the sources; the vtable data is scanned in "8-byte" entries, the size of the
`UINT64` words `VtableData` points to. -/
def VTABLE_ENTRY_SIZE_64 : Nat := 8

/-- The value `sizeof (*SolveSymbols)`, the size of a pointer. -/
def sizeofSymbolPointer : Nat := 8

/-- The alignment of `UINT64`. -/
def alignofUint64 : Nat := 8

/-- The functions of OcMachoLib `InternalInitializeVtablePatchData` calls. -/
structure PatchDataHelpers where
  MachoSymbolGetFileOffset64 : MACH_NLIST_64 → Option (Nat × Nat)
  MachoGetSymbolByExternRelocationOffset64 : Nat → Option (Option Nat)

/-- What a successful `InternalInitializeVtablePatchData` stores: `*MaxSize`,
`*VtableDataPtr`, `*NumEntries`, `*NumSymbols` and the pointers it has put into
`SolveSymbols`, from index 0 on. -/
structure VTABLE_PATCH_DATA where
  MaxSize : Nat
  VtableDataPtr : Nat
  NumEntries : Nat
  NumSymbols : Nat
  SolveSymbols : List (Option Nat)
deriving DecidableEq

/-- The word `VtableData[i]` of the `UINT64` array at address `VtableData`. -/
def vtableWord (m : Mem) (VtableData i : Nat) : Nat := rd64 m (VtableData + 8 * i)

/-- The loop of `InternalInitializeVtablePatchData` with `n` iterations left
before `EntryOffset` reaches `VtableMaxSize`; `SolveSymbols` holds the
`SymIndex` pointers stored so far.  The result is the `EntryOffset` at which
the function returns `TRUE`, with the pointers stored, and `none` where it
returns `FALSE`.  `EntryOffset` is below `VtableMaxSize / 8`, so the product
`EntryOffset * VTABLE_ENTRY_SIZE_64` fits 32 bits. -/
def patchDataLoop (P : PatchDataHelpers) (m : Mem) (VtableData Value MaxSymbols : Nat) :
    Nat → Nat → List (Option Nat) → Option (Nat × List (Option Nat))
  | 0, _, _ => none
  | n + 1, EntryOffset, SolveSymbols =>
    if vtableWord m VtableData EntryOffset = 0 then
      if (OcOverflowAddU64 Value (EntryOffset * VTABLE_ENTRY_SIZE_64)).1 = true then none
      else
        match P.MachoGetSymbolByExternRelocationOffset64
            (OcOverflowAddU64 Value (EntryOffset * VTABLE_ENTRY_SIZE_64)).2 with
        | none => some (EntryOffset, SolveSymbols)
        | some Symbol =>
          if SolveSymbols.length ≥ MaxSymbols then none
          else
            patchDataLoop P m VtableData Value MaxSymbols n (EntryOffset + 1)
              (SolveSymbols ++ [Symbol])
    else patchDataLoop P m VtableData Value MaxSymbols n (EntryOffset + 1) SolveSymbols

/-- The function `InternalInitializeVtablePatchData` for the Mach-O header at
address `MachHeader`: what it stores, or `none` where it returns `FALSE`.
`MaxSize` is `*MaxSize` before the call. -/
def InternalInitializeVtablePatchData (L : LinkHelpers) (P : PatchDataHelpers) (m : Mem)
    (MachHeader : Nat) (VtableSymbol : MACH_NLIST_64) (MaxSize : Nat) :
    Option VTABLE_PATCH_DATA :=
  match P.MachoSymbolGetFileOffset64 VtableSymbol with
  | none => none
  | some (VtableOffset, VtableMaxSize) =>
    if OC_TYPE_ALIGNED alignofUint64 ((MachHeader + VtableOffset) % U64) = false then none
    else
      match patchDataLoop P m ((MachHeader + VtableOffset) % U64) VtableSymbol.Value
          (MaxSize / sizeofSymbolPointer)
          (VtableMaxSize / VTABLE_ENTRY_SIZE_64 - L.VTABLE_HEADER_LEN_64)
          L.VTABLE_HEADER_LEN_64 [] with
      | none => none
      | some (EntryOffset, SolveSymbols) =>
        some
          { MaxSize := (MaxSize + U32 - SolveSymbols.length * sizeofSymbolPointer % U32) % U32
            VtableDataPtr := (MachHeader + VtableOffset) % U64
            NumEntries := EntryOffset - L.VTABLE_HEADER_LEN_64
            NumSymbols := SolveSymbols.length
            SolveSymbols := SolveSymbols }

/-- The slots from `lo` up to, not including, `e` of the array at `VtableData`
that hold a zero word, in slot order. -/
def zeroSlots (m : Mem) (VtableData lo e : Nat) : List Nat :=
  (List.range' lo (e - lo)).filter fun j => decide (vtableWord m VtableData j = 0)

/-- The pointer `MachoGetSymbolByExternRelocationOffset64` stores for the slot
`j` of the vtable of a symbol with the value `Value`; `NULL` also where it
finds no relocation. -/
def slotSymbol (P : PatchDataHelpers) (Value j : Nat) : Option Nat :=
  (P.MachoGetSymbolByExternRelocationOffset64 (Value + VTABLE_ENTRY_SIZE_64 * j)).getD none

/-- The slot `e` ends the vtable of a symbol with the value `Value` whose data
is the array at `VtableData`, scanned from slot `lo`: its word is zero and no
external relocation refers to it, while every slot from `lo` up to `e` with a
zero word has an external relocation. -/
def IsTerminator (P : PatchDataHelpers) (m : Mem) (VtableData Value lo e : Nat) : Prop :=
  lo ≤ e
  ∧ vtableWord m VtableData e = 0
  ∧ P.MachoGetSymbolByExternRelocationOffset64 (Value + VTABLE_ENTRY_SIZE_64 * e) = none
  ∧ ∀ j, lo ≤ j → j < e → vtableWord m VtableData j = 0 →
      P.MachoGetSymbolByExternRelocationOffset64 (Value + VTABLE_ENTRY_SIZE_64 * j) ≠ none

/-! ## The first part of `InternalPatchByVtables64`: the scratch entries

`MachoGetSymbolByIndex64`, `MachoSymbolNameIsSmcp64` and
`MachoGetVtableSymbolsFromSmcp64` belong to OcMachoLib and are not among the
sources, nor are the macro `MACH_N_TYPE_STAB` and the declaration of
`OC_VTABLE_PATCH_ENTRY`; they are parameters. -/

/-- The functions and constants of the first part of `InternalPatchByVtables64`
that are not among the sources; `sizeofPatchEntry` is
`sizeof (OC_VTABLE_PATCH_ENTRY)`. -/
structure DiscoveryHelpers where
  MachoGetSymbolByIndex64 : Nat → Option Nat
  MACH_N_TYPE_STAB : Nat
  MachoSymbolNameIsSmcp64 : String → Bool
  MachoGetVtableSymbolsFromSmcp64 : String → Option (Nat × Nat)
  sizeofPatchEntry : Nat

/-- The variables of the first loop of `InternalPatchByVtables64`: `MaxSize`,
`NumTables`, `NumEntries` (all `UINT32`) and the scratch entries stored. -/
structure DiscoveryState where
  MaxSize : Nat
  NumTables : Nat
  NumEntries : Nat
  Entries : List OC_VTABLE_PATCH_ENTRY

/-- The body of the first loop for a super metaclass pointer `Smcp` with the
name `Name`: the state with the new scratch entry, or `none` where the
function returns `FALSE`. -/
def discoverEntry (L : LinkHelpers) (P : PatchDataHelpers) (D : DiscoveryHelpers) (m : Mem)
    (MachHeader : Nat) (Symbols : Nat → MACH_NLIST_64) (Smcp : Nat) (Name : String)
    (st : DiscoveryState) : Option DiscoveryState :=
  if st.MaxSize < D.sizeofPatchEntry then none
  else
    match D.MachoGetVtableSymbolsFromSmcp64 Name with
    | none => none
    | some (Vtable, MetaVtable) =>
      match InternalInitializeVtablePatchData L P m MachHeader (Symbols Vtable) st.MaxSize with
      | none => none
      | some Class =>
        match InternalInitializeVtablePatchData L P m MachHeader (Symbols MetaVtable)
            Class.MaxSize with
        | none => none
        | some Meta =>
          some
            { MaxSize := Meta.MaxSize
              NumTables := (st.NumTables + 1) % U32
              NumEntries := ((st.NumEntries + Class.NumEntries) % U32 + Meta.NumEntries) % U32
              Entries := st.Entries ++
                [{ Smcp := some Smcp, Vtable := Vtable
                   VtableData := vtableWord m Class.VtableDataPtr
                   MetaVtable := MetaVtable
                   MetaVtableData := vtableWord m Meta.VtableDataPtr
                   MetaSymsIndex := Class.NumSymbols
                   NumSolveSymbols := (Meta.NumSymbols + Class.NumSymbols) % U32
                   SolveSymbols := Class.SolveSymbols ++ Meta.SolveSymbols }] }

/-- The first loop of `InternalPatchByVtables64` from the symbol index `Index`
on: the state at its end, `some none` where the function returns `FALSE`, and
`none` when the fuel is used up before `MachoGetSymbolByIndex64` returns
`NULL`. -/
def discoverLoop (H : VtableHelpers) (L : LinkHelpers) (P : PatchDataHelpers)
    (D : DiscoveryHelpers) (m : Mem) (MachHeader : Nat) (Symbols : Nat → MACH_NLIST_64) :
    Nat → Nat → DiscoveryState → Option (Option DiscoveryState)
  | 0, _, _ => none
  | fuel + 1, Index, st =>
    match D.MachoGetSymbolByIndex64 Index with
    | none => some (some st)
    | some Smcp =>
      if (Symbols Smcp).SymbolType &&& D.MACH_N_TYPE_STAB = 0
          ∧ D.MachoSymbolNameIsSmcp64 (H.MachoGetSymbolName64 (Symbols Smcp)) = true then
        match discoverEntry L P D m MachHeader Symbols Smcp
            (H.MachoGetSymbolName64 (Symbols Smcp)) st with
        | none => some none
        | some st1 => discoverLoop H L P D m MachHeader Symbols fuel (Index + 1) st1
      else discoverLoop H L P D m MachHeader Symbols fuel (Index + 1) st

/-- The first part of `InternalPatchByVtables64`, up to the allocation of
`Kext->LinkedVtables`: the scratch entries with `NumTables` and `NumEntries`.
The block allocated has room for `NumTables * 2` vtable records and
`NumEntries` entries; `LinkBufferSize` is the size of the scratch buffer. -/
def discoverVtables (H : VtableHelpers) (L : LinkHelpers) (P : PatchDataHelpers)
    (D : DiscoveryHelpers) (m : Mem) (MachHeader : Nat) (Symbols : Nat → MACH_NLIST_64)
    (fuel LinkBufferSize : Nat) : Option (Option DiscoveryState) :=
  discoverLoop H L P D m MachHeader Symbols fuel 0
    { MaxSize := LinkBufferSize, NumTables := 0, NumEntries := 0, Entries := [] }

/-! ## Predicates for the theorems about the patch loop on acyclic contexts -/

/-- The contexts `c` and `c1` hold the same kexts, flags included, that of
`Kext` apart. -/
def SameKextsBut (Kext : Nat) (c c1 : PRELINKED_CONTEXT) : Prop :=
  c1.length = c.length ∧ ∀ j, j ≠ Kext → kextAt c1 j = kextAt c j

/-- Two results of a vtable lookup agree: both calls do not return, or both
return the same vtable and leave contexts that hold the same kexts, that of
`Kext` apart, the first of them being `c0` up to flags. -/
def LookupAgree (Kext : Nat) (c0 : PRELINKED_CONTEXT)
    (r r1 : Option (Option PRELINKED_VTABLE × PRELINKED_CONTEXT)) : Prop :=
  match r, r1 with
  | none, none => True
  | some x, some x1 =>
    x1.1 = x.1 ∧ SameKextsBut Kext x.2 x1.2
      ∧ InternalUnlockContextKexts x.2 = InternalUnlockContextKexts c0
  | _, _ => False
/-- The symbol tables `s` and `s1` give every symbol the same name. -/
def SameNames (H : VtableHelpers) (s s1 : Nat → MACH_NLIST_64) : Prop :=
  ∀ i, H.MachoGetSymbolName64 (s1 i) = H.MachoGetSymbolName64 (s i)
/-- What a round of the patch loop works out for a class of the kext: the
scratch entry, the super metaclass pointer symbol and the names it builds. -/
structure ClassRound where
  Entry : OC_VTABLE_PATCH_ENTRY
  Smcp : Nat
  ClassName : String
  VtableName : String
  SuperClassName : String
  SuperVtableName : String
  FinalSymbolName : String
  MetaVtableName : String

/-- The name the class vtable of the class `X` is linked with: the name of its
vtable symbol. -/
def linkedName (H : VtableHelpers) (Symbols : Nat → MACH_NLIST_64) (T : Nat → ClassRound)
    (X : Nat) : String :=
  H.MachoGetSymbolName64 (Symbols (T X).Entry.Vtable)

/-- The name the metaclass vtable of the class `X` is linked with: the name of
its metaclass vtable symbol. -/
def linkedMetaName (H : VtableHelpers) (Symbols : Nat → MACH_NLIST_64) (T : Nat → ClassRound)
    (X : Nat) : String :=
  H.MachoGetSymbolName64 (Symbols (T X).Entry.MetaVtable)

/-- The names of the vtables linked in the kext after the classes `lnk` were
patched, in this order. -/
def linkedNames (H : VtableHelpers) (Symbols : Nat → MACH_NLIST_64) (T : Nat → ClassRound)
    (lnk : List Nat) : List String :=
  lnk.flatMap fun X => [linkedName H Symbols T X, linkedMetaName H Symbols T X]

/-- The class `X` can be patched when the classes `lnk` are: it derives from no
class of the kext (`parent X` is `none`), or from one of `lnk`. -/
def chainReady (parent : Nat → Option Nat) (lnk : List Nat) (X : Nat) : Bool :=
  match parent X with
  | none => true
  | some P => decide (P ∈ lnk)

/-- A pass of the patch loop over the classes that are left, by class: a class
of `lnk` is patched already, a class that can be patched is patched, and the
round of any other class ends in `continue`. -/
def chainPass (parent : Nat → Option Nat) : List Nat → List Nat → Bool → List Nat × Bool
  | [], lnk, ok => (lnk, ok)
  | X :: rest, lnk, ok =>
    if X ∈ lnk then chainPass parent rest lnk ok
    else if chainReady parent lnk X then chainPass parent rest (lnk ++ [X]) true
    else chainPass parent rest lnk ok

/-- The patch loop by class, for the classes `xs` in the order of their
entries: the classes in the order in which they are patched when the loop
returns `TRUE`, `some none` when it returns `FALSE`. -/
def chainLoop (parent : Nat → Option Nat) (xs : List Nat) :
    Nat → List Nat → Option (Option (List Nat))
  | 0, _ => none
  | fuel + 1, lnk =>
    if lnk.length < xs.length then
      if (chainPass parent xs lnk false).2 then
        chainLoop parent xs fuel (chainPass parent xs lnk false).1
      else some none
    else some (some lnk)

/-- The state of the patch loop after the classes `lnk` were patched, on a
context that was `C0` at the start: no flag is set, the kexts other than `Kext`
are those of `C0`, the vtables linked and counted in `Kext` are those of the
classes `lnk`, and the symbols have the names they had. -/
structure PatchInv (H : VtableHelpers) (Kext : Nat) (C0 : PRELINKED_CONTEXT)
    (Symbols : Nat → MACH_NLIST_64) (T : Nat → ClassRound) (lnk : List Nat)
    (c : PRELINKED_CONTEXT) (s : Nat → MACH_NLIST_64) : Prop where
  unlocked : InternalUnlockContextKexts c = c
  same : SameKextsBut Kext C0 c
  deps : (kextAt c Kext).Dependencies = (kextAt C0 Kext).Dependencies
  linked : ((kextAt c Kext).LinkedVtables.map fun v => v.Name) = linkedNames H Symbols T lnk
  counted : (kextAt c Kext).NumberOfVtables = 2 * lnk.length
  symbols : SameNames H Symbols s

/-- The entry of the class `X` in the scratch entries when the classes `lnk` are
patched: its `Smcp` is `NULL` when the class is one of them. -/
def markEntry (T : Nat → ClassRound) (lnk : List Nat) (X : Nat) : OC_VTABLE_PATCH_ENTRY :=
  if X ∈ lnk then { (T X).Entry with Smcp := none } else (T X).Entry

/-- The scratch entries of the classes `xs` when the classes `lnk` are patched. -/
def chainEntries (T : Nat → ClassRound) (lnk xs : List Nat) : List OC_VTABLE_PATCH_ENTRY :=
  xs.map (markEntry T lnk)

/-- A chain of three classes: class 0 derives from no class of the kext, class
1 from class 0 and class 2 from class 1. -/
def threeChain : Nat → Option Nat := fun X => if X = 0 then none else some (X - 1)

/-- The premises on a kext that declares the classes `classes`, described by
`T` and by `parent`, which gives the class of the kext a class derives from,
in the context `C0`.  The dependencies of the context descend along
`rank`, no flag is set, and no vtable is linked or counted in `Kext`; every
patch of a single symbol succeeds and solving a symbol keeps its name; the
vtable of `OSMetaClass` is found from `Kext`.  For every class the round
builds its names, the final symbol of the super class is not found, and the
metaclass vtable is not linked in a dependency and has another name than the
vtables the other classes link.  The vtable of the super class of a class
that derives from no class of the kext is found from `Kext`; that of a class
that derives from the class `P` of the kext is the class vtable of `P`, which
is not linked in a dependency and has another name than the other vtables the
classes link. -/
structure ChainFacts (H : VtableHelpers) (L : LinkHelpers) (lookupFuel Kext : Nat)
    (C0 : PRELINKED_CONTEXT) (Symbols : Nat → MACH_NLIST_64) (rank : Nat → Nat)
    (T : Nat → ClassRound) (parent : Nat → Option Nat) (classes : List Nat) : Prop where
  kext_lt : Kext < C0.length
  rank_desc : ∀ j d, d ∈ (kextAt C0 j).Dependencies → rank d < rank j
  unlocked : InternalUnlockContextKexts C0 = C0
  none_linked : (kextAt C0 Kext).LinkedVtables = []
  none_counted : (kextAt C0 Kext).NumberOfVtables = 0
  patch_ok : ∀ ParentEntry VtableName Symbol,
    (InternalPatchVtableSymbol H ParentEntry VtableName Symbol).1 = true
  solve_name : ∀ a s, H.MachoGetSymbolName64 (H.InternalSolveSymbolValue64 a s)
    = H.MachoGetSymbolName64 s
  metaclass_found : ∃ V x,
    InternalGetOcVtableByName L.OS_METACLASS_VTABLE_NAME lookupFuel C0 Kext = some (some V, x)
  smcp : ∀ X ∈ classes, (T X).Entry.Smcp = some (T X).Smcp
  names : ∀ X ∈ classes, patchNames H L Symbols (T X).Smcp
    = some ((T X).ClassName, (T X).VtableName, (T X).SuperClassName, (T X).SuperVtableName)
  final_name : ∀ X ∈ classes,
    L.MachoGetFinalSymbolNameFromClassName (T X).SuperClassName H.SYM_MAX_NAME_LEN
      = some (T X).FinalSymbolName
  final_absent : ∀ X ∈ classes, L.InternalOcGetSymbolName (T X).FinalSymbolName = false
    ∧ L.MachoGetLocalDefinedSymbolByName (T X).FinalSymbolName = false
  meta_name : ∀ X ∈ classes,
    L.MachoGetMetaVtableNameFromClassName (T X).ClassName H.SYM_MAX_NAME_LEN
      = some (T X).MetaVtableName
  meta_unlinked : ∀ X ∈ classes, ∃ x,
    InternalGetOcVtableByName (T X).MetaVtableName lookupFuel C0 Kext = some (none, x)
  meta_differs : ∀ X ∈ classes, ∀ Y ∈ classes,
    AsciiStrCmp (linkedName H Symbols T Y) (T X).MetaVtableName ≠ 0
    ∧ (Y ≠ X → AsciiStrCmp (linkedMetaName H Symbols T Y) (T X).MetaVtableName ≠ 0)
  root_found : ∀ X ∈ classes, parent X = none → ∃ V x,
    InternalGetOcVtableByName (T X).SuperVtableName lookupFuel C0 Kext = some (some V, x)
  parent_class : ∀ X ∈ classes, ∀ P, parent X = some P →
    P ∈ classes
    ∧ AsciiStrCmp (linkedName H Symbols T P) (T X).SuperVtableName = 0
    ∧ (∃ x, InternalGetOcVtableByName (T X).SuperVtableName lookupFuel C0 Kext = some (none, x))
    ∧ (∀ Y ∈ classes, Y ≠ P →
        AsciiStrCmp (linkedName H Symbols T Y) (T X).SuperVtableName ≠ 0)
    ∧ (∀ Y ∈ classes, AsciiStrCmp (linkedMetaName H Symbols T Y) (T X).SuperVtableName ≠ 0)

/-! ## Concrete images -/

/-- Memory holding the little-endian 32-bit words `ws` from address `base` on,
zero elsewhere. -/
def memOfWords (base : Nat) (ws : List Nat) : Mem := fun a =>
  if a < base then 0 else ws.getD ((a - base) / 4) 0 / 256 ^ ((a - base) % 4) % 256

/-- A context before any initialisation, all fields zero. -/
def zeroContext : OC_MACHO_CONTEXT := initializedContext 0 0

/-- The words of a small executable: the header, a 24-byte UUID command and a
`__TEXT` segment command with one `__text` section (152 bytes). -/
def sampleWords : List Nat :=
  [0xFEEDFACF, 0x01000007, 3, 2, 2, 176, 0, 0,
   0x1B, 24, 1, 2, 3, 4,
   0x19, 152, 0x45545F5F, 0x00005458, 0, 0, 0x4000, 0, 0x1000, 0, 0, 0, 512, 0, 7, 5, 1, 0,
   0x65745F5F, 0x00007478, 0, 0, 0x45545F5F, 0x00005458, 0, 0,
   0x4100, 0, 0x100, 0, 0x100, 4, 0x1F0, 2, 0, 0, 0, 0]

/-- A 512-byte file at address `0x1000` that starts with `sampleWords`. -/
def sampleImage : Mem := memOfWords 0x1000 sampleWords

/-- The image `sampleImage` with `CommandsSize` one byte less than the sum (175
for 176). -/
def shortSumImage : Mem := wr32 sampleImage (0x1000 + 20) 175

/-- A fat file at address `0x10000`: a big-endian fat header with a `ppc` record
and an `x86_64` record whose slice, `sampleWords`, is at offset 4096 and has size
16384. -/
def fatImage : Mem := fun a =>
  if a < 0x10000 + 4096 then
    memOfWords 0x10000
      [0xBEBAFECA, SwapBytes32 2,
       SwapBytes32 18, SwapBytes32 0, SwapBytes32 20480, SwapBytes32 4096, SwapBytes32 12,
       SwapBytes32 0x01000007, SwapBytes32 3, SwapBytes32 4096, SwapBytes32 16384,
       SwapBytes32 12] a
  else memOfWords (0x10000 + 4096) sampleWords a

/-- A 72-byte fat file at address `0x1000` whose only record gives the `x86_64`
slice offset 32 and size 32: the slice holds just a Mach-O header, and the one
8-byte load command the header announces lies behind the slice, in the last
eight bytes of the file. -/
def fatShortSliceImage : Mem :=
  memOfWords 0x1000
    [0xCAFEBABE, 1, 0x01000007, 3, 32, 32, 5, 0,
     0xFEEDFACF, 0x01000007, 3, 2, 1, 8, 0, 0,
     0x1B, 8]

/-- The image `sampleImage` with the `Address` of its section set to `0x10`,
below the `VirtualAddress` `0x4000` of the segment. -/
def lowSectionImage : Mem := wr64 sampleImage (segSection (0x1000 + 56) 0 + 32) 0x10

/-- The image `sampleImage` with the `VirtualAddress` of its segment set to
`2 ^ 64 - 0x800`; the virtual size stays `0x1000`. -/
def wrapSegmentImage : Mem := wr64 sampleImage (0x1000 + 56 + 24) (U64 - 0x800)

/-- A 512-byte executable at address `0x1000` with two segment commands.  The
first, `__TEXT`, maps the file: file offset 0, file size 512, virtual size
`0x1000`.  The second, `__DATA`, claims file offset `0x100` and file size
`0x1000`, beyond the end of the file, and a virtual size of `0x2000`. -/
def twoSegmentImage : Mem :=
  memOfWords 0x1000
    [0xFEEDFACF, 0x01000007, 3, 2, 2, 144, 0, 0,
     0x19, 72, 0x45545F5F, 0x00005458, 0, 0, 0x4000, 0, 0x1000, 0, 0, 0, 512, 0, 7, 5, 0, 0,
     0x19, 72, 0x41445F5F, 0x00004154, 0, 0, 0x5000, 0, 0x2000, 0, 0x100, 0, 0x1000, 0, 7, 3, 0, 0]

/-- A destination buffer before the call, every byte `0xAA`. -/
def blankDestination : Mem := fun _ => 0xAA

/-- The file `fatImage` with the architecture count of the fat header set to
2000: the table of 2000 records would take 40008 bytes, more than the 20480 bytes
of the file.  The two records and the slice are as in `fatImage`. -/
def fatLongTableImage : Mem := fun a =>
  if a < 0x10000 + 4096 then
    memOfWords 0x10000
      [0xBEBAFECA, SwapBytes32 2000,
       SwapBytes32 18, SwapBytes32 0, SwapBytes32 20480, SwapBytes32 4096, SwapBytes32 12,
       SwapBytes32 0x01000007, SwapBytes32 3, SwapBytes32 4096, SwapBytes32 16384,
       SwapBytes32 12] a
  else memOfWords (0x10000 + 4096) sampleWords a

/-- A file of `0x1100` bytes at address `0x1000` with four load commands: a
`__TEXT` segment (virtual `[0x4000, 0x6000)`, file `[0, 0x1000)`), a
`__LINKEDIT` segment (virtual `[0x6000, 0x6100)`, file `[0x1000, 0x1100)`), a
symtab command (symbols at `0x1000`, strings at `0x1010`) and a dysymtab
command (indirect symbols at `0x1020`). -/
def linkeditImage : Mem :=
  memOfWords 0x1000
    [0xFEEDFACF, 0x01000007, 3, 2, 4, 248, 0, 0,
     0x19, 72, 0x45545F5F, 0x00005458, 0, 0, 0x4000, 0, 0x2000, 0, 0, 0, 0x1000, 0, 7, 5, 0, 0,
     0x19, 72, 0x494C5F5F, 0x44454B4E, 0x00005449, 0, 0x6000, 0, 0x100, 0, 0x1000, 0, 0x100, 0,
       1, 1, 0, 0,
     2, 24, 0x1000, 1, 0x1010, 0x10,
     11, 80, 0, 0, 0, 0, 0, 0, 0, 0, 0, 0, 0, 0, 0x1020, 1, 0, 0, 0, 0]

/-- A file of `0x1100` bytes at address `0x1000` with three load commands: the
`__TEXT` segment of `linkeditImage`, a dysymtab command that is only 8 bytes
long, and right behind it the `__LINKEDIT` segment of `linkeditImage`. -/
def shortDysymtabImage : Mem :=
  memOfWords 0x1000
    [0xFEEDFACF, 0x01000007, 3, 2, 3, 152, 0, 0,
     0x19, 72, 0x45545F5F, 0x00005458, 0, 0, 0x4000, 0, 0x2000, 0, 0, 0, 0x1000, 0, 7, 5, 0, 0,
     11, 8,
     0x19, 72, 0x494C5F5F, 0x44454B4E, 0x00005449, 0, 0x6000, 0, 0x100, 0, 0x1000, 0, 0x100, 0,
       0, 0, 0, 0]

/-- The file `linkeditImage` with the header flag `MH_DYLDLINK` (4) set. -/
def dynamicImage : Mem := wr32 linkeditImage (0x1000 + 24) 4

/-- Modelled from the spec: the symbol helpers for names that "follow stable
mangled forms", here the Itanium mangling, over a symbol table whose three
names are selected by `StringIndex`; used for concrete calls.  A symbol is
defined when its type bits (`SymbolType & 0x0E`) are not zero and it is no
debugging entry (`SymbolType & 0xE0`), and locally defined when it is defined;
the pure-virtual marker is `___cxa_pure_virtual`; a pad slot has `_RESERVED` in
its name; the class name of the vtable `__ZTV<class>` is `<class>`, and its
function prefix is `__ZN<class>`, which must fit the buffer with its
terminator; solving a symbol sets its value and makes it absolute. -/
def cxxHelpers : VtableHelpers where
  SYM_MAX_NAME_LEN := 256
  MachoSymbolIsLocalDefined := fun s => s.SymbolType &&& 0xE0 == 0 && s.SymbolType &&& 0x0E != 0
  MachoGetSymbolName64 := fun s =>
    if s.StringIndex = 1 then "__ZN3Foo3barEv"
    else if s.StringIndex = 16 then "__ZN3Foo"
    else "___cxa_pure_virtual"
  MachoSymbolNameIsPureVirtual := fun n => n.data == "___cxa_pure_virtual".data
  MachoSymbolNameIsPadslot := fun n => n.data.tails.any fun t => "_RESERVED".data.isPrefixOf t
  MachoSymbolIsDefined := fun s => s.SymbolType &&& 0xE0 == 0 && s.SymbolType &&& 0x0E != 0
  MachoGetClassNameFromVtableName := fun n => String.mk (n.data.drop 5)
  MachoGetFunctionPrefixFromClassName := fun c n =>
    if 4 + c.data.length < n then some (String.mk ("__ZN".data ++ c.data)) else none
  InternalSolveSymbolValue64 := fun v s => { s with Value := v, SymbolType := 0x03, Section := 0 }

/-- Memory that holds the words `ws` from address `0x1000` on and, from address
`0x2000` (file offset `0x1000`) up to `0x3000`, the non-zero byte `a % 7 + 1` at
address `a`. -/
def patternImage (ws : List Nat) : Mem := fun a =>
  if a < 0x2000 then memOfWords 0x1000 ws a else if a < 0x3000 then a % 7 + 1 else 0

/-- A file of `0x2000` bytes at address `0x1000` with two segment commands:
`__TEXT` (virtual address 0, virtual size `0x1000`, file offset 0, file size
`0x1000`) and `__DATA` (virtual address `0x2000`, virtual size `0x2000`, file
offset `0x1000`, file size `0x1000`). -/
def gapImage : Mem :=
  patternImage
    [0xFEEDFACF, 0x01000007, 3, 2, 2, 144, 0, 0,
     0x19, 72, 0x45545F5F, 0x00005458, 0, 0, 0, 0, 0x1000, 0, 0, 0, 0x1000, 0, 7, 5, 0, 0,
     0x19, 72, 0x41445F5F, 0x00004154, 0, 0, 0x2000, 0, 0x2000, 0, 0x1000, 0, 0x1000, 0, 7, 3, 0, 0]

/-- The file `gapImage` with the virtual size of `__TEXT` set to `0x2000`, so
that the virtual ranges of the two segments follow each other. -/
def packedImage : Mem :=
  patternImage
    [0xFEEDFACF, 0x01000007, 3, 2, 2, 144, 0, 0,
     0x19, 72, 0x45545F5F, 0x00005458, 0, 0, 0, 0, 0x2000, 0, 0, 0, 0x1000, 0, 7, 5, 0, 0,
     0x19, 72, 0x41445F5F, 0x00004154, 0, 0, 0x2000, 0, 0x2000, 0, 0x1000, 0, 0x1000, 0, 7, 3, 0, 0]

/-- A file of `0x1000` bytes at address `0x1000` with four load commands: a
`__TEXT` segment that maps the file, a code-signature command (type `0x1D`, 16
bytes), right behind it a function-starts command (type `0x26`, 16 bytes), and a
UUID command (type `0x1B`, 24 bytes). -/
def signedImage : Mem :=
  memOfWords 0x1000
    [0xFEEDFACF, 0x01000007, 3, 2, 4, 128, 0, 0,
     0x19, 72, 0x45545F5F, 0x00005458, 0, 0, 0x4000, 0, 0x1000, 0, 0, 0, 0x1000, 0, 7, 5, 0, 0,
     0x1D, 16, 0xF00, 0x100,
     0x26, 16, 0xE00, 0x100,
     0x1B, 24, 1, 2, 3, 4]

/-- The image `sampleImage` with the virtual `Size` of its segment set to
`0x100`, less than its `FileSize` of 512. -/
def shrunkImage : Mem := wr64 sampleImage (0x1000 + 56 + 32) 0x100

/-- A 512-byte file at address `0x1000` with two segment commands.  `__TEXT`
maps the file (file offset 0, file size `0x200`) and has the virtual size
`0xFFFFFE00`; `__DATA` is empty (file offset `0x200`, file and virtual size 0)
at the virtual address `0x200`. -/
def hugeGrowthImage : Mem :=
  memOfWords 0x1000
    [0xFEEDFACF, 0x01000007, 3, 2, 2, 144, 0, 0,
     0x19, 72, 0x45545F5F, 0x00005458, 0, 0, 0, 0, 0xFFFFFE00, 0, 0, 0, 0x200, 0, 7, 5, 0, 0,
     0x19, 72, 0x41445F5F, 0x00004154, 0, 0, 0x200, 0, 0, 0, 0x200, 0, 0, 0, 7, 3, 0, 0]

/-- A configured patch of the kernel itself for Darwin 19: two bytes are
replaced where the two bytes of `Find` are found. -/
def kernelUserPatch : OC_KERNEL_PATCH_ENTRY :=
  { Base := "", Comment := "sample", Count := 1, Enabled := true, Find := [0x74, 0x05],
    Identifier := "kernel", Limit := 0, Mask := [], MaxKernel := "19.99.99",
    MinKernel := "19.0.0", Replace := [0xEB, 0x05], ReplaceMask := [], Skip := 0 }

/-- The patch `kernelUserPatch`, disabled. -/
def disabledUserPatch : OC_KERNEL_PATCH_ENTRY := { kernelUserPatch with Enabled := false }

/-- The name of the vtable of a class whose name has 252 characters: with the
four characters `__ZN` and the terminator, its function prefix does not fit a
buffer of `SYM_MAX_NAME_LEN = 256` characters. -/
def longVtableName : String := String.mk ("__ZTV".data ++ List.replicate 252 'A')

/-- A kext without vtables whose dependencies are `deps`. -/
def plainKext (deps : List Nat) : PRELINKED_KEXT :=
  { LinkedVtables := [], NumberOfVtables := 0, Dependencies := deps, Processed := false }

/-- A context of three kexts without vtables: kext 0 depends on kexts 1 and 2,
kext 1 on nothing, and kext 2 on kext 0, so kexts 0 and 2 depend on each other. -/
def cyclicContext : PRELINKED_CONTEXT := [plainKext [1, 2], plainKext [], plainKext [0]]

/-- The names of the symbols of the kext `classKext`, by string index: the
super metaclass pointers of the classes `1A`, `1B` and `1C`, the metaclass
instances of `8OSObject`, `1A` and `1B`, the vtables and metaclass vtables of
the three classes, and a function of another class. -/
def classNames : List String :=
  ["__ZN1A10superClassE", "__ZN1B10superClassE", "__ZN1C10superClassE",
   "__ZN8OSObject10gMetaClassE", "__ZN1A10gMetaClassE", "__ZN1B10gMetaClassE",
   "__ZTV1A", "__ZTVN1A9MetaClassE", "__ZTV1B", "__ZTVN1B9MetaClassE",
   "__ZTV1C", "__ZTVN1C9MetaClassE", "__ZN1Q3fooEv"]

/-- Modelled from the spec: the symbol helpers of `cxxHelpers` over the symbol
names `classNames`. -/
def classHelpers : VtableHelpers :=
  { cxxHelpers with MachoGetSymbolName64 := fun s => classNames.getD s.StringIndex "" }

/-- Modelled from the spec: the helpers of the patch loop for names that
"follow stable mangled forms": the super metaclass pointer of the class `c` is
`__ZN<c>10superClassE`, its metaclass instance `__ZN<c>10gMetaClassE`, its
vtable `__ZTV<c>`, its metaclass vtable `__ZTVN<c>9MetaClassE` and its final
symbol `__ZN<c>14__OSFinalClassEv`; a name must fit its buffer.  The super
metaclass pointers 0, 1 and 2 refer to the metaclass instances 3, 4 and 5; no
final symbol is found, and the address `0x5000` is that of `__ZN1B3fooEv`. -/
def classLinks : LinkHelpers where
  VTABLE_HEADER_LEN_64 := 2
  OS_METACLASS_VTABLE_NAME := "__ZTV11OSMetaClass"
  InternalOcGetSymbolValue := fun v => if v = 0x5000 then some ("__ZN1B3fooEv", 0x5000) else none
  MachoGetClassNameFromSuperMetaClassPointer := fun n size =>
    if n.data.length < size + 17 then some (String.mk ((n.data.drop 4).take (n.data.length - 17)))
    else none
  MachoGetVtableNameFromClassName := fun c size =>
    if 5 + c.data.length < size then some (String.mk ("__ZTV".data ++ c.data)) else none
  MachoGetMetaclassSymbolFromSmcpSymbol64 := fun Smcp => if Smcp < 3 then some (Smcp + 3) else none
  MachoGetClassNameFromMetaClassPointer := fun n size =>
    if n.data.length < size + 17 then some (String.mk ((n.data.drop 4).take (n.data.length - 17)))
    else none
  MachoGetFinalSymbolNameFromClassName := fun c size =>
    if 22 + c.data.length < size then
      some (String.mk ("__ZN".data ++ c.data ++ "14__OSFinalClassEv".data))
    else none
  InternalOcGetSymbolName := fun _ => false
  MachoGetLocalDefinedSymbolByName := fun _ => false
  MachoGetMetaVtableNameFromClassName := fun c size =>
    if 17 + c.data.length < size then
      some (String.mk ("__ZTVN".data ++ c.data ++ "9MetaClassE".data))
    else none

/-- The symbol table of `classKext`: symbol `i` has the name `i` of
`classNames` and is undefined and external. -/
def classSymbols : Nat → MACH_NLIST_64 := fun i =>
  { StringIndex := i, SymbolType := 0x01, Section := 0, Descriptor := 0, Value := 0 }

/-- A context of two kexts: kext 0, which declares the classes `1A`, `1B` and
`1C` and has no vtable linked yet, depends on kext 1, in which the vtables of
`8OSObject` and of `11OSMetaClass` are linked, each with one entry. -/
def classContext : PRELINKED_CONTEXT :=
  [ { LinkedVtables := [], NumberOfVtables := 0, Dependencies := [1], Processed := false },
    { LinkedVtables :=
        [ { Name := "__ZTV8OSObject",
            Entries := [{ Name := some "__ZN8OSObject4freeEv", Address := 0x1000 }] },
          { Name := "__ZTV11OSMetaClass",
            Entries := [{ Name := some "__ZN11OSMetaClass4freeEv", Address := 0x2000 }] } ],
      NumberOfVtables := 2, Dependencies := [], Processed := false } ]

/-- The scratch entry of the class `1A`, which derives from `8OSObject`: its
vtable has one slot, a zero word whose relocation refers to symbol 12; its
metaclass vtable has one slot, a zero word without a solve symbol. -/
def entryA : OC_VTABLE_PATCH_ENTRY :=
  { Smcp := some 0, Vtable := 6, VtableData := fun _ => 0, MetaVtable := 7,
    MetaVtableData := fun _ => 0, MetaSymsIndex := 1, NumSolveSymbols := 1,
    SolveSymbols := [some 12] }

/-- The scratch entry of the class `1B`, which derives from `1A`: the slot of
its vtable holds the address `0x5000`. -/
def entryB : OC_VTABLE_PATCH_ENTRY :=
  { Smcp := some 1, Vtable := 8, VtableData := fun i => if i = 2 then 0x5000 else 0,
    MetaVtable := 9, MetaVtableData := fun _ => 0, MetaSymsIndex := 0, NumSolveSymbols := 0,
    SolveSymbols := [] }

/-- The scratch entry of the class `1C`, which derives from `1B`: the slot of
its vtable is a zero word whose solve symbol is `NULL`, and that of its
metaclass vtable a zero word whose relocation refers to symbol 12. -/
def entryC : OC_VTABLE_PATCH_ENTRY :=
  { Smcp := some 2, Vtable := 10, VtableData := fun _ => 0, MetaVtable := 11,
    MetaVtableData := fun _ => 0, MetaSymsIndex := 1, NumSolveSymbols := 2,
    SolveSymbols := [none, some 12] }

/-- What the theorems on `classContext` look at in the result of
`InternalPatchByVtables64`: `NumberOfVtables` of kext 0, the names of the
vtables linked in it, `NumPatched`, and whether every `Smcp` is `NULL`. -/
def patchSummary (r : Option (Option PatchState)) :
    Option (Option (Nat × List String × Nat × Bool)) :=
  r.map fun o => o.map fun st =>
    ((kextAt st.Context 0).NumberOfVtables,
     (kextAt st.Context 0).LinkedVtables.map fun v => v.Name,
     st.NumPatched, st.Entries.all fun e => e.Smcp.isNone)

/-- A file of `0x2000` bytes at address `0x1000` with three segment commands:
`__TEXT` (virtual address 0, virtual size `0x1000`, file offset 0, file size
`0x1000`), `__DATA` (virtual address `0x1000`, virtual size `0x1001`, file
offset `0x1000`, file size `0x1000`) and `__DAT2` (virtual address `0x2001`,
virtual size `0x10`, file offset `0x1001`, file size `0x10`), whose file bytes
lie inside those of `__DATA`. -/
def nestedImage : Mem :=
  patternImage
    [0xFEEDFACF, 0x01000007, 3, 2, 3, 216, 0, 0,
     0x19, 72, 0x45545F5F, 0x00005458, 0, 0, 0, 0, 0x1000, 0, 0, 0, 0x1000, 0, 7, 5, 0, 0,
     0x19, 72, 0x41445F5F, 0x00004154, 0, 0, 0x1000, 0, 0x1001, 0, 0x1000, 0, 0x1000, 0, 7, 3, 0, 0,
     0x19, 72, 0x41445F5F, 0x00003254, 0, 0, 0x2001, 0, 0x10, 0, 0x1001, 0, 0x10, 0, 7, 3, 0, 0]

/-- A file of `0x2000` bytes at address `0x1000` with three segment commands
whose file ranges follow each other: `__TEXT` (virtual address 0, virtual size
`0x1000`, file offset 0, file size `0x1000`), `__DATA` (virtual address
`0x1000`, virtual size `0x1800`, file offset `0x1000`, file size `0x800`) and
`__DAT2` (virtual address `0x2800`, virtual size `0x800`, file offset `0x1800`,
file size `0x800`). -/
def threeSegmentImage : Mem :=
  patternImage
    [0xFEEDFACF, 0x01000007, 3, 2, 3, 216, 0, 0,
     0x19, 72, 0x45545F5F, 0x00005458, 0, 0, 0, 0, 0x1000, 0, 0, 0, 0x1000, 0, 7, 5, 0, 0,
     0x19, 72, 0x41445F5F, 0x00004154, 0, 0, 0x1000, 0, 0x1800, 0, 0x1000, 0, 0x800, 0, 7, 3, 0, 0,
     0x19, 72, 0x41445F5F, 0x00003254, 0, 0, 0x2800, 0, 0x800, 0, 0x1800, 0, 0x800, 0, 7, 3, 0, 0]

/-- A context of four kexts without vtables: kext 0 depends on kexts 1 and 2,
which both depend on kext 3. -/
def diamondContext : PRELINKED_CONTEXT :=
  [plainKext [1, 2], plainKext [3], plainKext [3], plainKext []]

/-- A patch of the kernel with the symbolic base `_cpuid_set_info`, two bytes to
find and four bytes to put in their place, without masks. -/
def basedUserPatch : OC_KERNEL_PATCH_ENTRY :=
  { Base := "_cpuid_set_info", Comment := "", Count := 1, Enabled := true,
    Find := [0x90, 0x90], Identifier := "kernel", Limit := 0, Mask := [],
    MaxKernel := "", MinKernel := "", Replace := [1, 2, 3, 4], ReplaceMask := [], Skip := 0 }

/-- The file `linkeditImage` with a table of contents in its dysymtab command:
`TableOfContentsFileOffset` (offset 32 of the command at `0x10C8`) is `0x1030`,
`TableOfContentsNumEntries` (offset 36) is 2. -/
def tocImage : Mem := wr32 (wr32 linkeditImage (0x10C8 + 32) 0x1030) (0x10C8 + 36) 2

/-- A file of `0x1080` bytes at address `0x1000` with two segment commands:
`__TEXT` (virtual `[0x4000, 0x6000)`, file `[0, 0x1000)`, no section) and
`__DATA` (virtual `[0x6000, 0x6100)`, file `[0x1000, 0x1080)`) with the sections
`__data` (address `0x6000`, `Size` `0x80`, `Offset` `0x1000`) and `__bss`
(address `0x6080`, `Size` `0x80`, `Offset` 0). -/
def bssImage : Mem :=
  memOfWords 0x1000
    [0xFEEDFACF, 0x01000007, 3, 2, 2, 304, 0, 0,
     0x19, 72, 0x45545F5F, 0x00005458, 0, 0, 0x4000, 0, 0x2000, 0, 0, 0, 0x1000, 0, 7, 5, 0, 0,
     0x19, 232, 0x41445F5F, 0x00004154, 0, 0, 0x6000, 0, 0x100, 0, 0x1000, 0, 0x80, 0, 7, 3, 2, 0,
     0x61645F5F, 0x00006174, 0, 0, 0x41445F5F, 0x00004154, 0, 0, 0x6000, 0, 0x80, 0,
       0x1000, 0, 0, 0, 0, 0, 0, 0,
     0x73625F5F, 0x00000073, 0, 0, 0x41445F5F, 0x00004154, 0, 0, 0x6080, 0, 0x80, 0,
       0, 0, 0, 0, 1, 0, 0, 0]

/-- The file `bssImage` with the two sections of `__DATA` in the other order:
`__bss` (address `0x6000`, `Size` `0x80`, `Offset` 0) and then `__data`
(address `0x6080`, `Size` `0x80`, `Offset` `0x1000`). -/
def bssFirstImage : Mem :=
  memOfWords 0x1000
    [0xFEEDFACF, 0x01000007, 3, 2, 2, 304, 0, 0,
     0x19, 72, 0x45545F5F, 0x00005458, 0, 0, 0x4000, 0, 0x2000, 0, 0, 0, 0x1000, 0, 7, 5, 0, 0,
     0x19, 232, 0x41445F5F, 0x00004154, 0, 0, 0x6000, 0, 0x100, 0, 0x1000, 0, 0x80, 0, 7, 3, 2, 0,
     0x73625F5F, 0x00000073, 0, 0, 0x41445F5F, 0x00004154, 0, 0, 0x6000, 0, 0x80, 0,
       0, 0, 0, 0, 1, 0, 0, 0,
     0x61645F5F, 0x00006174, 0, 0, 0x41445F5F, 0x00004154, 0, 0, 0x6080, 0, 0x80, 0,
       0x1000, 0, 0, 0, 0, 0, 0, 0]

/-- A file of `0x1000` bytes at address `0x1000` with three load commands: a
`__TEXT` segment that maps the file, a code-signature command (type `0x1D`, 16
bytes) and a UUID command (type `0x1B`, 24 bytes). -/
def unevenImage : Mem :=
  memOfWords 0x1000
    [0xFEEDFACF, 0x01000007, 3, 2, 3, 112, 0, 0,
     0x19, 72, 0x45545F5F, 0x00005458, 0, 0, 0x4000, 0, 0x1000, 0, 0, 0, 0x1000, 0, 7, 5, 0, 0,
     0x1D, 16, 0xF00, 0x100,
     0x1B, 24, 1, 2, 3, 4]

/-- The memory `d` moved up by `base` bytes: the buffer that starts at index 0
of `d` is at address `base`. -/
def memAt (base : Nat) (d : Mem) : Mem := fun a => if a < base then 0 else d (a - base)

/-- A super vtable with four entries. -/
def rootVtable : PRELINKED_VTABLE :=
  { Name := "__ZTV8OSObject",
    Entries := [{ Name := some "__ZN8OSObject4freeEv", Address := 0x1000 },
                { Name := some "__ZN8OSObject3fooEv", Address := 0x2000 },
                { Name := some "__ZN8OSObject3barEv", Address := 0x3000 },
                { Name := some "__ZN8OSObject3bazEv", Address := 0x4000 }] }

/-- The data of a vtable whose slot 0 holds the address `0x5000` and whose
further slots hold zero words (the header takes two words). -/
def childData : Nat → Nat := fun i => if i = 2 then 0x5000 else 0

/-- The names of the symbols of a kext with five classes `1A` to `1E` that
derive from `8OSObject`, by string index: the five super metaclass pointers,
the metaclass instance of `8OSObject`, and the vtable and metaclass vtable of
each class. -/
def wideNames : List String :=
  ["__ZN1A10superClassE", "__ZN1B10superClassE", "__ZN1C10superClassE",
   "__ZN1D10superClassE", "__ZN1E10superClassE", "__ZN8OSObject10gMetaClassE",
   "__ZTV1A", "__ZTVN1A9MetaClassE", "__ZTV1B", "__ZTVN1B9MetaClassE",
   "__ZTV1C", "__ZTVN1C9MetaClassE", "__ZTV1D", "__ZTVN1D9MetaClassE",
   "__ZTV1E", "__ZTVN1E9MetaClassE"]

/-- Modelled from the spec: the symbol helpers of `cxxHelpers` over the symbol
names `wideNames`. -/
def wideHelpers : VtableHelpers :=
  { cxxHelpers with MachoGetSymbolName64 := fun s => wideNames.getD s.StringIndex "" }

/-- Modelled from the spec: the helpers `classLinks`, with every super
metaclass pointer referring to the metaclass instance of `8OSObject`, symbol 5
of `wideNames`. -/
def wideLinks : LinkHelpers :=
  { classLinks with MachoGetMetaclassSymbolFromSmcpSymbol64 := fun _ => some 5 }

/-- The symbol table of the kext: symbol `i` has the name `i` of `wideNames`;
all symbols are external and defined in section 1 at the address `0x8000`. -/
def wideSymbols : Nat → MACH_NLIST_64 := fun i =>
  { StringIndex := i, SymbolType := 0x0F, Section := 1, Descriptor := 0, Value := 0x8000 }

/-- The memory that holds the vtable data of a kext file at address `0x100000`:
the data is an array at file offset `0x1000`, and every byte is 1 except the
eight bytes of its slot `0x1999999C`, at file offset `0xCCCCDCE0`, which are
zero. -/
def wideImage : Mem := fun a => if 0xCCDCDCE0 ≤ a ∧ a < 0xCCDCDCE8 then 0 else 1

/-- Modelled from the spec: the data of every symbol is found at file offset
`0x1000` with `0xCCCCCCE8` bytes left to the end of its section, and the kext
has no external relocation. -/
def wideData : PatchDataHelpers where
  MachoSymbolGetFileOffset64 := fun _ => some (0x1000, 0xCCCCCCE8)
  MachoGetSymbolByExternRelocationOffset64 := fun _ => none

/-- Modelled from the spec: the symbol table has the 16 symbols of
`wideNames`; a super metaclass pointer is a symbol whose name ends in
`10superClassE`, and its vtable symbols are those named `__ZTV<class>` and
`__ZTVN<class>9MetaClassE`, here the symbols `6 + 2 i` and `7 + 2 i` for the
pointer `i`.  A scratch entry without solve symbols takes 48 bytes. -/
def wideDiscovery : DiscoveryHelpers where
  MachoGetSymbolByIndex64 := fun i => if i < 16 then some i else none
  MACH_N_TYPE_STAB := 0xE0
  MachoSymbolNameIsSmcp64 := fun n => "10superClassE".data.isSuffixOf n.data
  MachoGetVtableSymbolsFromSmcp64 := fun n =>
    if wideNames.indexOf n < 5 then some (6 + 2 * wideNames.indexOf n, 7 + 2 * wideNames.indexOf n)
    else none
  sizeofPatchEntry := 48

/-- The scratch entry of the class with the super metaclass pointer `i` of
`wideNames`: both vtables have their data at address `0x101000`, and no solve
symbols. -/
def wideEntry (i : Nat) : OC_VTABLE_PATCH_ENTRY :=
  { Smcp := some i, Vtable := 6 + 2 * i, VtableData := vtableWord wideImage 0x101000,
    MetaVtable := 7 + 2 * i, MetaVtableData := vtableWord wideImage 0x101000,
    MetaSymsIndex := 0, NumSolveSymbols := 0, SolveSymbols := [] }

/-- The image `wrapSegmentImage` with the `Address` of its section set to
`2 ^ 64 - 0x800`, the `VirtualAddress` of the segment; the section has the
`Size` `0x100`. -/
def wrapSectionImage : Mem := wr64 wrapSegmentImage (segSection (0x1000 + 56) 0 + 32) (U64 - 0x800)

/-- The context `classContext` with a cycle among the dependencies: kext 0,
which declares the classes `1A`, `1B` and `1C`, depends on kext 1, in which the
vtables of `8OSObject` and of `11OSMetaClass` are linked, and on kext 2, a kext
without vtables that depends on kext 0. -/
def cyclicClassContext : PRELINKED_CONTEXT :=
  [ { LinkedVtables := [], NumberOfVtables := 0, Dependencies := [1, 2], Processed := false },
    { LinkedVtables :=
        [ { Name := "__ZTV8OSObject",
            Entries := [{ Name := some "__ZN8OSObject4freeEv", Address := 0x1000 }] },
          { Name := "__ZTV11OSMetaClass",
            Entries := [{ Name := some "__ZN11OSMetaClass4freeEv", Address := 0x2000 }] } ],
      NumberOfVtables := 2, Dependencies := [], Processed := false },
    plainKext [0] ]

/-- The symbol helpers `classHelpers` for a kext in which no parent entry is a
pad slot and every symbol is defined, so that every patch of a single symbol
succeeds. -/
def solidHelpers : VtableHelpers :=
  { classHelpers with
    MachoSymbolNameIsPadslot := fun _ => false
    MachoSymbolIsDefined := fun _ => true }

/-- The rounds of the classes `1A`, `1B` and `1C` of the kext of `classContext`,
by class: the entry, the super metaclass pointer symbol and the names of the
class, of its vtable, of the super class and its vtable, of the final symbol
of the super class and of the metaclass vtable. -/
def classRounds : Nat → ClassRound := fun X =>
  if X = 0 then
    { Entry := entryA, Smcp := 0, ClassName := "1A", VtableName := "__ZTV1A",
      SuperClassName := "8OSObject", SuperVtableName := "__ZTV8OSObject",
      FinalSymbolName := "__ZN8OSObject14__OSFinalClassEv",
      MetaVtableName := "__ZTVN1A9MetaClassE" }
  else if X = 1 then
    { Entry := entryB, Smcp := 1, ClassName := "1B", VtableName := "__ZTV1B",
      SuperClassName := "1A", SuperVtableName := "__ZTV1A",
      FinalSymbolName := "__ZN1A14__OSFinalClassEv",
      MetaVtableName := "__ZTVN1B9MetaClassE" }
  else
    { Entry := entryC, Smcp := 2, ClassName := "1C", VtableName := "__ZTV1C",
      SuperClassName := "1B", SuperVtableName := "__ZTV1B",
      FinalSymbolName := "__ZN1B14__OSFinalClassEv",
      MetaVtableName := "__ZTVN1C9MetaClassE" }

/-- A rank along which the dependencies of `classContext` descend: kext 0 is
above its dependency kext 1. -/
def classRank : Nat → Nat := fun j => if j = 0 then 1 else 0

/-! # Theorems -/

/-! ## Checked arithmetic -/

theorem OcOverflowAddU32_ok {a b : Nat} (h : (OcOverflowAddU32 a b).1 = false) :
    (OcOverflowAddU32 a b).2 = a + b ∧ a + b < U32 := by
  have h1 : a + b < U32 := by
    simpa [OcOverflowAddU32] using h
  exact ⟨Nat.mod_eq_of_lt h1, h1⟩

theorem OcOverflowAddU64_ok {a b : Nat} (h : (OcOverflowAddU64 a b).1 = false) :
    (OcOverflowAddU64 a b).2 = a + b ∧ a + b < U64 := by
  have h1 : a + b < U64 := by
    simpa [OcOverflowAddU64] using h
  exact ⟨Nat.mod_eq_of_lt h1, h1⟩

theorem OcOverflowAddUN_ok {a b : Nat} (h : (OcOverflowAddUN a b).1 = false) :
    (OcOverflowAddUN a b).2 = a + b ∧ a + b < U64 :=
  OcOverflowAddU64_ok h

theorem OcOverflowAddU64_of_lt {a b : Nat} (h : a + b < U64) :
    OcOverflowAddU64 a b = (false, a + b) := by
  simp [OcOverflowAddU64, Nat.mod_eq_of_lt h, h]

theorem OcOverflowAddU32_of_lt {a b : Nat} (h : a + b < U32) :
    OcOverflowAddU32 a b = (false, a + b) := by
  simp [OcOverflowAddU32, Nat.mod_eq_of_lt h, h]

theorem OcOverflowMulAddU32_ok {a b c : Nat} (h : (OcOverflowMulAddU32 a b c).1 = false) :
    (OcOverflowMulAddU32 a b c).2 = a * b + c ∧ a * b + c < U32 := by
  simp only [OcOverflowMulAddU32, Bool.or_eq_false_iff, decide_eq_false_iff_not, not_le] at h
  obtain ⟨h1, h2⟩ := h
  rw [Nat.mod_eq_of_lt h1] at h2
  simpa [OcOverflowMulAddU32, Nat.mod_eq_of_lt h1] using OcOverflowAddU32_ok h2

theorem OcOverflowMulAddUN_ok {a b c : Nat} (h : (OcOverflowMulAddUN a b c).1 = false) :
    (OcOverflowMulAddUN a b c).2 = a * b + c ∧ a * b + c < U64 := by
  simp only [OcOverflowMulAddUN, Bool.or_eq_false_iff, decide_eq_false_iff_not, not_le] at h
  obtain ⟨h1, h2⟩ := h
  rw [Nat.mod_eq_of_lt h1] at h2
  simpa [OcOverflowMulAddUN, Nat.mod_eq_of_lt h1] using OcOverflowAddU64_ok h2

theorem OcOverflowMulAddU32_of_lt {a b c : Nat} (h : a * b + c < U32) :
    OcOverflowMulAddU32 a b c = (false, a * b + c) := by
  have h1 : a * b < U32 := by omega
  simp [OcOverflowMulAddU32, Nat.mod_eq_of_lt h1, OcOverflowAddU32_of_lt h, h1]

/-! ## Reads are bounded -/

theorem rd8_lt (m : Mem) (a : Nat) : rd8 m a < 256 := Nat.mod_lt _ (by decide)

theorem rd32_lt (m : Mem) (a : Nat) : rd32 m a < U32 := by
  have h0 := rd8_lt m a
  have h1 := rd8_lt m (a + 1)
  have h2 := rd8_lt m (a + 2)
  have h3 := rd8_lt m (a + 3)
  unfold rd32 U32
  omega

theorem rd64_lt (m : Mem) (a : Nat) : rd64 m a < U64 := by
  have h0 := rd32_lt m a
  have h1 := rd32_lt m (a + 4)
  unfold rd64
  unfold U32 at h0 h1
  unfold U64
  omega

/-! ## The load commands of a header -/

theorem cmdAddr_succ (m : Mem) (c i : Nat) :
    cmdAddr m c (i + 1) = NEXT_MACH_LOAD_COMMAND m (cmdAddr m c i) := by
  induction i generalizing c with
  | zero => rfl
  | succ i ih =>
    show cmdAddr m (NEXT_MACH_LOAD_COMMAND m c) (i + 1) = _
    rw [ih]
    rfl

theorem cmdSizeSum_succ (m : Mem) (c n : Nat) :
    cmdSizeSum m c (n + 1) = cmdSizeSum m c n + cmdSize m (cmdAddr m c n) := by
  induction n generalizing c with
  | zero => simp [cmdSizeSum, cmdAddr]
  | succ n ih =>
    show cmdSize m c + cmdSizeSum m (NEXT_MACH_LOAD_COMMAND m c) (n + 1) = _
    rw [ih]
    simp only [cmdSizeSum, cmdAddr]
    omega

theorem cmdSizeSum_eq_sum (m : Mem) (c n : Nat) :
    cmdSizeSum m c n = ∑ i in Finset.range n, cmdSize m (cmdAddr m c i) := by
  induction n with
  | zero => simp [cmdSizeSum]
  | succ n ih => rw [cmdSizeSum_succ, Finset.sum_range_succ, ih]

theorem cmdSizeSum_mono (m : Mem) (c : Nat) {i n : Nat} (h : i ≤ n) :
    cmdSizeSum m c i ≤ cmdSizeSum m c n := by
  induction n with
  | zero =>
    have : i = 0 := by omega
    subst this
    exact Nat.le_refl _
  | succ n ih =>
    rcases Nat.lt_or_ge i (n + 1) with h1 | h1
    · have := ih (by omega)
      rw [cmdSizeSum_succ]
      omega
    · have : i = n + 1 := by omega
      subst this
      exact Nat.le_refl _

/-- What a successful run of the load-command loop has checked. -/
theorem initCommandLoop_some {m : Mem} {top : Nat} :
    ∀ (n c s r : Nat), initCommandLoop m top n c s = some r →
      r = s + cmdSizeSum m c n ∧
      ∀ i, i < n → cmdAddr m c i + sizeofLoadCommand ≤ top
        ∧ sizeofLoadCommand ≤ cmdSize m (cmdAddr m c i)
        ∧ cmdSize m (cmdAddr m c i) % 8 = 0 := by
  intro n
  induction n with
  | zero =>
    intro c s r h
    simp only [initCommandLoop, Option.some.injEq] at h
    exact ⟨by simp [cmdSizeSum, h], fun i hi => absurd hi (Nat.not_lt_zero i)⟩
  | succ n ih =>
    intro c s r h
    rw [initCommandLoop] at h
    split at h
    · cases h
    · rename_i hc
      simp only [not_or, Bool.not_eq_true, not_lt, Decidable.not_not] at hc
      obtain ⟨ho, htop, hsz, hmod⟩ := hc
      split at h
      · cases h
      · rename_i hs
        simp only [Bool.not_eq_true] at hs
        have hadd := OcOverflowAddU32_ok hs
        have hun := OcOverflowAddUN_ok ho
        rw [hadd.1] at h
        obtain ⟨hr, hall⟩ := ih _ _ _ h
        refine ⟨by simp only [cmdSizeSum]; omega, ?_⟩
        intro i hi
        cases i with
        | zero =>
          simp only [cmdAddr]
          rw [hun.1] at htop
          exact ⟨htop, hsz, hmod⟩
        | succ i => exact hall i (by omega)

/-- The load-command loop succeeds when every command passes its checks and the
exact sum fits in 32 bits. -/
theorem initCommandLoop_of_checks {m : Mem} {top : Nat} (htop : top < U64) :
    ∀ (n c s : Nat), s + cmdSizeSum m c n < U32 →
      (∀ i, i < n → cmdAddr m c i + sizeofLoadCommand ≤ top
        ∧ sizeofLoadCommand ≤ cmdSize m (cmdAddr m c i)
        ∧ cmdSize m (cmdAddr m c i) % 8 = 0) →
      initCommandLoop m top n c s = some (s + cmdSizeSum m c n) := by
  intro n
  induction n with
  | zero => intro c s _ _; simp [initCommandLoop, cmdSizeSum]
  | succ n ih =>
    intro c s hs hall
    have h0 := hall 0 (by omega)
    simp only [cmdAddr] at h0
    simp only [cmdSizeSum] at hs
    have e1 : OcOverflowAddUN c sizeofLoadCommand = (false, c + sizeofLoadCommand) :=
      OcOverflowAddU64_of_lt (by omega)
    have e2 : OcOverflowAddU32 s (cmdSize m c) = (false, s + cmdSize m c) :=
      OcOverflowAddU32_of_lt (by omega)
    rw [initCommandLoop, e1, e2]
    have hc : ¬ ((false = true) ∨ c + sizeofLoadCommand > top ∨ cmdSize m c < sizeofLoadCommand
        ∨ cmdSize m c % 8 ≠ 0) := by
      simp only [not_or, not_lt, Decidable.not_not]
      exact ⟨by simp, h0.1, h0.2.1, h0.2.2⟩
    simp only [hc, if_false]
    rw [ih _ _ (by omega) (fun i hi => hall (i + 1) (by omega))]
    simp only [cmdSizeSum, Bool.false_eq_true, if_false]
    congr 1
    omega

/-! ## `MachoInitializeContext` -/

/-- The checks behind a `TRUE` of `MachoInitializeContext`, one by one. -/
theorem initChecks_iff (K : MachoConstants) (m : Mem) (fd fs top : Nat) :
    initChecks K m fd fs top = true ↔
      (sizeofHeader64 ≤ fs ∧ fd % alignofHeader = 0
        ∧ hdrSignature m fd = K.MACH_HEADER_64_SIGNATURE
        ∧ hdrCommands fd + hdrCommandsSize m fd < U64
        ∧ hdrCommands fd + hdrCommandsSize m fd ≤ top
        ∧ initCommandLoop m (hdrCommands fd + hdrCommandsSize m fd) (hdrNumCommands m fd)
            (hdrCommands fd) 0 = some (hdrCommandsSize m fd)
        ∧ hdrCpuType m fd = K.MachCpuTypeX8664
        ∧ (hdrFileType m fd = K.MachHeaderFileTypeKextBundle
          ∨ hdrFileType m fd = K.MachHeaderFileTypeExecute)) := by
  unfold initChecks
  by_cases h1 : fs < sizeofHeader64 ∨ OC_TYPE_ALIGNED alignofHeader fd = false
  · rw [if_pos h1]
    simp only [Bool.false_eq_true, false_iff, not_and]
    intro a b
    rcases h1 with h1 | h1
    · omega
    · simp [OC_TYPE_ALIGNED, b] at h1
  rw [if_neg h1]
  simp only [not_or, not_lt, Bool.not_eq_false, OC_TYPE_ALIGNED, beq_iff_eq] at h1
  by_cases h2 : hdrSignature m fd ≠ K.MACH_HEADER_64_SIGNATURE
  · rw [if_pos h2]
    simp only [Bool.false_eq_true, false_iff, not_and]
    intro _ _ c
    exact absurd c h2
  rw [if_neg h2]
  simp only [ne_eq, Decidable.not_not] at h2
  by_cases h3 : U64 ≤ hdrCommands fd + hdrCommandsSize m fd
  · have e : (OcOverflowAddUN (hdrCommands fd) (hdrCommandsSize m fd)).1 = true := by
      simp [OcOverflowAddUN, OcOverflowAddU64, h3]
    rw [if_pos (Or.inl e)]
    simp only [Bool.false_eq_true, false_iff, not_and]
    intro _ _ _ d
    omega
  have e : OcOverflowAddUN (hdrCommands fd) (hdrCommandsSize m fd)
      = (false, hdrCommands fd + hdrCommandsSize m fd) :=
    OcOverflowAddU64_of_lt (by omega)
  rw [e]
  simp only [Bool.false_eq_true, false_or]
  by_cases h4 : hdrCommands fd + hdrCommandsSize m fd > top
  · rw [if_pos h4]
    simp only [Bool.false_eq_true, false_iff, not_and]
    intro _ _ _ _ d
    omega
  rw [if_neg h4]
  cases hl : initCommandLoop m (hdrCommands fd + hdrCommandsSize m fd) (hdrNumCommands m fd)
      (hdrCommands fd) 0 with
  | none => simp
  | some r =>
    simp only [Option.some.injEq]
    by_cases h5 : hdrCommandsSize m fd ≠ r
    · rw [if_pos h5]
      simp only [Bool.false_eq_true, false_iff, not_and]
      intro _ _ _ _ _ f
      exact absurd f.symm h5
    rw [if_neg h5]
    simp only [ne_eq, Decidable.not_not] at h5
    by_cases h6 : hdrCpuType m fd ≠ K.MachCpuTypeX8664
        ∨ (hdrFileType m fd ≠ K.MachHeaderFileTypeKextBundle
          ∧ hdrFileType m fd ≠ K.MachHeaderFileTypeExecute)
    · rw [if_pos h6]
      simp only [Bool.false_eq_true, false_iff, not_and]
      intro _ _ _ _ _ _ g h
      rcases h6 with h6 | h6
      · exact h6 g
      · rcases h with h | h
        · exact h6.1 h
        · exact h6.2 h
    rw [if_neg h6]
    simp only [not_or, ne_eq, Decidable.not_not, not_and] at h6
    simp only [true_iff]
    refine ⟨h1.1, h1.2, h2, by omega, by omega, h5.symm, h6.1, ?_⟩
    by_cases h7 : hdrFileType m fd = K.MachHeaderFileTypeKextBundle
    · exact Or.inl h7
    · exact Or.inr (h6.2 h7)

/-- A header that passed the checks is tiled by its load commands: the `i`-th
command starts at `Commands` plus the exact sum of the sizes before it, without
any wrap of the pointer, and the sizes add up to `CommandsSize`. -/
theorem initChecks_tiling {K : MachoConstants} {m : Mem} {fd fs top : Nat}
    (h : initChecks K m fd fs top = true) :
    cmdSizeSum m (hdrCommands fd) (hdrNumCommands m fd) = hdrCommandsSize m fd
    ∧ ∀ i, i ≤ hdrNumCommands m fd →
        cmdAddr m (hdrCommands fd) i = hdrCommands fd + cmdSizeSum m (hdrCommands fd) i := by
  obtain ⟨_, _, _, h64, _, hloop, _, _⟩ := (initChecks_iff K m fd fs top).1 h
  have hsum := (initCommandLoop_some _ _ _ _ hloop).1
  simp only [Nat.zero_add] at hsum
  refine ⟨hsum.symm, ?_⟩
  intro i
  induction i with
  | zero => intro _; simp [cmdAddr, cmdSizeSum]
  | succ i ih =>
    intro hi
    have hprev := ih (by omega)
    have hmono := cmdSizeSum_mono m (hdrCommands fd) hi
    rw [cmdSizeSum_succ] at hmono
    rw [cmdAddr_succ, cmdSizeSum_succ]
    unfold NEXT_MACH_LOAD_COMMAND
    rw [hprev] at *
    rw [Nat.mod_eq_of_lt (by omega)]
    omega

/-- What `MachoInitializeContext` returns, in terms of the fat filter and the checks. -/
theorem MachoInitializeContext_true {K : MachoConstants} {m : Mem} {Context : OC_MACHO_CONTEXT}
    {FileData FileSize : Nat} (h : (MachoInitializeContext K m Context FileData FileSize).1 = true) :
    initChecks K m (MachoFilterFatArchitecture64 K m FileData FileSize).2.1
        (MachoFilterFatArchitecture64 K m FileData FileSize).2.2 ((FileData + FileSize) % U64) = true
    ∧ (MachoInitializeContext K m Context FileData FileSize).2
      = initializedContext (MachoFilterFatArchitecture64 K m FileData FileSize).2.1
          (MachoFilterFatArchitecture64 K m FileData FileSize).2.2 := by
  unfold MachoInitializeContext at h ⊢
  simp only at h ⊢
  split at h
  · rename_i hc
    simp [hc]
  · simp at h

/-- The fat filter changes pointer and size only when it returns `TRUE`. -/
theorem fatArchLoop_false {K : MachoConstants} {m : Mem} {fd fs : Nat} {sw : Bool} :
    ∀ (n i : Nat), (fatArchLoop K m fd fs sw n i).1 = false →
      fatArchLoop K m fd fs sw n i = (false, fd, fs) := by
  intro n
  induction n with
  | zero => intro i _; rfl
  | succ n ih =>
    intro i h
    rw [fatArchLoop] at h ⊢
    split
    · rename_i hc
      rw [if_pos hc] at h
      simp only at h ⊢
      split
      · rfl
      · rename_i hb
        rw [if_neg hb] at h
        simp at h
    · rename_i hc
      rw [if_neg hc] at h
      exact ih _ h

theorem MachoFilterFatArchitecture64_false {K : MachoConstants} {m : Mem} {fd fs : Nat}
    (h : (MachoFilterFatArchitecture64 K m fd fs).1 = false) :
    MachoFilterFatArchitecture64 K m fd fs = (false, fd, fs) := by
  unfold MachoFilterFatArchitecture64 at h ⊢
  split
  · rfl
  · rename_i h1
    rw [if_neg h1] at h
    split
    · rfl
    · rename_i h2
      rw [if_neg h2] at h
      simp only at h ⊢
      split
      · rfl
      · rename_i h3
        rw [if_neg h3] at h
        exact fatArchLoop_false _ _ h

/-- The record loop of the fat filter stops at the first `x86_64` record. -/
theorem fatArchLoop_first {K : MachoConstants} {m : Mem} {fd fs : Nat} {sw : Bool} :
    ∀ (i n start : Nat), i < n →
      (∀ j, j < i → fatField sw (fatArchCpuType m fd (start + j)) ≠ K.MachCpuTypeX8664) →
      fatField sw (fatArchCpuType m fd (start + i)) = K.MachCpuTypeX8664 →
      fatArchLoop K m fd fs sw n start =
        if fatField sw (fatArchOffset m fd (start + i)) = 0
            ∨ (OcOverflowAddU32 (fatField sw (fatArchOffset m fd (start + i)))
                (fatField sw (fatArchSize m fd (start + i)))).1 = true
            ∨ (OcOverflowAddU32 (fatField sw (fatArchOffset m fd (start + i)))
                (fatField sw (fatArchSize m fd (start + i)))).2 > fs then
          (false, fd, fs)
        else
          (true, fd + fatField sw (fatArchOffset m fd (start + i)),
            fatField sw (fatArchSize m fd (start + i))) := by
  intro i
  induction i with
  | zero =>
    intro n start hn _ hx
    obtain ⟨k, rfl⟩ : ∃ k, n = k + 1 := ⟨n - 1, by omega⟩
    rw [fatArchLoop]
    simp only [Nat.add_zero] at hx ⊢
    rw [if_pos hx]
  | succ i ih =>
    intro n start hn hne hx
    obtain ⟨k, rfl⟩ : ∃ k, n = k + 1 := ⟨n - 1, by omega⟩
    rw [fatArchLoop]
    have h0 := hne 0 (by omega)
    simp only [Nat.add_zero] at h0
    rw [if_neg h0]
    have e : start + (i + 1) = start + 1 + i := by omega
    rw [e] at hx ⊢
    exact ih k (start + 1) (by omega)
      (fun j hj => by
        have := hne (j + 1) (by omega)
        rwa [show start + (j + 1) = start + 1 + j by omega] at this) hx

/-- The checks only get easier when the top of the file is higher. -/
theorem initChecks_mono {K : MachoConstants} {m : Mem} {fd fs top top2 : Nat}
    (h : initChecks K m fd fs top = true) (hle : top ≤ top2) :
    initChecks K m fd fs top2 = true := by
  rw [initChecks_iff] at h ⊢
  obtain ⟨a, b, c, d, e, f, g⟩ := h
  exact ⟨a, b, c, d, by omega, f, g⟩

/-- Without a fat header the header and its load commands lie inside the file. -/
theorem init_header_fits_plain {K : MachoConstants} {m : Mem} {Context : OC_MACHO_CONTEXT}
    {FileData FileSize : Nat} (hbuf : FileData + FileSize < U64)
    (hfat : (MachoFilterFatArchitecture64 K m FileData FileSize).1 = false)
    (h : (MachoInitializeContext K m Context FileData FileSize).1 = true) :
    (MachoInitializeContext K m Context FileData FileSize).2 = initializedContext FileData FileSize
    ∧ sizeofHeader64 + hdrCommandsSize m FileData ≤ FileSize := by
  obtain ⟨hc, hctx⟩ := MachoInitializeContext_true h
  rw [MachoFilterFatArchitecture64_false hfat] at hc hctx
  simp only at hc hctx
  refine ⟨hctx, ?_⟩
  obtain ⟨_, _, _, _, htop, _⟩ := (initChecks_iff _ _ _ _ _).1 hc
  rw [Nat.mod_eq_of_lt hbuf] at htop
  unfold hdrCommands at htop
  omega

/-- Claim C2.  Whenever `MachoInitializeContext` returns `TRUE`, the header it
stored has the 64-bit signature, CPU type x86_64 and file type kext bundle or
executable; each of its `NumCommands` load commands has a `CommandSize` of at
least 8 that is divisible by 8; and the `CommandSize` values add up, exactly, to
`CommandsSize`. -/
theorem C2_initialized_header_invariant (K : MachoConstants) (m : Mem)
    (Context : OC_MACHO_CONTEXT) (FileData FileSize : Nat)
    (h : (MachoInitializeContext K m Context FileData FileSize).1 = true) :
    hdrSignature m (MachoInitializeContext K m Context FileData FileSize).2.MachHeader
        = K.MACH_HEADER_64_SIGNATURE
    ∧ hdrCpuType m (MachoInitializeContext K m Context FileData FileSize).2.MachHeader
        = K.MachCpuTypeX8664
    ∧ (hdrFileType m (MachoInitializeContext K m Context FileData FileSize).2.MachHeader
          = K.MachHeaderFileTypeKextBundle
        ∨ hdrFileType m (MachoInitializeContext K m Context FileData FileSize).2.MachHeader
          = K.MachHeaderFileTypeExecute)
    ∧ (∀ i, i < hdrNumCommands m (MachoInitializeContext K m Context FileData FileSize).2.MachHeader →
        8 ≤ cmdSize m (cmdAddr m
              (hdrCommands (MachoInitializeContext K m Context FileData FileSize).2.MachHeader) i)
        ∧ 8 ∣ cmdSize m (cmdAddr m
              (hdrCommands (MachoInitializeContext K m Context FileData FileSize).2.MachHeader) i))
    ∧ ∑ i in Finset.range
          (hdrNumCommands m (MachoInitializeContext K m Context FileData FileSize).2.MachHeader),
        cmdSize m (cmdAddr m
          (hdrCommands (MachoInitializeContext K m Context FileData FileSize).2.MachHeader) i)
      = hdrCommandsSize m (MachoInitializeContext K m Context FileData FileSize).2.MachHeader := by
  obtain ⟨hc, hctx⟩ := MachoInitializeContext_true h
  rw [hctx]
  simp only [initializedContext]
  obtain ⟨_, _, hsig, _, _, hloop, hcpu, hft⟩ := (initChecks_iff _ _ _ _ _).1 hc
  have hl := initCommandLoop_some _ _ _ _ hloop
  refine ⟨hsig, hcpu, hft, ?_, ?_⟩
  · intro i hi
    have := hl.2 i hi
    exact ⟨this.2.1, Nat.dvd_of_mod_eq_zero this.2.2⟩
  · rw [← cmdSizeSum_eq_sum]
    exact (initChecks_tiling hc).1

/-- Claim C2 on `sampleImage`: a header with a 24-byte and a 152-byte command. -/
theorem C2_initialized_header_invariant_witness :
    (MachoInitializeContext appleConstants sampleImage zeroContext 0x1000 512).1 = true
    ∧ hdrNumCommands sampleImage 0x1000 = 2
    ∧ hdrCommandsSize sampleImage 0x1000 = 176
    ∧ ∑ i in Finset.range (hdrNumCommands sampleImage
          (MachoInitializeContext appleConstants sampleImage zeroContext 0x1000 512).2.MachHeader),
        cmdSize sampleImage (cmdAddr sampleImage (hdrCommands
          (MachoInitializeContext appleConstants sampleImage zeroContext 0x1000 512).2.MachHeader) i)
      = hdrCommandsSize sampleImage
          (MachoInitializeContext appleConstants sampleImage zeroContext 0x1000 512).2.MachHeader :=
  ⟨by decide, by decide, by decide,
    (C2_initialized_header_invariant appleConstants sampleImage zeroContext 0x1000 512
      (by decide)).2.2.2.2⟩

/-- Claim C3.  `MachoInitializeContext` returns `FALSE` for every Mach-O whose
header `CommandsSize` differs from the exact sum of the `CommandSize` fields of
its `NumCommands` load commands.  The header is the one the checks run on: the
start of the file, or of the x86_64 slice the fat filter selected. -/
theorem C3_commands_size_mismatch_rejected (K : MachoConstants) (m : Mem)
    (Context : OC_MACHO_CONTEXT) (FileData FileSize : Nat)
    (h : hdrCommandsSize m (MachoFilterFatArchitecture64 K m FileData FileSize).2.1
      ≠ ∑ i in Finset.range
            (hdrNumCommands m (MachoFilterFatArchitecture64 K m FileData FileSize).2.1),
          cmdSize m (cmdAddr m
            (hdrCommands (MachoFilterFatArchitecture64 K m FileData FileSize).2.1) i)) :
    (MachoInitializeContext K m Context FileData FileSize).1 = false := by
  cases hr : (MachoInitializeContext K m Context FileData FileSize).1 with
  | false => rfl
  | true =>
    exfalso
    apply h
    rw [← cmdSizeSum_eq_sum]
    exact ((initChecks_tiling (MachoInitializeContext_true hr).1).1).symm

/-- Claim C3 on `shortSumImage`: `CommandsSize` is 175, the commands take 176. -/
theorem C3_commands_size_mismatch_rejected_witness :
    hdrCommandsSize shortSumImage 0x1000 = 175
    ∧ cmdSizeSum shortSumImage (hdrCommands 0x1000) (hdrNumCommands shortSumImage 0x1000) = 176
    ∧ (MachoInitializeContext appleConstants shortSumImage
        (initializedContext 7 7) 0x1000 512).1 = false :=
  ⟨by decide, by decide,
    C3_commands_size_mismatch_rejected appleConstants shortSumImage (initializedContext 7 7)
      0x1000 512 (by rw [← cmdSizeSum_eq_sum]; decide)⟩

/-- Claim C4.  `MachoInitializeContext` is atomic: when it returns `FALSE` the
context is exactly the one passed in, and when it returns `TRUE` the context has
`MachHeader` and `FileSize` set (to the pointer and size left by the fat filter)
and every other field zero. -/
theorem C4_initialize_atomic (K : MachoConstants) (m : Mem) (Context : OC_MACHO_CONTEXT)
    (FileData FileSize : Nat) :
    (MachoInitializeContext K m Context FileData FileSize).2 =
      if (MachoInitializeContext K m Context FileData FileSize).1 = true then
        { MachHeader := (MachoFilterFatArchitecture64 K m FileData FileSize).2.1
          FileSize := (MachoFilterFatArchitecture64 K m FileData FileSize).2.2
          Symtab := 0
          SymbolTable := 0
          StringTable := 0
          DySymtab := 0
          IndirectSymbolTable := 0
          LocalRelocations := 0
          ExternRelocations := 0 }
      else Context := by
  unfold MachoInitializeContext
  simp only
  split <;> simp [initializedContext]

/-- Claim C5, the failing input.  On `fatShortSliceImage` the fat filter
re-bases the file to a 32-byte slice, `MachoInitializeContext` returns `TRUE`
with `FileSize` 32, and the header announces 8 bytes of load commands:
`sizeof (MACH_HEADER_64) + CommandsSize` is 40, beyond `FileSize`. -/
theorem C5_fat_slice_commands_outside_file :
    MachoInitializeContext appleConstants fatShortSliceImage zeroContext 0x1000 72
      = (true, initializedContext (0x1000 + 32) 32)
    ∧ hdrCommandsSize fatShortSliceImage (0x1000 + 32) = 8
    ∧ ¬ (sizeofHeader64 + hdrCommandsSize fatShortSliceImage
          (MachoInitializeContext appleConstants fatShortSliceImage zeroContext 0x1000 72).2.MachHeader
        ≤ (MachoInitializeContext appleConstants fatShortSliceImage zeroContext 0x1000 72).2.FileSize) := by
  refine ⟨by decide, by decide, by decide⟩

/-- Claim C6, the counterexample.  `fatLongTableImage` starts with a big-endian
fat header whose first x86_64 record has offset 4096 and size 16384, inside the
20480 bytes of the file, and the slice passes the Mach-O checks; but the header
announces 2000 records, more than the file can hold, so the fat filter returns
`FALSE` before it looks at any record and `MachoInitializeContext` fails. -/
theorem C6_fat_table_beyond_file :
    fatField true (fatArchCpuType fatLongTableImage 0x10000 0) ≠ appleConstants.MachCpuTypeX8664
    ∧ fatField true (fatArchCpuType fatLongTableImage 0x10000 1) = appleConstants.MachCpuTypeX8664
    ∧ fatField true (fatArchOffset fatLongTableImage 0x10000 1) = 4096
    ∧ fatField true (fatArchSize fatLongTableImage 0x10000 1) = 16384
    ∧ initChecks appleConstants fatLongTableImage (0x10000 + 4096) 16384 (0x10000 + 4096 + 16384)
      = true
    ∧ MachoFilterFatArchitecture64 appleConstants fatLongTableImage 0x10000 20480
      = (false, 0x10000, 20480)
    ∧ MachoInitializeContext appleConstants fatLongTableImage zeroContext 0x10000 20480
      = (false, zeroContext) := by
  refine ⟨by decide, by decide, by decide, by decide, by decide, by decide, by decide⟩

/-- Claim C6, amended.  Let the buffer be 4-byte aligned and start with a fat
header of either byte order whose table of `NumberOfFatArch` records fits in the
buffer, and let record `i` be the first x86_64 record, with offset `Offset` and
size `Size` in host byte order.  If `Offset` is not 0, `Offset + Size` is at
most the buffer size and the slice passes the Mach-O checks against its own end,
`MachoInitializeContext` succeeds with `MachHeader = buffer + Offset` and
`FileSize = Size`.  If `Offset` is 0 or `Offset + Size` overflows 32 bits or
exceeds the buffer size, the fat filter returns `FALSE` and leaves pointer and
size unchanged. -/
theorem C6_fat_slice_selected (K : MachoConstants) (m : Mem) (Context : OC_MACHO_CONTEXT)
    (FileData FileSize i Offset Size : Nat)
    (hbuf : FileData + FileSize < U64)
    (hsz : sizeofFatHeader ≤ FileSize)
    (hal : FileData % alignofHeader = 0)
    (hsig : rd32 m FileData = K.MACH_FAT_BINARY_INVERT_SIGNATURE
      ∨ rd32 m FileData = K.MACH_FAT_BINARY_SIGNATURE)
    (htab : fatField (decide (rd32 m FileData = K.MACH_FAT_BINARY_INVERT_SIGNATURE))
        (rd32 m (FileData + 4)) * sizeofFatArch + sizeofFatHeader ≤ FileSize)
    (hfs : FileSize < U32)
    (hi : i < fatField (decide (rd32 m FileData = K.MACH_FAT_BINARY_INVERT_SIGNATURE))
        (rd32 m (FileData + 4)))
    (hfirst : ∀ j, j < i →
      fatField (decide (rd32 m FileData = K.MACH_FAT_BINARY_INVERT_SIGNATURE))
        (fatArchCpuType m FileData j) ≠ K.MachCpuTypeX8664)
    (hcpu : fatField (decide (rd32 m FileData = K.MACH_FAT_BINARY_INVERT_SIGNATURE))
        (fatArchCpuType m FileData i) = K.MachCpuTypeX8664)
    (hoff : fatField (decide (rd32 m FileData = K.MACH_FAT_BINARY_INVERT_SIGNATURE))
        (fatArchOffset m FileData i) = Offset)
    (hsize : fatField (decide (rd32 m FileData = K.MACH_FAT_BINARY_INVERT_SIGNATURE))
        (fatArchSize m FileData i) = Size) :
    (Offset ≠ 0 → Offset + Size ≤ FileSize →
      initChecks K m (FileData + Offset) Size (FileData + Offset + Size) = true →
      MachoInitializeContext K m Context FileData FileSize
        = (true, initializedContext (FileData + Offset) Size))
    ∧ (Offset = 0 ∨ U32 ≤ Offset + Size ∨ FileSize < Offset + Size →
      MachoFilterFatArchitecture64 K m FileData FileSize = (false, FileData, FileSize)) := by
  have hfilter : MachoFilterFatArchitecture64 K m FileData FileSize =
      if Offset = 0 ∨ (OcOverflowAddU32 Offset Size).1 = true
          ∨ (OcOverflowAddU32 Offset Size).2 > FileSize then
        (false, FileData, FileSize)
      else (true, FileData + Offset, Size) := by
    unfold MachoFilterFatArchitecture64
    have h1 : ¬ (FileSize < sizeofFatHeader ∨ OC_TYPE_ALIGNED alignofHeader FileData = false) := by
      simp only [not_or, not_lt, OC_TYPE_ALIGNED, Bool.not_eq_false, beq_iff_eq]
      exact ⟨hsz, hal⟩
    have h2 : ¬ (rd32 m FileData ≠ K.MACH_FAT_BINARY_INVERT_SIGNATURE
        ∧ rd32 m FileData ≠ K.MACH_FAT_BINARY_SIGNATURE) := by
      rintro ⟨a, b⟩
      rcases hsig with c | c
      · exact a c
      · exact b c
    rw [if_neg h1, if_neg h2]
    simp only
    rw [OcOverflowMulAddU32_of_lt (by omega)]
    have h3 : ¬ ((false = true) ∨ fatField
        (decide (rd32 m FileData = K.MACH_FAT_BINARY_INVERT_SIGNATURE))
        (rd32 m (FileData + 4)) * sizeofFatArch + sizeofFatHeader > FileSize) := by
      simp only [Bool.false_eq_true, false_or, not_lt]
      exact htab
    rw [if_neg h3]
    have := @fatArchLoop_first K m FileData FileSize
      (decide (rd32 m FileData = K.MACH_FAT_BINARY_INVERT_SIGNATURE)) i _ 0 hi
      (by simpa using hfirst) (by simpa using hcpu)
    simp only [Nat.zero_add] at this
    rw [this, hoff, hsize]
  constructor
  · intro h0 hle hvalid
    have e : OcOverflowAddU32 Offset Size = (false, Offset + Size) :=
      OcOverflowAddU32_of_lt (by omega)
    have hc : ¬ (Offset = 0 ∨ (OcOverflowAddU32 Offset Size).1 = true
        ∨ (OcOverflowAddU32 Offset Size).2 > FileSize) := by
      rw [e]
      simp only [Bool.false_eq_true, false_or, not_or, not_lt]
      exact ⟨h0, hle⟩
    rw [if_neg hc] at hfilter
    unfold MachoInitializeContext
    simp only [hfilter]
    rw [Nat.mod_eq_of_lt hbuf]
    rw [initChecks_mono hvalid (by omega)]
    simp
  · intro hbad
    rw [hfilter, if_pos]
    rcases hbad with h | h | h
    · exact Or.inl h
    · exact Or.inr (Or.inl (by simp [OcOverflowAddU32, h]))
    · by_cases h2 : U32 ≤ Offset + Size
      · exact Or.inr (Or.inl (by simp [OcOverflowAddU32, h2]))
      · refine Or.inr (Or.inr ?_)
        rw [(OcOverflowAddU32_ok (by simpa [OcOverflowAddU32] using h2)).1]
        exact h

/-- Claim C6, amended, on `fatImage`: `ppc` then `x86_64` records under a big-endian
signature, slice at offset 4096 of size 16384; the reported file size is 16384. -/
theorem C6_fat_slice_selected_witness :
    (MachoInitializeContext appleConstants fatImage zeroContext 0x10000 20480
        = (true, initializedContext (0x10000 + 4096) 16384))
    ∧ (MachoInitializeContext appleConstants fatImage zeroContext 0x10000 20480).2.FileSize
        = 16384 := by
  have h := (C6_fat_slice_selected appleConstants fatImage zeroContext 0x10000 20480 1 4096 16384
    (by decide) (by decide) (by decide) (by decide) (by decide) (by decide) (by decide)
    (by decide) (by decide) (by decide) (by decide)).1 (by decide) (by decide) (by decide)
  exact ⟨h, by rw [h]; rfl⟩

/-! ## The command walk over a checked header -/

theorem Tiled.of_initChecks {K : MachoConstants} {m : Mem} {fd fs top : Nat}
    (h : initChecks K m fd fs top = true) : Tiled m fd := by
  have ht := initChecks_tiling h
  obtain ⟨_, _, _, h64, _, hloop, _, _⟩ := (initChecks_iff K m fd fs top).1 h
  exact ⟨h64, ht.1, ht.2, fun i hi => ((initCommandLoop_some _ _ _ _ hloop).2 i hi).2.1⟩

theorem Initialized.tiled {K : MachoConstants} {m : Mem} {Context : OC_MACHO_CONTEXT}
    (h : Initialized K m Context) : Tiled m Context.MachHeader := by
  obtain ⟨c0, fd, fs, _, _, hinit⟩ := h
  have h1 : (MachoInitializeContext K m c0 fd fs).1 = true := by rw [hinit]
  obtain ⟨hc, hctx⟩ := MachoInitializeContext_true h1
  rw [hinit] at hctx
  simp only at hctx
  rw [hctx]
  exact Tiled.of_initChecks hc

/-- The header and the load commands of an initialised context end below
`2 ^ 32` bytes from the header. -/
theorem Initialized.header_lt {K : MachoConstants} {m : Mem} {Context : OC_MACHO_CONTEXT}
    (h : Initialized K m Context) :
    sizeofHeader64 + hdrCommandsSize m Context.MachHeader < U32 := by
  obtain ⟨c0, fd, fs, hbuf, hfs, hinit⟩ := h
  have h1 : (MachoInitializeContext K m c0 fd fs).1 = true := by rw [hinit]
  obtain ⟨hc, hctx⟩ := MachoInitializeContext_true h1
  rw [hinit] at hctx
  simp only at hctx
  rw [hctx]
  simp only [initializedContext]
  obtain ⟨_, _, _, _, htop, _⟩ := (initChecks_iff _ _ _ _ _).1 hc
  rw [Nat.mod_eq_of_lt hbuf] at htop
  unfold hdrCommands at htop
  cases hf : (MachoFilterFatArchitecture64 K m fd fs).1 with
  | false =>
    rw [MachoFilterFatArchitecture64_false hf] at htop ⊢
    simp only at htop ⊢
    omega
  | true =>
    have hge : fd ≤ (MachoFilterFatArchitecture64 K m fd fs).2.1 := by
      have key : ∀ n i, fd ≤ (fatArchLoop K m fd fs
          (decide (rd32 m fd = K.MACH_FAT_BINARY_INVERT_SIGNATURE)) n i).2.1 := by
        intro n
        induction n with
        | zero => intro i; simp [fatArchLoop]
        | succ n ih =>
          intro i
          rw [fatArchLoop]
          split
          · simp only
            split
            · exact Nat.le_refl _
            · exact Nat.le_add_right _ _
          · exact ih _
      unfold MachoFilterFatArchitecture64
      split
      · exact Nat.le_refl _
      · split
        · exact Nat.le_refl _
        · simp only
          split
          · exact Nat.le_refl _
          · exact key _ _
    omega

theorem Tiled.addr_succ {m : Mem} {h : Nat} (t : Tiled m h) {i : Nat}
    (hi : i < hdrNumCommands m h) :
    cmdAddr m (hdrCommands h) (i + 1)
      = cmdAddr m (hdrCommands h) i + cmdSize m (cmdAddr m (hdrCommands h) i) := by
  rw [t.addr (i + 1) (by omega), t.addr i (by omega), cmdSizeSum_succ, t.addr i (by omega)]
  omega

theorem Tiled.next {m : Mem} {h : Nat} (_t : Tiled m h) {i : Nat}
    (_hi : i < hdrNumCommands m h) :
    NEXT_MACH_LOAD_COMMAND m (cmdAddr m (hdrCommands h) i) = cmdAddr m (hdrCommands h) (i + 1) :=
  (cmdAddr_succ m _ i).symm

theorem Tiled.addr_last {m : Mem} {h : Nat} (t : Tiled m h) :
    cmdAddr m (hdrCommands h) (hdrNumCommands m h) = hdrCommands h + hdrCommandsSize m h := by
  rw [t.addr _ (Nat.le_refl _), t.total]

/-- Commands of a tiled header lie one behind the other. -/
theorem Tiled.addr_le {m : Mem} {h : Nat} (t : Tiled m h) {i j : Nat} (hij : i < j)
    (hj : j ≤ hdrNumCommands m h) :
    cmdAddr m (hdrCommands h) i + cmdSize m (cmdAddr m (hdrCommands h) i)
      ≤ cmdAddr m (hdrCommands h) j := by
  induction j with
  | zero => omega
  | succ j ih =>
    rcases Nat.lt_or_ge i j with h1 | h1
    · have := ih h1 (by omega)
      rw [t.addr_succ (by omega)]
      omega
    · have : i = j := by omega
      subst this
      rw [t.addr_succ (by omega)]

theorem Tiled.addr_lt_top {m : Mem} {h : Nat} (t : Tiled m h) {i : Nat}
    (hi : i < hdrNumCommands m h) :
    hdrCommands h ≤ cmdAddr m (hdrCommands h) i
    ∧ cmdAddr m (hdrCommands h) i + cmdSize m (cmdAddr m (hdrCommands h) i)
      ≤ hdrCommands h + hdrCommandsSize m h := by
  have h1 := t.addr_le hi (Nat.le_refl _)
  rw [t.addr_last] at h1
  have h2 := t.addr i (by omega)
  omega

theorem Tiled.addr_inj {m : Mem} {h : Nat} (t : Tiled m h) {i j : Nat}
    (hi : i < hdrNumCommands m h) (hj : j < hdrNumCommands m h)
    (e : cmdAddr m (hdrCommands h) i = cmdAddr m (hdrCommands h) j) : i = j := by
  rcases Nat.lt_trichotomy i j with h1 | h1 | h1
  · have := t.addr_le h1 (by omega)
    have := t.size i hi
    unfold sizeofLoadCommand at this
    omega
  · exact h1
  · have := t.addr_le h1 (by omega)
    have := t.size j hj
    unfold sizeofLoadCommand at this
    omega

/-- The walk of `InternalGetNextCommand64` over a tiled header, started at the
`j`-th command: whatever it returns is the first command of the wanted type from
index `j` on. -/
theorem nextCommandLoop_tiled {m : Mem} {h : Nat} (t : Tiled m h) (ty : Nat) :
    ∀ (fuel j : Nat) (r : Option Nat), j ≤ hdrNumCommands m h →
      nextCommandLoop m (hdrCommands h + hdrCommandsSize m h) ty fuel
        (cmdAddr m (hdrCommands h) j) = some r →
      (∀ c, r = some c → ∃ k, j ≤ k ∧ k < hdrNumCommands m h
          ∧ c = cmdAddr m (hdrCommands h) k ∧ cmdType m c = ty
          ∧ ∀ i, j ≤ i → i < k → cmdType m (cmdAddr m (hdrCommands h) i) ≠ ty)
      ∧ (r = none → ∀ i, j ≤ i → i < hdrNumCommands m h →
          cmdType m (cmdAddr m (hdrCommands h) i) ≠ ty) := by
  intro fuel
  induction fuel with
  | zero =>
    intro j r hj hr
    rw [nextCommandLoop] at hr
    split at hr
    · rename_i hlt
      split at hr
      · rename_i hty
        cases hr
        have hjn : j < hdrNumCommands m h := by
          rcases Nat.lt_or_ge j (hdrNumCommands m h) with h1 | h1
          · exact h1
          · have : j = hdrNumCommands m h := by omega
            rw [this, t.addr_last] at hlt
            omega
        refine ⟨fun c hc => ?_, fun hn => by cases hn⟩
        cases hc
        exact ⟨j, Nat.le_refl _, hjn, rfl, hty, fun i h1 h2 => by omega⟩
      · cases hr
    · rename_i hge
      cases hr
      refine ⟨fun c hc => (by cases hc), fun _ i h1 h2 => ?_⟩
      exfalso
      have := (t.addr_lt_top h2).2
      have := t.size i h2
      unfold sizeofLoadCommand at this
      rcases Nat.lt_or_ge j i with h3 | h3
      · have := t.addr_le h3 (by omega)
        have := t.size j (by omega)
        omega
      · have : i = j := by omega
        subst this
        omega
  | succ fuel ih =>
    intro j r hj hr
    rw [nextCommandLoop] at hr
    split at hr
    · rename_i hlt
      have hjn : j < hdrNumCommands m h := by
        rcases Nat.lt_or_ge j (hdrNumCommands m h) with h1 | h1
        · exact h1
        · have : j = hdrNumCommands m h := by omega
          rw [this, t.addr_last] at hlt
          omega
      split at hr
      · rename_i hty
        cases hr
        refine ⟨fun c hc => ?_, fun hn => by cases hn⟩
        cases hc
        exact ⟨j, Nat.le_refl _, hjn, rfl, hty, fun i h1 h2 => by omega⟩
      · rename_i hty
        rw [t.next hjn] at hr
        obtain ⟨h1, h2⟩ := ih (j + 1) r (by omega) hr
        constructor
        · intro c hc
          obtain ⟨k, hk1, hk2, hk3, hk4, hk5⟩ := h1 c hc
          refine ⟨k, by omega, hk2, hk3, hk4, fun i hi1 hi2 => ?_⟩
          rcases Nat.lt_or_ge j i with h3 | h3
          · exact hk5 i (by omega) hi2
          · have : i = j := by omega
            subst this
            exact hty
        · intro hn i hi1 hi2
          rcases Nat.lt_or_ge j i with h3 | h3
          · exact h2 hn i (by omega) hi2
          · have : i = j := by omega
            subst this
            exact hty
    · rename_i hge
      cases hr
      refine ⟨fun c hc => (by cases hc), fun _ i h1 h2 => ?_⟩
      exfalso
      have := (t.addr_lt_top h2).2
      have := t.size i h2
      unfold sizeofLoadCommand at this
      rcases Nat.lt_or_ge j i with h3 | h3
      · have := t.addr_le h3 (by omega)
        have := t.size j (by omega)
        omega
      · have : i = j := by omega
        subst this
        omega

/-- Over a tiled header the walk ends within as many steps as there are commands. -/
theorem nextCommandLoop_terminates {m : Mem} {h : Nat} (t : Tiled m h) (ty : Nat) :
    ∀ (fuel j : Nat), j ≤ hdrNumCommands m h → hdrNumCommands m h ≤ j + fuel →
      nextCommandLoop m (hdrCommands h + hdrCommandsSize m h) ty fuel
        (cmdAddr m (hdrCommands h) j) ≠ none := by
  intro fuel
  induction fuel with
  | zero =>
    intro j hj hf
    have : j = hdrNumCommands m h := by omega
    rw [nextCommandLoop, this, t.addr_last]
    simp
  | succ fuel ih =>
    intro j hj hf
    rw [nextCommandLoop]
    split
    · rename_i hlt
      have hjn : j < hdrNumCommands m h := by
        rcases Nat.lt_or_ge j (hdrNumCommands m h) with h1 | h1
        · exact h1
        · have : j = hdrNumCommands m h := by omega
          rw [this, t.addr_last] at hlt
          omega
      split
      · simp
      · rw [t.next hjn]
        exact ih (j + 1) (by omega) (by omega)
    · simp

/-! ## Segments and sections -/

/-- What `MachoGetNextSegment64` has checked on a segment it returns. -/
theorem segmentChecks_true {m : Mem} {Context : OC_MACHO_CONTEXT} {s : Nat}
    (h : segmentChecks m Context s = true) :
    s % alignofSegment64 = 0
    ∧ sizeofSegment64 ≤ cmdSize m s
    ∧ sizeofSegment64 + sizeofSection64 * segNumSections m s ≤ cmdSize m s
    ∧ segFileOffset m s + segFileSize m s < U64
    ∧ segFileOffset m s + segFileSize m s ≤ Context.FileSize := by
  unfold segmentChecks at h
  split at h
  · cases h
  rename_i h1
  split at h
  · cases h
  rename_i h2
  split at h
  · cases h
  rename_i h3
  split at h
  · cases h
  rename_i h4
  simp only [not_or, Bool.not_eq_true, not_lt] at h3 h4
  simp only [Bool.not_eq_false, OC_TYPE_ALIGNED, beq_iff_eq] at h1
  have a := OcOverflowMulAddUN_ok h3.1
  have b := OcOverflowAddU64_ok h4.1
  have h3' := h3.2
  rw [a.1] at h3'
  have h4' := h4.2
  rw [b.1] at h4'
  have hmod : (s + cmdSize m s) % U64 ≤ s + cmdSize m s := Nat.mod_le _ _
  unfold segSection at h3' a
  unfold sizeofSegment64 sizeofSection64 at *
  exact ⟨h1, by omega, by omega, b.2, h4'⟩

/-- The segment `MachoGetNextSegment64` returns, for a tiled header and a
previous segment that is `NULL` or one of the load commands, is a later load
command of type segment-64 that passed `segmentChecks`. -/
theorem MachoGetNextSegment64_some {K : MachoConstants} {m : Mem} {Context : OC_MACHO_CONTEXT}
    (t : Tiled m Context.MachHeader) {fuel : Nat} {Segment : Option Nat} {s : Nat}
    (hprev : ∀ p, Segment = some p → IsLoadCommand m Context.MachHeader p)
    (h : MachoGetNextSegment64 K m fuel Context Segment = some (some s)) :
    segmentChecks m Context s = true
    ∧ cmdType m s = K.MACH_LOAD_COMMAND_SEGMENT_64
    ∧ ∃ k, k < hdrNumCommands m Context.MachHeader
        ∧ s = cmdAddr m (hdrCommands Context.MachHeader) k
        ∧ ∀ j, Segment = some (cmdAddr m (hdrCommands Context.MachHeader) j) →
            j < hdrNumCommands m Context.MachHeader → j < k := by
  unfold MachoGetNextSegment64 at h
  split at h
  · cases h
  · cases h
  rename_i Tmp hcmd
  split at h
  · rename_i hchk
    cases h
    refine ⟨hchk, ?_⟩
    unfold InternalGetNextCommand64 at hcmd
    simp only [Nat.mod_eq_of_lt t.window] at hcmd
    cases Segment with
    | none =>
      simp only at hcmd
      have := (nextCommandLoop_tiled t K.MACH_LOAD_COMMAND_SEGMENT_64 fuel 0 (some s)
        (Nat.zero_le _) hcmd).1 s rfl
      obtain ⟨k, _, hk2, hk3, hk4, _⟩ := this
      exact ⟨hk4, k, hk2, hk3, fun j hj => by cases hj⟩
    | some p =>
      obtain ⟨j0, hj0, rfl⟩ := hprev p rfl
      simp only at hcmd
      rw [t.next hj0] at hcmd
      have := (nextCommandLoop_tiled t K.MACH_LOAD_COMMAND_SEGMENT_64 fuel (j0 + 1) (some s)
        (by omega) hcmd).1 s rfl
      obtain ⟨k, hk1, hk2, hk3, hk4, _⟩ := this
      refine ⟨hk4, k, hk2, hk3, fun j hj hjn => ?_⟩
      have e : j0 = j := t.addr_inj hj0 hjn (by injection hj)
      omega
  · cases h

/-- With as much fuel as the header has commands, `MachoGetNextSegment64`
returns. -/
theorem MachoGetNextSegment64_terminates {K : MachoConstants} {m : Mem}
    {Context : OC_MACHO_CONTEXT} (t : Tiled m Context.MachHeader) {fuel : Nat}
    (hfuel : hdrNumCommands m Context.MachHeader ≤ fuel) {Segment : Option Nat}
    (hprev : ∀ p, Segment = some p → IsLoadCommand m Context.MachHeader p) :
    MachoGetNextSegment64 K m fuel Context Segment ≠ none := by
  have hcmd : InternalGetNextCommand64 m fuel Context K.MACH_LOAD_COMMAND_SEGMENT_64 Segment
      ≠ none := by
    unfold InternalGetNextCommand64
    simp only [Nat.mod_eq_of_lt t.window]
    cases Segment with
    | none =>
      exact nextCommandLoop_terminates t _ fuel 0 (Nat.zero_le _) (by omega)
    | some p =>
      obtain ⟨j0, hj0, rfl⟩ := hprev p rfl
      simp only
      rw [t.next hj0]
      exact nextCommandLoop_terminates t _ fuel (j0 + 1) (by omega) (by omega)
  unfold MachoGetNextSegment64
  split
  · rename_i e
    exact absurd e hcmd
  · simp
  · split <;> simp

/-- A segment returned by `MachoGetNextSegment64` passed `segmentChecks`. -/
theorem MachoGetNextSegment64_checked {K : MachoConstants} {m : Mem} {fuel : Nat}
    {Context : OC_MACHO_CONTEXT} {Segment : Option Nat} {s : Nat}
    (h : MachoGetNextSegment64 K m fuel Context Segment = some (some s)) :
    segmentChecks m Context s = true := by
  unfold MachoGetNextSegment64 at h
  split at h
  · cases h
  · cases h
  · split at h
    · rename_i hc
      cases h
      exact hc
    · cases h

/-- Whatever the walk of `InternalGetNextCommand64` returns has the wanted type
and starts below the top of the commands. -/
theorem nextCommandLoop_some {m : Mem} {top ty : Nat} :
    ∀ (fuel c0 c : Nat), nextCommandLoop m top ty fuel c0 = some (some c) →
      cmdType m c = ty ∧ c < top := by
  intro fuel
  induction fuel with
  | zero =>
    intro c0 c h
    rw [nextCommandLoop] at h
    split at h
    · rename_i hlt
      split at h
      · rename_i hty
        simp only [Option.some.injEq] at h
        subst h
        exact ⟨hty, hlt⟩
      · cases h
    · simp at h
  | succ fuel ih =>
    intro c0 c h
    rw [nextCommandLoop] at h
    split at h
    · rename_i hlt
      split at h
      · rename_i hty
        simp only [Option.some.injEq] at h
        subst h
        exact ⟨hty, hlt⟩
      · exact ih _ _ h
    · simp at h

/-- Claim C7.  Every non-`NULL` segment returned by `MachoGetNextSegment64` is a
load command of the segment-64 type that starts below the top of the header's
commands, has `CommandSize >= sizeof (MACH_SEGMENT_COMMAND_64)`, holds its
`NumSections` section records inside its `CommandSize`, and has a
`FileOffset + FileSize` that does not overflow 64 bits and is at most
`Context->FileSize`.  When the context is an initialised one and the previous
segment is `NULL` or one of the header's load commands, the segment is one of
the header's `NumCommands` load commands and lies with all of its `CommandSize`
bytes inside the header's command window. -/
theorem C7_next_segment_validated (K : MachoConstants) (m : Mem) (Context : OC_MACHO_CONTEXT)
    (fuel : Nat) (Segment : Option Nat) (s : Nat)
    (h : MachoGetNextSegment64 K m fuel Context Segment = some (some s)) :
    cmdType m s = K.MACH_LOAD_COMMAND_SEGMENT_64
    ∧ s < (hdrCommands Context.MachHeader + hdrCommandsSize m Context.MachHeader) % U64
    ∧ sizeofSegment64 ≤ cmdSize m s
    ∧ sizeofSegment64 + sizeofSection64 * segNumSections m s ≤ cmdSize m s
    ∧ segFileOffset m s + segFileSize m s < U64
    ∧ segFileOffset m s + segFileSize m s ≤ Context.FileSize
    ∧ (Initialized K m Context →
        (∀ p, Segment = some p → IsLoadCommand m Context.MachHeader p) →
        IsLoadCommand m Context.MachHeader s
        ∧ hdrCommands Context.MachHeader ≤ s
        ∧ s + cmdSize m s
          ≤ hdrCommands Context.MachHeader + hdrCommandsSize m Context.MachHeader) := by
  obtain ⟨_, c1, c2, c3, c4⟩ := segmentChecks_true (MachoGetNextSegment64_checked h)
  have hcmd : InternalGetNextCommand64 m fuel Context K.MACH_LOAD_COMMAND_SEGMENT_64 Segment
      = some (some s) := by
    unfold MachoGetNextSegment64 at h
    split at h
    · cases h
    · cases h
    · rename_i Tmp e
      split at h
      · simp only [Option.some.injEq] at h
        subst h
        exact e
      · cases h
  have hty : cmdType m s = K.MACH_LOAD_COMMAND_SEGMENT_64
      ∧ s < (hdrCommands Context.MachHeader + hdrCommandsSize m Context.MachHeader) % U64 := by
    unfold InternalGetNextCommand64 at hcmd
    cases Segment with
    | none => exact nextCommandLoop_some _ _ _ hcmd
    | some p => exact nextCommandLoop_some _ _ _ hcmd
  refine ⟨hty.1, hty.2, c1, c2, c3, c4, ?_⟩
  intro hinit hprev
  have t := hinit.tiled
  obtain ⟨_, _, k, hk, rfl, _⟩ := MachoGetNextSegment64_some t hprev h
  have hw := t.addr_lt_top hk
  exact ⟨⟨k, hk, rfl⟩, hw.1, hw.2⟩

/-- Claim C7 on `sampleImage`: the first segment is the second load command, at
`0x1038`, 152 bytes long with one section. -/
theorem C7_next_segment_validated_witness :
    MachoGetNextSegment64 appleConstants sampleImage 2 (initializedContext 0x1000 512) none
      = some (some 0x1038)
    ∧ sizeofSegment64 + sizeofSection64 * segNumSections sampleImage 0x1038
        ≤ cmdSize sampleImage 0x1038
    ∧ segFileOffset sampleImage 0x1038 + segFileSize sampleImage 0x1038 ≤ 512
    ∧ hdrCommands 0x1000 ≤ 0x1038
    ∧ 0x1038 + cmdSize sampleImage 0x1038
        ≤ hdrCommands 0x1000 + hdrCommandsSize sampleImage 0x1000 := by
  have h := C7_next_segment_validated appleConstants sampleImage (initializedContext 0x1000 512)
    2 none 0x1038 (by decide)
  have h2 := h.2.2.2.2.2.2 ⟨zeroContext, 0x1000, 512, by decide, by decide, by decide⟩
    (fun p hp => by cases hp)
  exact ⟨by decide, h.2.2.2.1, h.2.2.2.2.2.1, h2.2.1, h2.2.2⟩

/-- What `InternalSectionIsSane` has checked on a section it accepts. -/
theorem InternalSectionIsSane_true {m : Mem} {Context : OC_MACHO_CONTEXT} {Section Segment : Nat}
    (h : InternalSectionIsSane m Context Section Segment = true) :
    sectAlignment m Section ≤ 31
    ∧ (sectOffset m Section = 0 ∨ segFileOffset m Segment ≤ sectOffset m Section)
    ∧ sectAddress m Section + sectSize m Section < U64
    ∧ sectAddress m Section + sectSize m Section ≤ TopOfSegment m Segment
    ∧ sectOffset m Section + sectSize m Section < U64
    ∧ sectOffset m Section + sectSize m Section
        ≤ (segFileOffset m Segment + segFileSize m Segment) % U64
    ∧ (sectNumRelocations m Section ≠ 0 →
        sectRelocationsOffset m Section + sectNumRelocations m Section * sizeofRelocationInfo < U32
        ∧ sectRelocationsOffset m Section + sectNumRelocations m Section * sizeofRelocationInfo
            ≤ Context.FileSize) := by
  unfold InternalSectionIsSane at h
  split at h
  · cases h
  rename_i h1
  split at h
  · cases h
  rename_i h2
  split at h
  · cases h
  rename_i h3
  simp only [not_or, not_and, Bool.not_eq_true, not_lt, ne_eq] at h1 h2 h3
  have a := OcOverflowAddU64_ok h2.1
  have b := OcOverflowAddU64_ok h3.1
  have h2' := h2.2
  rw [a.1] at h2'
  have h3' := h3.2
  rw [b.1] at h3'
  refine ⟨h1.1, ?_, a.2, h2', b.2, h3', ?_⟩
  · by_cases h0 : sectOffset m Section = 0
    · exact Or.inl h0
    · exact Or.inr (h1.2 h0)
  · intro hn
    rw [if_pos hn] at h
    split at h
    · cases h
    rename_i h4
    simp only [not_or, Bool.not_eq_true, not_lt] at h4
    have c := OcOverflowMulAddU32_ok h4.1
    have h4' := h4.2
    rw [c.1] at h4'
    exact ⟨by omega, by omega⟩

/-- A section returned by `MachoGetNextSection64` passed `InternalSectionIsSane`. -/
theorem MachoGetNextSection64_some {m : Mem} {Context : OC_MACHO_CONTEXT} {Segment : Nat}
    {Section : Option Nat} {s : Nat}
    (h : MachoGetNextSection64 m Context Segment Section = some s) :
    InternalSectionIsSane m Context s Segment = true := by
  unfold MachoGetNextSection64 at h
  split at h
  · split at h
    · cases h
    · split at h
      · rename_i hs
        cases h
        exact hs
      · cases h
  · split at h
    · split at h
      · rename_i hs
        cases h
        exact hs
      · cases h
    · cases h

/-- Claim C9.  Every non-`NULL` section returned by `MachoGetNextSection64` has
`Alignment <= 31`, a file `Offset` that is 0 or at least the segment's
`FileOffset`, an `Offset + Size` that does not overflow 64 bits and is at most
the segment's `FileOffset + FileSize`, and, when `NumRelocations` is not 0, a
`RelocationsOffset + NumRelocations * sizeof (MACH_RELOCATION_INFO)` that does
not overflow 32 bits and is at most `Context->FileSize`. -/
theorem C9_next_section_file_bounds (m : Mem) (Context : OC_MACHO_CONTEXT) (Segment : Nat)
    (Section : Option Nat) (s : Nat)
    (h : MachoGetNextSection64 m Context Segment Section = some s) :
    sectAlignment m s ≤ 31
    ∧ (sectOffset m s = 0 ∨ segFileOffset m Segment ≤ sectOffset m s)
    ∧ sectOffset m s + sectSize m s < U64
    ∧ sectOffset m s + sectSize m s ≤ segFileOffset m Segment + segFileSize m Segment
    ∧ (sectNumRelocations m s ≠ 0 →
        sectRelocationsOffset m s + sectNumRelocations m s * sizeofRelocationInfo < U32
        ∧ sectRelocationsOffset m s + sectNumRelocations m s * sizeofRelocationInfo
            ≤ Context.FileSize) := by
  obtain ⟨a, b, _, _, c, d, e⟩ := InternalSectionIsSane_true (MachoGetNextSection64_some h)
  have hmod : (segFileOffset m Segment + segFileSize m Segment) % U64
      ≤ segFileOffset m Segment + segFileSize m Segment := Nat.mod_le _ _
  exact ⟨a, b, c, by omega, e⟩

/-- Claim C9 on `sampleImage`: the `__text` section, with two relocations at
file offset `0x1F0`. -/
theorem C9_next_section_file_bounds_witness :
    MachoGetNextSection64 sampleImage (initializedContext 0x1000 512) 0x1038 none = some 0x1080
    ∧ sectOffset sampleImage 0x1080 + sectSize sampleImage 0x1080
        ≤ segFileOffset sampleImage 0x1038 + segFileSize sampleImage 0x1038
    ∧ sectRelocationsOffset sampleImage 0x1080
        + sectNumRelocations sampleImage 0x1080 * sizeofRelocationInfo ≤ 512 := by
  have h := C9_next_section_file_bounds sampleImage (initializedContext 0x1000 512) 0x1038 none
    0x1080 (by decide)
  exact ⟨by decide, h.2.2.2.1, (h.2.2.2.2 (by decide)).2⟩

/-- Claim C8, the failing input.  `lowSectionImage` is accepted by
`MachoInitializeContext`, its segment is returned by `MachoGetNextSegment64`,
and both `MachoGetNextSection64` and `MachoGetSectionByIndex64` return its
section, whose virtual range `[0x10, 0x110)` lies below the virtual range
`[0x4000, 0x5000)` of the segment: `InternalSectionIsSane` compares the top of
the section with the top of the segment and never the two start addresses. -/
theorem C8_section_below_segment_accepted :
    MachoInitializeContext appleConstants lowSectionImage zeroContext 0x1000 512
      = (true, initializedContext 0x1000 512)
    ∧ MachoGetNextSegment64 appleConstants lowSectionImage 2 (initializedContext 0x1000 512) none
      = some (some 0x1038)
    ∧ MachoGetNextSection64 lowSectionImage (initializedContext 0x1000 512) 0x1038 none
      = some 0x1080
    ∧ MachoGetSectionByIndex64 appleConstants lowSectionImage 2 (initializedContext 0x1000 512) 0
      = some (some 0x1080)
    ∧ sectAddress lowSectionImage 0x1080 = 0x10
    ∧ sectSize lowSectionImage 0x1080 = 0x100
    ∧ segVirtualAddress lowSectionImage 0x1038 = 0x4000
    ∧ segSize lowSectionImage 0x1038 = 0x1000
    ∧ ¬ (segVirtualAddress lowSectionImage 0x1038 ≤ sectAddress lowSectionImage 0x1080) := by
  refine ⟨by decide, by decide, by decide, by decide, by decide, by decide, by decide,
    by decide, by decide⟩

/-- Claim C10 (the code departs from it): `wrapSectionImage` is accepted by
`MachoInitializeContext` and its segment, with `VirtualAddress` `2 ^ 64 - 0x800`
and `Size` `0x1000`, is returned by `MachoGetNextSegment64`, although
`VirtualAddress + Size` is `2 ^ 64 + 0x800`.  The three functions compute the
top `0x800`: `MachoGetLastAddress64` returns `0x800`, below the start of the
segment; `InternalSectionIsSane` rejects the section `[2 ^ 64 - 0x800,
2 ^ 64 - 0x700)`, which begins where the segment begins and ends inside it;
and `MachoGetSectionByAddress64` finds no section for the first address of
the segment.  With the `VirtualAddress` `0x4000` (`sampleImage`) the section
at `0x4100` is accepted and found. -/
theorem C10_virtual_top_wraps :
    MachoInitializeContext appleConstants wrapSectionImage zeroContext 0x1000 512
      = (true, initializedContext 0x1000 512)
    ∧ MachoGetNextSegment64 appleConstants wrapSectionImage 2 (initializedContext 0x1000 512) none
      = some (some 0x1038)
    ∧ segVirtualAddress wrapSectionImage 0x1038 = U64 - 0x800
    ∧ segSize wrapSectionImage 0x1038 = 0x1000
    ∧ ¬ (segVirtualAddress wrapSectionImage 0x1038 + segSize wrapSectionImage 0x1038 < U64)
    ∧ MachoGetLastAddress64 appleConstants wrapSectionImage 2 (initializedContext 0x1000 512)
      = some 0x800
    ∧ sectAddress wrapSectionImage 0x1080 = segVirtualAddress wrapSectionImage 0x1038
    ∧ sectAddress wrapSectionImage 0x1080 + sectSize wrapSectionImage 0x1080
      ≤ segVirtualAddress wrapSectionImage 0x1038 + segSize wrapSectionImage 0x1038
    ∧ InternalSectionIsSane wrapSectionImage (initializedContext 0x1000 512) 0x1080 0x1038 = false
    ∧ MachoGetNextSection64 wrapSectionImage (initializedContext 0x1000 512) 0x1038 none = none
    ∧ MachoGetSectionByAddress64 appleConstants wrapSectionImage 2 (initializedContext 0x1000 512)
        (U64 - 0x800) = some none
    ∧ InternalSectionIsSane sampleImage (initializedContext 0x1000 512) 0x1080 0x1038 = true
    ∧ MachoGetSectionByAddress64 appleConstants sampleImage 2 (initializedContext 0x1000 512)
        0x4100 = some (some 0x1080) := by
  refine ⟨by decide, by decide, by decide, by decide, by decide, by decide, by decide, by decide,
    by decide, by decide, by decide, by decide, by decide⟩

/-- For every segment `MachoGetNextSegment64` returns, `FileOffset + FileSize`
fits 64 bits and the file: the function checks this sum with
`OcOverflowAddU64`.  It has no such check for `VirtualAddress + Size`. -/
theorem nextSegment_file_top_checked (K : MachoConstants) (m : Mem) (fuel : Nat)
    (Context : OC_MACHO_CONTEXT) (Segment : Option Nat) (s : Nat)
    (h : MachoGetNextSegment64 K m fuel Context Segment = some (some s)) :
    segFileOffset m s + segFileSize m s < U64
    ∧ segFileOffset m s + segFileSize m s ≤ Context.FileSize := by
  have hc := segmentChecks_true (MachoGetNextSegment64_checked h)
  exact ⟨hc.2.2.2.1, hc.2.2.2.2⟩

/-! ## Stores and the bytes they leave alone -/

theorem AgreeOn.refl (d : Mem) (lo hi : Nat) : AgreeOn d d lo hi := fun _ _ _ => rfl

theorem AgreeOn.trans {d1 d2 d3 : Mem} {lo hi : Nat} (h1 : AgreeOn d1 d2 lo hi)
    (h2 : AgreeOn d2 d3 lo hi) : AgreeOn d1 d3 lo hi :=
  fun x a b => (h2 x a b).trans (h1 x a b)

theorem AgreeOn.mono {d1 d2 : Mem} {lo hi lo2 hi2 : Nat} (h : AgreeOn d1 d2 lo hi)
    (a : lo ≤ lo2) (b : hi2 ≤ hi) : AgreeOn d1 d2 lo2 hi2 :=
  fun x p q => h x (by omega) (by omega)

theorem AgreeOn.rd32 {d1 d2 : Mem} {lo hi a : Nat} (h : AgreeOn d1 d2 lo hi)
    (ha : lo ≤ a) (hb : a + 4 ≤ hi) : rd32 d2 a = rd32 d1 a := by
  unfold OcMacho.rd32 rd8
  rw [h a (by omega) (by omega), h (a + 1) (by omega) (by omega),
    h (a + 2) (by omega) (by omega), h (a + 3) (by omega) (by omega)]

theorem AgreeOn.rd64 {d1 d2 : Mem} {lo hi a : Nat} (h : AgreeOn d1 d2 lo hi)
    (ha : lo ≤ a) (hb : a + 8 ≤ hi) : rd64 d2 a = rd64 d1 a := by
  unfold OcMacho.rd64
  rw [h.rd32 ha (by omega), h.rd32 (a := a + 4) (by omega) (by omega)]

theorem wr32_agree (d : Mem) (a v : Nat) {lo hi : Nat} (h : a + 4 ≤ lo ∨ hi ≤ a) :
    AgreeOn d (wr32 d a v) lo hi := by
  intro x h1 h2
  unfold wr32
  rw [if_neg (by omega), if_neg (by omega), if_neg (by omega), if_neg (by omega)]

theorem wr64_agree (d : Mem) (a v : Nat) {lo hi : Nat} (h : a + 8 ≤ lo ∨ hi ≤ a) :
    AgreeOn d (wr64 d a v) lo hi := by
  unfold wr64
  exact (wr32_agree d a _ (by omega)).trans (wr32_agree _ (a + 4) _ (by omega))

theorem CopyMem_agree (d : Mem) (o : Nat) (src : Mem) (s len : Nat) {lo hi : Nat}
    (h : o + len ≤ lo ∨ hi ≤ o) : AgreeOn d (CopyMem d o src s len) lo hi := by
  intro x h1 h2
  unfold CopyMem
  rw [if_neg (by omega)]

theorem ZeroMem_agree (d : Mem) (o len : Nat) {lo hi : Nat}
    (h : o + len ≤ lo ∨ hi ≤ o) : AgreeOn d (ZeroMem d o len) lo hi := by
  intro x h1 h2
  unfold ZeroMem
  rw [if_neg (by omega)]

theorem addIfNonzero32_agree (d : Mem) (a delta : Nat) {lo hi : Nat} (h : a + 4 ≤ lo ∨ hi ≤ a) :
    AgreeOn d (addIfNonzero32 d a delta) lo hi := by
  unfold addIfNonzero32
  split
  · exact wr32_agree d a _ h
  · exact AgreeOn.refl _ _ _

theorem expandSymtab_agree (d : Mem) (c delta : Nat) {lo hi : Nat}
    (h : c + 20 ≤ lo ∨ hi ≤ c + 8) : AgreeOn d (expandSymtab d c delta) lo hi := by
  unfold expandSymtab
  exact (addIfNonzero32_agree d (c + 8) delta (by omega)).trans
    (addIfNonzero32_agree _ (c + 16) delta (by omega))

theorem expandDySymtab_agree (d : Mem) (c delta : Nat) {lo hi : Nat}
    (h : c + 76 ≤ lo ∨ hi ≤ c + 36) : AgreeOn d (expandDySymtab d c delta) lo hi := by
  unfold expandDySymtab
  exact (((((addIfNonzero32_agree d (c + 36) delta (by omega)).trans
    (addIfNonzero32_agree _ (c + 40) delta (by omega))).trans
    (addIfNonzero32_agree _ (c + 48) delta (by omega))).trans
    (addIfNonzero32_agree _ (c + 56) delta (by omega))).trans
    (addIfNonzero32_agree _ (c + 64) delta (by omega))).trans
    (addIfNonzero32_agree _ (c + 72) delta (by omega))

theorem expandSectionLoop_agree (D : Nat) {lo hi : Nat} (h : hi ≤ D + 120) :
    ∀ (n Index : Nat) (st : Mem × Nat × Nat),
      AgreeOn st.1 (expandSectionLoop D n Index st).1 lo hi := by
  intro n
  induction n with
  | zero => intro Index st; exact AgreeOn.refl _ _ _
  | succ n ih =>
    intro Index st
    obtain ⟨d, cd, cfo⟩ := st
    rw [expandSectionLoop]
    have hw : ∀ v, AgreeOn d (wr32 d (segSection D Index + 48) v) lo hi := fun v =>
      wr32_agree d _ v (by unfold segSection sizeofSegment64 sizeofSection64; omega)
    split
    · exact (hw _).trans (ih _ _)
    · exact (hw _).trans (ih _ _)

theorem rd32_wr32_same (d : Mem) (a v : Nat) : rd32 (wr32 d a v) a = v % U32 := by
  unfold rd32 rd8 wr32 U32
  simp only [if_true, if_neg (show a + 1 ≠ a by omega), if_neg (show a + 2 ≠ a by omega),
    if_neg (show a + 3 ≠ a by omega), if_neg (show a + 2 ≠ a + 1 by omega),
    if_neg (show a + 3 ≠ a + 1 by omega), if_neg (show a + 3 ≠ a + 2 by omega)]
  omega

theorem rd64_wr64_same (d : Mem) (a v : Nat) (hv : v < U64) : rd64 (wr64 d a v) a = v := by
  unfold rd64 wr64
  rw [rd32_wr32_same]
  rw [(@wr32_agree (wr32 d a (v % 4294967296)) (a + 4) (v / 4294967296 % 4294967296)
    a (a + 4) (by omega)).rd32 (Nat.le_refl _) (Nat.le_refl _)]
  rw [rd32_wr32_same]
  unfold U32
  unfold U64 at hv
  omega

/-! ## `MachoExpandImage64` -/

theorem expandLinkedit_agree {K : MachoConstants} {m : Mem} {cfuel : Nat}
    {Context : OC_MACHO_CONTEXT} {d d2 : Mem} {delta lo hi : Nat}
    (h : expandLinkedit K m cfuel Context d delta = some d2)
    (hav : AvoidsTables K m cfuel Context lo hi) : AgreeOn d d2 lo hi := by
  unfold expandLinkedit at h
  cases hsym : InternalGetNextCommand64 m cfuel Context K.MACH_LOAD_COMMAND_SYMTAB none with
  | none => rw [hsym] at h; cases h
  | some Symtab =>
    cases hdys : InternalGetNextCommand64 m cfuel Context K.MACH_LOAD_COMMAND_DYSYMTAB none with
    | none => rw [hsym, hdys] at h; cases h
    | some DySymtab =>
      rw [hsym, hdys] at h
      simp only [Option.some.injEq] at h
      subst h
      have h1 : AgreeOn d (expandSymtabAt d Context.MachHeader Symtab delta) lo hi := by
        cases Symtab with
        | none => exact AgreeOn.refl _ _ _
        | some c => exact expandSymtab_agree _ _ _ (hav.1 c hsym)
      refine h1.trans ?_
      cases DySymtab with
      | none => exact AgreeOn.refl _ _ _
      | some c => exact expandDySymtab_agree _ _ _ (hav.2 c hdys)

theorem expandTables_agree {K : MachoConstants} {m : Mem} {cfuel : Nat}
    {Context : OC_MACHO_CONTEXT} {d d2 : Mem} {D delta lo hi : Nat}
    (h : expandTables K m cfuel Context d D delta = some d2)
    (hav : AvoidsTables K m cfuel Context lo hi) : AgreeOn d d2 lo hi := by
  unfold expandTables at h
  split at h
  · exact expandLinkedit_agree h hav
  · simp only [Option.some.injEq] at h
    subst h
    exact AgreeOn.refl _ _ _

theorem MACHO_ALIGN_lt (x : Nat) : MACHO_ALIGN x < U32 := Nat.mod_lt _ (by decide)

/-- The stores of segment data leave the bytes below `CopyFileOffset` alone. -/
theorem expandData_agree (dst m : Mem) (Source cfo cfs cvs od cd : Nat) {lo hi : Nat}
    (h1 : hi ≤ cfo) (h2 : cfo + od < U64) (h3 : cfo + cd + cfs < U64) :
    AgreeOn dst (expandData dst m Source cfo cfs cvs od cd) lo hi := by
  unfold expandData
  refine ((ZeroMem_agree _ _ _ (Or.inr ?_)).trans (CopyMem_agree _ _ _ _ _ (Or.inr ?_))).trans
    (ZeroMem_agree _ _ _ (Or.inr ?_))
  · rw [Nat.mod_eq_of_lt h2]; omega
  · rw [Nat.mod_eq_of_lt (by omega)]; omega
  · rw [Nat.mod_eq_of_lt h3]; omega

theorem expandFields_agree (dst : Mem) (D cd : Nat) {lo hi : Nat} (h : hi ≤ D + 40 ∨ D + 56 ≤ lo) :
    AgreeOn dst (expandFields dst D cd) lo hi := by
  unfold expandFields
  exact (wr64_agree _ _ _ (by omega)).trans (wr64_agree _ _ _ (by omega))

theorem expandFields_size (dst : Mem) (D cd : Nat) :
    segFileSize (expandFields dst D cd) D = segSize (expandFields dst D cd) D := by
  unfold expandFields segFileSize segSize
  rw [rd64_wr64_same _ _ _ (rd64_lt _ _)]
  exact ((@wr64_agree _ (D + 48) _ (D + 32) (D + 40) (by omega)).rd64
    (Nat.le_refl _) (Nat.le_refl _)).symm

theorem OcOverflowTriAddU64_ok {a b c : Nat} (h : (OcOverflowTriAddU64 a b c).1 = false) :
    (OcOverflowTriAddU64 a b c).2 = a + b + c ∧ a + b + c < U64 := by
  simp only [OcOverflowTriAddU64, Bool.or_eq_false_iff] at h
  obtain ⟨h1, h2⟩ := h
  have e1 := OcOverflowAddU64_ok h1
  rw [e1.1] at h2
  have e2 := OcOverflowAddU64_ok h2
  simp only [OcOverflowTriAddU64, e1.1]
  exact e2

/-- The copy window of a segment that passed the first two tests of the loop
starts at or behind the header, and the file part is no longer than the virtual
part. -/
theorem copy_window {m : Mem} {S HeaderSize : Nat} (hHS : HeaderSize < U32)
    (hfo : segFileOffset m S < U32)
    (hsz : ¬ segFileSize m S > segSize m S)
    (hclip : ¬ (segFileOffset m S ≤ HeaderSize
      ∧ (copyFileSize m S HeaderSize > segFileSize m S
        ∨ copyVmSize m S HeaderSize > segSize m S))) :
    HeaderSize ≤ copyFileOffset m S HeaderSize
    ∧ copyFileOffset m S HeaderSize < U32
    ∧ copyFileSize m S HeaderSize ≤ copyVmSize m S HeaderSize := by
  have h1 := rd64_lt m (S + 48)
  have h2 := rd64_lt m (S + 32)
  unfold copyFileOffset copyFileSize copyVmSize segFileSize segSize at *
  unfold U32 at *
  unfold U64 at *
  by_cases hc : segFileOffset m S ≤ HeaderSize
  · simp only [hc, if_true, true_and, not_or, not_lt] at hclip ⊢
    refine ⟨Nat.le_refl _, hHS, ?_⟩
    obtain ⟨ha, hb⟩ := hclip
    omega
  · simp only [hc, if_false]
    refine ⟨by omega, hfo, by omega⟩

theorem ExpandedSegment.of_agree {m d d2 : Mem} {D F : Nat}
    (hag : AgreeOn d d2 (D + 24) (D + 56)) (h : ExpandedSegment m d D F) :
    ExpandedSegment m d2 D F := by
  unfold ExpandedSegment segFileSize segSize segVirtualAddress segFileOffset at *
  rw [hag.rd64 (a := D + 48) (by omega) (by omega),
    hag.rd64 (a := D + 32) (by omega) (by omega),
    hag.rd64 (a := D + 24) (by omega) (by omega),
    hag.rd64 (a := D + 40) (by omega) (by omega)]
  exact h

theorem expandSegment_frame {K : MachoConstants} {m : Mem} {cfuel : Nat}
    {Context : OC_MACHO_CONTEXT} {DestinationSize HeaderSize : Nat} {st st2 : ExpandState}
    {S : Nat}
    (hHS : HeaderSize < U32)
    (hD : S - Context.MachHeader + 72 ≤ HeaderSize)
    (hfo : segFileOffset m S < U32)
    (hcd : st.CurrentDelta < U32)
    (h : expandSegment K m cfuel Context DestinationSize HeaderSize st S = some (true, st2)) :
    st2.CurrentDelta < U32
    ∧ st2.FirstSegment = some (st.FirstSegment.getD S)
    ∧ (AvoidsTables K m cfuel Context (S - Context.MachHeader + 24) (S - Context.MachHeader + 56) →
        ExpandedSegment m st2.dst (S - Context.MachHeader) (st.FirstSegment.getD S))
    ∧ ∀ lo hi, hi ≤ S - Context.MachHeader + 40 → AvoidsTables K m cfuel Context lo hi →
        AgreeOn st.dst st2.dst lo hi := by
  simp only [expandSegment] at h
  split at h
  · cases h
  rename_i hsz
  split at h
  · cases h
  rename_i hclip
  split at h
  · cases h
  rename_i htri
  split at h
  · cases h
  rename_i hchk
  split at h
  · cases h
  rename_i d6 hd6
  simp only [Option.some.injEq, Prod.mk.injEq, true_and] at h
  subst h
  simp only [not_or, Bool.not_eq_true, not_lt, ne_eq, Decidable.not_not] at htri hchk
  obtain ⟨hw1, hw2, hw3⟩ := copy_window hHS hfo hsz hclip
  have ht := (OcOverflowTriAddU64_ok htri.1).2
  have hal := MACHO_ALIGN_lt st.CurrentDelta
  refine ⟨Nat.mod_lt _ (by decide), rfl, ?_, ?_⟩
  · intro hav
    have hag : AgreeOn _ _ (S - Context.MachHeader + 24) (S - Context.MachHeader + 56) :=
      (expandTables_agree hd6 hav).trans
        (expandSectionLoop_agree (S - Context.MachHeader) (by omega)
          (segNumSections d6 (S - Context.MachHeader)) 0
          (d6, MACHO_ALIGN st.CurrentDelta, segFileOffset m S))
    exact ExpandedSegment.of_agree hag ⟨expandFields_size _ _ _, hchk⟩
  · intro lo hi hhi hav
    simp only
    have b1 : hi ≤ copyFileOffset m S HeaderSize := by omega
    have b2 : copyFileOffset m S HeaderSize + st.CurrentDelta < U64 := by
      unfold U32 at hw2 hcd
      unfold U64
      omega
    have b3 : copyFileOffset m S HeaderSize + MACHO_ALIGN st.CurrentDelta
        + copyFileSize m S HeaderSize < U64 := by omega
    exact (((expandData_agree _ _ _ _ _ _ _ _ b1 b2 b3).trans
      (expandFields_agree _ _ _ (Or.inl hhi))).trans (expandTables_agree hd6 hav)).trans
      (expandSectionLoop_agree (S - Context.MachHeader) (by omega)
        (segNumSections d6 (S - Context.MachHeader)) 0
        (d6, MACHO_ALIGN st.CurrentDelta, segFileOffset m S))

theorem SwapBytes32_lt (v : Nat) : SwapBytes32 v < U32 := by
  unfold SwapBytes32 U32
  omega

theorem fatField_lt (sw : Bool) (m : Mem) (a : Nat) : fatField sw (rd32 m a) < U32 := by
  unfold fatField
  split
  · exact SwapBytes32_lt _
  · exact rd32_lt _ _

theorem MachoFilterFatArchitecture64_size_lt (K : MachoConstants) (m : Mem) {fd fs : Nat}
    (hfs : fs < U32) : (MachoFilterFatArchitecture64 K m fd fs).2.2 < U32 := by
  have key : ∀ (sw : Bool) (n i : Nat), (fatArchLoop K m fd fs sw n i).2.2 < U32 := by
    intro sw n
    induction n with
    | zero => intro i; exact hfs
    | succ n ih =>
      intro i
      rw [fatArchLoop]
      split
      · simp only
        split
        · exact hfs
        · exact fatField_lt _ _ _
      · exact ih _
  unfold MachoFilterFatArchitecture64
  split
  · exact hfs
  · split
    · exact hfs
    · simp only
      split
      · exact hfs
      · exact key _ _ _

/-- The file size of an initialised context is a `UINT32`. -/
theorem Initialized.fileSize_lt {K : MachoConstants} {m : Mem} {Context : OC_MACHO_CONTEXT}
    (h : Initialized K m Context) : Context.FileSize < U32 := by
  obtain ⟨c0, fd, fs, _, hfs, hinit⟩ := h
  have h1 : (MachoInitializeContext K m c0 fd fs).1 = true := by rw [hinit]
  obtain ⟨_, hctx⟩ := MachoInitializeContext_true h1
  rw [hinit] at hctx
  simp only at hctx
  rw [hctx]
  exact MachoFilterFatArchitecture64_size_lt K m hfs

/-- The segment loop of `MachoExpandImage64` over a tiled header.  When it runs
to its end, every segment it visited is an expanded segment in the final
destination, and the bytes below the first command it could visit are the ones
it started with, as long as the `__LINKEDIT` branch stays clear of them. -/
theorem expandLoop_spec {K : MachoConstants} {m : Mem} {cfuel : Nat}
    {Context : OC_MACHO_CONTEXT} {DestinationSize HeaderSize : Nat}
    (t : Tiled m Context.MachHeader) (hHS : HeaderSize < U32)
    (hHdr : sizeofHeader64 + hdrCommandsSize m Context.MachHeader ≤ HeaderSize)
    (hFS : Context.FileSize < U32)
    (hav : ∀ k, k < hdrNumCommands m Context.MachHeader →
      segmentChecks m Context (cmdAddr m (hdrCommands Context.MachHeader) k) = true →
      cmdType m (cmdAddr m (hdrCommands Context.MachHeader) k) = K.MACH_LOAD_COMMAND_SEGMENT_64 →
      AvoidsTables K m cfuel Context
        (cmdAddr m (hdrCommands Context.MachHeader) k - Context.MachHeader + 24)
        (cmdAddr m (hdrCommands Context.MachHeader) k - Context.MachHeader + 56)) :
    ∀ (fuel : Nat) (prev : Option Nat) (st st2 : ExpandState),
      (∀ p, prev = some p → IsLoadCommand m Context.MachHeader p) →
      st.CurrentDelta < U32 →
      expandLoop K m cfuel Context DestinationSize HeaderSize fuel prev st = some (true, st2) →
      (∀ F, (st.FirstSegment = some F
            ∨ (st.FirstSegment = none
              ∧ (segmentWalk K m cfuel Context fuel prev).head? = some F)) →
          ∀ S, S ∈ segmentWalk K m cfuel Context fuel prev →
            ExpandedSegment m st2.dst (S - Context.MachHeader) F)
      ∧ (∀ lo hi B,
          (∀ k, k < hdrNumCommands m Context.MachHeader →
            (∀ j, prev = some (cmdAddr m (hdrCommands Context.MachHeader) j) →
              j < hdrNumCommands m Context.MachHeader → j < k) →
            B ≤ cmdAddr m (hdrCommands Context.MachHeader) k - Context.MachHeader) →
          hi ≤ B → AvoidsTables K m cfuel Context lo hi → AgreeOn st.dst st2.dst lo hi) := by
  intro fuel
  induction fuel with
  | zero =>
    intro prev st st2 _ _ h
    simp [expandLoop] at h
  | succ fuel ih =>
    intro prev st st2 hprev hcd h
    rw [expandLoop] at h
    cases hnext : MachoGetNextSegment64 K m cfuel Context prev with
    | none => rw [hnext] at h; cases h
    | some r =>
      cases r with
      | none =>
        rw [hnext] at h
        simp only [Option.some.injEq, Prod.mk.injEq, true_and] at h
        subst h
        refine ⟨fun F _ S hS => ?_, fun lo hi B _ _ _ => AgreeOn.refl _ _ _⟩
        simp [segmentWalk, hnext] at hS
      | some Next =>
        rw [hnext] at h
        simp only at h
        obtain ⟨hchk, hty, k, hk, hNext, hlater⟩ := MachoGetNextSegment64_some t hprev hnext
        obtain ⟨_, c1, _, _, c4⟩ := segmentChecks_true hchk
        have hw := t.addr_lt_top hk
        rw [← hNext] at hw
        have hH : Context.MachHeader + 32 ≤ Next := by
          have := hw.1
          unfold hdrCommands sizeofHeader64 at this
          exact this
        have hD : Next - Context.MachHeader + 72 ≤ HeaderSize := by
          have := hw.2
          unfold hdrCommands sizeofHeader64 at this
          unfold sizeofHeader64 at hHdr
          unfold sizeofSegment64 at c1
          omega
        have hfo : segFileOffset m Next < U32 := by omega
        cases hseg : expandSegment K m cfuel Context DestinationSize HeaderSize st Next with
        | none => rw [hseg] at h; cases h
        | some r1 =>
          obtain ⟨flag, st1⟩ := r1
          cases flag with
          | false => rw [hseg] at h; simp at h
          | true =>
            rw [hseg] at h
            simp only at h
            obtain ⟨f1, f2, f3, f4⟩ := expandSegment_frame hHS hD hfo hcd hseg
            have hprev1 : ∀ p, some Next = some p → IsLoadCommand m Context.MachHeader p := by
              intro p hp
              cases hp
              exact ⟨k, hk, hNext⟩
            obtain ⟨i1, i2⟩ := ih (some Next) st1 st2 hprev1 f1 h
            have hafter : ∀ k2, k2 < hdrNumCommands m Context.MachHeader →
                (∀ j, some Next = some (cmdAddr m (hdrCommands Context.MachHeader) j) →
                  j < hdrNumCommands m Context.MachHeader → j < k2) →
                Next + cmdSize m Next ≤ cmdAddr m (hdrCommands Context.MachHeader) k2 := by
              intro k2 hk2 hj
              have hlt := hj k (by rw [hNext]) hk
              have := t.addr_le hlt (by omega)
              rw [← hNext] at this
              exact this
            have hwalk : segmentWalk K m cfuel Context (fuel + 1) prev
                = Next :: segmentWalk K m cfuel Context fuel (some Next) := by
              simp [segmentWalk, hnext]
            constructor
            · intro F hF S hS
              have hF1 : st1.FirstSegment = some F := by
                rw [f2]
                rcases hF with hF | ⟨hF, hhead⟩
                · rw [hF]; rfl
                · rw [hF]
                  rw [hwalk] at hhead
                  simp only [List.head?_cons, Option.some.injEq] at hhead
                  rw [← hhead]
                  rfl
              have hF2 : st.FirstSegment.getD Next = F := by
                rw [f2] at hF1
                exact Option.some.inj hF1
              rw [hwalk] at hS
              rcases List.mem_cons.1 hS with hS | hS
              · subst hS
                have havk := hav k hk (by rw [← hNext]; exact hchk) (by rw [← hNext]; exact hty)
                rw [← hNext] at havk
                have hown := f3 havk
                rw [hF2] at hown
                refine ExpandedSegment.of_agree ?_ hown
                refine i2 _ _ (S - Context.MachHeader + 72) ?_ (by omega) havk
                intro k2 hk2 hj
                have := hafter k2 hk2 hj
                unfold sizeofSegment64 at c1
                omega
              · exact i1 F (Or.inl hF1) S hS
            · intro lo hi B hB hhi havl
              have hBk := hB k hk (fun j hj hjn => hlater j hj hjn)
              rw [← hNext] at hBk
              refine (f4 lo hi (by omega) havl).trans (i2 lo hi B ?_ hhi havl)
              intro k2 hk2 hj
              have := hafter k2 hk2 hj
              omega

/-- The first command of a type that `InternalGetNextCommand64` finds in a tiled
header is one of the header's load commands. -/
theorem InternalGetNextCommand64_first {m : Mem} {Context : OC_MACHO_CONTEXT}
    (t : Tiled m Context.MachHeader) {fuel ty c : Nat}
    (h : InternalGetNextCommand64 m fuel Context ty none = some (some c)) :
    ∃ k, k < hdrNumCommands m Context.MachHeader
      ∧ c = cmdAddr m (hdrCommands Context.MachHeader) k ∧ cmdType m c = ty := by
  unfold InternalGetNextCommand64 at h
  simp only [Nat.mod_eq_of_lt t.window] at h
  obtain ⟨k, _, hk, hc, hty, _⟩ :=
    (nextCommandLoop_tiled t ty fuel 0 (some c) (Nat.zero_le _) h).1 c rfl
  exact ⟨k, hk, hc, hty⟩

/-- A segment command that passed `segmentChecks` keeps its address and size
fields through the `__LINKEDIT` branch when the symtab and dysymtab commands
have at least their structure sizes, 24 and 80 bytes. -/
theorem avoidsTables_of_sizes {K : MachoConstants} {m : Mem} {cfuel : Nat}
    {Context : OC_MACHO_CONTEXT} (t : Tiled m Context.MachHeader)
    (hK1 : K.MACH_LOAD_COMMAND_SYMTAB ≠ K.MACH_LOAD_COMMAND_SEGMENT_64)
    (hK2 : K.MACH_LOAD_COMMAND_DYSYMTAB ≠ K.MACH_LOAD_COMMAND_SEGMENT_64)
    (hsym : ∀ c, InternalGetNextCommand64 m cfuel Context K.MACH_LOAD_COMMAND_SYMTAB none
      = some (some c) → 24 ≤ cmdSize m c)
    (hdys : ∀ c, InternalGetNextCommand64 m cfuel Context K.MACH_LOAD_COMMAND_DYSYMTAB none
      = some (some c) → 80 ≤ cmdSize m c)
    (k : Nat) (hk : k < hdrNumCommands m Context.MachHeader)
    (hchk : segmentChecks m Context (cmdAddr m (hdrCommands Context.MachHeader) k) = true)
    (hty : cmdType m (cmdAddr m (hdrCommands Context.MachHeader) k)
      = K.MACH_LOAD_COMMAND_SEGMENT_64) :
    AvoidsTables K m cfuel Context
      (cmdAddr m (hdrCommands Context.MachHeader) k - Context.MachHeader + 24)
      (cmdAddr m (hdrCommands Context.MachHeader) k - Context.MachHeader + 56) := by
  obtain ⟨_, c1, _, _, _⟩ := segmentChecks_true hchk
  unfold sizeofSegment64 at c1
  have hwk : Context.MachHeader + 32 ≤ cmdAddr m (hdrCommands Context.MachHeader) k :=
    (t.addr_lt_top hk).1
  have key : ∀ (ty c sz : Nat), ty ≠ K.MACH_LOAD_COMMAND_SEGMENT_64 →
      InternalGetNextCommand64 m cfuel Context ty none = some (some c) → sz ≤ cmdSize m c →
      c - Context.MachHeader + sz ≤ cmdAddr m (hdrCommands Context.MachHeader) k
          - Context.MachHeader
        ∨ cmdAddr m (hdrCommands Context.MachHeader) k - Context.MachHeader + 72
          ≤ c - Context.MachHeader := by
    intro ty c sz hne hc hsz
    obtain ⟨t0, ht0, hc0, hty0⟩ := InternalGetNextCommand64_first t hc
    have hw0 : Context.MachHeader + 32 ≤ cmdAddr m (hdrCommands Context.MachHeader) t0 :=
      (t.addr_lt_top ht0).1
    rw [← hc0] at hw0
    rcases Nat.lt_trichotomy t0 k with h1 | h1 | h1
    · have := t.addr_le h1 (by omega)
      rw [← hc0] at this
      left
      omega
    · exfalso
      subst h1
      rw [← hc0] at hty
      exact hne (hty0.symm.trans hty)
    · have := t.addr_le h1 (by omega)
      rw [← hc0] at this
      right
      omega
  constructor
  · intro c hc
    rcases key _ c 24 hK1 hc (hsym c hc) with h | h
    · left; omega
    · right; omega
  · intro c hc
    rcases key _ c 80 hK2 hc (hdys c hc) with h | h
    · left; omega
    · right; omega

/-- The fields `VirtualAddress`, `Size`, `FileOffset` and `FileSize` of a checked
segment command (offsets 24 to 56) are clear of the stores of the `__LINKEDIT`
branch when the first dysymtab command has at least the size of its structure,
80 bytes, and is no segment command.  The two stores to the copy of the first
symtab command go to the offsets 8 and 16 from its start, which is a load
command of the tiled header: they stay below offset 24 of every command that
does not begin before it, whatever its size. -/
theorem avoidsTables_fields {K : MachoConstants} {m : Mem} {cfuel : Nat}
    {Context : OC_MACHO_CONTEXT} (t : Tiled m Context.MachHeader)
    (hK2 : K.MACH_LOAD_COMMAND_DYSYMTAB ≠ K.MACH_LOAD_COMMAND_SEGMENT_64)
    (hdys : ∀ c, InternalGetNextCommand64 m cfuel Context K.MACH_LOAD_COMMAND_DYSYMTAB none
      = some (some c) → 80 ≤ cmdSize m c)
    (k : Nat) (hk : k < hdrNumCommands m Context.MachHeader)
    (hchk : segmentChecks m Context (cmdAddr m (hdrCommands Context.MachHeader) k) = true)
    (hty : cmdType m (cmdAddr m (hdrCommands Context.MachHeader) k)
      = K.MACH_LOAD_COMMAND_SEGMENT_64) :
    AvoidsTables K m cfuel Context
      (cmdAddr m (hdrCommands Context.MachHeader) k - Context.MachHeader + 24)
      (cmdAddr m (hdrCommands Context.MachHeader) k - Context.MachHeader + 56) := by
  obtain ⟨_, c1, _, _, _⟩ := segmentChecks_true hchk
  unfold sizeofSegment64 at c1
  have hwk : Context.MachHeader + 32 ≤ cmdAddr m (hdrCommands Context.MachHeader) k :=
    (t.addr_lt_top hk).1
  constructor
  · intro c hc
    obtain ⟨t0, ht0, hc0, _⟩ := InternalGetNextCommand64_first t hc
    have hw0 : Context.MachHeader + 32 ≤ cmdAddr m (hdrCommands Context.MachHeader) t0 :=
      (t.addr_lt_top ht0).1
    rw [← hc0] at hw0
    rcases Nat.lt_trichotomy t0 k with h1 | h1 | h1
    · have := t.addr_le h1 (by omega)
      rw [← hc0] at this
      left
      omega
    · subst h1
      left
      omega
    · have := t.addr_le h1 (by omega)
      rw [← hc0] at this
      right
      omega
  · intro c hc
    have hsz := hdys c hc
    obtain ⟨t0, ht0, hc0, hty0⟩ := InternalGetNextCommand64_first t hc
    have hw0 : Context.MachHeader + 32 ≤ cmdAddr m (hdrCommands Context.MachHeader) t0 :=
      (t.addr_lt_top ht0).1
    rw [← hc0] at hw0
    rcases Nat.lt_trichotomy t0 k with h1 | h1 | h1
    · have := t.addr_le h1 (by omega)
      rw [← hc0] at this
      left
      omega
    · exfalso
      subst h1
      rw [← hc0] at hty
      exact hK2 (hty0.symm.trans hty)
    · have := t.addr_le h1 (by omega)
      rw [← hc0] at this
      right
      omega

theorem eq_some_getD_of_isSome {α : Type} {o : Option α} (d : α) (h : o.isSome = true) :
    o = some (o.getD d) := by
  cases o with
  | none => cases h
  | some a => rfl

/-- Claim C1, the counterexample.  `twoSegmentImage` is accepted by
`MachoInitializeContext`; its second segment command claims file bytes beyond
the end of the file, so `MachoGetNextSegment64` returns `NULL` for it and the
segment loop ends after the first segment.  `MachoExpandImage64` with
`Strip = FALSE` returns 4096, and the destination holds the second segment
command (type `0x19`, at index 104) as copied: `FileSize` `0x1000` against a
virtual `Size` of `0x2000`, and `VirtualAddress - FileOffset` `0x4F00` against
`0x4000` for the first segment command (at index 32). -/
theorem C1_unvisited_segment_not_expanded :
    MachoInitializeContext appleConstants twoSegmentImage zeroContext 0x1000 512
      = (true, initializedContext 0x1000 512)
    ∧ (MachoExpandImage64 appleConstants twoSegmentImage 2 (initializedContext 0x1000 512)
        blankDestination 8192 false).map
        (fun r => (r.2, cmdType r.1 104, segFileSize r.1 104, segSize r.1 104,
          segVirtualAddress r.1 104 - segFileOffset r.1 104,
          segVirtualAddress r.1 32 - segFileOffset r.1 32))
      = some (4096, 0x19, 0x1000, 0x2000, 0x4F00, 0x4000) := by
  refine ⟨by decide, by decide⟩

/-- Claim C1, amended.  Let the context be an initialised one, and let the first
dysymtab command of the header, where present, have at least the size of its
structure (80 bytes) and be no segment command.  Whenever `MachoExpandImage64`
called with `Strip = FALSE` returns a non-zero size, every segment the segment
loop visited (the segments `MachoGetNextSegment64` enumerates) has, in the
destination image, `FileSize` equal to its virtual `Size`, and
`VirtualAddress - FileOffset`, a 64-bit difference, has one and the same value
for all of them: the virtual address of the first segment. -/
theorem C1_expanded_segments (K : MachoConstants) (m : Mem) (fuel : Nat)
    (Context : OC_MACHO_CONTEXT) (dst0 : Mem) (DestinationSize : Nat) (r : Mem × Nat) (F : Nat)
    (hinit : Initialized K m Context)
    (hK2 : K.MACH_LOAD_COMMAND_DYSYMTAB ≠ K.MACH_LOAD_COMMAND_SEGMENT_64)
    (hdys : ∀ c, InternalGetNextCommand64 m fuel Context K.MACH_LOAD_COMMAND_DYSYMTAB none
      = some (some c) → 80 ≤ cmdSize m c)
    (hres : MachoExpandImage64 K m fuel Context dst0 DestinationSize false = some r)
    (hn : r.2 ≠ 0)
    (hF : (segmentWalk K m fuel Context fuel none).head? = some F) :
    ∀ S, S ∈ segmentWalk K m fuel Context fuel none →
      segFileSize r.1 (S - Context.MachHeader) = segSize r.1 (S - Context.MachHeader)
      ∧ (segVirtualAddress r.1 (S - Context.MachHeader) + U64
          - segFileOffset r.1 (S - Context.MachHeader)) % U64 = segVirtualAddress m F := by
  have t := hinit.tiled
  have hlt := hinit.header_lt
  have hHS : (sizeofHeader64 + hdrCommandsSize m Context.MachHeader) % U32
      = sizeofHeader64 + hdrCommandsSize m Context.MachHeader := Nat.mod_eq_of_lt hlt
  unfold MachoExpandImage64 at hres
  simp only [hHS] at hres
  split at hres
  · simp only [Option.some.injEq] at hres
    subst hres
    exact absurd rfl hn
  cases hloop : expandLoop K m fuel Context DestinationSize
      (sizeofHeader64 + hdrCommandsSize m Context.MachHeader) fuel none
      { dst := CopyMem dst0 0 m Context.MachHeader
          (sizeofHeader64 + hdrCommandsSize m Context.MachHeader),
        CurrentDelta := 0, FirstSegment := none, CurrentSize := 0 } with
  | none => rw [hloop] at hres; cases hres
  | some r1 =>
    obtain ⟨flag, st⟩ := r1
    rw [hloop] at hres
    cases flag with
    | false =>
      simp only [Option.some.injEq] at hres
      subst hres
      exact absurd rfl hn
    | true =>
      simp only at hres
      obtain ⟨i1, _⟩ := expandLoop_spec t hlt (Nat.le_refl _) hinit.fileSize_lt
        (avoidsTables_fields t hK2 hdys) fuel none _ st
        (fun p hp => by cases hp) (by show 0 < U32; decide) hloop
      have hall := i1 F (Or.inr ⟨rfl, hF⟩)
      intro S hS
      have hexp := hall S hS
      have hSk : ∃ k, k < hdrNumCommands m Context.MachHeader
          ∧ S = cmdAddr m (hdrCommands Context.MachHeader) k
          ∧ sizeofSegment64 ≤ cmdSize m S := by
        have key : ∀ (f : Nat) (prev : Option Nat),
            (∀ p, prev = some p → IsLoadCommand m Context.MachHeader p) →
            ∀ S, S ∈ segmentWalk K m fuel Context f prev →
              ∃ k, k < hdrNumCommands m Context.MachHeader
                ∧ S = cmdAddr m (hdrCommands Context.MachHeader) k
                ∧ sizeofSegment64 ≤ cmdSize m S := by
          intro f
          induction f with
          | zero => intro prev _ S hS; simp [segmentWalk] at hS
          | succ f ihf =>
            intro prev hprev S hS
            rw [segmentWalk] at hS
            split at hS
            · rename_i Next hnext
              obtain ⟨hchk, _, k, hk, hNext, _⟩ := MachoGetNextSegment64_some t hprev hnext
              rcases List.mem_cons.1 hS with hS | hS
              · subst hS
                exact ⟨k, hk, hNext, (segmentChecks_true hchk).2.1⟩
              · exact ihf (some Next) (fun p hp => by cases hp; exact ⟨k, hk, hNext⟩) S hS
            · simp at hS
        exact key fuel none (fun p hp => by cases hp) S hS
      obtain ⟨k, hk, hSk, hsz⟩ := hSk
      have hw := t.addr_lt_top hk
      rw [← hSk] at hw
      unfold hdrCommands at hw
      unfold sizeofSegment64 at hsz
      split at hres
      · split at hres
        · simp only [Option.some.injEq] at hres
          subst hres
          exact absurd rfl hn
        · simp only [Bool.false_eq_true, if_false, Option.some.injEq] at hres
          subst hres
          exact ExpandedSegment.of_agree (CopyMem_agree _ _ _ _ _ (Or.inr (by omega))) hexp
      · simp only [Bool.false_eq_true, if_false, Option.some.injEq] at hres
        subst hres
        exact hexp

/-- Claim C1, amended, on `linkeditImage`: the call returns `0x2100`, the two
segments visited are at addresses `0x1020` and `0x1068`, and both are expanded,
with `VirtualAddress - FileOffset = 0x4000`. -/
theorem C1_expanded_segments_witness :
    segmentWalk appleConstants linkeditImage 4 (initializedContext 0x1000 0x1100) 4 none
      = [0x1020, 0x1068]
    ∧ ((MachoExpandImage64 appleConstants linkeditImage 4 (initializedContext 0x1000 0x1100)
        blankDestination 0x3000 false).getD (blankDestination, 0)).2 = 0x2100
    ∧ segVirtualAddress linkeditImage 0x1020 = 0x4000
    ∧ ∀ S, S ∈ segmentWalk appleConstants linkeditImage 4 (initializedContext 0x1000 0x1100) 4
        none →
      segFileSize ((MachoExpandImage64 appleConstants linkeditImage 4
          (initializedContext 0x1000 0x1100) blankDestination 0x3000 false).getD
          (blankDestination, 0)).1 (S - (initializedContext 0x1000 0x1100).MachHeader)
        = segSize ((MachoExpandImage64 appleConstants linkeditImage 4
          (initializedContext 0x1000 0x1100) blankDestination 0x3000 false).getD
          (blankDestination, 0)).1 (S - (initializedContext 0x1000 0x1100).MachHeader)
      ∧ (segVirtualAddress ((MachoExpandImage64 appleConstants linkeditImage 4
            (initializedContext 0x1000 0x1100) blankDestination 0x3000 false).getD
            (blankDestination, 0)).1 (S - (initializedContext 0x1000 0x1100).MachHeader) + U64
          - segFileOffset ((MachoExpandImage64 appleConstants linkeditImage 4
            (initializedContext 0x1000 0x1100) blankDestination 0x3000 false).getD
            (blankDestination, 0)).1 (S - (initializedContext 0x1000 0x1100).MachHeader)) % U64
        = segVirtualAddress linkeditImage 0x1020 :=
  ⟨by decide, by decide, by decide,
    C1_expanded_segments appleConstants linkeditImage 4 (initializedContext 0x1000 0x1100)
      blankDestination 0x3000 _ 0x1020
      ⟨zeroContext, 0x1000, 0x1100, by decide, by decide, by decide⟩
      (by decide)
      (fun c hc => by
        rw [show InternalGetNextCommand64 linkeditImage 4 (initializedContext 0x1000 0x1100)
          appleConstants.MACH_LOAD_COMMAND_DYSYMTAB none = some (some 0x10C8) by decide] at hc
        cases hc
        decide)
      (eq_some_getD_of_isSome _ (by decide)) (by decide) (by decide)⟩

/-- The input the amended claim C1 leaves out.  In `shortDysymtabImage` the
dysymtab command is 8 bytes long, so the fields `MachoExpandImage64` updates in
its copy, at offsets 36 to 76, are bytes of the `__LINKEDIT` segment command
behind it.  The call returns `0x2100`; both segments are visited; in the
destination the `__LINKEDIT` segment command (index 112) has its file offset
moved twice, to `0x3000`, and `VirtualAddress - FileOffset` is `0x3000` against
`0x4000` for the `__TEXT` segment command (index 32).  `InternalRetrieveSymtabs64`
rejects such a command (`CommandSize != sizeof (*DySymtab)`); the expansion
does not look at the size. -/
theorem expand_short_dysymtab_overwrites_segment :
    MachoInitializeContext appleConstants shortDysymtabImage zeroContext 0x1000 0x1100
      = (true, initializedContext 0x1000 0x1100)
    ∧ segmentWalk appleConstants shortDysymtabImage 3 (initializedContext 0x1000 0x1100) 3 none
      = [0x1020, 0x1070]
    ∧ InternalGetNextCommand64 shortDysymtabImage 3 (initializedContext 0x1000 0x1100)
        appleConstants.MACH_LOAD_COMMAND_DYSYMTAB none = some (some 0x1068)
    ∧ cmdSize shortDysymtabImage 0x1068 = 8
    ∧ (MachoExpandImage64 appleConstants shortDysymtabImage 3 (initializedContext 0x1000 0x1100)
        blankDestination 0x3000 false).map
        (fun r => (r.2, segVirtualAddress r.1 32 - segFileOffset r.1 32,
          segFileOffset r.1 112, segVirtualAddress r.1 112 - segFileOffset r.1 112))
      = some (0x2100, 0x4000, 0x3000, 0x3000) := by
  refine ⟨by decide, by decide, by decide, by decide, by decide⟩

/-! ## `MachoGetFilePointerByAddress64` -/

/-- Every segment of the walk over a tiled header is one of the header's load
commands and has at least the size of a segment command. -/
theorem segmentWalk_mem {K : MachoConstants} {m : Mem} {cfuel : Nat} {Context : OC_MACHO_CONTEXT}
    (t : Tiled m Context.MachHeader) :
    ∀ (f : Nat) (prev : Option Nat),
      (∀ p, prev = some p → IsLoadCommand m Context.MachHeader p) →
      ∀ S, S ∈ segmentWalk K m cfuel Context f prev →
        ∃ k, k < hdrNumCommands m Context.MachHeader
          ∧ S = cmdAddr m (hdrCommands Context.MachHeader) k
          ∧ segmentChecks m Context S = true
          ∧ cmdType m S = K.MACH_LOAD_COMMAND_SEGMENT_64 := by
  intro f
  induction f with
  | zero => intro prev _ S hS; simp [segmentWalk] at hS
  | succ f ihf =>
    intro prev hprev S hS
    rw [segmentWalk] at hS
    split at hS
    · rename_i Next hnext
      obtain ⟨hchk, hty, k, hk, hNext, _⟩ := MachoGetNextSegment64_some t hprev hnext
      rcases List.mem_cons.1 hS with hS | hS
      · subst hS
        exact ⟨k, hk, hNext, hchk, hty⟩
      · exact ihf (some Next) (fun p hp => by cases hp; exact ⟨k, hk, hNext⟩) S hS
    · simp at hS

/-- Claim C11, the failing input.  `sampleImage` is a 512-byte file whose
`__TEXT` segment maps the file bytes `[0, 512)` at the virtual addresses
`[0x4000, 0x5000)`.  The context is an initialised one with `FileSize = 512`.
For the address `0x4300` the function returns the pointer `0x1300`, `0x300`
bytes behind the base `0x1000`, and sets `*MaxSize` to `0xD00`: the pointer is
already past the 512 bytes of the file, and `(pointer - base) + MaxSize` is
`0x1000`. -/
theorem C11_file_pointer_beyond_file :
    MachoInitializeContext appleConstants sampleImage zeroContext 0x1000 512
      = (true, initializedContext 0x1000 512)
    ∧ MachoGetFilePointerByAddress64 appleConstants sampleImage 3 (initializedContext 0x1000 512)
        0x4300 = some (some (0x1300, 0xD00))
    ∧ (initializedContext 0x1000 512).FileSize < 0x1300 - 0x1000
    ∧ ¬ ((0x1300 - (initializedContext 0x1000 512).MachHeader) + 0xD00
        ≤ (initializedContext 0x1000 512).FileSize) := by
  refine ⟨by decide, by decide, by decide, by decide⟩

/-- What a symtab command that passed `symtabChecks` satisfies. -/
theorem symtabChecks_true {m : Mem} {Context : OC_MACHO_CONTEXT} {c : Nat}
    (h : symtabChecks m Context c = true) :
    cmdSize m c = sizeofSymtabCommand
    ∧ symSymbolsOffset m c + symNumSymbols m c * sizeofNlist64 ≤ Context.FileSize
    ∧ symStringsOffset m c + symStringsSize m c ≤ Context.FileSize
    ∧ 0 < symStringsSize m c
    ∧ rd8 m (((Context.MachHeader + symStringsOffset m c) % U64
        + (symStringsSize m c - 1)) % U64) = 0
    ∧ OC_TYPE_ALIGNED alignofNlist64 ((Context.MachHeader + symSymbolsOffset m c) % U64)
        = true := by
  unfold symtabChecks at h
  split at h
  · cases h
  rename_i h1
  split at h
  · cases h
  rename_i h2
  split at h
  · cases h
  rename_i h3
  split at h
  · cases h
  rename_i h4
  split at h
  · cases h
  rename_i h5
  simp only [not_or, Bool.not_eq_true, not_lt, ne_eq, Decidable.not_not, gt_iff_lt] at h1 h2 h3 h4 h5
  have e2 := OcOverflowMulAddU32_ok h2.1
  have e3 := OcOverflowAddU32_ok h3.1
  refine ⟨h1, ?_, ?_, by omega, h4.2, by simpa using h5⟩
  · have := h2.2
    omega
  · have := h3.2
    omega

/-- What a dysymtab command that passed `dysymtabChecks` satisfies. -/
theorem dysymtabChecks_true {m : Mem} {Context : OC_MACHO_CONTEXT} {s c : Nat}
    (h : dysymtabChecks m Context s c = true) :
    cmdSize m c = sizeofDysymtabCommand
    ∧ dysLocalSymbolsIndex m c + dysNumLocalSymbols m c ≤ symNumSymbols m s
    ∧ dysExternalSymbolsIndex m c + dysNumExternalSymbols m c ≤ symNumSymbols m s
    ∧ dysUndefinedSymbolsIndex m c + dysNumUndefinedSymbols m c ≤ symNumSymbols m s
    ∧ dysIndirectSymbolsOffset m c + dysNumIndirectSymbols m c * sizeofNlist64
        ≤ Context.FileSize
    ∧ dysLocalRelocationsOffset m c + dysNumOfLocalRelocations m c * sizeofRelocationInfo
        ≤ Context.FileSize
    ∧ dysExternalRelocationsOffset m c + dysNumExternalRelocations m c * sizeofRelocationInfo
        ≤ Context.FileSize := by
  unfold dysymtabChecks at h
  split at h
  · cases h
  rename_i h1
  split at h
  · cases h
  rename_i h2
  split at h
  · cases h
  rename_i h3
  split at h
  · cases h
  rename_i h4
  split at h
  · cases h
  rename_i h5
  split at h
  · cases h
  rename_i h6
  split at h
  · cases h
  rename_i h7
  simp only [not_or, Bool.not_eq_true, not_lt, ne_eq, Decidable.not_not, gt_iff_lt]
    at h1 h2 h3 h4 h5 h6 h7
  have e2 := OcOverflowAddU32_ok h2.1
  have e3 := OcOverflowAddU32_ok h3.1
  have e4 := OcOverflowAddU32_ok h4.1
  have e5 := OcOverflowMulAddU32_ok h5.1
  have e6 := OcOverflowMulAddU32_ok h6.1
  have e7 := OcOverflowMulAddU32_ok h7.1
  have := h2.2
  have := h3.2
  have := h4.2
  have := h5.2
  have := h6.2
  have := h7.2
  refine ⟨h1, by omega, by omega, by omega, by omega, by omega, by omega⟩

/-- Claim C13.  Whenever `InternalRetrieveSymtabs64` returns `TRUE` after doing
the lookup (the context had no cached symbol table), the symtab command it
stored satisfies `SymbolsOffset + NumSymbols * sizeof (MACH_NLIST_64) <=
FileSize`, `StringsOffset + StringsSize <= FileSize` and `StringsSize > 0`, and
the last byte of the string table it stored is NUL; when the header has the
dynamic-linker flag, the local, external and undefined symbol index ranges of
the dysymtab command it stored end at or below `NumSymbols`, and the
indirect-symbol, local-relocation and external-relocation tables end at or
below `FileSize`.  When it returns `FALSE` the context is unchanged.  For an
initialised context it returns once the fuel reaches the number of load
commands. -/
theorem C13_retrieve_symtabs_checked (K : MachoConstants) (m : Mem) (fuel : Nat)
    (Context : OC_MACHO_CONTEXT) :
    (∀ r, InternalRetrieveSymtabs64 K m fuel Context = some r →
      (r.1 = false → r.2 = Context)
      ∧ (r.1 = true → Context.SymbolTable = 0 →
          symSymbolsOffset m r.2.Symtab + symNumSymbols m r.2.Symtab * sizeofNlist64
            ≤ Context.FileSize
          ∧ symStringsOffset m r.2.Symtab + symStringsSize m r.2.Symtab ≤ Context.FileSize
          ∧ symStringsSize m r.2.Symtab > 0
          ∧ r.2.StringTable = (Context.MachHeader + symStringsOffset m r.2.Symtab) % U64
          ∧ rd8 m ((r.2.StringTable + (symStringsSize m r.2.Symtab - 1)) % U64) = 0
          ∧ (hdrFlags m Context.MachHeader &&& K.MACH_HEADER_FLAG_DYNAMIC_LINKER_LINK ≠ 0 →
              dysLocalSymbolsIndex m r.2.DySymtab + dysNumLocalSymbols m r.2.DySymtab
                ≤ symNumSymbols m r.2.Symtab
              ∧ dysExternalSymbolsIndex m r.2.DySymtab + dysNumExternalSymbols m r.2.DySymtab
                ≤ symNumSymbols m r.2.Symtab
              ∧ dysUndefinedSymbolsIndex m r.2.DySymtab + dysNumUndefinedSymbols m r.2.DySymtab
                ≤ symNumSymbols m r.2.Symtab
              ∧ dysIndirectSymbolsOffset m r.2.DySymtab
                  + dysNumIndirectSymbols m r.2.DySymtab * sizeofNlist64 ≤ Context.FileSize
              ∧ dysLocalRelocationsOffset m r.2.DySymtab
                  + dysNumOfLocalRelocations m r.2.DySymtab * sizeofRelocationInfo
                ≤ Context.FileSize
              ∧ dysExternalRelocationsOffset m r.2.DySymtab
                  + dysNumExternalRelocations m r.2.DySymtab * sizeofRelocationInfo
                ≤ Context.FileSize)))
    ∧ (Initialized K m Context → hdrNumCommands m Context.MachHeader ≤ fuel →
        InternalRetrieveSymtabs64 K m fuel Context ≠ none) := by
  constructor
  · intro r h
    unfold InternalRetrieveSymtabs64 at h
    split at h
    · rename_i hc
      simp only [Option.some.injEq] at h
      subst h
      exact ⟨fun _ => rfl, fun _ h0 => absurd h0 hc⟩
    cases hsym : InternalGetNextCommand64 m fuel Context K.MACH_LOAD_COMMAND_SYMTAB none with
    | none => rw [hsym] at h; cases h
    | some o =>
      rw [hsym] at h
      cases o with
      | none =>
        simp only [Option.some.injEq] at h
        subst h
        exact ⟨fun _ => rfl, fun h1 => by cases h1⟩
      | some Symtab =>
        simp only at h
        split at h
        · simp only [Option.some.injEq] at h
          subst h
          exact ⟨fun _ => rfl, fun h1 => by cases h1⟩
        split at h
        · simp only [Option.some.injEq] at h
          subst h
          exact ⟨fun _ => rfl, fun h1 => by cases h1⟩
        rename_i hchk
        simp only [Bool.not_eq_false] at hchk
        obtain ⟨_, s2, s3, s4, s5, _⟩ := symtabChecks_true hchk
        split at h
        · rename_i hflag
          unfold retrieveDySymtab at h
          cases hdys : InternalGetNextCommand64 m fuel Context K.MACH_LOAD_COMMAND_DYSYMTAB none with
          | none => rw [hdys] at h; cases h
          | some o2 =>
            rw [hdys] at h
            cases o2 with
            | none =>
              simp only [Option.some.injEq] at h
              subst h
              exact ⟨fun _ => rfl, fun h1 => by cases h1⟩
            | some DySymtab =>
              simp only at h
              split at h
              · simp only [Option.some.injEq] at h
                subst h
                exact ⟨fun _ => rfl, fun h1 => by cases h1⟩
              split at h
              · simp only [Option.some.injEq] at h
                subst h
                exact ⟨fun _ => rfl, fun h1 => by cases h1⟩
              rename_i hdchk
              simp only [Bool.not_eq_false] at hdchk
              simp only [Option.some.injEq] at h
              subst h
              obtain ⟨_, d2, d3, d4, d5, d6, d7⟩ := dysymtabChecks_true hdchk
              refine ⟨fun h1 => (by cases h1), fun _ _ => ?_⟩
              exact ⟨s2, s3, s4, rfl, s5, fun _ => ⟨d2, d3, d4, d5, d6, d7⟩⟩
        · rename_i hflag
          simp only [Option.some.injEq] at h
          subst h
          refine ⟨fun h1 => (by cases h1), fun _ _ => ?_⟩
          exact ⟨s2, s3, s4, rfl, s5, fun hf => absurd hf hflag⟩
  · intro hinit hfuel
    have t := hinit.tiled
    have hcmd : ∀ ty, InternalGetNextCommand64 m fuel Context ty none ≠ none := by
      intro ty
      unfold InternalGetNextCommand64
      simp only [Nat.mod_eq_of_lt t.window]
      exact nextCommandLoop_terminates t _ fuel 0 (Nat.zero_le _) (by omega)
    unfold InternalRetrieveSymtabs64
    split
    · simp
    cases hsym : InternalGetNextCommand64 m fuel Context K.MACH_LOAD_COMMAND_SYMTAB none with
    | none => exact absurd hsym (hcmd _)
    | some o =>
      cases o with
      | none => simp
      | some Symtab =>
        simp only
        split
        · simp
        split
        · simp
        split
        · unfold retrieveDySymtab
          cases hdys : InternalGetNextCommand64 m fuel Context K.MACH_LOAD_COMMAND_DYSYMTAB none with
          | none => exact absurd hdys (hcmd _)
          | some o2 =>
            cases o2 with
            | none => simp
            | some DySymtab =>
              simp only
              split
              · simp
              split <;> simp
        · simp

/-- Claim C13 on `dynamicImage`, whose header has the dynamic-linker flag: the
lookup returns `TRUE` and stores the symtab command at `0x10B0` and the dysymtab
command at `0x10C8`. -/
theorem C13_retrieve_symtabs_checked_witness :
    (InternalRetrieveSymtabs64 appleConstants dynamicImage 4
        (initializedContext 0x1000 0x1100)).map
        (fun r => (r.1, r.2.Symtab, r.2.DySymtab, r.2.StringTable))
      = some (true, 0x10B0, 0x10C8, 0x2010)
    ∧ hdrFlags dynamicImage 0x1000 &&& appleConstants.MACH_HEADER_FLAG_DYNAMIC_LINKER_LINK ≠ 0
    ∧ symSymbolsOffset dynamicImage 0x10B0 + symNumSymbols dynamicImage 0x10B0 * sizeofNlist64
        ≤ 0x1100
    ∧ rd8 dynamicImage ((0x2010 + (symStringsSize dynamicImage 0x10B0 - 1)) % U64) = 0
    ∧ dysIndirectSymbolsOffset dynamicImage 0x10C8
        + dysNumIndirectSymbols dynamicImage 0x10C8 * sizeofNlist64 ≤ 0x1100 := by
  have h := ((C13_retrieve_symtabs_checked appleConstants dynamicImage 4
    (initializedContext 0x1000 0x1100)).1
    (true, storeSymtabs dynamicImage (initializedContext 0x1000 0x1100) 0x10B0 0x10C8)
    (by decide)).2 rfl rfl
  exact ⟨by decide, by decide, h.1, h.2.2.2.2.1, (h.2.2.2.2.2 (by decide)).2.2.2.1⟩

/-! ## `InternalPatchVtableSymbol` -/

/-- A string compares equal to itself. -/
theorem asciiStrCmp_self (a : List Char) : asciiStrCmp a a = 0 := by
  induction a with
  | nil => rfl
  | cons x xs ih => simp [asciiStrCmp, ih]

/-- Two C strings (no character is the terminator) that compare equal are the
same string. -/
theorem asciiStrCmp_eq_zero {a b : List Char} (ha : ∀ c ∈ a, c.toNat ≠ 0)
    (hb : ∀ c ∈ b, c.toNat ≠ 0) (h : asciiStrCmp a b = 0) : a = b := by
  induction a generalizing b with
  | nil =>
    cases b with
    | nil => rfl
    | cons y ys =>
      simp only [asciiStrCmp] at h
      have := hb y (List.mem_cons_self _ _)
      omega
  | cons x xs ih =>
    cases b with
    | nil =>
      simp only [asciiStrCmp] at h
      have := ha x (List.mem_cons_self _ _)
      omega
    | cons y ys =>
      simp only [asciiStrCmp] at h
      split at h
      · rename_i hxy
        subst hxy
        rw [ih (fun c hc => ha c (List.mem_cons_of_mem _ hc))
          (fun c hc => hb c (List.mem_cons_of_mem _ hc)) h]
      · rename_i hxy
        exfalso
        apply hxy
        have e : x.toNat = y.toNat := by omega
        exact Char.ext (UInt32.ext (by simpa [Char.toNat, UInt32.toNat] using e))

/-- Claim C18.  `InternalPatchVtableSymbol` returns `TRUE` and leaves the child
symbol unchanged in each no-patch case.  The cases are tested in this order:
the parent entry's name is `NULL`; the child symbol is locally defined; the
child symbol's name is the pure-virtual marker; the child symbol's name equals
the parent entry's name.  Every one of them ends the call the same way, so it
is enough that one of them holds, whatever the tests before it gave. -/
theorem C18_no_patch_cases (H : VtableHelpers) (ParentEntry : PRELINKED_VTABLE_ENTRY)
    (VtableName : String) (Symbol : MACH_NLIST_64)
    (h : ParentEntry.Name = none
      ∨ H.MachoSymbolIsLocalDefined Symbol = true
      ∨ H.MachoSymbolNameIsPureVirtual (H.MachoGetSymbolName64 Symbol) = true
      ∨ ParentEntry.Name = some (H.MachoGetSymbolName64 Symbol)) :
    InternalPatchVtableSymbol H ParentEntry VtableName Symbol = (true, Symbol) := by
  unfold InternalPatchVtableSymbol
  cases hp : ParentEntry.Name with
  | none => rfl
  | some ParentName =>
    simp only
    split
    · rfl
    rename_i h2
    split
    · rfl
    rename_i h3
    split
    · rfl
    rename_i h4
    exfalso
    rcases h with h | h | h | h
    · rw [hp] at h
      cases h
    · exact h2 h
    · exact h3 h
    · rw [hp] at h
      cases h
      exact h4 (asciiStrCmp_self _)

/-- Claim C18 on four calls, one per case: a parent entry without a name; a
defined symbol; a symbol named `___cxa_pure_virtual`; a symbol that has the
name of the parent entry. -/
theorem C18_no_patch_cases_witness :
    InternalPatchVtableSymbol cxxHelpers { Name := none, Address := 0x8000 } "__ZTV3Foo"
        { StringIndex := 1, SymbolType := 0x01, Section := 0, Descriptor := 0, Value := 0 }
      = (true, { StringIndex := 1, SymbolType := 0x01, Section := 0, Descriptor := 0, Value := 0 })
    ∧ InternalPatchVtableSymbol cxxHelpers { Name := some "__ZN3Bar3barEv", Address := 0x8000 }
        "__ZTV3Foo"
        { StringIndex := 1, SymbolType := 0x0F, Section := 1, Descriptor := 0, Value := 0x40 }
      = (true,
        { StringIndex := 1, SymbolType := 0x0F, Section := 1, Descriptor := 0, Value := 0x40 })
    ∧ InternalPatchVtableSymbol cxxHelpers { Name := some "__ZN3Bar3barEv", Address := 0x8000 }
        "__ZTV3Foo"
        { StringIndex := 30, SymbolType := 0x01, Section := 0, Descriptor := 0, Value := 0 }
      = (true, { StringIndex := 30, SymbolType := 0x01, Section := 0, Descriptor := 0, Value := 0 })
    ∧ InternalPatchVtableSymbol cxxHelpers { Name := some "__ZN3Foo3barEv", Address := 0x8000 }
        "__ZTV3Foo"
        { StringIndex := 1, SymbolType := 0x01, Section := 0, Descriptor := 0, Value := 0 }
      = (true, { StringIndex := 1, SymbolType := 0x01, Section := 0, Descriptor := 0, Value := 0 }) :=
  ⟨C18_no_patch_cases cxxHelpers _ _ _ (Or.inl rfl),
    C18_no_patch_cases cxxHelpers _ _ _ (Or.inr (Or.inl (by decide))),
    C18_no_patch_cases cxxHelpers _ _ _ (Or.inr (Or.inr (Or.inl (by decide)))),
    C18_no_patch_cases cxxHelpers _ _ _ (Or.inr (Or.inr (Or.inr (by decide))))⟩

/-- Claim C19.  `InternalPatchVtableSymbol` returns `FALSE`, without modifying
the child symbol, when no no-patch case applies (the parent entry has a name,
the child symbol is not locally defined, its name is not the pure-virtual
marker, and `AsciiStrCmp` finds the two names different) and the parent
entry's name is a pad-slot marker. -/
theorem C19_pad_slot_mismatch_fails (H : VtableHelpers) (ParentEntry : PRELINKED_VTABLE_ENTRY)
    (VtableName : String) (Symbol : MACH_NLIST_64) (ParentName : String)
    (hname : ParentEntry.Name = some ParentName)
    (hlocal : H.MachoSymbolIsLocalDefined Symbol = false)
    (hpure : H.MachoSymbolNameIsPureVirtual (H.MachoGetSymbolName64 Symbol) = false)
    (hdiff : AsciiStrCmp (H.MachoGetSymbolName64 Symbol) ParentName ≠ 0)
    (hpad : H.MachoSymbolNameIsPadslot ParentName = true) :
    InternalPatchVtableSymbol H ParentEntry VtableName Symbol = (false, Symbol) := by
  unfold InternalPatchVtableSymbol
  rw [hname]
  simp [hlocal, hpure, hdiff, hpad]

/-- Claim C19 on an undefined symbol `__ZN3Foo3barEv` whose parent entry is the
pad slot `__ZN3Bar15_RESERVEDBar0Ev`. -/
theorem C19_pad_slot_mismatch_fails_witness :
    InternalPatchVtableSymbol cxxHelpers
        { Name := some "__ZN3Bar15_RESERVEDBar0Ev", Address := 0x8000 } "__ZTV3Foo"
        { StringIndex := 1, SymbolType := 0x01, Section := 0, Descriptor := 0, Value := 0 }
      = (false,
        { StringIndex := 1, SymbolType := 0x01, Section := 0, Descriptor := 0, Value := 0 }) :=
  C19_pad_slot_mismatch_fails cxxHelpers _ _ _ "__ZN3Bar15_RESERVEDBar0Ev" rfl (by decide)
    (by decide) (by decide) (by decide)

/-- In step 5 the function returns `FALSE` exactly when the function prefix
cannot be built or `AsciiStrCmp` finds the whole name of the child symbol equal
to the prefix; with any other name the symbol is patched. -/
theorem InternalPatchVtableSymbol_undefined (H : VtableHelpers)
    (ParentEntry : PRELINKED_VTABLE_ENTRY) (VtableName : String) (Symbol : MACH_NLIST_64)
    (ParentName FunctionPrefix : String)
    (hname : ParentEntry.Name = some ParentName)
    (hlocal : H.MachoSymbolIsLocalDefined Symbol = false)
    (hpure : H.MachoSymbolNameIsPureVirtual (H.MachoGetSymbolName64 Symbol) = false)
    (hdiff : AsciiStrCmp (H.MachoGetSymbolName64 Symbol) ParentName ≠ 0)
    (hpad : H.MachoSymbolNameIsPadslot ParentName = false)
    (hundef : H.MachoSymbolIsDefined Symbol = false)
    (hfp : H.MachoGetFunctionPrefixFromClassName
      (H.MachoGetClassNameFromVtableName VtableName) H.SYM_MAX_NAME_LEN = some FunctionPrefix) :
    InternalPatchVtableSymbol H ParentEntry VtableName Symbol
      = if AsciiStrCmp (H.MachoGetSymbolName64 Symbol) FunctionPrefix = 0 then (false, Symbol)
        else (true, H.InternalSolveSymbolValue64 ParentEntry.Address Symbol) := by
  unfold InternalPatchVtableSymbol patchVtableSymbol
  rw [hname]
  simp [hlocal, hpure, hdiff, hpad, hundef, hfp]

/-- Claim C20, the failing input.  The vtable is `__ZTV3Foo`, so the class name
is `3Foo` and the function prefix `__ZN3Foo`.  The child symbol is named
`__ZN3Foo3barEv`, which begins with that prefix, and is undefined (type
`N_UNDF | N_EXT`); the parent entry is `__ZN3Bar3barEv` at `0x8000`, no pad
slot.  No earlier case applies.  The call returns `TRUE` and has patched the
symbol to the address of the parent entry: `AsciiStrCmp (Name, FunctionPrefix)`
compares the whole name with the prefix and is zero only for a symbol named
`__ZN3Foo` itself, for which the call does return `FALSE`. -/
theorem C20_prefixed_undefined_symbol_patched :
    cxxHelpers.MachoGetFunctionPrefixFromClassName
        (cxxHelpers.MachoGetClassNameFromVtableName "__ZTV3Foo") cxxHelpers.SYM_MAX_NAME_LEN
      = some "__ZN3Foo"
    ∧ cxxHelpers.MachoGetSymbolName64
        { StringIndex := 1, SymbolType := 0x01, Section := 0, Descriptor := 0, Value := 0 }
      = "__ZN3Foo3barEv"
    ∧ "__ZN3Foo".data.isPrefixOf "__ZN3Foo3barEv".data = true
    ∧ cxxHelpers.MachoSymbolIsLocalDefined
        { StringIndex := 1, SymbolType := 0x01, Section := 0, Descriptor := 0, Value := 0 } = false
    ∧ cxxHelpers.MachoSymbolIsDefined
        { StringIndex := 1, SymbolType := 0x01, Section := 0, Descriptor := 0, Value := 0 } = false
    ∧ cxxHelpers.MachoSymbolNameIsPureVirtual "__ZN3Foo3barEv" = false
    ∧ AsciiStrCmp "__ZN3Foo3barEv" "__ZN3Bar3barEv" ≠ 0
    ∧ cxxHelpers.MachoSymbolNameIsPadslot "__ZN3Bar3barEv" = false
    ∧ InternalPatchVtableSymbol cxxHelpers { Name := some "__ZN3Bar3barEv", Address := 0x8000 }
        "__ZTV3Foo"
        { StringIndex := 1, SymbolType := 0x01, Section := 0, Descriptor := 0, Value := 0 }
      = (true,
        { StringIndex := 1, SymbolType := 0x03, Section := 0, Descriptor := 0, Value := 0x8000 })
    ∧ InternalPatchVtableSymbol cxxHelpers { Name := some "__ZN3Bar3barEv", Address := 0x8000 }
        "__ZTV3Foo"
        { StringIndex := 16, SymbolType := 0x01, Section := 0, Descriptor := 0, Value := 0 }
      = (false,
        { StringIndex := 16, SymbolType := 0x01, Section := 0, Descriptor := 0, Value := 0 }) := by
  refine ⟨by decide, by decide, by decide, by decide, by decide, by decide, by decide, by decide,
    by decide, by decide⟩

/-! ## `MachoExpandImage64`: termination, return value, stripping -/

/-- With as much fuel for the command walk as the header has commands, one
iteration of the segment loop ends. -/
theorem expandSegment_ne_none {K : MachoConstants} {m : Mem} {cfuel : Nat}
    {Context : OC_MACHO_CONTEXT} (t : Tiled m Context.MachHeader)
    (hcf : hdrNumCommands m Context.MachHeader ≤ cfuel)
    (DestinationSize HeaderSize : Nat) (st : ExpandState) (S : Nat) :
    expandSegment K m cfuel Context DestinationSize HeaderSize st S ≠ none := by
  have hcmd : ∀ ty, InternalGetNextCommand64 m cfuel Context ty none ≠ none := by
    intro ty
    unfold InternalGetNextCommand64
    simp only [Nat.mod_eq_of_lt t.window]
    exact nextCommandLoop_terminates t _ cfuel 0 (Nat.zero_le _) (by omega)
  have htab : ∀ d D delta, expandTables K m cfuel Context d D delta ≠ none := by
    intro d D delta
    unfold expandTables
    split
    · unfold expandLinkedit
      cases hsym : InternalGetNextCommand64 m cfuel Context K.MACH_LOAD_COMMAND_SYMTAB none with
      | none => exact absurd hsym (hcmd _)
      | some Symtab =>
        cases hdys : InternalGetNextCommand64 m cfuel Context K.MACH_LOAD_COMMAND_DYSYMTAB
            none with
        | none => exact absurd hdys (hcmd _)
        | some DySymtab => simp
    · simp
  simp only [expandSegment]
  split
  · simp
  split
  · simp
  split
  · simp
  split
  · simp
  split
  · rename_i e
    exact absurd e (htab _ _ _)
  · simp

/-- With one more unit of fuel than the header has commands (and as much fuel
for the command walk as it has commands), the segment loop of
`MachoExpandImage64` ends. -/
theorem expandLoop_terminates {K : MachoConstants} {m : Mem} {cfuel : Nat}
    {Context : OC_MACHO_CONTEXT} {DestinationSize HeaderSize : Nat}
    (t : Tiled m Context.MachHeader) (hcf : hdrNumCommands m Context.MachHeader ≤ cfuel) :
    ∀ (fuel : Nat) (prev : Option Nat) (st : ExpandState),
      (∀ p, prev = some p → IsLoadCommand m Context.MachHeader p) →
      (∀ k, k ≤ hdrNumCommands m Context.MachHeader →
        (∀ j, prev = some (cmdAddr m (hdrCommands Context.MachHeader) j) →
          j < hdrNumCommands m Context.MachHeader → j < k) →
        hdrNumCommands m Context.MachHeader - k + 1 ≤ fuel) →
      expandLoop K m cfuel Context DestinationSize HeaderSize fuel prev st ≠ none := by
  intro fuel
  induction fuel with
  | zero =>
    intro prev st _ hf
    have := hf _ (Nat.le_refl _) (fun j _ hj => hj)
    omega
  | succ fuel ih =>
    intro prev st hprev hf
    rw [expandLoop]
    cases hnext : MachoGetNextSegment64 K m cfuel Context prev with
    | none => exact absurd hnext (MachoGetNextSegment64_terminates t hcf hprev)
    | some o =>
      cases o with
      | none => simp
      | some Next =>
        simp only
        obtain ⟨_, _, k, hk, hNext, hlater⟩ := MachoGetNextSegment64_some t hprev hnext
        cases hseg : expandSegment K m cfuel Context DestinationSize HeaderSize st Next with
        | none => exact absurd hseg (expandSegment_ne_none t hcf _ _ _ _)
        | some r1 =>
          obtain ⟨flag, st1⟩ := r1
          cases flag with
          | false => simp
          | true =>
            simp only
            refine ih (some Next) st1 (fun p hp => by cases hp; exact ⟨k, hk, hNext⟩) ?_
            intro k2 hk2 hj
            have h1 := hf k (Nat.le_of_lt hk) hlater
            have h2 := hj k (by rw [hNext]) hk
            omega

/-- For an initialised context `MachoExpandImage64` returns once the fuel
exceeds the number of load commands. -/
theorem MachoExpandImage64_terminates {K : MachoConstants} {m : Mem} {fuel : Nat}
    {Context : OC_MACHO_CONTEXT} (hinit : Initialized K m Context)
    (hfuel : hdrNumCommands m Context.MachHeader < fuel) (dst0 : Mem) (DestinationSize : Nat)
    (Strip : Bool) :
    MachoExpandImage64 K m fuel Context dst0 DestinationSize Strip ≠ none := by
  unfold MachoExpandImage64
  simp only
  split
  · simp
  · have := @expandLoop_terminates K m fuel Context DestinationSize
      ((sizeofHeader64 + hdrCommandsSize m Context.MachHeader) % U32)
      hinit.tiled (Nat.le_of_lt hfuel) fuel none
      { dst := CopyMem dst0 0 m Context.MachHeader
          ((sizeofHeader64 + hdrCommandsSize m Context.MachHeader) % U32),
        CurrentDelta := 0, FirstSegment := none, CurrentSize := 0 }
      (fun p hp => by cases hp) (fun k hk _ => by omega)
    split
    · rename_i e
      exact absurd e this
    · simp
    · split
      · split <;> simp
      · simp

/-- A segment loop that ran to its end found `FileSize <= Size` in every
segment of the walk, and leaves a `CurrentSize` that is at most
`DestinationSize`. -/
theorem expandLoop_sizes {K : MachoConstants} {m : Mem} {cfuel : Nat}
    {Context : OC_MACHO_CONTEXT} {DestinationSize HeaderSize : Nat} :
    ∀ (fuel : Nat) (prev : Option Nat) (st st2 : ExpandState),
      expandLoop K m cfuel Context DestinationSize HeaderSize fuel prev st = some (true, st2) →
      (∀ S, S ∈ segmentWalk K m cfuel Context fuel prev → segFileSize m S ≤ segSize m S)
      ∧ (st.CurrentSize ≤ DestinationSize → st2.CurrentSize ≤ DestinationSize) := by
  intro fuel
  induction fuel with
  | zero => intro prev st st2 h; simp [expandLoop] at h
  | succ fuel ih =>
    intro prev st st2 h
    rw [expandLoop] at h
    rw [segmentWalk]
    cases hnext : MachoGetNextSegment64 K m cfuel Context prev with
    | none => rw [hnext] at h; cases h
    | some o =>
      rw [hnext] at h
      cases o with
      | none =>
        simp only [Option.some.injEq, Prod.mk.injEq, true_and] at h
        subst h
        exact ⟨fun S hS => by simp at hS, fun h0 => h0⟩
      | some Next =>
        simp only at h
        cases hseg : expandSegment K m cfuel Context DestinationSize HeaderSize st Next with
        | none => rw [hseg] at h; cases h
        | some r1 =>
          obtain ⟨flag, st1⟩ := r1
          rw [hseg] at h
          cases flag with
          | false => simp at h
          | true =>
            simp only at h
            obtain ⟨i1, i2⟩ := ih (some Next) st1 st2 h
            simp only [expandSegment] at hseg
            split at hseg
            · cases hseg
            rename_i hsz
            split at hseg
            · cases hseg
            split at hseg
            · cases hseg
            rename_i htri
            split at hseg
            · cases hseg
            split at hseg
            · cases hseg
            simp only [Option.some.injEq, Prod.mk.injEq, true_and] at hseg
            subst hseg
            simp only [not_or, not_lt, gt_iff_lt] at htri hsz
            refine ⟨fun S hS => ?_, fun _ => i2 htri.2⟩
            rcases List.mem_cons.1 hS with hS | hS
            · subst hS
              exact hsz
            · exact i1 S hS

/-- The value `MachoExpandImage64` returns is at most `DestinationSize`, and it
is 0 when the header with its commands does not fit the destination. -/
theorem MachoExpandImage64_le {K : MachoConstants} {m : Mem} {fuel : Nat}
    {Context : OC_MACHO_CONTEXT} {dst0 : Mem} {DestinationSize : Nat} {Strip : Bool}
    {r : Mem × Nat}
    (h : MachoExpandImage64 K m fuel Context dst0 DestinationSize Strip = some r) :
    r.2 ≤ DestinationSize
    ∧ ((sizeofHeader64 + hdrCommandsSize m Context.MachHeader) % U32 > DestinationSize →
        r = (dst0, 0)) := by
  unfold MachoExpandImage64 at h
  simp only at h
  split at h
  · simp only [Option.some.injEq] at h
    subst h
    exact ⟨Nat.zero_le _, fun _ => rfl⟩
  rename_i hfit
  refine ⟨?_, fun hgt => absurd hgt hfit⟩
  split at h
  · cases h
  · simp only [Option.some.injEq] at h
    subst h
    exact Nat.zero_le _
  · rename_i st hloop
    have hcs := (expandLoop_sizes _ _ _ _ hloop).2 (Nat.zero_le _)
    split at h
    · split at h
      · simp only [Option.some.injEq] at h
        subst h
        exact Nat.zero_le _
      · rename_i hfs
        simp only [Option.some.injEq] at h
        subst h
        exact Nat.le_trans (Nat.mod_le _ _) (Nat.le_of_not_gt hfs)
    · simp only [Option.some.injEq] at h
      subst h
      exact Nat.le_trans (Nat.mod_le _ _) hcs

/-- Claim C15.  `MachoExpandImage64` returns 0 whenever the segment walk
reaches a segment whose `FileSize` is greater than its virtual `Size`: if such
a segment is among the segments `MachoGetNextSegment64` enumerates, every
result of the call is 0, and for an initialised context the call returns once
the fuel exceeds the number of load commands. -/
theorem C15_file_size_above_virtual_size (K : MachoConstants) (m : Mem) (fuel : Nat)
    (Context : OC_MACHO_CONTEXT) (dst0 : Mem) (DestinationSize : Nat) (Strip : Bool) (S : Nat)
    (hS : S ∈ segmentWalk K m fuel Context fuel none)
    (hbad : segFileSize m S > segSize m S) :
    (∀ r, MachoExpandImage64 K m fuel Context dst0 DestinationSize Strip = some r → r.2 = 0)
    ∧ (Initialized K m Context → hdrNumCommands m Context.MachHeader < fuel →
        ∃ d, MachoExpandImage64 K m fuel Context dst0 DestinationSize Strip = some (d, 0)) := by
  have key : ∀ r, MachoExpandImage64 K m fuel Context dst0 DestinationSize Strip = some r →
      r.2 = 0 := by
    intro r h
    unfold MachoExpandImage64 at h
    simp only at h
    split at h
    · simp only [Option.some.injEq] at h
      subst h
      rfl
    split at h
    · cases h
    · simp only [Option.some.injEq] at h
      subst h
      rfl
    · rename_i st hloop
      have := (expandLoop_sizes _ _ _ _ hloop).1 S hS
      omega
  refine ⟨key, fun hinit hfuel => ?_⟩
  cases hres : MachoExpandImage64 K m fuel Context dst0 DestinationSize Strip with
  | none => exact absurd hres (MachoExpandImage64_terminates hinit hfuel _ _ _)
  | some r =>
    obtain ⟨d, n⟩ := r
    have := key _ hres
    simp only at this
    subst this
    exact ⟨d, rfl⟩

/-- Claim C15 on `shrunkImage`, whose segment has `FileSize` 512 and `Size`
`0x100`: the walk reaches the segment and the call returns 0. -/
theorem C15_file_size_above_virtual_size_witness :
    0x1038 ∈ segmentWalk appleConstants shrunkImage 3 (initializedContext 0x1000 512) 3 none
    ∧ segFileSize shrunkImage 0x1038 > segSize shrunkImage 0x1038
    ∧ ∃ d, MachoExpandImage64 appleConstants shrunkImage 3 (initializedContext 0x1000 512)
        blankDestination 0x2000 false = some (d, 0) :=
  ⟨by decide, by decide,
    (C15_file_size_above_virtual_size appleConstants shrunkImage 3
      (initializedContext 0x1000 512) blankDestination 0x2000 false 0x1038 (by decide)
      (by decide)).2 ⟨zeroContext, 0x1000, 512, by decide, by decide, by decide⟩ (by decide)⟩

/-- Claim C16, the failing input.  `hugeGrowthImage` is a 512-byte file that
`MachoInitializeContext` accepts.  Its first segment has file size `0x200` and
virtual size `0xFFFFFE00`, so it leaves the delta `0xFFFFFC00`; for the second
segment `MACHO_ALIGN` wraps that 32-bit delta to 0, the size test passes with
`CurrentSize = 0x200`, and the gap fill `ZeroMem (&Destination[CopyFileOffset +
OriginalDelta], CurrentDelta - OriginalDelta)` clears `0x400` bytes from index
`0xFFFFFE00` on.  With `DestinationSize = 0xFFFFFFFF` the call returns `0x200`,
and the bytes at the indices `0xFFFFFFFF` and `0x1000001FF` of the destination,
`0xAA` before the call, are cleared.

A second input comes from the fat slice of claim C5.  `fatShortSliceImage` is
accepted with `FileSize = 32`, while the header with its one 8-byte command
takes 40 bytes.  `MachoExpandImage64` with `DestinationSize = 64` copies the 40
bytes, finds no segment, and copies the raw file with the length `FileSize -
HeaderSize`, a 32-bit difference that wraps to `2 ^ 32 - 8`: it returns 32, and
the bytes at the indices 64, 100 and 100000 are overwritten. -/
theorem C16_write_beyond_destination :
    MachoInitializeContext appleConstants hugeGrowthImage zeroContext 0x1000 512
      = (true, initializedContext 0x1000 512)
    ∧ (MachoExpandImage64 appleConstants hugeGrowthImage 3 (initializedContext 0x1000 512)
        blankDestination 0xFFFFFFFF false).map
        (fun r => (r.2, r.1 0xFFFFFFFF, r.1 0x1000001FF, r.1 0x100000200))
      = some (0x200, 0, 0, 0xAA)
    ∧ (blankDestination 0xFFFFFFFF, blankDestination 0x1000001FF) = (0xAA, 0xAA)
    ∧ MachoInitializeContext appleConstants fatShortSliceImage zeroContext 0x1000 72
      = (true, initializedContext 0x1020 32)
    ∧ (MachoExpandImage64 appleConstants fatShortSliceImage 2 (initializedContext 0x1020 32)
        blankDestination 64 false).map (fun r => (r.2, r.1 64, r.1 100, r.1 100000))
      = some (32, 0, 0, 0)
    ∧ (blankDestination 64, blankDestination 100, blankDestination 100000)
      = (0xAA, 0xAA, 0xAA) := by
  refine ⟨by decide, by decide, by decide, by decide, by decide, by decide⟩

/-- Claim C17, the failing input.  In `signedImage` the code-signature command
(type `0x1D`) is followed directly by the function-starts command (type
`0x26`); both are among the six types `InternalStripLoadCommands64` removes.
`MachoExpandImage64` with `Strip = TRUE` returns `0x1000`, and the destination
header then has three load commands, the second of which is the
function-starts command: after the loop has moved the rest of the commands
over the code-signature command, it steps over the command that now sits in
its place. -/
theorem C17_adjacent_strip_command_kept :
    MachoInitializeContext appleConstants signedImage zeroContext 0x1000 0x1000
      = (true, initializedContext 0x1000 0x1000)
    ∧ (cmdType signedImage (cmdAddr signedImage 0x1020 1),
        cmdType signedImage (cmdAddr signedImage 0x1020 2)) = (0x1D, 0x26)
    ∧ (MachoExpandImage64 appleConstants signedImage 5 (initializedContext 0x1000 0x1000)
        blankDestination 0x1000 true).map
        (fun r => (r.2, hdrNumCommands r.1 0, hdrCommandsSize r.1 0,
          cmdType r.1 (cmdAddr r.1 32 0), cmdType r.1 (cmdAddr r.1 32 1),
          cmdType r.1 (cmdAddr r.1 32 2)))
      = some (0x1000, 3, 112, 0x19, 0x26, 0x1B)
    ∧ (0x26 : Nat) ∈ LoadCommandsToStrip appleConstants := by
  refine ⟨by decide, by decide, by decide, by decide⟩

/-! ## `MachoExpandImage64`: what the segment loop keeps of the header copy -/

theorem HeaderKept.carry {m : Mem} {h : Nat} {d d2 : Mem} {lo hi : Nat}
    (hk : HeaderKept m h d lo hi) (ha : AgreeOn d d2 lo hi) : HeaderKept m h d2 lo hi :=
  fun x h1 h2 => (ha x h1 h2).trans (hk x h1 h2)

theorem HeaderKept.sub {m : Mem} {h : Nat} {d : Mem} {lo hi lo2 hi2 : Nat}
    (hk : HeaderKept m h d lo hi) (h1 : lo ≤ lo2) (h2 : hi2 ≤ hi) : HeaderKept m h d lo2 hi2 :=
  fun x a b => hk x (by omega) (by omega)

theorem HeaderKept.byte {m : Mem} {h : Nat} {d : Mem} {lo hi a : Nat}
    (hk : HeaderKept m h d lo hi) (h1 : lo ≤ a) (h2 : a + 1 ≤ hi) : rd8 d a = rd8 m (h + a) := by
  unfold OcMacho.rd8
  rw [hk a h1 (by omega)]

theorem HeaderKept.word {m : Mem} {h : Nat} {d : Mem} {lo hi a : Nat}
    (hk : HeaderKept m h d lo hi) (h1 : lo ≤ a) (h2 : a + 4 ≤ hi) :
    rd32 d a = rd32 m (h + a) := by
  unfold OcMacho.rd32 OcMacho.rd8
  rw [hk a h1 (by omega), hk (a + 1) (by omega) (by omega), hk (a + 2) (by omega) (by omega),
    hk (a + 3) (by omega) (by omega)]
  simp only [Nat.add_assoc]

theorem HeaderKept.quad {m : Mem} {h : Nat} {d : Mem} {lo hi a : Nat}
    (hk : HeaderKept m h d lo hi) (h1 : lo ≤ a) (h2 : a + 8 ≤ hi) :
    rd64 d a = rd64 m (h + a) := by
  unfold OcMacho.rd64
  rw [hk.word h1 (by omega), hk.word (a := a + 4) (by omega) (by omega)]
  simp only [Nat.add_assoc]

/-- The copy of the header and its commands holds the bytes of the source. -/
theorem headerKept_copy (dst0 m : Mem) (h n : Nat) :
    HeaderKept m h (CopyMem dst0 0 m h n) 0 n := by
  intro x _ hx
  unfold CopyMem
  simp [hx]

theorem AvoidsTables.inside {K : MachoConstants} {m : Mem} {cfuel : Nat}
    {Context : OC_MACHO_CONTEXT} {lo hi lo2 hi2 : Nat}
    (h : AvoidsTables K m cfuel Context lo hi) (h1 : lo ≤ lo2) (h2 : hi2 ≤ hi) :
    AvoidsTables K m cfuel Context lo2 hi2 := by
  refine ⟨fun c hc => ?_, fun c hc => ?_⟩
  · rcases h.1 c hc with a | a
    · left; omega
    · right; omega
  · rcases h.2 c hc with a | a
    · left; omega
    · right; omega

/-- The `__LINKEDIT` branch stores nothing in a segment command, and nothing
behind the header. -/
theorem avoidsTables_tile {K : MachoConstants} {m : Mem} {cfuel : Nat}
    {Context : OC_MACHO_CONTEXT} {HeaderSize : Nat} (e : ExpandSetup K m cfuel Context HeaderSize) :
    (∀ k, k < hdrNumCommands m Context.MachHeader →
      cmdType m (cmdAddr m (hdrCommands Context.MachHeader) k) = K.MACH_LOAD_COMMAND_SEGMENT_64 →
      AvoidsTables K m cfuel Context
        (cmdAddr m (hdrCommands Context.MachHeader) k - Context.MachHeader)
        (cmdAddr m (hdrCommands Context.MachHeader) k - Context.MachHeader
          + cmdSize m (cmdAddr m (hdrCommands Context.MachHeader) k)))
    ∧ ∀ lo hi, HeaderSize ≤ lo → AvoidsTables K m cfuel Context lo hi := by
  have t := e.tiled
  have key : ∀ (ty c sz : Nat),
      InternalGetNextCommand64 m cfuel Context ty none = some (some c) → sz ≤ cmdSize m c →
      Context.MachHeader + 32 ≤ c ∧ c - Context.MachHeader + sz ≤ HeaderSize
      ∧ ∀ k, k < hdrNumCommands m Context.MachHeader → ty ≠ K.MACH_LOAD_COMMAND_SEGMENT_64 →
        cmdType m (cmdAddr m (hdrCommands Context.MachHeader) k)
          = K.MACH_LOAD_COMMAND_SEGMENT_64 →
        c - Context.MachHeader + sz
            ≤ cmdAddr m (hdrCommands Context.MachHeader) k - Context.MachHeader
          ∨ cmdAddr m (hdrCommands Context.MachHeader) k - Context.MachHeader
              + cmdSize m (cmdAddr m (hdrCommands Context.MachHeader) k)
            ≤ c - Context.MachHeader := by
    intro ty c sz hc hsz
    obtain ⟨t0, ht0, hc0, hty0⟩ := InternalGetNextCommand64_first t hc
    have hw0 := t.addr_lt_top ht0
    rw [← hc0] at hw0
    have hHdr : 32 + hdrCommandsSize m Context.MachHeader = HeaderSize := e.headerSize
    have hcm : hdrCommands Context.MachHeader = Context.MachHeader + 32 := rfl
    refine ⟨by omega, by omega, fun k hk hne hty => ?_⟩
    have hwk := (t.addr_lt_top hk).1
    rcases Nat.lt_trichotomy t0 k with h1 | h1 | h1
    · have := t.addr_le h1 (by omega)
      rw [← hc0] at this
      left
      omega
    · exfalso
      subst h1
      rw [← hc0] at hty
      exact hne (hty0.symm.trans hty)
    · have := t.addr_le h1 (by omega)
      rw [← hc0] at this
      right
      omega
  constructor
  · intro k hk hty
    constructor
    · intro c hc
      rcases (key _ c 24 hc (e.symtabSize c hc)).2.2 k hk e.symtabType hty with h | h
      · left; omega
      · right; omega
    · intro c hc
      rcases (key _ c 80 hc (e.dysymtabSize c hc)).2.2 k hk e.dysymtabType hty with h | h
      · left; omega
      · right; omega
  · intro lo hi hlo
    constructor
    · intro c hc
      have := (key _ c 24 hc (e.symtabSize c hc)).2.1
      left; omega
    · intro c hc
      have := (key _ c 80 hc (e.dysymtabSize c hc)).2.1
      left; omega

/-- The section loop stores only to the `Offset` fields of the section records
it runs over. -/
theorem expandSectionLoop_agree_outside (D : Nat) {lo hi : Nat} :
    ∀ (n Index : Nat) (st : Mem × Nat × Nat),
      hi ≤ D + 120 + 80 * Index ∨ D + 72 + 80 * (Index + n) ≤ lo →
      AgreeOn st.1 (expandSectionLoop D n Index st).1 lo hi := by
  intro n
  induction n with
  | zero => intro Index st _; exact AgreeOn.refl _ _ _
  | succ n ih =>
    intro Index st h
    obtain ⟨d, cd, cfo⟩ := st
    rw [expandSectionLoop]
    have hw : ∀ v, AgreeOn d (wr32 d (segSection D Index + 48) v) lo hi := fun v =>
      wr32_agree d _ v (by unfold segSection sizeofSegment64 sizeofSection64; omega)
    split
    · exact (hw _).trans (ih _ _ (by omega))
    · exact (hw _).trans (ih _ _ (by omega))

theorem OcOverflowTriAddU64_of_lt {a b c : Nat} (h : a + b + c < U64) :
    OcOverflowTriAddU64 a b c = (false, a + b + c) := by
  unfold OcOverflowTriAddU64
  rw [OcOverflowAddU64_of_lt (show a + b < U64 by omega)]
  simp only
  rw [OcOverflowAddU64_of_lt h]
  rfl

/-- The statement `DstSegment->FileOffset += CurrentDelta`, read back. -/
theorem expandFields_offset (dst : Mem) (D cd : Nat) :
    segFileOffset (expandFields dst D cd) D = (segFileOffset dst D + cd) % U64 := by
  unfold expandFields segFileOffset
  rw [(@wr64_agree _ (D + 48) _ (D + 40) (D + 48) (by omega)).rd64 (Nat.le_refl _)
    (Nat.le_refl _)]
  exact rd64_wr64_same _ _ _ (Nat.mod_lt _ (by decide))

/-- The bytes the three stores of segment data leave in the copy window: the
file bytes of the segment, then zeros up to the virtual size. -/
theorem expandData_bytes (dst m : Mem) (Source cfo cfs cvs od cd : Nat)
    (h1 : cfs ≤ cvs) (h2 : cfo + cd + cvs < U64) :
    (∀ i, i < cfs → expandData dst m Source cfo cfs cvs od cd (cfo + cd + i)
        = m (Source + cfo + i))
    ∧ (∀ i, cfs ≤ i → i < cvs → expandData dst m Source cfo cfs cvs od cd (cfo + cd + i) = 0) := by
  have e1 : (cfo + cd) % U64 = cfo + cd := Nat.mod_eq_of_lt (by omega)
  have e2 : (cfo + cd + cfs) % U64 = cfo + cd + cfs := Nat.mod_eq_of_lt (by omega)
  have e3 : (cvs + U64 - cfs) % U64 = cvs - cfs := by
    rw [show cvs + U64 - cfs = (cvs - cfs) + U64 by omega, Nat.add_mod_right]
    exact Nat.mod_eq_of_lt (by omega)
  unfold expandData
  rw [e1, e2, e3]
  constructor
  · intro i hi
    unfold ZeroMem CopyMem
    have a1 : ¬ (cfo + cd + cfs ≤ cfo + cd + i ∧ cfo + cd + i < cfo + cd + cfs + (cvs - cfs)) := by
      omega
    have a2 : cfo + cd ≤ cfo + cd + i ∧ cfo + cd + i < cfo + cd + cfs := by omega
    simp only [a1, a2, if_false, if_true, and_self]
    congr 1
    omega
  · intro i hi hi2
    unfold ZeroMem
    have a1 : cfo + cd + cfs ≤ cfo + cd + i ∧ cfo + cd + i < cfo + cd + cfs + (cvs - cfs) := by
      omega
    simp only [a1, and_self, if_true]

/-- One iteration of the segment loop that went through, for the `k`-th load
command, whose first 72 bytes the destination still holds as copied.  Below
the end of the header its stores go to the `FileOffset` and `FileSize` of the
segment command and to the section records of the command, and behind the
header the destination holds what the stores of segment data left. -/
theorem expandSegment_step {K : MachoConstants} {m : Mem} {cfuel : Nat}
    {Context : OC_MACHO_CONTEXT} {DestinationSize HeaderSize : Nat}
    (e : ExpandSetup K m cfuel Context HeaderSize) {st st2 : ExpandState} {k : Nat}
    (hk : k < hdrNumCommands m Context.MachHeader)
    (hchk : segmentChecks m Context (cmdAddr m (hdrCommands Context.MachHeader) k) = true)
    (hty : cmdType m (cmdAddr m (hdrCommands Context.MachHeader) k)
      = K.MACH_LOAD_COMMAND_SEGMENT_64)
    (hcd : st.CurrentDelta < U32)
    (hown : HeaderKept m Context.MachHeader st.dst
      (cmdAddr m (hdrCommands Context.MachHeader) k - Context.MachHeader)
      (cmdAddr m (hdrCommands Context.MachHeader) k - Context.MachHeader + 72))
    (h : expandSegment K m cfuel Context DestinationSize HeaderSize st
      (cmdAddr m (hdrCommands Context.MachHeader) k) = some (true, st2)) :
    (∀ lo hi, hi ≤ HeaderSize → AvoidsTables K m cfuel Context lo hi →
      (hi ≤ cmdAddr m (hdrCommands Context.MachHeader) k - Context.MachHeader + 40
        ∨ (cmdAddr m (hdrCommands Context.MachHeader) k - Context.MachHeader + 56 ≤ lo
          ∧ hi ≤ cmdAddr m (hdrCommands Context.MachHeader) k - Context.MachHeader + 72)
        ∨ cmdAddr m (hdrCommands Context.MachHeader) k - Context.MachHeader
            + cmdSize m (cmdAddr m (hdrCommands Context.MachHeader) k) ≤ lo) →
      AgreeOn st.dst st2.dst lo hi)
    ∧ (∀ x, HeaderSize ≤ x → st2.dst x
        = expandData st.dst m Context.MachHeader
          (copyFileOffset m (cmdAddr m (hdrCommands Context.MachHeader) k) HeaderSize)
          (copyFileSize m (cmdAddr m (hdrCommands Context.MachHeader) k) HeaderSize)
          (copyVmSize m (cmdAddr m (hdrCommands Context.MachHeader) k) HeaderSize)
          st.CurrentDelta (MACHO_ALIGN st.CurrentDelta) x)
    ∧ segFileOffset st2.dst (cmdAddr m (hdrCommands Context.MachHeader) k - Context.MachHeader)
      = (segFileOffset m (cmdAddr m (hdrCommands Context.MachHeader) k)
          + MACHO_ALIGN st.CurrentDelta) % U64
    ∧ copyFileSize m (cmdAddr m (hdrCommands Context.MachHeader) k) HeaderSize
      ≤ copyVmSize m (cmdAddr m (hdrCommands Context.MachHeader) k) HeaderSize
    ∧ copyFileOffset m (cmdAddr m (hdrCommands Context.MachHeader) k) HeaderSize
        + MACHO_ALIGN st.CurrentDelta
        + copyVmSize m (cmdAddr m (hdrCommands Context.MachHeader) k) HeaderSize < U64 := by
  generalize hS : cmdAddr m (hdrCommands Context.MachHeader) k = S at *
  have t := e.tiled
  obtain ⟨_, c1, c2, _, c4⟩ := segmentChecks_true hchk
  have hw := t.addr_lt_top hk
  rw [hS] at hw
  have hHdr : 32 + hdrCommandsSize m Context.MachHeader = HeaderSize := e.headerSize
  have hcm : hdrCommands Context.MachHeader = Context.MachHeader + 32 := rfl
  have hHS := e.headerSize_lt
  have hFS := e.fileSize_lt
  have c1 : 72 ≤ cmdSize m S := c1
  have c2 : 72 + 80 * segNumSections m S ≤ cmdSize m S := c2
  have hfo : segFileOffset m S < U32 := by omega
  have hav := (avoidsTables_tile e).1 k hk (by rw [hS]; exact hty)
  rw [hS] at hav
  have hSD : Context.MachHeader + (S - Context.MachHeader) = S := by omega
  simp only [expandSegment] at h
  split at h
  · cases h
  rename_i hsz
  split at h
  · cases h
  rename_i hclip
  split at h
  · cases h
  rename_i htri
  split at h
  · cases h
  rename_i hvchk
  split at h
  · cases h
  rename_i d6 hd6
  simp only [Option.some.injEq, Prod.mk.injEq, true_and] at h
  subst h
  simp only [not_or, Bool.not_eq_true, not_lt, ne_eq, Decidable.not_not] at htri
  obtain ⟨hw1, hw2, hw3⟩ := copy_window hHS hfo hsz hclip
  have ht := (OcOverflowTriAddU64_ok htri.1).2
  have hal := MACHO_ALIGN_lt st.CurrentDelta
  have b2 : copyFileOffset m S HeaderSize + st.CurrentDelta < U64 := by
    unfold U32 at hw2 hcd
    unfold U64
    omega
  have b3 : copyFileOffset m S HeaderSize + MACHO_ALIGN st.CurrentDelta
      + copyFileSize m S HeaderSize < U64 := by omega
  -- the stores up to the `__LINKEDIT` branch, on a range below the header's end
  have hpre : ∀ lo hi, hi ≤ HeaderSize → AvoidsTables K m cfuel Context lo hi →
      (hi ≤ S - Context.MachHeader + 40 ∨ S - Context.MachHeader + 56 ≤ lo) →
      AgreeOn st.dst d6 lo hi := by
    intro lo hi hhi havl hr
    exact ((expandData_agree _ _ _ _ _ _ _ _ (by omega) b2 b3).trans
      (expandFields_agree _ _ _ hr)).trans (expandTables_agree hd6 havl)
  have hn : segNumSections d6 (S - Context.MachHeader) = segNumSections m S := by
    have h1 := (hpre (S - Context.MachHeader + 64) (S - Context.MachHeader + 68) (by omega)
      (hav.inside (by omega) (by omega)) (Or.inr (by omega))).rd32 (Nat.le_refl _) (Nat.le_refl _)
    have h2 := hown.word (a := S - Context.MachHeader + 64) (by omega) (by omega)
    unfold segNumSections
    rw [h1, h2]
    congr 1
    omega
  refine ⟨?_, ?_, ?_, hw3, ht⟩
  · intro lo hi hhi havl hr
    simp only
    rw [hn]
    rcases hr with hr | hr | hr
    · exact (hpre lo hi hhi havl (Or.inl hr)).trans
        (expandSectionLoop_agree_outside _ _ _ _ (Or.inl (by omega)))
    · exact (hpre lo hi hhi havl (Or.inr hr.1)).trans
        (expandSectionLoop_agree_outside _ _ _ _ (Or.inl (by omega)))
    · refine (hpre lo hi hhi havl (Or.inr (by omega))).trans
        (expandSectionLoop_agree_outside _ _ _ _ (Or.inr (by omega)))
  · intro x hx
    simp only
    rw [hn]
    have a1 := expandSectionLoop_agree_outside (S - Context.MachHeader)
      (segNumSections m S) 0 (d6, MACHO_ALIGN st.CurrentDelta, segFileOffset m S)
      (Or.inr (show S - Context.MachHeader + 72 + 80 * (0 + segNumSections m S) ≤ x by omega))
      x (Nat.le_refl _) (Nat.lt_succ_self _)
    have a2 := expandTables_agree hd6 ((avoidsTables_tile e).2 x (x + 1) hx) x (Nat.le_refl _)
      (Nat.lt_succ_self _)
    have a3 := expandFields_agree
      (expandData st.dst m Context.MachHeader (copyFileOffset m S HeaderSize)
        (copyFileSize m S HeaderSize) (copyVmSize m S HeaderSize) st.CurrentDelta
        (MACHO_ALIGN st.CurrentDelta)) (S - Context.MachHeader) (MACHO_ALIGN st.CurrentDelta)
      (Or.inr (show S - Context.MachHeader + 56 ≤ x by omega)) x (Nat.le_refl _)
      (Nat.lt_succ_self _)
    exact a1.trans (a2.trans a3)
  · simp only
    rw [hn]
    have a1 := (expandSectionLoop_agree_outside (S - Context.MachHeader)
      (segNumSections m S) 0 (d6, MACHO_ALIGN st.CurrentDelta, segFileOffset m S)
      (Or.inl (show S - Context.MachHeader + 48 ≤ S - Context.MachHeader + 120 + 80 * 0 by
        omega))).rd64 (a := S - Context.MachHeader + 40) (Nat.le_refl _) (Nat.le_refl _)
    have a2 := (expandTables_agree hd6 (hav.inside (Nat.le_add_right _ 40)
      (show S - Context.MachHeader + 48 ≤ S - Context.MachHeader + cmdSize m S by omega))).rd64
      (a := S - Context.MachHeader + 40) (Nat.le_refl _) (Nat.le_refl _)
    have a3 := expandFields_offset
      (expandData st.dst m Context.MachHeader (copyFileOffset m S HeaderSize)
        (copyFileSize m S HeaderSize) (copyVmSize m S HeaderSize) st.CurrentDelta
        (MACHO_ALIGN st.CurrentDelta)) (S - Context.MachHeader) (MACHO_ALIGN st.CurrentDelta)
    have a4 := (expandData_agree st.dst m Context.MachHeader (copyFileOffset m S HeaderSize)
      (copyFileSize m S HeaderSize) (copyVmSize m S HeaderSize) st.CurrentDelta
      (MACHO_ALIGN st.CurrentDelta)
      (show S - Context.MachHeader + 48 ≤ copyFileOffset m S HeaderSize by omega) b2 b3).rd64
      (a := S - Context.MachHeader + 40) (Nat.le_refl _) (Nat.le_refl _)
    have a5 := hown.quad (a := S - Context.MachHeader + 40) (by omega) (by omega)
    refine (a1.trans (a2.trans a3)).trans ?_
    have a6 : segFileOffset (expandData st.dst m Context.MachHeader
        (copyFileOffset m S HeaderSize) (copyFileSize m S HeaderSize)
        (copyVmSize m S HeaderSize) st.CurrentDelta (MACHO_ALIGN st.CurrentDelta))
        (S - Context.MachHeader) = segFileOffset m S := by
      show rd64 _ (S - Context.MachHeader + 40) = rd64 m (S + 40)
      rw [a4, a5]
      congr 1
      omega
    rw [a6]

/-- One iteration of the segment loop goes through when the source segment, the
`k`-th load command, meets the conditions of `expandPlan` and the destination
still holds the first 72 bytes of the command as copied. -/
theorem expandSegment_ok {K : MachoConstants} {m : Mem} {cfuel : Nat}
    {Context : OC_MACHO_CONTEXT} {DestinationSize HeaderSize : Nat}
    (e : ExpandSetup K m cfuel Context HeaderSize) {st : ExpandState} {k F : Nat}
    (hk : k < hdrNumCommands m Context.MachHeader)
    (hchk : segmentChecks m Context (cmdAddr m (hdrCommands Context.MachHeader) k) = true)
    (hcd : st.CurrentDelta < U32)
    (hown : HeaderKept m Context.MachHeader st.dst
      (cmdAddr m (hdrCommands Context.MachHeader) k - Context.MachHeader)
      (cmdAddr m (hdrCommands Context.MachHeader) k - Context.MachHeader + 72))
    (hDS : DestinationSize < U64)
    (hF : st.FirstSegment.getD (cmdAddr m (hdrCommands Context.MachHeader) k) = F)
    (p1 : segFileSize m (cmdAddr m (hdrCommands Context.MachHeader) k)
      ≤ segSize m (cmdAddr m (hdrCommands Context.MachHeader) k))
    (p2 : segFileOffset m (cmdAddr m (hdrCommands Context.MachHeader) k) ≤ HeaderSize →
      HeaderSize ≤ segFileSize m (cmdAddr m (hdrCommands Context.MachHeader) k))
    (p3 : copyFileOffset m (cmdAddr m (hdrCommands Context.MachHeader) k) HeaderSize
        + MACHO_ALIGN st.CurrentDelta
        + copyVmSize m (cmdAddr m (hdrCommands Context.MachHeader) k) HeaderSize
      ≤ DestinationSize)
    (p4 : (segVirtualAddress m (cmdAddr m (hdrCommands Context.MachHeader) k) + U64
        - (segFileOffset m (cmdAddr m (hdrCommands Context.MachHeader) k)
          + MACHO_ALIGN st.CurrentDelta) % U64) % U64 = segVirtualAddress m F) :
    ∃ st2, expandSegment K m cfuel Context DestinationSize HeaderSize st
        (cmdAddr m (hdrCommands Context.MachHeader) k) = some (true, st2)
      ∧ st2.CurrentDelta = (MACHO_ALIGN st.CurrentDelta
          + (segSize m (cmdAddr m (hdrCommands Context.MachHeader) k)
            - segFileSize m (cmdAddr m (hdrCommands Context.MachHeader) k)) % U32) % U32
      ∧ st2.FirstSegment = some F
      ∧ st2.CurrentSize
        = copyFileOffset m (cmdAddr m (hdrCommands Context.MachHeader) k) HeaderSize
          + MACHO_ALIGN st.CurrentDelta
          + copyVmSize m (cmdAddr m (hdrCommands Context.MachHeader) k) HeaderSize := by
  generalize hS : cmdAddr m (hdrCommands Context.MachHeader) k = S at *
  have t := e.tiled
  obtain ⟨_, c1, c2, _, c4⟩ := segmentChecks_true hchk
  have hw := t.addr_lt_top hk
  rw [hS] at hw
  have hHdr : 32 + hdrCommandsSize m Context.MachHeader = HeaderSize := e.headerSize
  have hcm : hdrCommands Context.MachHeader = Context.MachHeader + 32 := rfl
  have hHS := e.headerSize_lt
  have hFS := e.fileSize_lt
  have c1 : 72 ≤ cmdSize m S := c1
  have hfo : segFileOffset m S < U32 := by omega
  have hsz : ¬ segFileSize m S > segSize m S := by omega
  have hv1 := rd64_lt m (S + 32)
  have hv2 := rd64_lt m (S + 48)
  have hsub : ∀ a b : Nat, b ≤ a → a < U64 → (a + U64 - b) % U64 = a - b := by
    intro a b hab ha
    rw [show a + U64 - b = (a - b) + U64 by omega, Nat.add_mod_right]
    exact Nat.mod_eq_of_lt (by omega)
  have hclip : ¬ (segFileOffset m S ≤ HeaderSize
      ∧ (copyFileSize m S HeaderSize > segFileSize m S
        ∨ copyVmSize m S HeaderSize > segSize m S)) := by
    rintro ⟨h1, h2⟩
    have h3 := p2 h1
    unfold copyFileSize copyVmSize at h2
    simp only [h1, if_true] at h2
    rw [hsub _ _ h3 hv2, hsub _ _ (Nat.le_trans h3 p1) hv1] at h2
    omega
  obtain ⟨hw1, hw2, hw3⟩ := copy_window hHS hfo hsz hclip
  have htri := OcOverflowTriAddU64_of_lt (show copyFileOffset m S HeaderSize
    + MACHO_ALIGN st.CurrentDelta + copyVmSize m S HeaderSize < U64 by omega)
  have hal := MACHO_ALIGN_lt st.CurrentDelta
  have b2 : copyFileOffset m S HeaderSize + st.CurrentDelta < U64 := by
    unfold U32 at hw2 hcd
    unfold U64
    omega
  have b3 : copyFileOffset m S HeaderSize + MACHO_ALIGN st.CurrentDelta
      + copyFileSize m S HeaderSize < U64 := by omega
  have hX : ∀ a, S - Context.MachHeader ≤ a → a + 8 ≤ S - Context.MachHeader + 72 →
      rd64 (expandData st.dst m Context.MachHeader (copyFileOffset m S HeaderSize)
        (copyFileSize m S HeaderSize) (copyVmSize m S HeaderSize) st.CurrentDelta
        (MACHO_ALIGN st.CurrentDelta)) a = rd64 m (Context.MachHeader + a) := by
    intro a ha1 ha2
    rw [(expandData_agree st.dst m Context.MachHeader (copyFileOffset m S HeaderSize)
      (copyFileSize m S HeaderSize) (copyVmSize m S HeaderSize) st.CurrentDelta
      (MACHO_ALIGN st.CurrentDelta)
      (show a + 8 ≤ copyFileOffset m S HeaderSize by omega) b2 b3).rd64
      (Nat.le_refl _) (Nat.le_refl _)]
    exact hown.quad ha1 ha2
  have hva : segVirtualAddress (expandFields (expandData st.dst m Context.MachHeader
      (copyFileOffset m S HeaderSize) (copyFileSize m S HeaderSize) (copyVmSize m S HeaderSize)
      st.CurrentDelta (MACHO_ALIGN st.CurrentDelta)) (S - Context.MachHeader)
      (MACHO_ALIGN st.CurrentDelta)) (S - Context.MachHeader) = segVirtualAddress m S := by
    show rd64 _ (S - Context.MachHeader + 24) = rd64 m (S + 24)
    rw [(expandFields_agree _ _ _ (Or.inl (show S - Context.MachHeader + 24 + 8
      ≤ S - Context.MachHeader + 40 by omega))).rd64 (Nat.le_refl _) (Nat.le_refl _),
      hX _ (by omega) (by omega)]
    congr 1
    omega
  have hfoff : segFileOffset (expandFields (expandData st.dst m Context.MachHeader
      (copyFileOffset m S HeaderSize) (copyFileSize m S HeaderSize) (copyVmSize m S HeaderSize)
      st.CurrentDelta (MACHO_ALIGN st.CurrentDelta)) (S - Context.MachHeader)
      (MACHO_ALIGN st.CurrentDelta)) (S - Context.MachHeader)
      = (segFileOffset m S + MACHO_ALIGN st.CurrentDelta) % U64 := by
    rw [expandFields_offset]
    have : segFileOffset (expandData st.dst m Context.MachHeader
        (copyFileOffset m S HeaderSize) (copyFileSize m S HeaderSize)
        (copyVmSize m S HeaderSize) st.CurrentDelta (MACHO_ALIGN st.CurrentDelta))
        (S - Context.MachHeader) = segFileOffset m S := by
      show rd64 _ (S - Context.MachHeader + 40) = rd64 m (S + 40)
      rw [hX _ (by omega) (by omega)]
      congr 1
      omega
    rw [this]
  cases hseg : expandSegment K m cfuel Context DestinationSize HeaderSize st S with
  | none => exact absurd hseg (expandSegment_ne_none t e.fuel _ _ _ _)
  | some r =>
    obtain ⟨flag, st2⟩ := r
    simp only [expandSegment, htri, hva, hfoff, hF, p4] at hseg
    rw [if_neg hsz, if_neg hclip] at hseg
    simp only [Bool.false_eq_true, false_or, gt_iff_lt, not_lt.2 p3, if_false, ne_eq,
      not_true_eq_false] at hseg
    split at hseg
    · cases hseg
    · simp only [Option.some.injEq, Prod.mk.injEq] at hseg
      obtain ⟨hflag, hst⟩ := hseg
      subst hflag
      subst hst
      refine ⟨_, rfl, ?_, rfl, rfl⟩
      simp only
      rw [hsub _ _ p1 hv1]

/-- One iteration of the segment loop that went through keeps what
`SegmentsKept` describes. -/
theorem expandSegment_kept {K : MachoConstants} {m : Mem} {cfuel : Nat}
    {Context : OC_MACHO_CONTEXT} {DestinationSize HeaderSize : Nat}
    (e : ExpandSetup K m cfuel Context HeaderSize) {st st2 : ExpandState} {k : Nat}
    {prev : Option Nat}
    (hk : k < hdrNumCommands m Context.MachHeader)
    (hchk : segmentChecks m Context (cmdAddr m (hdrCommands Context.MachHeader) k) = true)
    (hty : cmdType m (cmdAddr m (hdrCommands Context.MachHeader) k)
      = K.MACH_LOAD_COMMAND_SEGMENT_64)
    (hcd : st.CurrentDelta < U32)
    (hlater : ∀ j, prev = some (cmdAddr m (hdrCommands Context.MachHeader) j) →
      j < hdrNumCommands m Context.MachHeader → j < k)
    (hinv : SegmentsKept K m Context prev st.dst)
    (h : expandSegment K m cfuel Context DestinationSize HeaderSize st
      (cmdAddr m (hdrCommands Context.MachHeader) k) = some (true, st2)) :
    HeaderKept m Context.MachHeader st.dst
      (cmdAddr m (hdrCommands Context.MachHeader) k - Context.MachHeader)
      (cmdAddr m (hdrCommands Context.MachHeader) k - Context.MachHeader + 72)
    ∧ SegmentsKept K m Context (some (cmdAddr m (hdrCommands Context.MachHeader) k)) st2.dst := by
  have t := e.tiled
  have hown : HeaderKept m Context.MachHeader st.dst
      (cmdAddr m (hdrCommands Context.MachHeader) k - Context.MachHeader)
      (cmdAddr m (hdrCommands Context.MachHeader) k - Context.MachHeader + 72) := by
    obtain ⟨a1, a2, a3⟩ := hinv k hk hchk hty
    have a3 := a3 hlater
    intro x h1 h2
    by_cases c1 : x < cmdAddr m (hdrCommands Context.MachHeader) k - Context.MachHeader + 40
    · exact a1 x h1 c1
    · by_cases c2 : x < cmdAddr m (hdrCommands Context.MachHeader) k - Context.MachHeader + 56
      · exact a3 x (by omega) c2
      · exact a2 x (by omega) h2
  refine ⟨hown, ?_⟩
  obtain ⟨frame, _, _, _, _⟩ := expandSegment_step e hk hchk hty hcd hown h
  have hHdr : 32 + hdrCommandsSize m Context.MachHeader = HeaderSize := e.headerSize
  have hcm : hdrCommands Context.MachHeader = Context.MachHeader + 32 := rfl
  have hwk := t.addr_lt_top hk
  have ck : 72 ≤ cmdSize m (cmdAddr m (hdrCommands Context.MachHeader) k) :=
    (segmentChecks_true hchk).2.1
  intro j hj hchkj htyj
  have hwj := t.addr_lt_top hj
  have cj : 72 ≤ cmdSize m (cmdAddr m (hdrCommands Context.MachHeader) j) :=
    (segmentChecks_true hchkj).2.1
  have havj := (avoidsTables_tile e).1 j hj htyj
  obtain ⟨a1, a2, a3⟩ := hinv j hj hchkj htyj
  have hpos : j < k ∨ j = k ∨ k < j := Nat.lt_trichotomy j k
  refine ⟨a1.carry (frame _ _ (by omega) (havj.inside (by omega) (by omega)) ?_),
    a2.carry (frame _ _ (by omega) (havj.inside (by omega) (by omega)) ?_), fun hl => ?_⟩
  · rcases hpos with hp | hp | hp
    · have := t.addr_le hp (Nat.le_of_lt hk)
      left
      omega
    · subst hp
      left
      omega
    · have := t.addr_le hp (Nat.le_of_lt hj)
      right; right
      omega
  · rcases hpos with hp | hp | hp
    · have := t.addr_le hp (Nat.le_of_lt hk)
      left
      omega
    · subst hp
      right; left
      omega
    · have := t.addr_le hp (Nat.le_of_lt hj)
      right; right
      omega
  · have hkj : k < j := hl k rfl hk
    have := t.addr_le hkj (Nat.le_of_lt hj)
    refine (a3 (fun i hi hin => Nat.lt_trans (hlater i hi hin) hkj)).carry
      (frame _ _ (by omega) (havj.inside (by omega) (by omega)) (Or.inr (Or.inr (by omega))))

/-- The segment loop of `MachoExpandImage64` on a source whose remaining
segments meet `expandPlan`: it runs to its end, keeps the address and size
fields of every segment command, and leaves the data of the last segment it
visited in place. -/
theorem expandLoop_ok {K : MachoConstants} {m : Mem} {cfuel : Nat}
    {Context : OC_MACHO_CONTEXT} {DestinationSize HeaderSize F : Nat}
    (e : ExpandSetup K m cfuel Context HeaderSize) (hDS : DestinationSize < U64) :
    ∀ (fuel : Nat) (prev : Option Nat) (st : ExpandState),
      (∀ p, prev = some p → IsLoadCommand m Context.MachHeader p) →
      st.CurrentDelta < U32 →
      SegmentsKept K m Context prev st.dst →
      (∀ k, k ≤ hdrNumCommands m Context.MachHeader →
        (∀ j, prev = some (cmdAddr m (hdrCommands Context.MachHeader) j) →
          j < hdrNumCommands m Context.MachHeader → j < k) →
        hdrNumCommands m Context.MachHeader - k + 1 ≤ fuel) →
      (st.FirstSegment = some F
        ∨ (st.FirstSegment = none ∧ (segmentWalk K m cfuel Context fuel prev).head? = some F)) →
      expandPlan m HeaderSize DestinationSize F (segmentWalk K m cfuel Context fuel prev)
        st.CurrentDelta = true →
      ∃ st2, expandLoop K m cfuel Context DestinationSize HeaderSize fuel prev st
          = some (true, st2)
        ∧ (segmentWalk K m cfuel Context fuel prev = [] → st2 = st)
        ∧ (∃ last, SegmentsKept K m Context last st2.dst)
        ∧ ∀ S, (segmentWalk K m cfuel Context fuel prev).getLast? = some S →
            ∃ cd, st2.CurrentSize
                = copyFileOffset m S HeaderSize + cd + copyVmSize m S HeaderSize
              ∧ SegmentData m Context HeaderSize DestinationSize st2.dst S cd := by
  have t := e.tiled
  intro fuel
  induction fuel with
  | zero =>
    intro prev st _ _ _ hf
    have := hf _ (Nat.le_refl _) (fun j _ hj => hj)
    omega
  | succ fuel ih =>
    intro prev st hprev hcd hinv hf hF hplan
    rw [expandLoop]
    rw [segmentWalk] at hF hplan ⊢
    cases hnext : MachoGetNextSegment64 K m cfuel Context prev with
    | none => exact absurd hnext (MachoGetNextSegment64_terminates t e.fuel hprev)
    | some o =>
      cases o with
      | none =>
        refine ⟨st, rfl, fun _ => rfl, ⟨prev, hinv⟩, fun S hS => ?_⟩
        simp at hS
      | some Next =>
        rw [hnext] at hF hplan
        simp only at hF hplan ⊢
        obtain ⟨hchk, hty, k, hk, hNext, hlater⟩ := MachoGetNextSegment64_some t hprev hnext
        subst hNext
        simp only [expandPlan, Bool.and_eq_true, decide_eq_true_eq] at hplan
        obtain ⟨⟨⟨⟨p1, p2⟩, p3⟩, p4⟩, prest⟩ := hplan
        have hFk : st.FirstSegment.getD (cmdAddr m (hdrCommands Context.MachHeader) k) = F := by
          rcases hF with hF | ⟨hF, hhead⟩
          · rw [hF]; rfl
          · rw [hF]
            simp only [List.head?_cons, Option.some.injEq] at hhead
            rw [← hhead]
            rfl
        have hown : HeaderKept m Context.MachHeader st.dst
            (cmdAddr m (hdrCommands Context.MachHeader) k - Context.MachHeader)
            (cmdAddr m (hdrCommands Context.MachHeader) k - Context.MachHeader + 72) := by
          obtain ⟨a1, a2, a3⟩ := hinv k hk hchk hty
          have a3 := a3 hlater
          intro x h1 h2
          by_cases c1 : x < cmdAddr m (hdrCommands Context.MachHeader) k - Context.MachHeader + 40
          · exact a1 x h1 c1
          · by_cases c2 :
                x < cmdAddr m (hdrCommands Context.MachHeader) k - Context.MachHeader + 56
            · exact a3 x (by omega) c2
            · exact a2 x (by omega) h2
        obtain ⟨st1, hseg, hd1, hf1, hs1⟩ :=
          expandSegment_ok e hk hchk hcd hown hDS hFk p1 p2 p3 p4
        rw [hseg]
        simp only
        obtain ⟨_, hinv1⟩ := expandSegment_kept e hk hchk hty hcd hlater hinv hseg
        obtain ⟨_, hdata, hfoff, hw3, hlt⟩ := expandSegment_step e hk hchk hty hcd hown hseg
        have hcd1 : st1.CurrentDelta < U32 := by
          rw [hd1]
          exact Nat.mod_lt _ (by decide)
        rw [← hd1] at prest
        obtain ⟨st2, hloop, hnil, hkept, hlast⟩ := ih
          (some (cmdAddr m (hdrCommands Context.MachHeader) k)) st1
          (fun p hp => by cases hp; exact ⟨k, hk, rfl⟩) hcd1 hinv1
          (fun k2 hk2 hj => by
            have h1 := hf k (Nat.le_of_lt hk) hlater
            have h2 := hj k rfl hk
            omega)
          (Or.inl hf1) prest
        refine ⟨st2, hloop, fun hnil0 => by simp at hnil0, hkept, fun S hS => ?_⟩
        cases hrest : segmentWalk K m cfuel Context fuel
            (some (cmdAddr m (hdrCommands Context.MachHeader) k)) with
        | nil =>
          rw [hrest] at hS
          simp only [List.getLast?_singleton, Option.some.injEq] at hS
          subst hS
          have := hnil hrest
          subst this
          have hbytes := expandData_bytes st.dst m Context.MachHeader
            (copyFileOffset m (cmdAddr m (hdrCommands Context.MachHeader) k) HeaderSize)
            (copyFileSize m (cmdAddr m (hdrCommands Context.MachHeader) k) HeaderSize)
            (copyVmSize m (cmdAddr m (hdrCommands Context.MachHeader) k) HeaderSize)
            st.CurrentDelta (MACHO_ALIGN st.CurrentDelta) hw3 hlt
          have hHS : HeaderSize
              ≤ copyFileOffset m (cmdAddr m (hdrCommands Context.MachHeader) k) HeaderSize := by
            unfold copyFileOffset
            split <;> omega
          refine ⟨MACHO_ALIGN st.CurrentDelta, hs1, p3, hfoff, fun i hi => ?_, fun i hi hi2 => ?_⟩
          · rw [hdata _ (by omega)]
            exact hbytes.1 i hi
          · rw [hdata _ (by omega)]
            exact hbytes.2 i hi hi2
        | cons S2 rest =>
          rw [hrest] at hS
          rw [List.getLast?_cons_cons] at hS
          rw [hrest] at hlast
          exact hlast S hS

/-- Claim C14, the counterexample: the witness of the claim.  `gapImage` has
the segments `__TEXT` (virtual address 0, virtual size `0x1000`, file size
`0x1000`, file offset 0) and `__DATA` (virtual address `0x2000`, virtual size
`0x2000`, file size `0x1000`, file offset `0x1000`); it is accepted by
`MachoInitializeContext`, each file size is at most the virtual size, and the
destination of `0x8000` bytes is large enough.  `__TEXT` does not grow, so
`__DATA` keeps the file offset `0x1000`, which is not `0x2000 - 0`: the test
`DstSegment->VirtualAddress - DstSegment->FileOffset !=
FirstSegment->VirtualAddress` fails and `MachoExpandImage64` returns 0. -/
theorem C14_gap_between_segments_rejected :
    MachoInitializeContext appleConstants gapImage zeroContext 0x1000 0x2000
      = (true, initializedContext 0x1000 0x2000)
    ∧ segmentWalk appleConstants gapImage 3 (initializedContext 0x1000 0x2000) 3 none
      = [0x1020, 0x1068]
    ∧ (segVirtualAddress gapImage 0x1020, segSize gapImage 0x1020, segFileOffset gapImage 0x1020,
        segFileSize gapImage 0x1020) = (0, 0x1000, 0, 0x1000)
    ∧ (segVirtualAddress gapImage 0x1068, segSize gapImage 0x1068, segFileOffset gapImage 0x1068,
        segFileSize gapImage 0x1068) = (0x2000, 0x2000, 0x1000, 0x1000)
    ∧ (MachoExpandImage64 appleConstants gapImage 3 (initializedContext 0x1000 0x2000)
        blankDestination 0x8000 false).map (fun r => (r.2, segFileOffset r.1 104))
      = some (0, 0x1000) := by
  refine ⟨by decide, by decide, by decide, by decide, by decide⟩

/-- Claim C14, amended.  Let the context be an initialised one whose first
symtab and first dysymtab command, where present, have at least the size of
their structures, and let the segments `MachoGetNextSegment64` enumerates meet
`expandPlan` for a destination of `DestinationSize` bytes: each has a file size
at most its virtual size, a segment that starts at or below the end of the
header holds the whole header, each expanded segment ends at or below
`DestinationSize`, and the file offset of each segment plus the page-aligned
growth of the segments before it is `VirtualAddress` minus the virtual address
of the first segment.  Then `MachoExpandImage64` with `Strip = FALSE` succeeds:
it returns a non-zero size of at most `DestinationSize`; every segment is
placed at the file offset `VirtualAddress - first_segment.VirtualAddress` with
file size equal to its virtual size; and for the last segment, when it starts
behind the header, the destination holds the file bytes of the segment from
that file offset on, followed by zeros up to the virtual size. -/
theorem C14_expand_consistent_layout (K : MachoConstants) (m : Mem) (fuel : Nat)
    (Context : OC_MACHO_CONTEXT) (dst0 : Mem) (DestinationSize F : Nat)
    (hinit : Initialized K m Context)
    (hK1 : K.MACH_LOAD_COMMAND_SYMTAB ≠ K.MACH_LOAD_COMMAND_SEGMENT_64)
    (hK2 : K.MACH_LOAD_COMMAND_DYSYMTAB ≠ K.MACH_LOAD_COMMAND_SEGMENT_64)
    (hsym : ∀ c, InternalGetNextCommand64 m fuel Context K.MACH_LOAD_COMMAND_SYMTAB none
      = some (some c) → 24 ≤ cmdSize m c)
    (hdys : ∀ c, InternalGetNextCommand64 m fuel Context K.MACH_LOAD_COMMAND_DYSYMTAB none
      = some (some c) → 80 ≤ cmdSize m c)
    (hfuel : hdrNumCommands m Context.MachHeader < fuel)
    (hDS : DestinationSize < U32)
    (hF : (segmentWalk K m fuel Context fuel none).head? = some F)
    (hplan : expandPlan m (sizeofHeader64 + hdrCommandsSize m Context.MachHeader)
      DestinationSize F (segmentWalk K m fuel Context fuel none) 0 = true) :
    ∃ r, MachoExpandImage64 K m fuel Context dst0 DestinationSize false = some r
      ∧ r.2 ≠ 0 ∧ r.2 ≤ DestinationSize
      ∧ (∀ S, S ∈ segmentWalk K m fuel Context fuel none →
          segFileOffset r.1 (S - Context.MachHeader)
            = (segVirtualAddress m S + U64 - segVirtualAddress m F) % U64
          ∧ segFileSize r.1 (S - Context.MachHeader) = segSize m S)
      ∧ (∀ S, (segmentWalk K m fuel Context fuel none).getLast? = some S →
          sizeofHeader64 + hdrCommandsSize m Context.MachHeader < segFileOffset m S →
          (∀ i, i < segFileSize m S →
            r.1 (segFileOffset r.1 (S - Context.MachHeader) + i)
              = m (Context.MachHeader + segFileOffset m S + i))
          ∧ (∀ i, segFileSize m S ≤ i → i < segSize m S →
            r.1 (segFileOffset r.1 (S - Context.MachHeader) + i) = 0)) := by
  have t := hinit.tiled
  have hlt := hinit.header_lt
  have e : ExpandSetup K m fuel Context (sizeofHeader64 + hdrCommandsSize m Context.MachHeader) :=
    ⟨t, rfl, hlt, hinit.fileSize_lt, Nat.le_of_lt hfuel, hK1, hK2, hsym, hdys⟩
  have hHS : (sizeofHeader64 + hdrCommandsSize m Context.MachHeader) % U32
      = sizeofHeader64 + hdrCommandsSize m Context.MachHeader := Nat.mod_eq_of_lt hlt
  have hDS64 : DestinationSize < U64 := by
    unfold U32 at hDS
    unfold U64
    omega
  have hcm : hdrCommands Context.MachHeader = Context.MachHeader + 32 := rfl
  have hsz : sizeofHeader64 = 32 := rfl
  have hinv0 : SegmentsKept K m Context none
      (CopyMem dst0 0 m Context.MachHeader
        (sizeofHeader64 + hdrCommandsSize m Context.MachHeader)) := by
    intro k hk hchk hty
    have hw := t.addr_lt_top hk
    have ck : 72 ≤ cmdSize m (cmdAddr m (hdrCommands Context.MachHeader) k) :=
      (segmentChecks_true hchk).2.1
    have base := headerKept_copy dst0 m Context.MachHeader
      (sizeofHeader64 + hdrCommandsSize m Context.MachHeader)
    exact ⟨base.sub (Nat.zero_le _) (by omega), base.sub (Nat.zero_le _) (by omega),
      fun _ => base.sub (Nat.zero_le _) (by omega)⟩
  obtain ⟨st2, hloop, _, ⟨last, hkept⟩, hlast⟩ := expandLoop_ok e hDS64 fuel none
    { dst := CopyMem dst0 0 m Context.MachHeader
        (sizeofHeader64 + hdrCommandsSize m Context.MachHeader),
      CurrentDelta := 0, FirstSegment := none, CurrentSize := 0 }
    (fun p hp => by cases hp) (by show 0 < U32; decide) hinv0 (fun k hk _ => by omega)
    (Or.inr ⟨rfl, hF⟩) hplan
  have hne : segmentWalk K m fuel Context fuel none ≠ [] := by
    intro h0
    rw [h0] at hF
    cases hF
  obtain ⟨L, hL⟩ : ∃ L, (segmentWalk K m fuel Context fuel none).getLast? = some L := by
    cases hg : (segmentWalk K m fuel Context fuel none).getLast? with
    | none => exact absurd (List.getLast?_eq_none_iff.1 hg) hne
    | some L => exact ⟨L, rfl⟩
  obtain ⟨cdL, hcs, hfit, _, _, _⟩ := hlast L hL
  have hcfo : sizeofHeader64 + hdrCommandsSize m Context.MachHeader
      ≤ copyFileOffset m L (sizeofHeader64 + hdrCommandsSize m Context.MachHeader) := by
    unfold copyFileOffset
    split <;> omega
  have hcur : st2.CurrentSize ≠ 0 := by omega
  have hres : MachoExpandImage64 K m fuel Context dst0 DestinationSize false
      = some (st2.dst, st2.CurrentSize % U32) := by
    unfold MachoExpandImage64
    simp only [hHS]
    rw [if_neg (by omega), hloop]
    simp only [hcur, if_false, Bool.false_eq_true]
  have hmod : st2.CurrentSize % U32 = st2.CurrentSize := Nat.mod_eq_of_lt (by omega)
  refine ⟨_, hres, ?_, ?_, ?_, ?_⟩
  · simp only
    omega
  · simp only
    omega
  · intro S hS
    simp only
    obtain ⟨i1, _⟩ := expandLoop_spec t hlt (Nat.le_refl _) hinit.fileSize_lt
      (fun k hk hchk hty => ((avoidsTables_tile e).1 k hk hty).inside (by omega)
        (by have := (segmentChecks_true hchk).2.1; unfold sizeofSegment64 at this; omega))
      fuel none _ st2 (fun p hp => by cases hp) (by show 0 < U32; decide) hloop
    obtain ⟨hexp1, hexp2⟩ := i1 F (Or.inr ⟨rfl, hF⟩) S hS
    obtain ⟨k, hk, hSk, hchk, hty⟩ := segmentWalk_mem t fuel none (fun p hp => by cases hp) S hS
    obtain ⟨a1, _, _⟩ := hkept k hk (by rw [← hSk]; exact hchk) (by rw [← hSk]; exact hty)
    rw [← hSk] at a1
    have hw := t.addr_lt_top hk
    rw [← hSk] at hw
    have hva : segVirtualAddress st2.dst (S - Context.MachHeader) = segVirtualAddress m S := by
      show rd64 _ (S - Context.MachHeader + 24) = rd64 m (S + 24)
      rw [a1.quad (by omega) (by omega)]
      congr 1
      omega
    have hvs : segSize st2.dst (S - Context.MachHeader) = segSize m S := by
      show rd64 _ (S - Context.MachHeader + 32) = rd64 m (S + 32)
      rw [a1.quad (by omega) (by omega)]
      congr 1
      omega
    rw [hva] at hexp2
    rw [hvs] at hexp1
    refine ⟨?_, hexp1⟩
    have b1 := rd64_lt m (S + 24)
    have b2 := rd64_lt m (F + 24)
    have b3 := rd64_lt st2.dst (S - Context.MachHeader + 40)
    unfold segVirtualAddress segFileOffset at *
    unfold U64 at *
    omega
  · intro S hS hbehind
    simp only
    obtain ⟨cd, _, hfitS, hfoff, hfile, hzero⟩ := hlast S hS
    have c1 : copyFileOffset m S (sizeofHeader64 + hdrCommandsSize m Context.MachHeader)
        = segFileOffset m S := by
      unfold copyFileOffset
      rw [if_neg (by omega)]
    have c2 : copyFileSize m S (sizeofHeader64 + hdrCommandsSize m Context.MachHeader)
        = segFileSize m S := by
      unfold copyFileSize
      rw [if_neg (by omega)]
    have c3 : copyVmSize m S (sizeofHeader64 + hdrCommandsSize m Context.MachHeader)
        = segSize m S := by
      unfold copyVmSize
      rw [if_neg (by omega)]
    rw [c1, c2] at hfile
    rw [c1, c2, c3] at hzero
    rw [c1, c3] at hfitS
    rw [hfoff, Nat.mod_eq_of_lt (by omega)]
    exact ⟨hfile, hzero⟩

/-- Claim C14, amended, on `packedImage`: the source of the claim's witness
with the virtual size of `__TEXT` raised to `0x2000`, so that `__DATA` (virtual
address `0x2000`, virtual size `0x2000`, file size `0x1000`, file offset
`0x1000`) has to move by `0x1000`.  The call returns `0x4000`; `__TEXT` keeps
file offset 0 and gets file size `0x2000`; `__DATA` has file offset `0x2000` and
file size `0x2000`; the destination bytes `[0x2000, 0x3000)` are the source
bytes at the file offsets `[0x1000, 0x2000)`, and the bytes `[0x3000, 0x4000)`
are zero. -/
theorem C14_expand_consistent_layout_witness :
    ∃ r, MachoExpandImage64 appleConstants packedImage 3 (initializedContext 0x1000 0x2000)
        blankDestination 0x8000 false = some r
      ∧ r.2 = 0x4000
      ∧ (segFileOffset r.1 32, segFileSize r.1 32) = (0, 0x2000)
      ∧ (segFileOffset r.1 104, segFileSize r.1 104) = (0x2000, 0x2000)
      ∧ (∀ i, i < 0x1000 → r.1 (0x2000 + i) = packedImage (0x1000 + 0x1000 + i))
      ∧ (∀ i, 0x1000 ≤ i → i < 0x2000 → r.1 (0x2000 + i) = 0) := by
  obtain ⟨r, hr, _, _, hplace, hdata⟩ :=
    C14_expand_consistent_layout appleConstants packedImage 3 (initializedContext 0x1000 0x2000)
      blankDestination 0x8000 0x1020
      ⟨zeroContext, 0x1000, 0x2000, by decide, by decide, by decide⟩
      (by decide) (by decide)
      (fun c hc => by
        rw [show InternalGetNextCommand64 packedImage 3 (initializedContext 0x1000 0x2000)
          appleConstants.MACH_LOAD_COMMAND_SYMTAB none = some none by decide] at hc
        cases hc)
      (fun c hc => by
        rw [show InternalGetNextCommand64 packedImage 3 (initializedContext 0x1000 0x2000)
          appleConstants.MACH_LOAD_COMMAND_DYSYMTAB none = some none by decide] at hc
        cases hc)
      (by decide) (by decide) (by decide) (by decide)
  have hret : (MachoExpandImage64 appleConstants packedImage 3 (initializedContext 0x1000 0x2000)
      blankDestination 0x8000 false).map Prod.snd = some 0x4000 := by decide
  rw [hr] at hret
  have hwalk : segmentWalk appleConstants packedImage 3 (initializedContext 0x1000 0x2000) 3 none
      = [0x1020, 0x1068] := by decide
  rw [hwalk] at hplace hdata
  have hT := hplace 0x1020 (by decide)
  have hD := hplace 0x1068 (by decide)
  have hL := hdata 0x1068 (by decide) (by decide)
  have eH : (initializedContext 0x1000 0x2000).MachHeader = 0x1000 := rfl
  rw [eH] at hT hD hL
  rw [show (segVirtualAddress packedImage 0x1020 + U64 - segVirtualAddress packedImage 0x1020)
      % U64 = 0 by decide, show segSize packedImage 0x1020 = 0x2000 by decide] at hT
  rw [show (segVirtualAddress packedImage 0x1068 + U64 - segVirtualAddress packedImage 0x1020)
      % U64 = 0x2000 by decide, show segSize packedImage 0x1068 = 0x2000 by decide] at hD
  rw [show (0x1068 : Nat) - 0x1000 = 104 by decide] at hD hL
  rw [show (0x1020 : Nat) - 0x1000 = 32 by decide] at hT
  rw [hD.1, show segFileSize packedImage 0x1068 = 0x1000 by decide,
    show segSize packedImage 0x1068 = 0x2000 by decide,
    show segFileOffset packedImage 0x1068 = 0x1000 by decide] at hL
  refine ⟨r, hr, by simpa using hret, ?_, ?_, hL.1, hL.2⟩
  · rw [hT.1, hT.2]
  · rw [hD.1, hD.2]

/-! ## Darwin versions -/

/-- C25: `OcMatchDarwinVersion` on a known version holds exactly when the
version is inside the window, a maximum of 0 meaning no upper bound; on the
unknown version 0 it holds exactly when the maximum is 0, whatever the
minimum, so `match (0, 100000, 200000)` is false and `match (0, m, 0)` true. -/
theorem C25_match_darwin_version (current min max : Nat) :
    (current ≠ 0 →
      (OcMatchDarwinVersion current min max = true ↔ min ≤ current ∧ (max = 0 ∨ current ≤ max))) ∧
    (current = 0 → (OcMatchDarwinVersion current min max = true ↔ max = 0)) ∧
    OcMatchDarwinVersion 0 100000 200000 = false ∧
    OcMatchDarwinVersion 0 min 0 = true := by
  refine ⟨fun h => ?_, fun h => ?_, by decide, by simp [OcMatchDarwinVersion]⟩
  · unfold OcMatchDarwinVersion
    by_cases hm : max = 0
    · subst hm
      by_cases h1 : current < min <;> simp [h, h1]
      omega
    · by_cases h1 : current < min <;> by_cases h2 : current > max <;> simp [h, hm, h1, h2]
      omega
  · subst h
    unfold OcMatchDarwinVersion
    by_cases hm : max = 0 <;> simp [hm]

theorem C25_match_darwin_version_witness :
    101504 ≠ 0
    ∧ (OcMatchDarwinVersion 101504 100000 110000 = true
      ↔ 100000 ≤ 101504 ∧ (110000 = 0 ∨ 101504 ≤ 110000)) :=
  ⟨by decide, (C25_match_darwin_version 101504 100000 110000).1 (by decide)⟩

/-- C26: `OcMatchDarwinVersion` is monotone in the window: a version accepted
for the window `lo .. hi` is accepted for every window with a minimum
`lo2 ≤ lo` and a maximum `hi2` that is 0 or, with `hi ≠ 0`, at least `hi`. -/
theorem C26_match_window_monotone (v lo hi lo2 hi2 : Nat)
    (hlo : lo2 ≤ lo) (hhi : hi2 = 0 ∨ (hi ≠ 0 ∧ hi2 ≥ hi))
    (hm : OcMatchDarwinVersion v lo hi = true) :
    OcMatchDarwinVersion v lo2 hi2 = true := by
  unfold OcMatchDarwinVersion at hm ⊢
  by_cases hv : v = 0
  · subst hv
    by_cases h0 : hi = 0
    · rcases hhi with h | ⟨h, _⟩
      · simp [h]
      · exact absurd h0 h
    · simp [h0] at hm
  · simp only [hv, if_false] at hm ⊢
    by_cases h0 : hi = 0
    · subst h0
      rcases hhi with h | ⟨h, _⟩
      · subst h
        by_cases h1 : v < lo
        · simp [h1] at hm
        · have : ¬ v < lo2 := by omega
          simp [this]
      · exact absurd rfl h
    · simp only [h0, if_false] at hm
      by_cases h2 : v > hi
      · simp [h2] at hm
      · by_cases h1 : v < lo
        · simp [h2, h1] at hm
        · have h3 : ¬ v < lo2 := by omega
          rcases hhi with h | ⟨_, h⟩
          · subst h
            simp [h3]
          · by_cases h4 : hi2 = 0
            · subst h4
              simp [h3]
            · have h5 : ¬ v > hi2 := by omega
              simp [h4, h5, h3]

theorem C26_match_window_monotone_witness :
    OcMatchDarwinVersion 101504 100000 110000 = true ∧
    OcMatchDarwinVersion 101504 90000 120000 = true :=
  ⟨by decide, C26_match_window_monotone 101504 100000 110000 90000 120000 (by decide)
    (Or.inr ⟨by decide, by decide⟩) (by decide)⟩

theorem digitChar_toNat (d : Nat) (h : d < 10) : (Nat.digitChar d).toNat = 48 + d := by
  interval_cases d <;> rfl

theorem parseDigitStep_digit (d : Nat) (h : d < 10) (s : List Char) (vp : Nat)
    (hvp : vp * 10 + d < U32) :
    parseDigitStep (Nat.digitChar d :: s) vp = some (s, vp * 10 + d) := by
  have hc : cstrHead (Nat.digitChar d :: s) = 48 + d := digitChar_toNat d h
  have hU : U32 = 4294967296 := rfl
  unfold parseDigitStep
  simp only [hc, hU, List.tail_cons]
  rw [if_pos (by omega), if_pos (by omega)]
  simp only [Option.some.injEq, Prod.mk.injEq, true_and]
  omega

theorem parseDigitStep_end (s : List Char) (vp : Nat)
    (h : cstrHead s = 46 ∨ cstrHead s = 0) : parseDigitStep s vp = some (s, vp) := by
  unfold parseDigitStep
  rw [if_neg (by omega), if_neg (by omega), if_neg (by omega)]

/-- The inner loop of `OcParseDarwinVersion` reads a component of one or two
digits, or an empty one (as 0), when a dot or the end of the string follows. -/
theorem parsePart_component (n : Nat) (r rest : List Char) (hn : n ≤ 99)
    (hr : IsComponent n r ∨ (n = 0 ∧ r = []))
    (hrest : cstrHead rest = 46 ∨ cstrHead rest = 0) :
    parsePart (r ++ rest) = some (rest, n) := by
  have h1 : n / 10 < 10 := by omega
  have h2 : n % 10 < 10 := by omega
  have hU : U32 = 4294967296 := rfl
  rcases hr with (hr | ⟨h10, hr⟩) | ⟨h0, hr⟩
  · subst hr
    simp only [parsePart, twoDigits, List.cons_append, List.nil_append]
    rw [parseDigitStep_digit _ h1 _ _ (by omega)]
    simp only []
    rw [parseDigitStep_digit _ h2 _ _ (by omega)]
    simp only [Option.some.injEq, Prod.mk.injEq, true_and]
    omega
  · subst hr
    simp only [parsePart, List.cons_append, List.nil_append]
    rw [parseDigitStep_digit _ h10 _ _ (by omega)]
    simp only []
    rw [parseDigitStep_end _ _ hrest]
    simp
  · subst hr h0
    simp only [parsePart, List.nil_append]
    rw [parseDigitStep_end _ _ hrest]
    simp only []
    rw [parseDigitStep_end _ _ hrest]

/-- One round of the outer loop on a component followed by a dot. -/
theorem parseLoop_dot (k n V : Nat) (r rest : List Char) (hn : n ≤ 99) (hV : V ≤ 9999)
    (hr : IsComponent n r ∨ (n = 0 ∧ r = [])) :
    parseLoop (k + 1) (r ++ '.' :: rest) V = parseLoop k rest (V * 100 + n) := by
  have hU : U32 = 4294967296 := rfl
  have e : parsePart (r ++ '.' :: rest) = some ('.' :: rest, n) :=
    parsePart_component n r ('.' :: rest) hn hr (Or.inl rfl)
  rw [parseLoop, e]
  simp only []
  have e2 : cstrHead ('.' :: rest) = 46 := rfl
  rw [if_pos e2, List.tail_cons, hU]
  congr 1
  omega

/-- One round of the outer loop on a component that ends the string. -/
theorem parseLoop_last (k n V : Nat) (r : List Char) (hn : n ≤ 99) (hV : V ≤ 9999)
    (hr : IsComponent n r ∨ (n = 0 ∧ r = [])) :
    parseLoop (k + 1) r V = parseLoop k [] (V * 100 + n) := by
  have hU : U32 = 4294967296 := rfl
  have e : parsePart (r ++ []) = some ([], n) :=
    parsePart_component n r [] hn hr (Or.inr rfl)
  rw [List.append_nil] at e
  rw [parseLoop, e]
  simp only []
  have e2 : cstrHead ([] : List Char) ≠ 46 := by decide
  rw [if_neg e2, hU]
  congr 1
  omega

theorem isComponent_head (n : Nat) (r rest : List Char) (hn : n ≤ 99) (hr : IsComponent n r) :
    48 ≤ cstrHead (r ++ rest) ∧ cstrHead (r ++ rest) ≤ 57 := by
  rcases hr with hr | ⟨h10, hr⟩
  · subst hr
    have : cstrHead (twoDigits n ++ rest) = 48 + n / 10 := digitChar_toNat _ (by omega)
    omega
  · subst hr
    have : cstrHead ([Nat.digitChar n] ++ rest) = 48 + n := digitChar_toNat _ h10
    omega

theorem parse_mk (l : List Char) (h : 48 ≤ cstrHead l ∧ cstrHead l ≤ 57) :
    OcParseDarwinVersion (String.mk l) = parseLoop 3 l 0 := by
  unfold OcParseDarwinVersion
  rw [if_neg]
  show ¬ (cstrHead l = 0 ∨ cstrHead l < 48 ∨ cstrHead l > 57)
  omega

/-- C27: for components `a`, `b`, `c` from 0 to 99, each written with one or
two decimal digits, `OcParseDarwinVersion` reads `a.b.c` as
`a * 10000 + b * 100 + c`, and omitted trailing components count as zero, so
"15" gives 150000; hence parsing the formatted version `x`, written as its
three two-digit components, gives `x` back for every `x` up to 999999. -/
theorem C27_parse_darwin_version :
    (∀ a b c : Nat, ∀ ra rb rc : List Char, a ≤ 99 → b ≤ 99 → c ≤ 99 →
      IsComponent a ra → IsComponent b rb → IsComponent c rc →
      OcParseDarwinVersion (String.mk (ra ++ '.' :: rb ++ '.' :: rc)) = a * 10000 + b * 100 + c ∧
      OcParseDarwinVersion (String.mk (ra ++ '.' :: rb)) = a * 10000 + b * 100 ∧
      OcParseDarwinVersion (String.mk ra) = a * 10000) ∧
    OcParseDarwinVersion "15" = 150000 ∧
    (∀ x : Nat, x ≤ 999999 → OcParseDarwinVersion (OcFormatDarwinVersion x) = x) := by
  have key : ∀ a b c : Nat, ∀ ra rb rc : List Char, a ≤ 99 → b ≤ 99 → c ≤ 99 →
      IsComponent a ra → IsComponent b rb → IsComponent c rc →
      OcParseDarwinVersion (String.mk (ra ++ '.' :: rb ++ '.' :: rc)) = a * 10000 + b * 100 + c ∧
      OcParseDarwinVersion (String.mk (ra ++ '.' :: rb)) = a * 10000 + b * 100 ∧
      OcParseDarwinVersion (String.mk ra) = a * 10000 := by
    intro a b c ra rb rc ha hb hc hra hrb hrc
    refine ⟨?_, ?_, ?_⟩
    · rw [List.append_assoc, List.cons_append,
        parse_mk _ (isComponent_head a ra _ ha hra),
        parseLoop_dot 2 a 0 ra _ ha (by omega) (Or.inl hra),
        parseLoop_dot 1 b _ rb _ hb (by omega) (Or.inl hrb),
        parseLoop_last 0 c _ rc hc (by omega) (Or.inl hrc), parseLoop]
      omega
    · rw [parse_mk _ (isComponent_head a ra _ ha hra),
        parseLoop_dot 2 a 0 ra _ ha (by omega) (Or.inl hra),
        parseLoop_last 1 b _ rb hb (by omega) (Or.inl hrb),
        parseLoop_last 0 0 _ [] (by omega) (by omega) (Or.inr ⟨rfl, rfl⟩), parseLoop]
      omega
    · have hd := isComponent_head a ra [] ha hra
      rw [List.append_nil] at hd
      rw [parse_mk _ hd,
        parseLoop_last 2 a 0 ra ha (by omega) (Or.inl hra),
        parseLoop_last 1 0 _ [] (by omega) (by omega) (Or.inr ⟨rfl, rfl⟩),
        parseLoop_last 0 0 _ [] (by omega) (by omega) (Or.inr ⟨rfl, rfl⟩), parseLoop]
      omega
  refine ⟨key, by decide, fun x hx => ?_⟩
  have h := (key (x / 10000) (x / 100 % 100) (x % 100) (twoDigits (x / 10000))
    (twoDigits (x / 100 % 100)) (twoDigits (x % 100)) (by omega) (by omega) (by omega)
    (Or.inl rfl) (Or.inl rfl) (Or.inl rfl)).1
  unfold OcFormatDarwinVersion
  rw [h]
  omega

theorem C27_parse_darwin_version_witness :
    IsComponent 10 ['1', '0'] ∧ IsComponent 15 ['1', '5'] ∧ IsComponent 4 ['4']
    ∧ OcParseDarwinVersion (String.mk (['1', '0'] ++ '.' :: ['1', '5'] ++ '.' :: ['4']))
      = 10 * 10000 + 15 * 100 + 4 :=
  ⟨Or.inl rfl, Or.inl rfl, Or.inr ⟨by decide, rfl⟩,
    (C27_parse_darwin_version.1 10 15 4 ['1', '0'] ['1', '5'] ['4'] (by decide) (by decide)
      (by decide) (Or.inl rfl) (Or.inl rfl) (Or.inr ⟨by decide, rfl⟩)).1⟩

/-- C28, as the code has it: an empty component between two dots is read as
zero, so "1..3" is parsed as 1.0.3 and gives 10003, not 0. -/
theorem C28_empty_component_is_zero : OcParseDarwinVersion "1..3" = 10003 := by decide

/-- C28, amended: `OcParseDarwinVersion` returns 0 for every string that is
empty or does not start with a decimal digit; an empty component between two
dots counts as zero, `a..c` being read as `a * 10000 + c`. -/
theorem C28_parse_invalid_start :
    (∀ s : String, (s.data = [] ∨ cstrHead s.data < 48 ∨ 57 < cstrHead s.data) →
      OcParseDarwinVersion s = 0) ∧
    (∀ a c : Nat, ∀ ra rc : List Char, a ≤ 99 → c ≤ 99 → IsComponent a ra → IsComponent c rc →
      OcParseDarwinVersion (String.mk (ra ++ '.' :: '.' :: rc)) = a * 10000 + c) := by
  refine ⟨fun s h => ?_, fun a c ra rc ha hc hra hrc => ?_⟩
  · unfold OcParseDarwinVersion
    rw [if_pos]
    rcases h with h | h | h
    · rw [h]
      exact Or.inl rfl
    · exact Or.inr (Or.inl h)
    · exact Or.inr (Or.inr h)
  · rw [parse_mk _ (isComponent_head a ra _ ha hra)]
    show parseLoop 3 (ra ++ '.' :: ([] ++ '.' :: rc)) 0 = _
    rw [parseLoop_dot 2 a 0 ra _ ha (by omega) (Or.inl hra),
      parseLoop_dot 1 0 _ [] _ (by omega) (by omega) (Or.inr ⟨rfl, rfl⟩),
      parseLoop_last 0 c _ rc hc (by omega) (Or.inl hrc), parseLoop]
    omega

theorem C28_parse_invalid_start_witness :
    57 < cstrHead "v19".data ∧ OcParseDarwinVersion "v19" = 0 :=
  ⟨by decide, C28_parse_invalid_start.1 "v19" (Or.inr (Or.inr (by decide)))⟩

/-! ## OcKernelApplyPatches -/

/-- The patch loop handles every configured patch on its own: the patches
handed over for a list are those of its parts, in order. -/
theorem kernelPatchLoop_append (I : String → Bool) (v : Nat) (k : Bool)
    (xs ys : List OC_KERNEL_PATCH_ENTRY) :
    kernelPatchLoop I v k (xs ++ ys) = kernelPatchLoop I v k xs ++ kernelPatchLoop I v k ys := by
  induction xs with
  | nil => rfl
  | cons x xs ih =>
    simp only [List.cons_append, kernelPatchLoop]
    cases kernelPatchRound I v k x <;> simp [ih]

theorem kernelPatchLoop_mem (I : String → Bool) (v : Nat) (k : Bool)
    (xs : List OC_KERNEL_PATCH_ENTRY) (Patch : PATCHER_GENERIC_PATCH) :
    Patch ∈ kernelPatchLoop I v k xs ↔ ∃ u ∈ xs, kernelPatchRound I v k u = some Patch := by
  induction xs with
  | nil => simp [kernelPatchLoop]
  | cons x xs ih =>
    simp only [kernelPatchLoop]
    cases h : kernelPatchRound I v k x <;> simp [ih, h]
    constructor
    · rintro (h1 | h1)
      · exact Or.inl h1.symm
      · exact Or.inr h1
    · rintro (h1 | h1)
      · exact Or.inl h1.symm
      · exact Or.inr h1

/-- C29: a configured patch reaches `PatcherApplyGenericPatch` only if it is
enabled, its identifier is "kernel" exactly when the kernel itself is patched
(`Context` is `NULL`), `OcMatchDarwinVersion` accepts its window, its `Replace`
is not empty, `Find` and `Replace` have the same size when it has no `Base`,
and `Mask` and `ReplaceMask`, when present, have the size of `Find`; a patch
that is skipped does not stop the loop: the patches handed over for a list
are those handed over for its parts. -/
theorem C29_patch_filter (PatcherInitContextFromBuffer : Bool)
    (PatcherInitContextFromPrelinked : String → Bool) (Values : List OC_KERNEL_PATCH_ENTRY)
    (DarwinVersion : Nat) (Context : Option Nat) (Patch : PATCHER_GENERIC_PATCH)
    (h : Patch ∈ OcKernelApplyPatches PatcherInitContextFromBuffer
      PatcherInitContextFromPrelinked Values DarwinVersion Context) :
    (∃ UserPatch ∈ Values, Patch = genericPatch UserPatch ∧
      UserPatch.Enabled = true ∧
      (AsciiStrCmp UserPatch.Identifier "kernel" = 0 ↔ Context = none) ∧
      OcMatchDarwinVersion DarwinVersion (OcParseDarwinVersion UserPatch.MinKernel)
        (OcParseDarwinVersion UserPatch.MaxKernel) = true ∧
      UserPatch.Replace.length ≠ 0 ∧
      (UserPatch.Base.data = [] → UserPatch.Find.length = UserPatch.Replace.length) ∧
      (UserPatch.Mask.length > 0 → UserPatch.Mask.length = UserPatch.Find.length) ∧
      (UserPatch.ReplaceMask.length > 0 →
        UserPatch.ReplaceMask.length = UserPatch.Find.length)) ∧
    (∀ Before After : List OC_KERNEL_PATCH_ENTRY,
      kernelPatchLoop PatcherInitContextFromPrelinked DarwinVersion Context.isNone
          (Before ++ After)
        = kernelPatchLoop PatcherInitContextFromPrelinked DarwinVersion Context.isNone Before
          ++ kernelPatchLoop PatcherInitContextFromPrelinked DarwinVersion Context.isNone
            After) := by
  refine ⟨?_, fun xs ys => kernelPatchLoop_append _ _ _ xs ys⟩
  unfold OcKernelApplyPatches at h
  split at h
  · cases h
  obtain ⟨u, hu, hr⟩ := (kernelPatchLoop_mem _ _ _ _ _).1 h
  refine ⟨u, hu, ?_⟩
  unfold kernelPatchRound at hr
  split at hr
  · cases hr
  rename_i h1
  split at hr
  · cases hr
  rename_i h2
  split at hr
  · cases hr
  split at hr
  · cases hr
  rename_i h4
  simp only [Option.some.injEq] at hr
  have h1a : u.Enabled = true := by
    cases hE : u.Enabled
    · exact absurd (Or.inl hE) h1
    · rfl
  have h1b : (AsciiStrCmp u.Identifier "kernel" = 0 ↔ Context = none) := by
    have : decide (AsciiStrCmp u.Identifier "kernel" = 0) = Context.isNone := by
      by_contra hne
      exact h1 (Or.inr hne)
    cases Context <;> simpa using this
  have h2a : OcMatchDarwinVersion DarwinVersion (OcParseDarwinVersion u.MinKernel)
      (OcParseDarwinVersion u.MaxKernel) = true := by
    cases hM : OcMatchDarwinVersion DarwinVersion (OcParseDarwinVersion u.MinKernel)
      (OcParseDarwinVersion u.MaxKernel)
    · exact absurd hM h2
    · rfl
  have h4a : ¬ (u.Replace.length = 0
      ∨ (u.Base.data = [] ∧ u.Find.length ≠ u.Replace.length)
      ∨ (u.Mask.length > 0 ∧ u.Find.length ≠ u.Mask.length)
      ∨ (u.ReplaceMask.length > 0 ∧ u.Find.length ≠ u.ReplaceMask.length)) := by
    intro hb
    exact h4 (by unfold patchIsBorked; exact decide_eq_true hb)
  refine ⟨hr.symm, h1a, h1b, h2a, fun h0 => h4a (Or.inl h0), fun hB => ?_, fun hM => ?_,
    fun hM => ?_⟩
  · by_contra hne
    exact h4a (Or.inr (Or.inl ⟨hB, hne⟩))
  · by_contra hne
    exact h4a (Or.inr (Or.inr (Or.inl ⟨hM, fun e => hne e.symm⟩)))
  · by_contra hne
    exact h4a (Or.inr (Or.inr (Or.inr ⟨hM, fun e => hne e.symm⟩)))

theorem C29_patch_filter_witness :
    OcKernelApplyPatches true (fun _ => true) [disabledUserPatch, kernelUserPatch] 190600 none
      = [genericPatch kernelUserPatch] ∧
    (∃ UserPatch ∈ [disabledUserPatch, kernelUserPatch],
      genericPatch kernelUserPatch = genericPatch UserPatch ∧
      UserPatch.Enabled = true ∧
      (AsciiStrCmp UserPatch.Identifier "kernel" = 0 ↔ (none : Option Nat) = none) ∧
      OcMatchDarwinVersion 190600 (OcParseDarwinVersion UserPatch.MinKernel)
        (OcParseDarwinVersion UserPatch.MaxKernel) = true ∧
      UserPatch.Replace.length ≠ 0 ∧
      (UserPatch.Base.data = [] → UserPatch.Find.length = UserPatch.Replace.length) ∧
      (UserPatch.Mask.length > 0 → UserPatch.Mask.length = UserPatch.Find.length) ∧
      (UserPatch.ReplaceMask.length > 0 →
        UserPatch.ReplaceMask.length = UserPatch.Find.length)) :=
  ⟨by decide, (C29_patch_filter true (fun _ => true) [disabledUserPatch, kernelUserPatch]
    190600 none (genericPatch kernelUserPatch) (by decide)).1⟩

/-! ## InternalPatchVtableSymbol: the patch -/

/-- Strings that `AsciiStrCmp` finds equal hold the same C string. -/
theorem asciiStrCmp_cString (a b : List Char) (h : asciiStrCmp a b = 0) :
    (a.takeWhile fun c => c.toNat ≠ 0) = b.takeWhile fun c => c.toNat ≠ 0 := by
  induction a generalizing b with
  | nil =>
    cases b with
    | nil => rfl
    | cons y ys =>
      simp only [asciiStrCmp] at h
      have hy : y.toNat = 0 := by omega
      simp [List.takeWhile, hy]
  | cons x xs ih =>
    cases b with
    | nil =>
      simp only [asciiStrCmp] at h
      have hx : x.toNat = 0 := by omega
      simp [List.takeWhile, hx]
    | cons y ys =>
      simp only [asciiStrCmp] at h
      split at h
      · rename_i hxy
        subst hxy
        simp only [List.takeWhile]
        rw [ih ys h]
      · rename_i hxy
        exfalso
        apply hxy
        have hn : x.toNat = y.toNat := by omega
        rw [← Char.ofNat_toNat x, ← Char.ofNat_toNat y, hn]

set_option maxRecDepth 100000 in
/-- C21, as the code has it: when the function prefix of the class of the
vtable cannot be built, here because the class name of `longVtableName` does
not leave room for it in the name buffer, the function returns `FALSE` and the
child symbol is not patched, although no no-patch case applies, the parent
entry is no pad slot and the name of the undefined child symbol does not
begin with a function prefix of that class. -/
theorem C21_prefix_buffer_too_small :
    cxxHelpers.MachoGetFunctionPrefixFromClassName
        (cxxHelpers.MachoGetClassNameFromVtableName longVtableName) cxxHelpers.SYM_MAX_NAME_LEN
      = none
    ∧ cxxHelpers.MachoGetSymbolName64
        { StringIndex := 1, SymbolType := 0x01, Section := 0, Descriptor := 0, Value := 0 }
      = "__ZN3Foo3barEv"
    ∧ cxxHelpers.MachoSymbolIsLocalDefined
        { StringIndex := 1, SymbolType := 0x01, Section := 0, Descriptor := 0, Value := 0 } = false
    ∧ cxxHelpers.MachoSymbolIsDefined
        { StringIndex := 1, SymbolType := 0x01, Section := 0, Descriptor := 0, Value := 0 } = false
    ∧ cxxHelpers.MachoSymbolNameIsPureVirtual "__ZN3Foo3barEv" = false
    ∧ AsciiStrCmp "__ZN3Foo3barEv" "__ZN3Bar3barEv" ≠ 0
    ∧ cxxHelpers.MachoSymbolNameIsPadslot "__ZN3Bar3barEv" = false
    ∧ InternalPatchVtableSymbol cxxHelpers { Name := some "__ZN3Bar3barEv", Address := 0x8000 }
        longVtableName
        { StringIndex := 1, SymbolType := 0x01, Section := 0, Descriptor := 0, Value := 0 }
      = (false, { StringIndex := 1, SymbolType := 0x01, Section := 0, Descriptor := 0,
                  Value := 0 }) := by
  refine ⟨by decide, by decide, by decide, by decide, by decide, by decide, by decide, ?_⟩
  have e : cxxHelpers.MachoGetFunctionPrefixFromClassName
      (cxxHelpers.MachoGetClassNameFromVtableName longVtableName) cxxHelpers.SYM_MAX_NAME_LEN
      = none := by decide
  unfold InternalPatchVtableSymbol
  simp only []
  rw [e]
  decide

/-- C21, amended: when no no-patch case applies (the parent entry has a name,
the child symbol is not locally defined, its name is not the pure-virtual
marker and differs from the name of the parent entry), the parent entry is no
pad slot, and the child symbol is defined or, being undefined, the function
prefix of the class of the vtable can be built and the name of the symbol does
not begin with it, `InternalPatchVtableSymbol` returns `TRUE` and the value of
the child symbol is the address of the parent entry, whatever that address is,
so also when its least significant bit is set.  That
`InternalSolveSymbolValue64` stores the address as the value of the symbol is
taken from the specification. -/
theorem C21_patch_sets_value (H : VtableHelpers) (ParentEntry : PRELINKED_VTABLE_ENTRY)
    (VtableName : String) (Symbol : MACH_NLIST_64) (ParentName : String)
    (hsolve : ∀ v s, (H.InternalSolveSymbolValue64 v s).Value = v)
    (hname : ParentEntry.Name = some ParentName)
    (hlocal : H.MachoSymbolIsLocalDefined Symbol = false)
    (hpure : H.MachoSymbolNameIsPureVirtual (H.MachoGetSymbolName64 Symbol) = false)
    (hdiff : AsciiStrCmp (H.MachoGetSymbolName64 Symbol) ParentName ≠ 0)
    (hpad : H.MachoSymbolNameIsPadslot ParentName = false)
    (hcase : H.MachoSymbolIsDefined Symbol = true ∨
      ∃ FunctionPrefix, H.MachoGetFunctionPrefixFromClassName
          (H.MachoGetClassNameFromVtableName VtableName) H.SYM_MAX_NAME_LEN = some FunctionPrefix
        ∧ (cString FunctionPrefix).isPrefixOf (cString (H.MachoGetSymbolName64 Symbol)) = false) :
    (InternalPatchVtableSymbol H ParentEntry VtableName Symbol).1 = true
    ∧ (InternalPatchVtableSymbol H ParentEntry VtableName Symbol).2.Value
        = ParentEntry.Address := by
  rcases hcase with hdef | ⟨p, hp, hnot⟩
  · have e : InternalPatchVtableSymbol H ParentEntry VtableName Symbol
        = (true, H.InternalSolveSymbolValue64 ParentEntry.Address Symbol) := by
      unfold InternalPatchVtableSymbol patchVtableSymbol
      rw [hname]
      simp [hlocal, hpure, hdiff, hpad, hdef]
    rw [e]
    exact ⟨rfl, hsolve _ _⟩
  · cases hdef : H.MachoSymbolIsDefined Symbol
    · have hne : AsciiStrCmp (H.MachoGetSymbolName64 Symbol) p ≠ 0 := by
        intro h0
        have e := asciiStrCmp_cString _ _ h0
        unfold cString at hnot
        rw [e, List.isPrefixOf_iff_prefix.2 (List.prefix_refl _)] at hnot
        cases hnot
      have e := InternalPatchVtableSymbol_undefined H ParentEntry VtableName Symbol ParentName p
        hname hlocal hpure hdiff hpad hdef hp
      rw [if_neg hne] at e
      rw [e]
      exact ⟨rfl, hsolve _ _⟩
    · have e : InternalPatchVtableSymbol H ParentEntry VtableName Symbol
          = (true, H.InternalSolveSymbolValue64 ParentEntry.Address Symbol) := by
        unfold InternalPatchVtableSymbol patchVtableSymbol
        rw [hname]
        simp [hlocal, hpure, hdiff, hpad, hdef]
      rw [e]
      exact ⟨rfl, hsolve _ _⟩

theorem C21_patch_sets_value_witness :
    0x8001 % 2 = 1
    ∧ (InternalPatchVtableSymbol cxxHelpers { Name := some "__ZN4Base3barEv", Address := 0x8001 }
        "__ZTV3Bar"
        { StringIndex := 1, SymbolType := 0x01, Section := 0, Descriptor := 0, Value := 0 }).1
      = true
    ∧ (InternalPatchVtableSymbol cxxHelpers { Name := some "__ZN4Base3barEv", Address := 0x8001 }
        "__ZTV3Bar"
        { StringIndex := 1, SymbolType := 0x01, Section := 0, Descriptor := 0, Value := 0 }).2.Value
      = 0x8001 :=
  ⟨by decide, C21_patch_sets_value cxxHelpers { Name := some "__ZN4Base3barEv", Address := 0x8001 }
    "__ZTV3Bar" { StringIndex := 1, SymbolType := 0x01, Section := 0, Descriptor := 0, Value := 0 }
    "__ZN4Base3barEv" (fun _ _ => rfl) rfl (by decide) (by decide) (by decide) (by decide)
    (Or.inr ⟨"__ZN3Bar", by decide, by decide⟩)⟩

/-! ## Vtable lookup -/

/-- The worker on a kext without vtables and without dependencies returns `NULL`. -/
theorem worker_leaf (Name : String) (f : Nat) (Context : PRELINKED_CONTEXT) (Kext : Nat)
    (h1 : findVtable (kextAt (lockKext Context Kext) Kext) Name = none)
    (h2 : (kextAt (lockKext Context Kext) Kext).Dependencies = []) :
    InternalGetOcVtableByNameWorker Name (f + 1) Context Kext
      = some (none, lockKext Context Kext) := by
  rw [InternalGetOcVtableByNameWorker, h1, h2]
  rfl

/-- The lookup on `cyclicContext` does not return, whatever the fuel: the
worker on kext 2 calls the lookup on kext 0, whose flag the lookup on kext 1
has cleared, and the worker on kext 0 calls the lookup on kext 2 again. -/
theorem cyclicContext_hangs (Name : String) (fuel : Nat) :
    InternalGetOcVtableByNameWorker Name fuel cyclicContext 2 = none
    ∧ InternalGetOcVtableByNameWorker Name fuel (lockKext cyclicContext 2) 0 = none
    ∧ InternalGetOcVtableByNameWorker Name fuel cyclicContext 0 = none := by
  induction fuel with
  | zero => exact ⟨rfl, rfl, rfl⟩
  | succ f ih =>
    obtain ⟨ih2, ihB, _⟩ := ih
    have step : ∀ c : PRELINKED_CONTEXT,
        kextAt (lockKext c 0) 0 = { plainKext [1, 2] with Processed := true } →
        (kextAt (lockKext c 0) 1) = plainKext [] →
        kextAt (lockKext (lockKext c 0) 1) 1 = { plainKext [] with Processed := true } →
        InternalUnlockContextKexts (lockKext (lockKext c 0) 1) = cyclicContext →
        InternalGetOcVtableByNameWorker Name (f + 1) c 0 = none := by
      intro c h0 h1 h1l hu
      rw [InternalGetOcVtableByNameWorker, h0]
      have hfind : findVtable { plainKext [1, 2] with Processed := true } Name = none := rfl
      rw [hfind]
      simp only [plainKext, dependencyLoop]
      rw [h1]
      simp only [plainKext, Bool.false_eq_true, if_false]
      cases f with
      | zero => rfl
      | succ g =>
        rw [worker_leaf Name g _ 1 (by rw [h1l]; rfl) (by rw [h1l]; rfl)]
        simp only [hu]
        have h2 : (kextAt cyclicContext 2).Processed = false := rfl
        rw [h2]
        simp only [Bool.false_eq_true, if_false, ih2]
    refine ⟨?_, ?_, ?_⟩
    · rw [InternalGetOcVtableByNameWorker]
      have hfind : findVtable (kextAt (lockKext cyclicContext 2) 2) Name = none := rfl
      have hdeps : (kextAt (lockKext cyclicContext 2) 2).Dependencies = [0] := rfl
      have h0 : (kextAt (lockKext cyclicContext 2) 0).Processed = false := rfl
      rw [hfind, hdeps]
      simp only [dependencyLoop, h0, Bool.false_eq_true, if_false, ihB]
    · exact step _ rfl rfl rfl rfl
    · exact step _ rfl rfl rfl rfl

/-- C24, the failing inputs.  On `diamondContext`, where the dependencies 1 and
2 of kext 0 share the dependency 3, one call of `InternalGetOcVtableByName` for
kext 0 enters the worker on kext 3 twice: the lookup on kext 1 ends with
`InternalUnlockContextKexts`, which clears the flag kext 3 got.  On
`cyclicContext`, where kext 0 depends on kexts 1 and 2 and kext 2 on kext 0,
the call for kext 0 returns with no amount of fuel, whatever the name. -/
theorem C24_lookup_revisits_and_hangs :
    workerVisits "__ZTV8OSObject" 4 diamondContext 0
      = some (none, diamondContext, [0, 1, 3, 2, 3])
    ∧ InternalGetOcVtableByName "__ZTV8OSObject" 4 diamondContext 0
      = some (none, diamondContext)
    ∧ ∀ (Name : String) (fuel : Nat),
        InternalGetOcVtableByName Name fuel cyclicContext 0 = none := by
  refine ⟨by decide, by decide, fun Name fuel => ?_⟩
  unfold InternalGetOcVtableByName
  rw [(cyclicContext_hangs Name fuel).2.2]

/-! ## The patch loop of InternalPatchByVtables64 -/

theorem map_set_same {α β : Type} (f : α → β) (d : α) (c : List α) (k : Nat) (x : α)
    (h : f x = f (c.getD k d)) : (c.set k x).map f = c.map f := by
  induction c generalizing k with
  | nil => rfl
  | cons a t ih =>
    cases k with
    | zero =>
      simp only [List.set, List.map]
      rw [h]
      rfl
    | succ n =>
      simp only [List.set, List.map]
      rw [ih n (by simpa using h)]

theorem kextAt_unlock (c : PRELINKED_CONTEXT) (k : Nat) :
    kextAt (InternalUnlockContextKexts c) k = { kextAt c k with Processed := false } := by
  unfold kextAt InternalUnlockContextKexts
  induction c generalizing k with
  | nil => rfl
  | cons a t ih =>
    cases k with
    | zero => rfl
    | succ n => simpa using ih n

theorem unlock_lockKext (c : PRELINKED_CONTEXT) (k : Nat) :
    InternalUnlockContextKexts (lockKext c k) = InternalUnlockContextKexts c := by
  unfold InternalUnlockContextKexts lockKext
  exact map_set_same _ default c k _ rfl

theorem unlock_unlock (c : PRELINKED_CONTEXT) :
    InternalUnlockContextKexts (InternalUnlockContextKexts c) = InternalUnlockContextKexts c := by
  unfold InternalUnlockContextKexts
  rw [List.map_map]
  rfl

/-- The loop over the dependencies changes nothing but flags when the calls do. -/
theorem dependencyLoop_frame
    (query : PRELINKED_CONTEXT → Nat → Option (Option PRELINKED_VTABLE × PRELINKED_CONTEXT))
    (hq : ∀ c d r, query c d = some r →
      InternalUnlockContextKexts r.2 = InternalUnlockContextKexts c)
    (deps : List Nat) (c : PRELINKED_CONTEXT) (r : Option PRELINKED_VTABLE × PRELINKED_CONTEXT)
    (h : dependencyLoop query deps c = some r) :
    InternalUnlockContextKexts r.2 = InternalUnlockContextKexts c := by
  induction deps generalizing c with
  | nil =>
    simp only [dependencyLoop, Option.some.injEq] at h
    rw [← h]
  | cons d rest ih =>
    simp only [dependencyLoop] at h
    split at h
    · exact ih c h
    · split at h
      · cases h
      · rename_i v c1 hqd
        simp only [Option.some.injEq] at h
        rw [← h]
        exact hq c d _ hqd
      · rename_i c1 hqd
        rw [ih c1 h]
        exact hq c d _ hqd

/-- The worker of the vtable lookup changes nothing but flags. -/
theorem worker_frame (Name : String) (fuel : Nat) (c : PRELINKED_CONTEXT) (k : Nat)
    (r : Option PRELINKED_VTABLE × PRELINKED_CONTEXT)
    (h : InternalGetOcVtableByNameWorker Name fuel c k = some r) :
    InternalUnlockContextKexts r.2 = InternalUnlockContextKexts c := by
  induction fuel generalizing c k r with
  | zero => cases h
  | succ f ih =>
    rw [InternalGetOcVtableByNameWorker] at h
    split at h
    · simp only [Option.some.injEq] at h
      rw [← h]
      exact unlock_lockKext c k
    · rw [dependencyLoop_frame _ ?_ _ _ r h, unlock_lockKext]
      intro c1 d r1 hr1
      split at hr1
      · cases hr1
      · rename_i v c2 hw
        simp only [Option.some.injEq] at hr1
        rw [← hr1]
        show InternalUnlockContextKexts (InternalUnlockContextKexts c2) = _
        rw [unlock_unlock]
        exact ih c1 d _ hw

/-- The vtable lookup leaves the context as it is, with every flag cleared. -/
theorem lookup_frame (Name : String) (fuel : Nat) (c : PRELINKED_CONTEXT) (k : Nat)
    (r : Option PRELINKED_VTABLE × PRELINKED_CONTEXT)
    (h : InternalGetOcVtableByName Name fuel c k = some r) :
    r.2 = InternalUnlockContextKexts c := by
  unfold InternalGetOcVtableByName at h
  split at h
  · cases h
  · rename_i v c1 hw
    simp only [Option.some.injEq] at h
    rw [← h]
    exact worker_frame Name fuel c k _ hw

theorem kextAt_set (c : PRELINKED_CONTEXT) (k : Nat) (x : PRELINKED_KEXT) (h : k < c.length) :
    kextAt (c.set k x) k = x := by
  unfold kextAt
  induction c generalizing k with
  | nil => cases h
  | cons a t ih =>
    cases k with
    | zero => rfl
    | succ n => simpa using ih n (by simpa using h)

/-- The vtable lookup keeps the kexts and what is linked in them. -/
theorem lookup_kext (Name : String) (fuel : Nat) (c : PRELINKED_CONTEXT) (k : Nat)
    (r : Option PRELINKED_VTABLE × PRELINKED_CONTEXT)
    (h : InternalGetOcVtableByName Name fuel c k = some r) (j : Nat) :
    r.2.length = c.length
    ∧ (kextAt r.2 j).NumberOfVtables = (kextAt c j).NumberOfVtables
    ∧ (kextAt r.2 j).LinkedVtables = (kextAt c j).LinkedVtables
    ∧ (kextAt r.2 j).Dependencies = (kextAt c j).Dependencies := by
  have e := lookup_frame Name fuel c k r h
  rw [e, kextAt_unlock]
  exact ⟨by simp [InternalUnlockContextKexts], rfl, rfl, rfl⟩

theorem writeVtable_kext (c : PRELINKED_CONTEXT) (k : Nat) (v : PRELINKED_VTABLE)
    (h : k < c.length) :
    (writeVtable c k v).length = c.length
    ∧ (kextAt (writeVtable c k v) k).NumberOfVtables = (kextAt c k).NumberOfVtables
    ∧ (kextAt (writeVtable c k v) k).LinkedVtables = (kextAt c k).LinkedVtables ++ [v] := by
  unfold writeVtable
  rw [kextAt_set _ _ _ h]
  exact ⟨by simp, rfl, rfl⟩

theorem countVtables_kext (c : PRELINKED_CONTEXT) (k : Nat) (h : k < c.length) :
    (countVtables c k).length = c.length
    ∧ (kextAt (countVtables c k) k).NumberOfVtables = ((kextAt c k).NumberOfVtables + 2) % U32
    ∧ (kextAt (countVtables c k) k).LinkedVtables = (kextAt c k).LinkedVtables := by
  unfold countVtables
  rw [kextAt_set _ _ _ h]
  exact ⟨by simp, rfl, rfl⟩

/-- The end of a round that patches a class: one more vtable is written and two
more are counted. -/
theorem patchMetaVtable_patched (H : VtableHelpers) (L : LinkHelpers) (lookupFuel Kext : Nat)
    (Entry : OC_VTABLE_PATCH_ENTRY) (ClassName : String) (c : PRELINKED_CONTEXT)
    (s : Nat → MACH_NLIST_64) (c1 : PRELINKED_CONTEXT) (s1 : Nat → MACH_NLIST_64)
    (hk : Kext < c.length)
    (h : patchMetaVtable H L lookupFuel Kext Entry ClassName c s = PatchRound.patched c1 s1) :
    c1.length = c.length
    ∧ (kextAt c1 Kext).NumberOfVtables = ((kextAt c Kext).NumberOfVtables + 2) % U32
    ∧ (kextAt c1 Kext).LinkedVtables.length = (kextAt c Kext).LinkedVtables.length + 1 := by
  unfold patchMetaVtable at h
  split at h
  · cases h
  split at h
  · cases h
  · cases h
  rename_i ca hl1
  split at h
  · cases h
  · cases h
  rename_i v2 cb hl2
  split at h
  · cases h
  rename_i s2 vt hin
  simp only [PatchRound.patched.injEq] at h
  obtain ⟨hc, _⟩ := h
  have a1 := lookup_kext _ _ _ _ _ hl1 Kext
  have a2 := lookup_kext _ _ _ _ _ hl2 Kext
  simp only at a1 a2
  have hkb : Kext < cb.length := by omega
  have w := writeVtable_kext cb Kext vt hkb
  have n := countVtables_kext (writeVtable cb Kext vt) Kext (by omega)
  rw [← hc]
  refine ⟨by omega, ?_, ?_⟩
  · rw [n.2.1, w.2.1, a2.2.1, a1.2.1]
  · rw [n.2.2, w.2.2, a2.2.2.1, a1.2.2.1]
    simp

/-- A round that patches a class writes two vtables and counts two more. -/
theorem patchRound_patched (H : VtableHelpers) (L : LinkHelpers) (lookupFuel Kext : Nat)
    (Entry : OC_VTABLE_PATCH_ENTRY) (Smcp : Nat) (c : PRELINKED_CONTEXT)
    (s : Nat → MACH_NLIST_64) (c1 : PRELINKED_CONTEXT) (s1 : Nat → MACH_NLIST_64)
    (hk : Kext < c.length)
    (h : patchRound H L lookupFuel Kext Entry Smcp c s = PatchRound.patched c1 s1) :
    c1.length = c.length
    ∧ (kextAt c1 Kext).NumberOfVtables = ((kextAt c Kext).NumberOfVtables + 2) % U32
    ∧ (kextAt c1 Kext).LinkedVtables.length = (kextAt c Kext).LinkedVtables.length + 2 := by
  unfold patchRound at h
  split at h
  · cases h
  split at h
  · cases h
  · cases h
  rename_i sv ca hl1
  unfold patchClassVtable at h
  split at h
  · cases h
  split at h
  · cases h
  split at h
  · cases h
  split at h
  · cases h
  rename_i s2 vt hin
  have a1 := lookup_kext _ _ _ _ _ hl1 Kext
  simp only at a1
  have w := writeVtable_kext ca Kext vt (by omega)
  have m := patchMetaVtable_patched H L lookupFuel Kext Entry _ _ _ c1 s1 (by omega) h
  refine ⟨by omega, ?_, ?_⟩
  · rw [m.2.1, w.2.1, a1.2.1]
  · rw [m.2.2, w.2.2, a1.2.2.1]
    simp

/-- A round that ends in `continue` keeps what is linked in the kext. -/
theorem patchRound_skip (H : VtableHelpers) (L : LinkHelpers) (lookupFuel Kext : Nat)
    (Entry : OC_VTABLE_PATCH_ENTRY) (Smcp : Nat) (c : PRELINKED_CONTEXT)
    (s : Nat → MACH_NLIST_64) (c1 : PRELINKED_CONTEXT)
    (h : patchRound H L lookupFuel Kext Entry Smcp c s = PatchRound.skip c1) :
    c1.length = c.length
    ∧ (kextAt c1 Kext).NumberOfVtables = (kextAt c Kext).NumberOfVtables
    ∧ (kextAt c1 Kext).LinkedVtables = (kextAt c Kext).LinkedVtables := by
  unfold patchRound at h
  split at h
  · cases h
  split at h
  · cases h
  · rename_i ca hl1
    simp only [PatchRound.skip.injEq] at h
    have a1 := lookup_kext _ _ _ _ _ hl1 Kext
    simp only at a1
    rw [← h]
    exact ⟨a1.1, a1.2.1, a1.2.2.1⟩
  · rename_i sv ca hl1
    exfalso
    unfold patchClassVtable at h
    split at h
    · cases h
    split at h
    · cases h
    split at h
    · cases h
    split at h
    · cases h
    unfold patchMetaVtable at h
    split at h
    · cases h
    split at h
    · cases h
    · cases h
    split at h
    · cases h
    · cases h
    split at h
    · cases h
    · cases h

theorem unpatched_append (l : List OC_VTABLE_PATCH_ENTRY) (e : OC_VTABLE_PATCH_ENTRY) :
    unpatched (l ++ [e]) = unpatched l + if e.Smcp.isSome then 1 else 0 := by
  unfold unpatched
  rw [List.filter_append, List.length_append]
  cases h : e.Smcp <;> simp [List.filter, h]

theorem unpatched_cons (e : OC_VTABLE_PATCH_ENTRY) (l : List OC_VTABLE_PATCH_ENTRY) :
    unpatched (e :: l) = unpatched l + if e.Smcp.isSome then 1 else 0 := by
  unfold unpatched
  cases h : e.Smcp <;> simp [List.filter, h]

/-- A pass of the inner loop keeps the number of entries, counts every class
it patches, and is successful exactly when it has patched a class. -/
theorem patchPass_count (H : VtableHelpers) (L : LinkHelpers) (lookupFuel Kext : Nat)
    (rest : List OC_VTABLE_PATCH_ENTRY) (st st1 : PatchState) (ok ok1 : Bool)
    (h : patchPass H L lookupFuel Kext rest st ok = PatchPass.done st1 ok1) :
    st1.Entries.length = st.Entries.length + rest.length
    ∧ st.NumPatched ≤ st1.NumPatched
    ∧ st1.NumPatched + unpatched st1.Entries
        = st.NumPatched + unpatched st.Entries + unpatched rest
    ∧ (ok1 = true ↔ (ok = true ∨ st.NumPatched < st1.NumPatched)) := by
  induction rest generalizing st ok with
  | nil =>
    simp only [patchPass, PatchPass.done.injEq] at h
    obtain ⟨h1, h2⟩ := h
    subst h1 h2
    refine ⟨by simp, le_refl _, by simp [unpatched], by simp⟩
  | cons Entry rest ih =>
    have u2 := unpatched_cons Entry rest
    rw [patchPass] at h
    split at h
    · rename_i hS
      have a := ih _ _ h
      have u1 := unpatched_append st.Entries Entry
      simp only [hS, Option.isSome_none, Bool.false_eq_true, if_false] at u1 u2
      simp only [List.length_append, List.length_cons, List.length_nil] at a ⊢
      exact ⟨by omega, a.2.1, by omega, a.2.2.2⟩
    · rename_i Smcp hS
      split at h
      · cases h
      · cases h
      · have a := ih _ _ h
        have u1 := unpatched_append st.Entries Entry
        simp only [hS, Option.isSome_some, if_true] at u1 u2
        simp only [List.length_append, List.length_cons, List.length_nil] at a ⊢
        exact ⟨by omega, a.2.1, by omega, a.2.2.2⟩
      · have a := ih _ _ h
        have u1 := unpatched_append st.Entries { Entry with Smcp := none }
        simp only [hS, Option.isSome_some, Option.isSome_none, Bool.false_eq_true, if_false,
          if_true] at u1 u2
        simp only [List.length_append, List.length_cons, List.length_nil] at a ⊢
        refine ⟨by omega, by omega, by omega, ?_⟩
        constructor
        · intro _
          exact Or.inr (by omega)
        · intro _
          exact a.2.2.2.2 (Or.inl trivial)

/-- A pass of the inner loop counts and stores two vtables for every class it
patches. -/
theorem patchPass_kext (H : VtableHelpers) (L : LinkHelpers) (lookupFuel Kext : Nat)
    (rest : List OC_VTABLE_PATCH_ENTRY) (st st1 : PatchState) (ok ok1 : Bool)
    (hk : Kext < st.Context.length) (hn : (kextAt st.Context Kext).NumberOfVtables < U32)
    (h : patchPass H L lookupFuel Kext rest st ok = PatchPass.done st1 ok1) :
    st1.Context.length = st.Context.length
    ∧ (kextAt st1.Context Kext).NumberOfVtables
        = ((kextAt st.Context Kext).NumberOfVtables + 2 * (st1.NumPatched - st.NumPatched)) % U32
    ∧ (kextAt st1.Context Kext).LinkedVtables.length
        = (kextAt st.Context Kext).LinkedVtables.length
          + 2 * (st1.NumPatched - st.NumPatched) := by
  have hU : U32 = 4294967296 := rfl
  induction rest generalizing st ok with
  | nil =>
    simp only [patchPass, PatchPass.done.injEq] at h
    obtain ⟨h1, h2⟩ := h
    subst h1 h2
    refine ⟨rfl, ?_, by simp⟩
    rw [hU] at hn ⊢
    omega
  | cons Entry rest ih =>
    rw [patchPass] at h
    split at h
    · exact ih { st with Entries := st.Entries ++ [Entry] } _ hk hn h
    · split at h
      · cases h
      · cases h
      · rename_i c1 hr
        have r := patchRound_skip _ _ _ _ _ _ _ _ _ hr
        have a := ih _ _ (by simp only; omega) (by simp only; omega) h
        simp only at a
        rw [r.1, r.2.1, r.2.2] at a
        exact a
      · rename_i c1 s1 hr
        have r := patchRound_patched _ _ _ _ _ _ _ _ _ _ hk hr
        have c2 := patchPass_count H L lookupFuel Kext _ _ _ _ _ h
        have a := ih _ _ (by simp only; omega) (by simp only; rw [r.2.1, hU]; omega) h
        simp only at a c2
        rw [r.1, r.2.1, r.2.2] at a
        refine ⟨a.1, ?_, ?_⟩
        · rw [a.2.1, hU]
          omega
        · rw [a.2.2]
          omega

/-- When the patch loop returns `TRUE`, every class is patched, and two vtables
are counted and stored for each class that was not patched at the start. -/
theorem patchLoop_true (H : VtableHelpers) (L : LinkHelpers) (lookupFuel Kext fuel : Nat)
    (st st1 : PatchState)
    (hk : Kext < st.Context.length) (hn : (kextAt st.Context Kext).NumberOfVtables < U32)
    (hinv : st.NumPatched + unpatched st.Entries = st.Entries.length)
    (h : patchLoop H L lookupFuel Kext fuel st = some (some st1)) :
    st1.Entries.length = st.Entries.length
    ∧ st1.NumPatched = st.Entries.length
    ∧ unpatched st1.Entries = 0
    ∧ (kextAt st1.Context Kext).NumberOfVtables
        = ((kextAt st.Context Kext).NumberOfVtables
            + 2 * (st.Entries.length - st.NumPatched)) % U32
    ∧ (kextAt st1.Context Kext).LinkedVtables.length
        = (kextAt st.Context Kext).LinkedVtables.length
          + 2 * (st.Entries.length - st.NumPatched) := by
  have hU : U32 = 4294967296 := rfl
  induction fuel generalizing st with
  | zero => cases h
  | succ f ih =>
    rw [patchLoop] at h
    split at h
    · rename_i hlt
      split at h
      · cases h
      · cases h
      · rename_i st2 ok hp
        split at h
        · have c := patchPass_count _ _ _ _ _ _ _ _ _ hp
          have k := patchPass_kext _ _ _ _ _ { st with Entries := [] } _ _ _ hk hn hp
          simp only [List.length_nil, unpatched, List.filter_nil, zero_add, Nat.add_zero] at c k
          have c3 := c.2.2.1
          have hn2 : (kextAt st2.Context Kext).NumberOfVtables < U32 := by
            rw [k.2.1, hU]
            omega
          have hinv2 : st2.NumPatched + unpatched st2.Entries = st2.Entries.length := by
            unfold unpatched at hinv ⊢
            omega
          have a := ih st2 (by omega) hn2 hinv2 h
          rw [c.1] at a
          have hle : st2.NumPatched ≤ st.Entries.length := by
            unfold unpatched at hinv hinv2
            omega
          refine ⟨a.1, a.2.1, a.2.2.1, ?_, ?_⟩
          · rw [a.2.2.2.1, k.2.1, hU]
            omega
          · rw [a.2.2.2.2, k.2.2]
            omega
        · cases h
    · rename_i hge
      simp only [Option.some.injEq] at h
      subst h
      refine ⟨rfl, by omega, by omega, ?_, by omega⟩
      rw [hU] at hn ⊢
      omega

/-- The patch loop needs no more passes than there are classes left to patch,
and one round more to leave: with more fuel its result is the same. -/
theorem patchLoop_pass_bound (H : VtableHelpers) (L : LinkHelpers) (lookupFuel Kext : Nat)
    (n : Nat) (st : PatchState) (hn : st.Entries.length - st.NumPatched ≤ n) (fuel : Nat)
    (hf : n + 1 ≤ fuel) :
    patchLoop H L lookupFuel Kext fuel st = patchLoop H L lookupFuel Kext (n + 1) st := by
  induction n generalizing st fuel with
  | zero =>
    obtain ⟨f, rfl⟩ : ∃ f, fuel = f + 1 := ⟨fuel - 1, by omega⟩
    rw [patchLoop, patchLoop, if_neg (by omega), if_neg (by omega)]
  | succ m ih =>
    obtain ⟨f, rfl⟩ : ∃ f, fuel = f + 1 := ⟨fuel - 1, by omega⟩
    rw [patchLoop, patchLoop]
    split
    · split
      · rfl
      · rfl
      · rename_i st2 ok hp
        have c := patchPass_count _ _ _ _ _ _ _ _ _ hp
        simp only [List.length_nil, zero_add, Bool.false_eq_true, false_or] at c
        split
        · rename_i hok
          exact ih st2 (by have := c.2.2.2.1 hok; omega) f (by omega)
        · rfl
    · rfl

theorem unpatched_all (Entries : List OC_VTABLE_PATCH_ENTRY)
    (h : ∀ e ∈ Entries, e.Smcp.isSome = true) : unpatched Entries = Entries.length := by
  induction Entries with
  | nil => rfl
  | cons e t ih =>
    rw [unpatched_cons, ih fun x hx => h x (List.mem_cons_of_mem _ hx),
      h e (List.mem_cons_self _ _)]
    simp

theorem unpatched_none (Entries : List OC_VTABLE_PATCH_ENTRY) (h : unpatched Entries = 0) :
    ∀ e ∈ Entries, e.Smcp = none := by
  induction Entries with
  | nil => intro e he; cases he
  | cons x t ih =>
    rw [unpatched_cons] at h
    intro e he
    rcases List.mem_cons.1 he with rfl | he
    · cases hS : e.Smcp with
      | none => rfl
      | some v =>
        rw [hS] at h
        simp at h
    · exact ih (by omega) e he

/-- C22, the failing input: a kext with one class, `entryA`, in the context
`cyclicContext`, where kext 0 depends on kexts 1 and 2 and kext 2 on kext 0.
The names of the first round are built, and the lookup of the vtable of the
super class, `InternalGetOcVtableByName`, does not return; so the patch loop
returns with no amount of fuel for its passes and for the lookup. -/
theorem C22_patch_loop_never_returns (lookupFuel fuel : Nat) :
    patchNames classHelpers classLinks classSymbols 0
      = some ("1A", "__ZTV1A", "8OSObject", "__ZTV8OSObject")
    ∧ InternalPatchByVtables64 classHelpers classLinks lookupFuel fuel cyclicContext 0
        classSymbols [entryA] = none := by
  have hn : patchNames classHelpers classLinks classSymbols 0
      = some ("1A", "__ZTV1A", "8OSObject", "__ZTV8OSObject") := by decide
  refine ⟨hn, ?_⟩
  cases fuel with
  | zero => rfl
  | succ f =>
    have hc : cyclicContext.set 0 { kextAt cyclicContext 0 with LinkedVtables := [] }
        = cyclicContext := rfl
    have hl : InternalGetOcVtableByName "__ZTV8OSObject" lookupFuel cyclicContext 0 = none := by
      unfold InternalGetOcVtableByName
      rw [(cyclicContext_hangs _ lookupFuel).2.2]
    have hr : patchRound classHelpers classLinks lookupFuel 0 entryA 0 cyclicContext classSymbols
        = PatchRound.hang := by
      unfold patchRound
      rw [hn]
      simp only []
      rw [hl]
    unfold InternalPatchByVtables64
    rw [hc, patchLoop]
    simp only [List.length_singleton, Nat.lt_one_iff, if_true, patchPass]
    have hS : entryA.Smcp = some 0 := rfl
    rw [hS]
    simp only []
    rw [hr]

/-! ## The patch loop on a context with a cycle -/

theorem kextAt_set_ne (c : PRELINKED_CONTEXT) (k j : Nat) (x : PRELINKED_KEXT) (h : j ≠ k) :
    kextAt (c.set k x) j = kextAt c j := by
  unfold kextAt
  induction c generalizing k j with
  | nil => rfl
  | cons a t ih =>
    cases k with
    | zero =>
      cases j with
      | zero => exact absurd rfl h
      | succ n => rfl
    | succ k0 =>
      cases j with
      | zero => rfl
      | succ n => simpa using ih k0 n (by omega)

/-- Two contexts that differ in flags only hold the same kexts, flags apart. -/
theorem kext_of_unlock (c c1 : PRELINKED_CONTEXT)
    (h : InternalUnlockContextKexts c1 = InternalUnlockContextKexts c) (j : Nat) :
    c1.length = c.length
    ∧ (kextAt c1 j).LinkedVtables = (kextAt c j).LinkedVtables
    ∧ (kextAt c1 j).NumberOfVtables = (kextAt c j).NumberOfVtables
    ∧ (kextAt c1 j).Dependencies = (kextAt c j).Dependencies := by
  have a := kextAt_unlock c1 j
  rw [h, kextAt_unlock] at a
  have l := congrArg List.length h
  simp only [InternalUnlockContextKexts, List.length_map] at l
  exact ⟨l, (congrArg PRELINKED_KEXT.LinkedVtables a).symm,
    (congrArg PRELINKED_KEXT.NumberOfVtables a).symm,
    (congrArg PRELINKED_KEXT.Dependencies a).symm⟩

theorem findVtable_congr (k1 k2 : PRELINKED_KEXT) (Name : String)
    (h1 : k1.LinkedVtables = k2.LinkedVtables) (h2 : k1.NumberOfVtables = k2.NumberOfVtables) :
    findVtable k1 Name = findVtable k2 Name := by
  unfold findVtable
  rw [h1, h2]

/-- The kext `k` of a context after `lockKext` on it. -/
theorem kextAt_lockKext (c : PRELINKED_CONTEXT) (k : Nat) (h : k < c.length) :
    kextAt (lockKext c k) k = { kextAt c k with Processed := true } :=
  kextAt_set c k _ h

theorem kextAt_lockKext_ne (c : PRELINKED_CONTEXT) (k j : Nat) (h : j ≠ k) :
    kextAt (lockKext c k) j = kextAt c j :=
  kextAt_set_ne c k j _ h

/-- A vtable lookup that has to search every dependency does not return on a
context in which kext 0 depends on kexts 1 and 2, kext 1 on nothing and kext 2
on kext 0, whatever the fuel: when no kext holds a vtable of the name among its
counted vtables, the worker on kext 0 searches kext 1, whose lookup clears
every flag, and then kext 2, whose worker calls the lookup on kext 0 again. -/
theorem cycle_hangs (Name : String) (base : PRELINKED_CONTEXT)
    (d0 : (kextAt base 0).Dependencies = [1, 2]) (d1 : (kextAt base 1).Dependencies = [])
    (d2 : (kextAt base 2).Dependencies = [0])
    (f0 : findVtable (kextAt base 0) Name = none) (f1 : findVtable (kextAt base 1) Name = none)
    (f2 : findVtable (kextAt base 2) Name = none) :
    ∀ (fuel : Nat) (c : PRELINKED_CONTEXT),
      InternalUnlockContextKexts c = InternalUnlockContextKexts base →
      ((kextAt c 1).Processed = false → InternalGetOcVtableByNameWorker Name fuel c 0 = none)
      ∧ ((kextAt c 0).Processed = false → (kextAt c 1).Processed = false →
          InternalGetOcVtableByNameWorker Name fuel c 2 = none) := by
  intro fuel
  induction fuel with
  | zero => intro c _; exact ⟨fun _ => rfl, fun _ _ => rfl⟩
  | succ f ih =>
    intro c hc
    have hl : ∀ k, InternalUnlockContextKexts (lockKext c k) = InternalUnlockContextKexts base :=
      fun k => by rw [unlock_lockKext, hc]
    have hfind : ∀ (c1 : PRELINKED_CONTEXT) (j : Nat),
        InternalUnlockContextKexts c1 = InternalUnlockContextKexts base →
        findVtable (kextAt c1 j) Name = findVtable (kextAt base j) Name := fun c1 j h1 =>
      findVtable_congr _ _ _ (kext_of_unlock base c1 h1 j).2.1 (kext_of_unlock base c1 h1 j).2.2.1
    have hdep : ∀ (c1 : PRELINKED_CONTEXT) (j : Nat),
        InternalUnlockContextKexts c1 = InternalUnlockContextKexts base →
        (kextAt c1 j).Dependencies = (kextAt base j).Dependencies := fun c1 j h1 =>
      (kext_of_unlock base c1 h1 j).2.2.2
    constructor
    · intro p1
      rw [InternalGetOcVtableByNameWorker, hfind _ 0 (hl 0), f0, hdep _ 0 (hl 0), d0]
      simp only [dependencyLoop]
      rw [kextAt_lockKext_ne c 0 1 (by decide), p1]
      simp only [Bool.false_eq_true, if_false]
      cases f with
      | zero => rfl
      | succ g =>
        have hl1 : InternalUnlockContextKexts (lockKext (lockKext c 0) 1)
            = InternalUnlockContextKexts base := by rw [unlock_lockKext, hl 0]
        rw [worker_leaf Name g _ 1 (by rw [hfind _ 1 hl1, f1]) (by rw [hdep _ 1 hl1, d1])]
        simp only [hl1]
        rw [kextAt_unlock]
        simp only [Bool.false_eq_true, if_false]
        rw [(ih (InternalUnlockContextKexts base) (unlock_unlock base)).2
          (by rw [kextAt_unlock]) (by rw [kextAt_unlock])]
    · intro p0 p1
      rw [InternalGetOcVtableByNameWorker, hfind _ 2 (hl 2), f2, hdep _ 2 (hl 2), d2]
      simp only [dependencyLoop]
      rw [kextAt_lockKext_ne c 2 0 (by decide), p0]
      simp only [Bool.false_eq_true, if_false]
      rw [(ih (lockKext c 2) (hl 2)).1 (by rw [kextAt_lockKext_ne c 2 1 (by decide), p1])]

/-- On such a context the lookup from kext 0 of a name no kext holds does not
return, whatever the fuel. -/
theorem lookup_cycle_hangs (Name : String) (base : PRELINKED_CONTEXT)
    (d0 : (kextAt base 0).Dependencies = [1, 2]) (d1 : (kextAt base 1).Dependencies = [])
    (d2 : (kextAt base 2).Dependencies = [0])
    (f0 : findVtable (kextAt base 0) Name = none) (f1 : findVtable (kextAt base 1) Name = none)
    (f2 : findVtable (kextAt base 2) Name = none) (p1 : (kextAt base 1).Processed = false)
    (fuel : Nat) : InternalGetOcVtableByName Name fuel base 0 = none := by
  unfold InternalGetOcVtableByName
  rw [((cycle_hangs Name base d0 d1 d2 f0 f1 f2) fuel base rfl).1 p1]

/-- The vtable of `8OSObject` is found in kext 1 of `cyclicClassContext` before
the search reaches kext 2. -/
theorem cyclicClass_root (f : Nat) :
    InternalGetOcVtableByName "__ZTV8OSObject" (f + 2) cyclicClassContext 0
      = some (some { Name := "__ZTV8OSObject",
                     Entries := [{ Name := some "__ZN8OSObject4freeEv", Address := 0x1000 }] },
              cyclicClassContext) := by
  unfold InternalGetOcVtableByName
  rw [InternalGetOcVtableByNameWorker]
  have h0 : findVtable (kextAt (lockKext cyclicClassContext 0) 0) "__ZTV8OSObject" = none := by
    decide
  rw [h0]
  simp only []
  have hd : (kextAt (lockKext cyclicClassContext 0) 0).Dependencies = [1, 2] := rfl
  rw [hd, dependencyLoop]
  have hp : (kextAt (lockKext cyclicClassContext 0) 1).Processed = false := rfl
  rw [hp]
  simp only [Bool.false_eq_true, if_false]
  rw [InternalGetOcVtableByNameWorker]
  have h1 : findVtable (kextAt (lockKext (lockKext cyclicClassContext 0) 1) 1) "__ZTV8OSObject"
      = some { Name := "__ZTV8OSObject",
               Entries := [{ Name := some "__ZN8OSObject4freeEv", Address := 0x1000 }] } := by
    decide
  rw [h1]
  rfl

/-- A round for the class `1B` or `1C` on `cyclicClassContext` with no vtable
linked in kext 0: the vtable of the super class is looked up in every
dependency, and the lookup does not return. -/
theorem cyclicClass_round_later (lookupFuel : Nat) :
    (patchNames classHelpers classLinks classSymbols 1
        = some ("1B", "__ZTV1B", "1A", "__ZTV1A")
      ∧ patchRound classHelpers classLinks lookupFuel 0 entryB 1 cyclicClassContext classSymbols
        = PatchRound.hang)
    ∧ (patchNames classHelpers classLinks classSymbols 2
        = some ("1C", "__ZTV1C", "1B", "__ZTV1B")
      ∧ patchRound classHelpers classLinks lookupFuel 0 entryC 2 cyclicClassContext classSymbols
        = PatchRound.hang) := by
  have hB : patchNames classHelpers classLinks classSymbols 1
      = some ("1B", "__ZTV1B", "1A", "__ZTV1A") := by decide
  have hC : patchNames classHelpers classLinks classSymbols 2
      = some ("1C", "__ZTV1C", "1B", "__ZTV1B") := by decide
  refine ⟨⟨hB, ?_⟩, hC, ?_⟩
  · unfold patchRound
    rw [hB]
    simp only []
    rw [lookup_cycle_hangs "__ZTV1A" cyclicClassContext rfl rfl rfl (by decide) (by decide)
      (by decide) rfl lookupFuel]
  · unfold patchRound
    rw [hC]
    simp only []
    rw [lookup_cycle_hangs "__ZTV1B" cyclicClassContext rfl rfl rfl (by decide) (by decide)
      (by decide) rfl lookupFuel]

/-- A round for the class `1A` on `cyclicClassContext`: the vtable of
`8OSObject` is found in kext 1 and the vtable of `1A` is written; then the
vtable of the metaclass is looked up by its name, which no kext holds, and
this lookup does not return. -/
theorem cyclicClass_round_first (lookupFuel : Nat) :
    patchNames classHelpers classLinks classSymbols 0
      = some ("1A", "__ZTV1A", "8OSObject", "__ZTV8OSObject")
    ∧ patchRound classHelpers classLinks lookupFuel 0 entryA 0 cyclicClassContext classSymbols
      = PatchRound.hang := by
  have hA : patchNames classHelpers classLinks classSymbols 0
      = some ("1A", "__ZTV1A", "8OSObject", "__ZTV8OSObject") := by decide
  refine ⟨hA, ?_⟩
  unfold patchRound
  rw [hA]
  simp only []
  cases lookupFuel with
  | zero => rfl
  | succ f1 =>
    cases f1 with
    | zero => rfl
    | succ f =>
      rw [cyclicClass_root f]
      simp only []
      unfold patchClassVtable
      have hfin : classLinks.MachoGetFinalSymbolNameFromClassName "8OSObject"
          classHelpers.SYM_MAX_NAME_LEN = some "__ZN8OSObject14__OSFinalClassEv" := by decide
      rw [hfin]
      simp only []
      have h1 : classLinks.InternalOcGetSymbolName "__ZN8OSObject14__OSFinalClassEv" = false := rfl
      have h2 : classLinks.MachoGetLocalDefinedSymbolByName "__ZN8OSObject14__OSFinalClassEv"
          = false := rfl
      rw [h1, h2]
      simp only [Bool.false_eq_true, if_false]
      cases hI : InternalInitializeVtableByEntriesAndRelocations64 classHelpers classLinks
          { Name := "__ZTV8OSObject",
            Entries := [{ Name := some "__ZN8OSObject4freeEv", Address := 0x1000 }] }
          entryA.Vtable entryA.VtableData entryA.MetaSymsIndex entryA.SolveSymbols
          classSymbols with
      | none =>
        have hs : (InternalInitializeVtableByEntriesAndRelocations64 classHelpers classLinks
            { Name := "__ZTV8OSObject",
              Entries := [{ Name := some "__ZN8OSObject4freeEv", Address := 0x1000 }] }
            entryA.Vtable entryA.VtableData entryA.MetaSymsIndex entryA.SolveSymbols
            classSymbols).isSome = true := by decide
        rw [hI] at hs
        cases hs
      | some r =>
        obtain ⟨Symbols1, Vtable⟩ := r
        simp only []
        unfold patchMetaVtable
        have hm : classLinks.MachoGetMetaVtableNameFromClassName "1A"
            classHelpers.SYM_MAX_NAME_LEN = some "__ZTVN1A9MetaClassE" := by decide
        rw [hm]
        simp only []
        have e1 : kextAt (writeVtable cyclicClassContext 0 Vtable) 1 = kextAt cyclicClassContext 1 :=
          rfl
        have e2 : kextAt (writeVtable cyclicClassContext 0 Vtable) 2 = kextAt cyclicClassContext 2 :=
          rfl
        rw [lookup_cycle_hangs "__ZTVN1A9MetaClassE" (writeVtable cyclicClassContext 0 Vtable)
          rfl rfl rfl rfl (by rw [e1]; decide) (by rw [e2]; decide) rfl (f + 1 + 1)]

/-- When the first round of the first pass meets a lookup that does not
return, `InternalPatchByVtables64` does not return. -/
theorem patch_first_round_hangs (H : VtableHelpers) (L : LinkHelpers) (lookupFuel fuel : Nat)
    (Context : PRELINKED_CONTEXT) (Kext : Nat) (Symbols : Nat → MACH_NLIST_64)
    (Entry : OC_VTABLE_PATCH_ENTRY) (rest : List OC_VTABLE_PATCH_ENTRY) (Smcp : Nat)
    (hs : Entry.Smcp = some Smcp)
    (hr : patchRound H L lookupFuel Kext Entry Smcp
      (Context.set Kext { kextAt Context Kext with LinkedVtables := [] }) Symbols
        = PatchRound.hang) :
    InternalPatchByVtables64 H L lookupFuel fuel Context Kext Symbols (Entry :: rest) = none := by
  cases fuel with
  | zero => rfl
  | succ f =>
    unfold InternalPatchByVtables64
    rw [patchLoop]
    simp only [List.length_cons, Nat.zero_lt_succ, if_true, patchPass]
    rw [hs]
    simp only []
    rw [hr]

/-- When `InternalPatchByVtables64` returns `TRUE` for a kext of the context,
`NumberOfVtables` of the kext has grown by twice the number of discovered
classes (as a 32-bit number), that many vtables are stored in its buffer, and
every class is patched, exactly once: `NumPatched` is the number of classes
and every `Smcp` is `NULL`. -/
theorem patchByVtables_true (H : VtableHelpers) (L : LinkHelpers) (lookupFuel fuel : Nat)
    (Context : PRELINKED_CONTEXT) (Kext : Nat) (Symbols : Nat → MACH_NLIST_64)
    (Entries : List OC_VTABLE_PATCH_ENTRY)
    (hk : Kext < Context.length) (hn : (kextAt Context Kext).NumberOfVtables < U32)
    (hinit : ∀ e ∈ Entries, e.Smcp.isSome = true) (st1 : PatchState)
    (h : InternalPatchByVtables64 H L lookupFuel fuel Context Kext Symbols Entries
      = some (some st1)) :
    (kextAt st1.Context Kext).NumberOfVtables
      = ((kextAt Context Kext).NumberOfVtables + 2 * Entries.length) % U32
    ∧ (kextAt st1.Context Kext).LinkedVtables.length = 2 * Entries.length
    ∧ st1.NumPatched = Entries.length
    ∧ st1.Entries.length = Entries.length
    ∧ ∀ e ∈ st1.Entries, e.Smcp = none := by
  unfold InternalPatchByVtables64 at h
  have hk2 : Kext < (Context.set Kext
      { kextAt Context Kext with LinkedVtables := [] }).length := by simpa using hk
  have e := kextAt_set Context Kext { kextAt Context Kext with LinkedVtables := [] } hk
  have a := patchLoop_true H L lookupFuel Kext fuel _ st1 hk2 (by simp only; rw [e]; exact hn)
    (by simp only; rw [unpatched_all Entries hinit]; omega) h
  simp only at a
  rw [e] at a
  simp only [List.length_nil, Nat.sub_zero, zero_add] at a
  exact ⟨a.2.2.2.1, a.2.2.2.2, a.2.1, a.1, unpatched_none _ a.2.2.1⟩

/-- For the kext of `classContext`, which declares the classes `1A <- 1B <- 1C`,
the vtables of `8OSObject` and of `11OSMetaClass` being linked in its
dependency, `InternalPatchByVtables64` returns `TRUE` for every order of the
three entries, and `NumberOfVtables` goes from 0 to 6: the class vtable and
the metaclass vtable of each class are linked. -/
theorem classContext_any_order (es : List OC_VTABLE_PATCH_ENTRY)
    (hes : es.Perm [entryA, entryB, entryC]) :
    patchSummary (InternalPatchByVtables64 classHelpers classLinks 3 4 classContext 0
      classSymbols es)
    = some (some (6, ["__ZTV1A", "__ZTVN1A9MetaClassE", "__ZTV1B", "__ZTVN1B9MetaClassE",
        "__ZTV1C", "__ZTVN1C9MetaClassE"], 3, true)) := by
  have hmem := List.mem_permutations.2 hes
  simp only [List.permutations, List.permutationsAux_cons, List.permutationsAux2,
    List.permutationsAux_nil, List.foldr, List.mem_cons, List.mem_singleton, List.append_nil,
    List.nil_append, List.cons_append, id, List.mem_append, List.not_mem_nil, or_false,
    false_or, List.map] at hmem
  rcases hmem with h | h | h | h | h | h <;> subst h <;> decide

/-- Claim C23 (the code departs from it): kext 0 of `cyclicClassContext` declares
the classes `1A <- 1B <- 1C`; the vtables of `8OSObject`, the parent of `1A`,
and of `11OSMetaClass` are linked in its dependency kext 1, and its second
dependency, kext 2, depends on kext 0.  For each of the six orders of the three
entries `InternalPatchByVtables64` does not return, whatever the fuel of the
passes and of the lookups: the first round is that of `1A`, which hangs in the
lookup of the vtable of its metaclass, or that of `1B` or `1C`, which hangs in
the lookup of the vtable of its super class.  Without kext 2 (`classContext`)
the same kext is patched in the order `1C`, `1A`, `1B`: the function returns
`TRUE` and six vtables are linked. -/
theorem C23_cyclic_dependencies_never_patched (lookupFuel fuel : Nat) :
    (kextAt cyclicClassContext 0).Dependencies = [1, 2]
    ∧ (kextAt cyclicClassContext 2).Dependencies = [0]
    ∧ ((kextAt cyclicClassContext 1).LinkedVtables.map fun v => v.Name)
      = ["__ZTV8OSObject", "__ZTV11OSMetaClass"]
    ∧ patchNames classHelpers classLinks classSymbols 0
      = some ("1A", "__ZTV1A", "8OSObject", "__ZTV8OSObject")
    ∧ patchNames classHelpers classLinks classSymbols 1
      = some ("1B", "__ZTV1B", "1A", "__ZTV1A")
    ∧ patchNames classHelpers classLinks classSymbols 2
      = some ("1C", "__ZTV1C", "1B", "__ZTV1B")
    ∧ InternalPatchByVtables64 classHelpers classLinks lookupFuel fuel cyclicClassContext 0
        classSymbols [entryA, entryB, entryC] = none
    ∧ InternalPatchByVtables64 classHelpers classLinks lookupFuel fuel cyclicClassContext 0
        classSymbols [entryA, entryC, entryB] = none
    ∧ InternalPatchByVtables64 classHelpers classLinks lookupFuel fuel cyclicClassContext 0
        classSymbols [entryB, entryA, entryC] = none
    ∧ InternalPatchByVtables64 classHelpers classLinks lookupFuel fuel cyclicClassContext 0
        classSymbols [entryB, entryC, entryA] = none
    ∧ InternalPatchByVtables64 classHelpers classLinks lookupFuel fuel cyclicClassContext 0
        classSymbols [entryC, entryA, entryB] = none
    ∧ InternalPatchByVtables64 classHelpers classLinks lookupFuel fuel cyclicClassContext 0
        classSymbols [entryC, entryB, entryA] = none
    ∧ patchSummary (InternalPatchByVtables64 classHelpers classLinks 3 4 classContext 0
        classSymbols [entryC, entryA, entryB])
      = some (some (6, ["__ZTV1A", "__ZTVN1A9MetaClassE", "__ZTV1B", "__ZTVN1B9MetaClassE",
          "__ZTV1C", "__ZTVN1C9MetaClassE"], 3, true)) := by
  have hA := cyclicClass_round_first lookupFuel
  have hL := cyclicClass_round_later lookupFuel
  exact ⟨rfl, rfl, rfl, hA.1, hL.1.1, hL.2.1,
    patch_first_round_hangs _ _ _ _ _ _ _ entryA _ 0 rfl hA.2,
    patch_first_round_hangs _ _ _ _ _ _ _ entryA _ 0 rfl hA.2,
    patch_first_round_hangs _ _ _ _ _ _ _ entryB _ 1 rfl hL.1.2,
    patch_first_round_hangs _ _ _ _ _ _ _ entryB _ 1 rfl hL.1.2,
    patch_first_round_hangs _ _ _ _ _ _ _ entryC _ 2 rfl hL.2.2,
    patch_first_round_hangs _ _ _ _ _ _ _ entryC _ 2 rfl hL.2.2,
    by decide⟩

/-! ## `MachoExpandImage64`: the data of the segments -/

/-- An iteration of the segment loop that went through: the file size of the
segment is at most its virtual size, the growth carried on is the shift of the
segment plus `Size - FileSize`, and the size reached is behind the header. -/
theorem expandSegment_delta {K : MachoConstants} {m : Mem} {cfuel : Nat}
    {Context : OC_MACHO_CONTEXT} {DestinationSize HeaderSize : Nat} {st st2 : ExpandState}
    {S : Nat}
    (h : expandSegment K m cfuel Context DestinationSize HeaderSize st S = some (true, st2)) :
    segFileSize m S ≤ segSize m S
    ∧ st2.CurrentDelta
      = (MACHO_ALIGN st.CurrentDelta + (segSize m S - segFileSize m S) % U32) % U32
    ∧ st2.CurrentSize = copyFileOffset m S HeaderSize + MACHO_ALIGN st.CurrentDelta
        + copyVmSize m S HeaderSize
    ∧ st2.CurrentSize ≤ DestinationSize := by
  simp only [expandSegment] at h
  split at h
  · cases h
  rename_i hsz
  split at h
  · cases h
  split at h
  · cases h
  rename_i htri
  split at h
  · cases h
  split at h
  · cases h
  simp only [Option.some.injEq, Prod.mk.injEq, true_and] at h
  subst h
  simp only [not_or, Bool.not_eq_true, not_lt, ne_eq, Decidable.not_not] at htri
  have ht := (OcOverflowTriAddU64_ok htri.1).1
  have hv1 := rd64_lt m (S + 32)
  have hle : segFileSize m S ≤ segSize m S := by omega
  refine ⟨hle, ?_, ht, ?_⟩
  · simp only
    have : (segSize m S + U64 - segFileSize m S) % U64 = segSize m S - segFileSize m S := by
      rw [show segSize m S + U64 - segFileSize m S = (segSize m S - segFileSize m S) + U64 by
        omega, Nat.add_mod_right]
      exact Nat.mod_eq_of_lt (by unfold segSize; omega)
    rw [this]
  · simp only
    exact htri.2

/-- The stores of segment data leave the bytes outside the gap and the
destination range alone. -/
theorem expandData_outside (dst m : Mem) (Source cfo cfs cvs od cd x : Nat)
    (hod : od ≤ cd) (hcd : cd < U32) (hle : cfs ≤ cvs) (hlt : cfo + cd + cvs < U64)
    (hx : x < cfo + od ∨ cfo + cd + cvs ≤ x) :
    expandData dst m Source cfo cfs cvs od cd x = dst x := by
  have e0 : (cfo + od) % U64 = cfo + od := Nat.mod_eq_of_lt (by omega)
  have e1 : (cfo + cd) % U64 = cfo + cd := Nat.mod_eq_of_lt (by omega)
  have e2 : (cfo + cd + cfs) % U64 = cfo + cd + cfs := Nat.mod_eq_of_lt (by omega)
  have e3 : (cvs + U64 - cfs) % U64 = cvs - cfs := by
    rw [show cvs + U64 - cfs = (cvs - cfs) + U64 by omega, Nat.add_mod_right]
    exact Nat.mod_eq_of_lt (by omega)
  have e4 : (cd + U32 - od) % U32 = cd - od := by
    rw [show cd + U32 - od = (cd - od) + U32 by omega, Nat.add_mod_right]
    exact Nat.mod_eq_of_lt (by omega)
  unfold expandData
  rw [e0, e1, e2, e3, e4]
  simp only [ZeroMem, CopyMem]
  rw [if_neg (by omega), if_neg (by omega), if_neg (by omega)]

/-- The segment loop of `MachoExpandImage64`, when it runs to its end and no
segment is written over the data of an earlier one (`expandClear`): behind the
header it changes only the bytes of the gaps and destination ranges of the
segments it visits, and for every visited segment that starts behind the
header the destination holds, from the shifted file offset on, the file bytes
of the segment and then zeros up to the virtual size. -/
theorem expandLoop_data {K : MachoConstants} {m : Mem} {cfuel : Nat}
    {Context : OC_MACHO_CONTEXT} {DestinationSize HeaderSize : Nat}
    (e : ExpandSetup K m cfuel Context HeaderSize) :
    ∀ (fuel : Nat) (prev : Option Nat) (st st2 : ExpandState),
      (∀ p, prev = some p → IsLoadCommand m Context.MachHeader p) →
      st.CurrentDelta < U32 →
      SegmentsKept K m Context prev st.dst →
      expandLoop K m cfuel Context DestinationSize HeaderSize fuel prev st = some (true, st2) →
      expandClear m HeaderSize
        (expandShifts m (segmentWalk K m cfuel Context fuel prev) st.CurrentDelta) = true →
      (segmentWalk K m cfuel Context fuel prev = [] → st2 = st)
      ∧ (segmentWalk K m cfuel Context fuel prev ≠ [] → HeaderSize ≤ st2.CurrentSize)
      ∧ (∀ x, HeaderSize ≤ x →
          (∀ T ∈ expandShifts m (segmentWalk K m cfuel Context fuel prev) st.CurrentDelta,
            T.2.1 ≤ T.2.2
            ∧ (x < copyFileOffset m T.1 HeaderSize + T.2.1
              ∨ copyFileOffset m T.1 HeaderSize + T.2.2 + copyVmSize m T.1 HeaderSize ≤ x)) →
          st2.dst x = st.dst x)
      ∧ ∀ T ∈ expandShifts m (segmentWalk K m cfuel Context fuel prev) st.CurrentDelta,
          HeaderSize < segFileOffset m T.1 →
          (∀ i, i < segFileSize m T.1 →
            st2.dst (segFileOffset m T.1 + T.2.2 + i)
              = m (Context.MachHeader + segFileOffset m T.1 + i))
          ∧ (∀ i, segFileSize m T.1 ≤ i → i < segSize m T.1 →
            st2.dst (segFileOffset m T.1 + T.2.2 + i) = 0) := by
  have t := e.tiled
  intro fuel
  induction fuel with
  | zero =>
    intro prev st st2 _ _ _ h
    cases h
  | succ fuel ih =>
    intro prev st st2 hprev hcd hinv h hclear
    rw [expandLoop] at h
    rw [segmentWalk] at hclear ⊢
    cases hnext : MachoGetNextSegment64 K m cfuel Context prev with
    | none =>
      rw [hnext] at h
      cases h
    | some o =>
      cases o with
      | none =>
        rw [hnext] at h
        simp only [Option.some.injEq, Prod.mk.injEq, true_and] at h
        subst h
        refine ⟨fun _ => rfl, fun h0 => absurd rfl h0, fun x _ _ => rfl, fun T hT => ?_⟩
        simp [expandShifts] at hT
      | some Next =>
        rw [hnext] at h hclear
        simp only at h hclear ⊢
        obtain ⟨hchk, hty, k, hk, hNext, hlater⟩ := MachoGetNextSegment64_some t hprev hnext
        subst hNext
        cases hseg : expandSegment K m cfuel Context DestinationSize HeaderSize st
            (cmdAddr m (hdrCommands Context.MachHeader) k) with
        | none =>
          rw [hseg] at h
          cases h
        | some r =>
          obtain ⟨flag, st1⟩ := r
          cases flag with
          | false =>
            rw [hseg] at h
            simp only [Option.some.injEq, Prod.mk.injEq, Bool.false_eq_true, false_and] at h
          | true =>
            rw [hseg] at h
            simp only at h
            obtain ⟨hown, hinv1⟩ := expandSegment_kept e hk hchk hty hcd hlater hinv hseg
            obtain ⟨_, hdata, _, hw3, hlt⟩ := expandSegment_step e hk hchk hty hcd hown hseg
            obtain ⟨hle, hd1, hcs, _⟩ := expandSegment_delta hseg
            have hcd1 : st1.CurrentDelta < U32 := by
              rw [hd1]
              exact Nat.mod_lt _ (by decide)
            have hal := MACHO_ALIGN_lt st.CurrentDelta
            simp only [expandShifts, expandClear, Bool.and_eq_true, Bool.or_eq_true,
              decide_eq_true_eq, List.all_eq_true] at hclear
            rw [← hd1] at hclear
            obtain ⟨hhead, hrest⟩ := hclear
            obtain ⟨hnil, hsize, hframe, hdat⟩ := ih
              (some (cmdAddr m (hdrCommands Context.MachHeader) k)) st1 st2
              (fun p hp => by cases hp; exact ⟨k, hk, rfl⟩) hcd1 hinv1 h hrest
            have hHS : HeaderSize
                ≤ copyFileOffset m (cmdAddr m (hdrCommands Context.MachHeader) k) HeaderSize := by
              unfold copyFileOffset
              split <;> omega
            simp only [expandShifts]
            rw [← hd1]
            refine ⟨fun h0 => by simp at h0, fun _ => ?_, fun x hx hout => ?_, fun T hT hb => ?_⟩
            · by_cases hw : segmentWalk K m cfuel Context fuel
                  (some (cmdAddr m (hdrCommands Context.MachHeader) k)) = []
              · rw [hnil hw, hcs]
                omega
              · exact hsize hw
            · rw [hframe x hx fun T hT => hout T (List.mem_cons_of_mem _ hT), hdata x hx]
              obtain ⟨ho1, ho2⟩ := hout _ (List.mem_cons_self _ _)
              exact expandData_outside _ _ _ _ _ _ _ _ _ ho1 hal hw3 hlt ho2
            · rcases List.mem_cons.1 hT with hT | hT
              · subst hT
                simp only at hb ⊢
                have c1 : copyFileOffset m (cmdAddr m (hdrCommands Context.MachHeader) k)
                    HeaderSize = segFileOffset m (cmdAddr m (hdrCommands Context.MachHeader) k) := by
                  unfold copyFileOffset
                  rw [if_neg (by omega)]
                have c2 : copyFileSize m (cmdAddr m (hdrCommands Context.MachHeader) k)
                    HeaderSize = segFileSize m (cmdAddr m (hdrCommands Context.MachHeader) k) := by
                  unfold copyFileSize
                  rw [if_neg (by omega)]
                have c3 : copyVmSize m (cmdAddr m (hdrCommands Context.MachHeader) k)
                    HeaderSize = segSize m (cmdAddr m (hdrCommands Context.MachHeader) k) := by
                  unfold copyVmSize
                  rw [if_neg (by omega)]
                have hbytes := expandData_bytes st.dst m Context.MachHeader
                  (copyFileOffset m (cmdAddr m (hdrCommands Context.MachHeader) k) HeaderSize)
                  (copyFileSize m (cmdAddr m (hdrCommands Context.MachHeader) k) HeaderSize)
                  (copyVmSize m (cmdAddr m (hdrCommands Context.MachHeader) k) HeaderSize)
                  st.CurrentDelta (MACHO_ALIGN st.CurrentDelta) hw3 hlt
                rw [c1, c2, c3] at hbytes
                rw [c1, c3] at hlt
                have hkeep : ∀ i, i < segSize m (cmdAddr m (hdrCommands Context.MachHeader) k) →
                    st2.dst (segFileOffset m (cmdAddr m (hdrCommands Context.MachHeader) k)
                      + MACHO_ALIGN st.CurrentDelta + i)
                    = expandData st.dst m Context.MachHeader
                      (segFileOffset m (cmdAddr m (hdrCommands Context.MachHeader) k))
                      (segFileSize m (cmdAddr m (hdrCommands Context.MachHeader) k))
                      (segSize m (cmdAddr m (hdrCommands Context.MachHeader) k))
                      st.CurrentDelta (MACHO_ALIGN st.CurrentDelta)
                      (segFileOffset m (cmdAddr m (hdrCommands Context.MachHeader) k)
                        + MACHO_ALIGN st.CurrentDelta + i) := by
                  intro i hi
                  rw [hframe _ (by omega) fun T hT => ?_, hdata _ (by omega), c1, c2, c3]
                  rcases hhead with hh | hh
                  · omega
                  · have := hh T hT
                    obtain ⟨a1, a2⟩ := this
                    refine ⟨a1, ?_⟩
                    rcases a2 with a2 | a2
                    · exact Or.inr (by omega)
                    · exact Or.inl (by omega)
                refine ⟨fun i hi => ?_, fun i hi hi2 => ?_⟩
                · rw [hkeep i (by omega)]
                  exact hbytes.1 i hi
                · rw [hkeep i hi2]
                  exact hbytes.2 i hi hi2
              · exact hdat T hT hb

/-- C30, as the code has it.  `nestedImage` has the segments `__TEXT` (file
offset 0, file size and virtual size `0x1000`), `__DATA` (file offset
`0x1000`, file size `0x1000`, virtual size `0x1001`) and `__DAT2` (file offset
`0x1001`, file size and virtual size `0x10`).  The running shifts are 0, 0
and, for `__DAT2`, `0x1000` (the growth 1 rounded up), so the destination
ranges are `[0, 0x1000)`, `[0x1000, 0x2001)` and `[0x2001, 0x2011)` and do
not overlap.  `MachoExpandImage64` succeeds with `0x2011`.  Before it copies
`__DAT2` it clears the gap from `CopyFileOffset + 1` to `CopyFileOffset +
0x1000`, the indices `[0x1002, 0x2001)`, which hold the data of `__DATA`: the
destination byte `0x1800` is 0, the source byte at file offset `0x1800` is 7. -/
theorem C30_gap_fill_clears_earlier_segment :
    MachoInitializeContext appleConstants nestedImage zeroContext 0x1000 0x2000
      = (true, initializedContext 0x1000 0x2000)
    ∧ segmentWalk appleConstants nestedImage 4 (initializedContext 0x1000 0x2000) 4 none
      = [0x1020, 0x1068, 0x10B0]
    ∧ expandShifts nestedImage [0x1020, 0x1068, 0x10B0] 0
      = [(0x1020, 0, 0), (0x1068, 0, 0), (0x10B0, 1, 0x1000)]
    ∧ [segFileOffset nestedImage 0x1020, segFileSize nestedImage 0x1020,
        segSize nestedImage 0x1020] = [0, 0x1000, 0x1000]
    ∧ [segFileOffset nestedImage 0x1068, segFileSize nestedImage 0x1068,
        segSize nestedImage 0x1068] = [0x1000, 0x1000, 0x1001]
    ∧ [segFileOffset nestedImage 0x10B0, segFileSize nestedImage 0x10B0,
        segSize nestedImage 0x10B0] = [0x1001, 0x10, 0x10]
    ∧ (MachoExpandImage64 appleConstants nestedImage 4 (initializedContext 0x1000 0x2000)
        blankDestination 0x3000 false).map (fun r => [r.2, r.1 (0x1000 + 0 + 0x800)])
      = some [0x2011, 0]
    ∧ nestedImage (0x1000 + 0x1000 + 0x800) = 7 := by
  refine ⟨by decide, by decide, by decide, by decide, by decide, by decide, by decide, by decide⟩

/-- C30, amended.  Let the context be an initialised one whose first symtab and
first dysymtab command, where present, have at least the size of their
structures, let `MachoExpandImage64` with `Strip = FALSE` succeed (return a
non-zero size), and let no segment be written over the data of an earlier one
(`expandClear`): for each walked segment behind the header, the bytes written
for every later segment, its pre-alignment gap as well as its destination
range, lie outside the destination range of that segment, and the aligned
shifts do not wrap.  Then for every walked segment with a file offset greater
than the header size, the destination bytes `[FileOffset + delta, FileOffset +
delta + FileSize)` are the source bytes `[FileOffset, FileOffset + FileSize)`
and the next `Size - FileSize` destination bytes are zero, where `delta` is the
page-aligned running shift of `expandShifts`. -/
theorem C30_expand_segment_data (K : MachoConstants) (m : Mem) (fuel : Nat)
    (Context : OC_MACHO_CONTEXT) (dst0 : Mem) (DestinationSize : Nat) (r : Mem × Nat)
    (hinit : Initialized K m Context)
    (hK1 : K.MACH_LOAD_COMMAND_SYMTAB ≠ K.MACH_LOAD_COMMAND_SEGMENT_64)
    (hK2 : K.MACH_LOAD_COMMAND_DYSYMTAB ≠ K.MACH_LOAD_COMMAND_SEGMENT_64)
    (hsym : ∀ c, InternalGetNextCommand64 m fuel Context K.MACH_LOAD_COMMAND_SYMTAB none
      = some (some c) → 24 ≤ cmdSize m c)
    (hdys : ∀ c, InternalGetNextCommand64 m fuel Context K.MACH_LOAD_COMMAND_DYSYMTAB none
      = some (some c) → 80 ≤ cmdSize m c)
    (hfuel : hdrNumCommands m Context.MachHeader < fuel)
    (hres : MachoExpandImage64 K m fuel Context dst0 DestinationSize false = some r)
    (hok : r.2 ≠ 0)
    (hclear : expandClear m (sizeofHeader64 + hdrCommandsSize m Context.MachHeader)
      (expandShifts m (segmentWalk K m fuel Context fuel none) 0) = true) :
    ∀ T ∈ expandShifts m (segmentWalk K m fuel Context fuel none) 0,
      sizeofHeader64 + hdrCommandsSize m Context.MachHeader < segFileOffset m T.1 →
      (∀ i, i < segFileSize m T.1 →
        r.1 (segFileOffset m T.1 + T.2.2 + i) = m (Context.MachHeader + segFileOffset m T.1 + i))
      ∧ (∀ i, segFileSize m T.1 ≤ i → i < segSize m T.1 →
        r.1 (segFileOffset m T.1 + T.2.2 + i) = 0) := by
  have t := hinit.tiled
  have hlt := hinit.header_lt
  have e : ExpandSetup K m fuel Context (sizeofHeader64 + hdrCommandsSize m Context.MachHeader) :=
    ⟨t, rfl, hlt, hinit.fileSize_lt, Nat.le_of_lt hfuel, hK1, hK2, hsym, hdys⟩
  have hHS : (sizeofHeader64 + hdrCommandsSize m Context.MachHeader) % U32
      = sizeofHeader64 + hdrCommandsSize m Context.MachHeader := Nat.mod_eq_of_lt hlt
  have hcm : hdrCommands Context.MachHeader = Context.MachHeader + 32 := rfl
  have hsz : sizeofHeader64 = 32 := rfl
  have hinv0 : SegmentsKept K m Context none
      (CopyMem dst0 0 m Context.MachHeader
        (sizeofHeader64 + hdrCommandsSize m Context.MachHeader)) := by
    intro k hk hchk hty
    have hw := t.addr_lt_top hk
    have ck : 72 ≤ cmdSize m (cmdAddr m (hdrCommands Context.MachHeader) k) :=
      (segmentChecks_true hchk).2.1
    have base := headerKept_copy dst0 m Context.MachHeader
      (sizeofHeader64 + hdrCommandsSize m Context.MachHeader)
    exact ⟨base.sub (Nat.zero_le _) (by omega), base.sub (Nat.zero_le _) (by omega),
      fun _ => base.sub (Nat.zero_le _) (by omega)⟩
  unfold MachoExpandImage64 at hres
  simp only [hHS] at hres
  split at hres
  · simp only [Option.some.injEq] at hres
    rw [← hres] at hok
    exact absurd rfl hok
  split at hres
  · cases hres
  · simp only [Option.some.injEq] at hres
    rw [← hres] at hok
    exact absurd rfl hok
  rename_i st hloop
  obtain ⟨_, hsize, _, hdat⟩ := expandLoop_data e fuel none _ st (fun p hp => by cases hp)
    (by show 0 < U32; decide) hinv0 hloop hclear
  intro T hT hb
  have hne : segmentWalk K m fuel Context fuel none ≠ [] := by
    intro h0
    rw [h0] at hT
    simp [expandShifts] at hT
  have hcur : st.CurrentSize ≠ 0 := by
    have := hsize hne
    omega
  simp only [hcur, if_false, Bool.false_eq_true, Option.some.injEq] at hres
  rw [← hres]
  exact hdat T hT hb

theorem C30_expand_segment_data_witness :
    ∃ r, MachoExpandImage64 appleConstants threeSegmentImage 4 (initializedContext 0x1000 0x2000)
        blankDestination 0x8000 false = some r
      ∧ r.2 = 0x3000
      ∧ expandShifts threeSegmentImage
          (segmentWalk appleConstants threeSegmentImage 4 (initializedContext 0x1000 0x2000) 4 none) 0
        = [(0x1020, 0, 0), (0x1068, 0, 0), (0x10B0, 0x1000, 0x1000)]
      ∧ (∀ i, i < 0x800 → r.1 (0x1000 + 0 + i) = threeSegmentImage (0x1000 + 0x1000 + i))
      ∧ (∀ i, 0x800 ≤ i → i < 0x1800 → r.1 (0x1000 + 0 + i) = 0)
      ∧ (∀ i, i < 0x800 → r.1 (0x1800 + 0x1000 + i) = threeSegmentImage (0x1000 + 0x1800 + i)) := by
  have hret : (MachoExpandImage64 appleConstants threeSegmentImage 4
      (initializedContext 0x1000 0x2000) blankDestination 0x8000 false).map Prod.snd
      = some 0x3000 := by decide
  have hsh : expandShifts threeSegmentImage
      (segmentWalk appleConstants threeSegmentImage 4 (initializedContext 0x1000 0x2000) 4 none) 0
      = [(0x1020, 0, 0), (0x1068, 0, 0), (0x10B0, 0x1000, 0x1000)] := by decide
  cases hr : MachoExpandImage64 appleConstants threeSegmentImage 4
      (initializedContext 0x1000 0x2000) blankDestination 0x8000 false with
  | none =>
    rw [hr] at hret
    cases hret
  | some r =>
    rw [hr] at hret
    simp only [Option.map_some', Option.some.injEq] at hret
    have h := C30_expand_segment_data appleConstants threeSegmentImage 4
      (initializedContext 0x1000 0x2000) blankDestination 0x8000 r
      ⟨zeroContext, 0x1000, 0x2000, by decide, by decide, by decide⟩
      (by decide) (by decide)
      (fun c hc => by
        rw [show InternalGetNextCommand64 threeSegmentImage 4 (initializedContext 0x1000 0x2000)
          appleConstants.MACH_LOAD_COMMAND_SYMTAB none = some none by decide] at hc
        cases hc)
      (fun c hc => by
        rw [show InternalGetNextCommand64 threeSegmentImage 4 (initializedContext 0x1000 0x2000)
          appleConstants.MACH_LOAD_COMMAND_DYSYMTAB none = some none by decide] at hc
        cases hc)
      (by decide) hr (by rw [hret]; decide) (by decide)
    rw [hsh] at h
    have hD := h (0x1068, 0, 0) (by decide) (by decide)
    have hE := h (0x10B0, 0x1000, 0x1000) (by decide) (by decide)
    simp only at hD hE
    have eH : (initializedContext 0x1000 0x2000).MachHeader = 0x1000 := rfl
    rw [eH, show segFileOffset threeSegmentImage 0x1068 = 0x1000 by decide,
      show segFileSize threeSegmentImage 0x1068 = 0x800 by decide,
      show segSize threeSegmentImage 0x1068 = 0x1800 by decide] at hD
    rw [eH, show segFileOffset threeSegmentImage 0x10B0 = 0x1800 by decide,
      show segFileSize threeSegmentImage 0x10B0 = 0x800 by decide] at hE
    exact ⟨r, rfl, hret, hsh, hD.1, hD.2, hE.1⟩

/-! ## The kexts a vtable lookup visits -/

theorem dependencyVisits_erase
    (q : PRELINKED_CONTEXT → Nat → Option (Option PRELINKED_VTABLE × PRELINKED_CONTEXT))
    (qv : PRELINKED_CONTEXT → Nat →
      Option (Option PRELINKED_VTABLE × PRELINKED_CONTEXT × List Nat))
    (h : ∀ c d, (qv c d).map (fun r => (r.1, r.2.1)) = q c d)
    (deps : List Nat) (c : PRELINKED_CONTEXT) :
    (dependencyVisits qv deps c).map (fun r => (r.1, r.2.1)) = dependencyLoop q deps c := by
  induction deps generalizing c with
  | nil => rfl
  | cons d rest ih =>
    simp only [dependencyVisits, dependencyLoop]
    split
    · exact ih c
    · rw [← h c d]
      cases hq : qv c d with
      | none => rfl
      | some r =>
        obtain ⟨v, c1, tr⟩ := r
        cases v with
        | some v => rfl
        | none =>
          simp only [Option.map_some']
          rw [← ih c1]
          cases dependencyVisits qv rest c1 with
          | none => rfl
          | some r2 => rfl

/-- Without the list of visits, `workerVisits` is `InternalGetOcVtableByNameWorker`. -/
theorem workerVisits_erase (Name : String) (fuel : Nat) (c : PRELINKED_CONTEXT) (k : Nat) :
    (workerVisits Name fuel c k).map (fun r => (r.1, r.2.1))
      = InternalGetOcVtableByNameWorker Name fuel c k := by
  induction fuel generalizing c k with
  | zero => rfl
  | succ f ih =>
    rw [workerVisits, InternalGetOcVtableByNameWorker]
    split
    · rfl
    · rw [← dependencyVisits_erase _ _ (fun c1 d => ?_)]
      · cases dependencyVisits _ (kextAt (lockKext c k) k).Dependencies (lockKext c k) with
        | none => rfl
        | some r => rfl
      · rw [← ih c1 d]
        cases workerVisits Name f c1 d with
        | none => rfl
        | some r => rfl

theorem dependencies_of_unlock (c c1 : PRELINKED_CONTEXT)
    (h : InternalUnlockContextKexts c1 = InternalUnlockContextKexts c) (j : Nat) :
    (kextAt c1 j).Dependencies = (kextAt c j).Dependencies := by
  have a := kextAt_unlock c1 j
  rw [h, kextAt_unlock] at a
  exact (congrArg PRELINKED_KEXT.Dependencies a).symm

theorem dependencyLoop_returns
    (query : PRELINKED_CONTEXT → Nat → Option (Option PRELINKED_VTABLE × PRELINKED_CONTEXT))
    (c0 : PRELINKED_CONTEXT) (deps : List Nat)
    (hq : ∀ c d, InternalUnlockContextKexts c = InternalUnlockContextKexts c0 → d ∈ deps →
      ∃ r, query c d = some r
        ∧ InternalUnlockContextKexts r.2 = InternalUnlockContextKexts c0)
    (c : PRELINKED_CONTEXT)
    (hc : InternalUnlockContextKexts c = InternalUnlockContextKexts c0) :
    dependencyLoop query deps c ≠ none := by
  induction deps generalizing c with
  | nil => simp [dependencyLoop]
  | cons d rest ih =>
    have ih2 := ih fun c1 d1 h1 h2 => hq c1 d1 h1 (List.mem_cons_of_mem _ h2)
    simp only [dependencyLoop]
    split
    · exact ih2 c hc
    · obtain ⟨r, hr, hr2⟩ := hq c d hc (List.mem_cons_self _ _)
      rw [hr]
      obtain ⟨v, c1⟩ := r
      cases v with
      | some v => simp
      | none => exact ih2 c1 hr2

/-- On a context whose dependencies descend along a rank, so that no kext
depends on itself through others, the worker of the vtable lookup returns
when the fuel exceeds the rank of the kext. -/
theorem worker_returns (Name : String) (c0 : PRELINKED_CONTEXT) (rank : Nat → Nat)
    (hrank : ∀ j d, d ∈ (kextAt c0 j).Dependencies → rank d < rank j) :
    ∀ (fuel : Nat) (c : PRELINKED_CONTEXT) (k : Nat),
      InternalUnlockContextKexts c = InternalUnlockContextKexts c0 → rank k < fuel →
      InternalGetOcVtableByNameWorker Name fuel c k ≠ none := by
  intro fuel
  induction fuel with
  | zero => intro c k _ h; omega
  | succ f ih =>
    intro c k hc hk
    rw [InternalGetOcVtableByNameWorker]
    split
    · simp
    · have hl : InternalUnlockContextKexts (lockKext c k) = InternalUnlockContextKexts c0 := by
        rw [unlock_lockKext, hc]
      refine dependencyLoop_returns _ c0 _ (fun c1 d h1 hd => ?_) _ hl
      have hdep := dependencies_of_unlock c0 (lockKext c k) hl k
      rw [hdep] at hd
      have hlt := hrank k d hd
      cases hw : InternalGetOcVtableByNameWorker Name f c1 d with
      | none => exact absurd hw (ih c1 d h1 (by omega))
      | some r =>
        refine ⟨(r.1, InternalUnlockContextKexts r.2), rfl, ?_⟩
        show InternalUnlockContextKexts (InternalUnlockContextKexts r.2) = _
        rw [unlock_unlock, worker_frame Name f c1 d r hw, h1]

/-- On a context whose dependencies descend along a rank,
`InternalGetOcVtableByName` returns when the fuel exceeds the rank of the kext. -/
theorem lookup_returns (Name : String) (c : PRELINKED_CONTEXT) (rank : Nat → Nat)
    (hrank : ∀ j d, d ∈ (kextAt c j).Dependencies → rank d < rank j) (fuel k : Nat)
    (hk : rank k < fuel) : InternalGetOcVtableByName Name fuel c k ≠ none := by
  unfold InternalGetOcVtableByName
  cases hw : InternalGetOcVtableByNameWorker Name fuel c k with
  | none => exact absurd hw (worker_returns Name c rank hrank fuel c k rfl hk)
  | some r => simp

/-! ## `OcParseDarwinVersion`: the range of the result -/

/-- One round of the inner loop either leaves the string and `VersionPart`
alone or consumes one digit, and then computes without wrapping. -/
theorem parseDigitStep_exact (s s1 : List Char) (vp vp1 : Nat) (hvp : vp ≤ 9)
    (h : parseDigitStep s vp = some (s1, vp1)) :
    (s1 = s ∧ vp1 = vp)
      ∨ ∃ c, s = c :: s1 ∧ 48 ≤ c.toNat ∧ c.toNat ≤ 57 ∧ vp1 = vp * 10 + (c.toNat - 48) := by
  have hU : U32 = 4294967296 := rfl
  unfold parseDigitStep at h
  cases s with
  | nil =>
    left
    simp [cstrHead] at h
    exact ⟨h.1, h.2.symm⟩
  | cons c t =>
    have hc : cstrHead (c :: t) = c.toNat := rfl
    rw [hc] at h
    by_cases hd : c.toNat ≥ 48 ∧ c.toNat ≤ 57
    · right
      rw [if_pos hd, if_pos (by omega)] at h
      simp only [List.tail_cons, Option.some.injEq, Prod.mk.injEq] at h
      refine ⟨c, by rw [h.1], hd.1, hd.2, ?_⟩
      rw [← h.2, hU]
      omega
    · left
      rw [if_neg hd] at h
      by_cases he : c.toNat ≠ 46 ∧ c.toNat ≠ 0
      · rw [if_pos he] at h
        cases h
      · rw [if_neg he, if_neg he] at h
        simp only [Option.some.injEq, Prod.mk.injEq] at h
        exact ⟨h.1.symm, h.2.symm⟩

/-- The inner loop of `OcParseDarwinVersion` consumes at most two characters,
all digits, and its result is their decimal value, at most 99. -/
theorem parsePart_exact (s s2 : List Char) (vp : Nat) (h : parsePart s = some (s2, vp)) :
    ∃ ds, ds.length ≤ 2 ∧ s = ds ++ s2 ∧ (∀ c ∈ ds, 48 ≤ c.toNat ∧ c.toNat ≤ 57)
      ∧ vp = decimalValue ds ∧ vp ≤ 99 := by
  unfold parsePart at h
  cases h1 : parseDigitStep s 0 with
  | none => rw [h1] at h; cases h
  | some r =>
    obtain ⟨s1, vp1⟩ := r
    rw [h1] at h
    simp only at h
    rcases parseDigitStep_exact s s1 0 vp1 (by omega) h1 with ⟨e1, e2⟩ | ⟨c, e1, l1, u1, e2⟩
    · subst e1 e2
      rcases parseDigitStep_exact s1 s2 0 vp (by omega) h with ⟨e3, e4⟩ | ⟨c, e3, l2, u2, e4⟩
      · subst e3 e4
        exact ⟨[], by simp, by simp, by simp, rfl, by omega⟩
      · subst e3 e4
        refine ⟨[c], by simp, by simp, by simpa using ⟨l2, u2⟩, by simp [decimalValue], by omega⟩
    · subst e1
      have hv : vp1 ≤ 9 := by omega
      rcases parseDigitStep_exact s1 s2 vp1 vp hv h with ⟨e3, e4⟩ | ⟨d, e3, l2, u2, e4⟩
      · subst e3 e4 e2
        refine ⟨[c], by simp, by simp, by simpa using ⟨l1, u1⟩, by simp [decimalValue], by omega⟩
      · subst e3 e4 e2
        refine ⟨[c, d], by simp, by simp, ?_, by simp [decimalValue], by omega⟩
        intro x hx
        simp only [List.mem_cons, List.mem_singleton, List.not_mem_nil, or_false] at hx
        rcases hx with hx | hx <;> subst hx
        · exact ⟨l1, u1⟩
        · exact ⟨l2, u2⟩

/-- Claim C40: for every string `OcParseDarwinVersion` returns at most 999999.
Either it returns 0, or it reads three components `ra`, `rb`, `rc`, each of at
most two characters, all digits, with a value of at most 99, and returns
`a * 10000 + b * 100 + c` computed in unbounded arithmetic: no 32-bit
operation of the function wraps. -/
theorem C40_parse_version_range (String : String) :
    OcParseDarwinVersion String ≤ 999999
      ∧ (OcParseDarwinVersion String = 0
        ∨ ∃ ra rb rc s1 s2 s3,
            parsePart String.data = some (s1, decimalValue ra) ∧ String.data = ra ++ s1
            ∧ parsePart (skipDot s1) = some (s2, decimalValue rb) ∧ skipDot s1 = rb ++ s2
            ∧ parsePart (skipDot s2) = some (s3, decimalValue rc) ∧ skipDot s2 = rc ++ s3
            ∧ ra.length ≤ 2 ∧ rb.length ≤ 2 ∧ rc.length ≤ 2
            ∧ (∀ x ∈ ra ++ rb ++ rc, 48 ≤ x.toNat ∧ x.toNat ≤ 57)
            ∧ decimalValue ra ≤ 99 ∧ decimalValue rb ≤ 99 ∧ decimalValue rc ≤ 99
            ∧ OcParseDarwinVersion String
                = decimalValue ra * 10000 + decimalValue rb * 100 + decimalValue rc) := by
  have hU : U32 = 4294967296 := rfl
  suffices hs : OcParseDarwinVersion String = 0
      ∨ ∃ ra rb rc s1 s2 s3,
            parsePart String.data = some (s1, decimalValue ra) ∧ String.data = ra ++ s1
            ∧ parsePart (skipDot s1) = some (s2, decimalValue rb) ∧ skipDot s1 = rb ++ s2
            ∧ parsePart (skipDot s2) = some (s3, decimalValue rc) ∧ skipDot s2 = rc ++ s3
            ∧ ra.length ≤ 2 ∧ rb.length ≤ 2 ∧ rc.length ≤ 2
            ∧ (∀ x ∈ ra ++ rb ++ rc, 48 ≤ x.toNat ∧ x.toNat ≤ 57)
            ∧ decimalValue ra ≤ 99 ∧ decimalValue rb ≤ 99 ∧ decimalValue rc ≤ 99
            ∧ OcParseDarwinVersion String
                = decimalValue ra * 10000 + decimalValue rb * 100 + decimalValue rc by
    refine ⟨?_, hs⟩
    rcases hs with h0 | ⟨ra, rb, rc, _, _, _, _, _, _, _, _, _, _, _, _, _, ha, hb, hc, hv⟩
    · omega
    · omega
  unfold OcParseDarwinVersion
  split
  · exact Or.inl rfl
  · simp only [parseLoop]
    cases h1 : parsePart String.data with
    | none => exact Or.inl rfl
    | some r1 =>
      obtain ⟨s1, a⟩ := r1
      obtain ⟨ra, la, ea, da, va, ba⟩ := parsePart_exact _ _ _ h1
      simp only
      cases h2 : parsePart (if cstrHead s1 = 46 then s1.tail else s1) with
      | none => exact Or.inl rfl
      | some r2 =>
        obtain ⟨s2, b⟩ := r2
        obtain ⟨rb, lb, eb, db, vb, bb⟩ := parsePart_exact _ _ _ h2
        simp only
        cases h3 : parsePart (if cstrHead s2 = 46 then s2.tail else s2) with
        | none => exact Or.inl rfl
        | some r3 =>
          obtain ⟨s3, c⟩ := r3
          obtain ⟨rc, lc, ec, dc, vc, bc⟩ := parsePart_exact _ _ _ h3
          simp only
          right
          subst va vb vc
          refine ⟨ra, rb, rc, s1, s2, s3, rfl, ea, h2, eb, h3, ec, la, lb, lc, ?_, ba, bb, bc, ?_⟩
          · intro x hx
            simp only [List.mem_append] at hx
            rcases hx with (hx | hx) | hx
            · exact da x hx
            · exact db x hx
            · exact dc x hx
          · rw [hU]
            omega

/-- Claim C40 on three strings: `19.6.0` gives 190600, `99.99.99` gives the
greatest value 999999, and of a string of ten digits only two digits are read
for each component. -/
theorem C40_parse_version_range_witness :
    OcParseDarwinVersion "19.6.0" = 190600
    ∧ OcParseDarwinVersion "99.99.99" = 999999
    ∧ OcParseDarwinVersion "4294967296" = 429496
    ∧ OcParseDarwinVersion "4294967296" ≤ 999999 :=
  ⟨by decide, by decide, by decide, (C40_parse_version_range "4294967296").1⟩

/-! ## `OcKernelApplyPatches` and `MachoGetIndirectSymbolTable`: two inputs -/

/-- Claim C39 (the code departs from it): `OcKernelApplyPatches` hands the
enabled kernel patch `basedUserPatch`, which has a symbolic base, to
`PatcherApplyGenericPatch` with a `Find` buffer of 2 bytes and a `Size` of 4;
the same patch without the base is dropped as "borked". -/
theorem C39_based_patch_find_shorter_than_size :
    (OcKernelApplyPatches true (fun _ => true) [basedUserPatch] 190600 none).map
        (fun Patch => (Patch.Base, Patch.Find, Patch.Size))
      = [(some "_cpuid_set_info", some [0x90, 0x90], 4)]
    ∧ OcKernelApplyPatches true (fun _ => true) [{ basedUserPatch with Base := "" }] 190600 none
      = [] :=
  ⟨by decide, by decide⟩

/-- Claim C38 (the code departs from it): on `linkeditImage`, whose header
lacks the dynamic-linker flag, symbol-table retrieval succeeds and leaves
`Context->DySymtab` `NULL`, and `MachoGetIndirectSymbolTable` then reads
`NumIndirectSymbols` through it; with the flag set (`dynamicImage`) the same
call returns the count 1 of the dysymtab command. -/
theorem C38_indirect_table_reads_absent_dysymtab :
    MachoInitializeContext appleConstants linkeditImage zeroContext 0x1000 0x1100
        = (true, initializedContext 0x1000 0x1100)
    ∧ hdrFlags linkeditImage 0x1000 &&& appleConstants.MACH_HEADER_FLAG_DYNAMIC_LINKER_LINK = 0
    ∧ (InternalRetrieveSymtabs64 appleConstants linkeditImage 4
          (initializedContext 0x1000 0x1100)).map (fun r => (r.1, r.2.DySymtab))
        = some (true, 0)
    ∧ (∀ InternalSymbolIsSane,
        MachoGetIndirectSymbolTable appleConstants linkeditImage 4 InternalSymbolIsSane
          (initializedContext 0x1000 0x1100) = some .absentRead)
    ∧ MachoGetIndirectSymbolTable appleConstants dynamicImage 4 (fun _ _ => true)
          (initializedContext 0x1000 0x1100) = some (.returned 1 (some 0x2020)) := by
  refine ⟨by decide, by decide, by decide, ?_, by decide⟩
  intro Sane
  have h : InternalRetrieveSymtabs64 appleConstants linkeditImage 4
      (initializedContext 0x1000 0x1100)
        = some (true, storeSymtab linkeditImage (initializedContext 0x1000 0x1100) 0x10B0) := by
    decide
  unfold MachoGetIndirectSymbolTable
  rw [h]
  rfl

/-! ## `MachoExpandImage64`: the symbol table commands and the section offsets -/

/-- Claim C32 (the code departs from it): `tocImage` is `linkeditImage` with a
table of contents in its dysymtab command, `TableOfContentsFileOffset = 0x1030`
and `TableOfContentsNumEntries = 2`.  `MachoExpandImage64` moves `__LINKEDIT`
by `0x1000` and returns `0x2100`.  In the destination dysymtab command (at
index `0xC8`) the count `TableOfContentsNumEntries` is `0x1002`, the source's
value plus the delta, and the file offset `TableOfContentsFileOffset` is still
`0x1030`; `IndirectSymbolsOffset` is `0x2020`, and in the symtab command (at
index `0xB0`) `SymbolsOffset` and `StringsOffset` are moved while `NumSymbols`
and `StringsSize` keep their values. -/
theorem C32_toc_count_shifted :
    MachoInitializeContext appleConstants tocImage zeroContext 0x1000 0x1100
      = (true, initializedContext 0x1000 0x1100)
    ∧ [rd32 tocImage (0x10C8 + 32), rd32 tocImage (0x10C8 + 36), rd32 tocImage (0x10C8 + 56),
        rd32 tocImage (0x10C8 + 60)] = [0x1030, 2, 0x1020, 1]
    ∧ (MachoExpandImage64 appleConstants tocImage 4 (initializedContext 0x1000 0x1100)
        blankDestination 0x3000 false).map
        (fun r => [r.2, rd32 r.1 (0xC8 + 32), rd32 r.1 (0xC8 + 36), rd32 r.1 (0xC8 + 56),
          rd32 r.1 (0xC8 + 60)])
      = some [0x2100, 0x1030, 0x1002, 0x2020, 1]
    ∧ (MachoExpandImage64 appleConstants tocImage 4 (initializedContext 0x1000 0x1100)
        blankDestination 0x3000 false).map
        (fun r => [symSymbolsOffset r.1 0xB0, symNumSymbols r.1 0xB0, symStringsOffset r.1 0xB0,
          symStringsSize r.1 0xB0])
      = some [0x2000, 1, 0x2010, 0x10] := by
  refine ⟨by decide, by decide, by decide, by decide⟩

theorem sectionFields_succ (dst : Mem) (D Index n : Nat) :
    sectionFields dst D Index (n + 1)
      = (sectOffset dst (segSection D Index), sectSize dst (segSection D Index))
        :: sectionFields dst D (Index + 1) n := by
  unfold sectionFields
  rw [List.range_succ_eq_map, List.map_cons, List.map_map]
  simp only [Nat.add_zero, List.cons.injEq, true_and]
  apply List.map_congr_left
  intro i _
  simp only [Function.comp, Nat.succ_eq_add_one]
  rw [show Index + (i + 1) = Index + 1 + i by omega]

/-- A store to the `Offset` field of section `Index` leaves the `Offset` and
`Size` fields of the later sections alone. -/
theorem sectionFields_wr32 (dst : Mem) (D Index n v : Nat) :
    sectionFields (wr32 dst (segSection D Index + 48) v) D (Index + 1) n
      = sectionFields dst D (Index + 1) n := by
  unfold sectionFields
  apply List.map_congr_left
  intro i _
  have hs : segSection D (Index + 1 + i) = segSection D Index + 80 * (i + 1) := by
    unfold segSection sizeofSegment64 sizeofSection64; omega
  have ha : AgreeOn dst (wr32 dst (segSection D Index + 48) v)
      (segSection D (Index + 1 + i) + 40) (segSection D (Index + 1 + i) + 52) :=
    wr32_agree dst _ v (by omega)
  unfold sectOffset sectSize
  rw [ha.rd32 (by omega) (by omega), ha.rd64 (by omega) (by omega)]

/-- The section loop computes the offsets `rewrittenOffsets` gives for the
fields it finds. -/
theorem expandSectionLoop_offsets (D : Nat) :
    ∀ (n Index : Nat) (dst : Mem) (CurrentDelta CopyFileOffset i : Nat), i < n →
      sectOffset (expandSectionLoop D n Index (dst, CurrentDelta, CopyFileOffset)).1
          (segSection D (Index + i))
        = (rewrittenOffsets (sectionFields dst D Index n) CurrentDelta CopyFileOffset).getD i 0 := by
  intro n
  induction n with
  | zero => intro _ _ _ _ i hi; omega
  | succ n ih =>
    intro Index dst cd cfo i hi
    have hsz : ∀ v, sectSize (wr32 dst (segSection D Index + 48) v) (segSection D Index)
        = sectSize dst (segSection D Index) := fun v =>
      (@wr32_agree dst (segSection D Index + 48) v (segSection D Index + 40)
        (segSection D Index + 48) (by omega)).rd64 (Nat.le_refl _) (Nat.le_refl _)
    have hkeep : ∀ (v a b : Nat),
        sectOffset (expandSectionLoop D n (Index + 1)
          (wr32 dst (segSection D Index + 48) v, a, b)).1 (segSection D (Index + 0)) = v % U32 := by
      intro v a b
      have ha := @expandSectionLoop_agree_outside D (segSection D Index + 48)
        (segSection D Index + 52) n (Index + 1) (wr32 dst (segSection D Index + 48) v, a, b)
        (Or.inl (by unfold segSection sizeofSegment64 sizeofSection64; omega))
      unfold sectOffset
      rw [show segSection D (Index + 0) = segSection D Index from rfl,
        ha.rd32 (Nat.le_refl _) (Nat.le_refl _)]
      exact rd32_wr32_same _ _ _
    rw [expandSectionLoop, sectionFields_succ, rewrittenOffsets]
    by_cases h0 : sectOffset dst (segSection D Index) = 0
    · rw [if_pos h0, if_pos h0]
      cases i with
      | zero =>
        rw [hkeep]
        simp
      | succ j =>
        rw [show Index + (j + 1) = Index + 1 + j by omega, ih _ _ _ _ j (by omega),
          sectionFields_wr32, hsz]
        simp
    · rw [if_neg h0, if_neg h0]
      cases i with
      | zero =>
        rw [hkeep]
        simp
      | succ j =>
        rw [show Index + (j + 1) = Index + 1 + j by omega, ih _ _ _ _ j (by omega),
          sectionFields_wr32, hsz]
        unfold sectOffset
        rw [rd32_wr32_same]
        simp

/-- Claim C31 as stated fails on `bssImage`.  Its segment `__DATA` (file offset
`0x1000`) is moved by the delta `0x1000` and has the sections `__data`
(`Offset` `0x1000`, `Size` `0x80`) and `__bss` (`Offset` 0).  After
`MachoExpandImage64` the offset of `__data` is `0x2000`, and that of `__bss` is
`0x3080`, the end of `__data` plus the delta, where the segment's file offset
plus the delta is `0x2000`. -/
theorem C31_zero_offset_after_nonzero :
    MachoInitializeContext appleConstants bssImage zeroContext 0x1000 0x1080
      = (true, initializedContext 0x1000 0x1080)
    ∧ expandShifts bssImage
        (segmentWalk appleConstants bssImage 4 (initializedContext 0x1000 0x1080) 4 none) 0
      = [(0x1020, 0, 0), (0x1068, 0x1000, 0x1000)]
    ∧ segFileOffset bssImage 0x1068 = 0x1000
    ∧ sectionFields bssImage 0x1068 0 (segNumSections bssImage 0x1068)
      = [(0x1000, 0x80), (0, 0x80)]
    ∧ (MachoExpandImage64 appleConstants bssImage 4 (initializedContext 0x1000 0x1080)
        blankDestination 0x3000 false).map
        (fun r => [r.2, sectOffset r.1 (segSection 0x68 0), sectOffset r.1 (segSection 0x68 1)])
      = some [0x2100, 0x2000, 0x3080]
    ∧ (segFileOffset bssImage 0x1068 + 0x1000) % U32 ≠ 0x3080 := by
  refine ⟨by decide, by decide, by decide, by decide, by decide, by decide⟩

/-- One iteration of the segment loop that went through, for a segment command
that is still in the destination as copied: the offsets of its sections in the
destination are those `rewrittenOffsets` gives for the `Offset` and `Size`
fields of the source, the aligned delta of the segment and the file offset of
the source segment. -/
theorem expandSegment_sections {K : MachoConstants} {m : Mem} {cfuel : Nat}
    {Context : OC_MACHO_CONTEXT} {DestinationSize HeaderSize : Nat}
    (e : ExpandSetup K m cfuel Context HeaderSize) {st st2 : ExpandState} {k : Nat}
    (hk : k < hdrNumCommands m Context.MachHeader)
    (hchk : segmentChecks m Context (cmdAddr m (hdrCommands Context.MachHeader) k) = true)
    (hty : cmdType m (cmdAddr m (hdrCommands Context.MachHeader) k)
      = K.MACH_LOAD_COMMAND_SEGMENT_64)
    (hcd : st.CurrentDelta < U32)
    (hown : HeaderKept m Context.MachHeader st.dst
      (cmdAddr m (hdrCommands Context.MachHeader) k - Context.MachHeader)
      (cmdAddr m (hdrCommands Context.MachHeader) k - Context.MachHeader
        + cmdSize m (cmdAddr m (hdrCommands Context.MachHeader) k)))
    (h : expandSegment K m cfuel Context DestinationSize HeaderSize st
      (cmdAddr m (hdrCommands Context.MachHeader) k) = some (true, st2)) :
    ∀ i, i < segNumSections m (cmdAddr m (hdrCommands Context.MachHeader) k) →
      sectOffset st2.dst
          (segSection (cmdAddr m (hdrCommands Context.MachHeader) k - Context.MachHeader) i)
        = (rewrittenOffsets
            (sectionFields m (cmdAddr m (hdrCommands Context.MachHeader) k) 0
              (segNumSections m (cmdAddr m (hdrCommands Context.MachHeader) k)))
            (MACHO_ALIGN st.CurrentDelta)
            (segFileOffset m (cmdAddr m (hdrCommands Context.MachHeader) k))).getD i 0 := by
  generalize hS : cmdAddr m (hdrCommands Context.MachHeader) k = S at *
  have t := e.tiled
  obtain ⟨_, c1, c2, _, c4⟩ := segmentChecks_true hchk
  have hw := t.addr_lt_top hk
  rw [hS] at hw
  have hHdr : 32 + hdrCommandsSize m Context.MachHeader = HeaderSize := e.headerSize
  have hcm : hdrCommands Context.MachHeader = Context.MachHeader + 32 := rfl
  have hHS := e.headerSize_lt
  have hFS := e.fileSize_lt
  have c1 : 72 ≤ cmdSize m S := c1
  have c2 : 72 + 80 * segNumSections m S ≤ cmdSize m S := c2
  have hfo : segFileOffset m S < U32 := by omega
  have hav := (avoidsTables_tile e).1 k hk (by rw [hS]; exact hty)
  rw [hS] at hav
  simp only [expandSegment] at h
  split at h
  · cases h
  rename_i hsz
  split at h
  · cases h
  rename_i hclip
  split at h
  · cases h
  rename_i htri
  split at h
  · cases h
  rename_i hvchk
  split at h
  · cases h
  rename_i d6 hd6
  simp only [Option.some.injEq, Prod.mk.injEq, true_and] at h
  subst h
  simp only [not_or, Bool.not_eq_true, not_lt, ne_eq, Decidable.not_not] at htri
  obtain ⟨hw1, hw2, hw3⟩ := copy_window hHS hfo hsz hclip
  have ht := (OcOverflowTriAddU64_ok htri.1).2
  have hal := MACHO_ALIGN_lt st.CurrentDelta
  have b2 : copyFileOffset m S HeaderSize + st.CurrentDelta < U64 := by
    unfold U32 at hw2 hcd
    unfold U64
    omega
  have b3 : copyFileOffset m S HeaderSize + MACHO_ALIGN st.CurrentDelta
      + copyFileSize m S HeaderSize < U64 := by omega
  -- the section records and `NumSections` when the section loop starts
  have hpre : ∀ lo hi, S - Context.MachHeader + 56 ≤ lo →
      hi ≤ S - Context.MachHeader + cmdSize m S → AgreeOn st.dst d6 lo hi := by
    intro lo hi hlo hhi
    exact ((expandData_agree _ _ _ _ _ _ _ _ (by omega) b2 b3).trans
      (expandFields_agree _ _ _ (Or.inr hlo))).trans
      (expandTables_agree hd6 (hav.inside (by omega) hhi))
  have hn : segNumSections d6 (S - Context.MachHeader) = segNumSections m S := by
    have h1 := (hpre (S - Context.MachHeader + 64) (S - Context.MachHeader + 68) (by omega)
      (by omega)).rd32 (Nat.le_refl _) (Nat.le_refl _)
    have h2 := hown.word (a := S - Context.MachHeader + 64) (by omega) (by omega)
    unfold segNumSections
    rw [h1, h2]
    congr 1
    omega
  have hfields : sectionFields d6 (S - Context.MachHeader) 0 (segNumSections m S)
      = sectionFields m S 0 (segNumSections m S) := by
    unfold sectionFields
    apply List.map_congr_left
    intro i hi
    rw [List.mem_range] at hi
    have hs1 : segSection (S - Context.MachHeader) (0 + i) = S - Context.MachHeader + 72 + 80 * i := by
      unfold segSection sizeofSegment64 sizeofSection64; omega
    have hs2 : segSection S (0 + i) = S + 72 + 80 * i := by
      unfold segSection sizeofSegment64 sizeofSection64; omega
    have ha := hpre (S - Context.MachHeader + 72 + 80 * i + 40)
      (S - Context.MachHeader + 72 + 80 * i + 52) (by omega) (by omega)
    have o1 := ha.rd32 (a := S - Context.MachHeader + 72 + 80 * i + 48) (by omega) (by omega)
    have o2 := hown.word (a := S - Context.MachHeader + 72 + 80 * i + 48) (by omega) (by omega)
    have s1 := ha.rd64 (a := S - Context.MachHeader + 72 + 80 * i + 40) (by omega) (by omega)
    have s2 := hown.quad (a := S - Context.MachHeader + 72 + 80 * i + 40) (by omega) (by omega)
    unfold sectOffset sectSize
    rw [hs1, hs2, o1, o2, s1, s2]
    congr 2 <;> omega
  intro i hi
  simp only
  rw [hn]
  have := expandSectionLoop_offsets (S - Context.MachHeader) (segNumSections m S) 0 d6
    (MACHO_ALIGN st.CurrentDelta) (segFileOffset m S) i hi
  rw [Nat.zero_add] at this
  rw [this, hfields]

/-- The segment loop of `MachoExpandImage64`, when it runs to its end: for
every segment it visits, the offsets of the sections in the destination are
those `rewrittenOffsets` gives for the source's section fields, the aligned
shift of the segment and its file offset. -/
theorem expandLoop_sections {K : MachoConstants} {m : Mem} {cfuel : Nat}
    {Context : OC_MACHO_CONTEXT} {DestinationSize HeaderSize : Nat}
    (e : ExpandSetup K m cfuel Context HeaderSize) :
    ∀ (fuel : Nat) (prev : Option Nat) (st st2 : ExpandState),
      (∀ p, prev = some p → IsLoadCommand m Context.MachHeader p) →
      st.CurrentDelta < U32 →
      CommandsKept K m Context prev st.dst →
      expandLoop K m cfuel Context DestinationSize HeaderSize fuel prev st = some (true, st2) →
      (segmentWalk K m cfuel Context fuel prev = [] → st2 = st)
      ∧ (segmentWalk K m cfuel Context fuel prev ≠ [] → HeaderSize ≤ st2.CurrentSize)
      ∧ ∀ T ∈ expandShifts m (segmentWalk K m cfuel Context fuel prev) st.CurrentDelta,
          ∀ i, i < segNumSections m T.1 →
            sectOffset st2.dst (segSection (T.1 - Context.MachHeader) i)
              = (rewrittenOffsets (sectionFields m T.1 0 (segNumSections m T.1)) T.2.2
                  (segFileOffset m T.1)).getD i 0 := by
  have t := e.tiled
  have hHdr : 32 + hdrCommandsSize m Context.MachHeader = HeaderSize := e.headerSize
  have hcm : hdrCommands Context.MachHeader = Context.MachHeader + 32 := rfl
  intro fuel
  induction fuel with
  | zero =>
    intro prev st st2 _ _ _ h
    cases h
  | succ fuel ih =>
    intro prev st st2 hprev hcd hinv h
    rw [expandLoop] at h
    rw [segmentWalk]
    cases hnext : MachoGetNextSegment64 K m cfuel Context prev with
    | none =>
      rw [hnext] at h
      cases h
    | some o =>
      cases o with
      | none =>
        rw [hnext] at h
        simp only [Option.some.injEq, Prod.mk.injEq, true_and] at h
        subst h
        refine ⟨fun _ => rfl, fun h0 => absurd rfl h0, fun T hT => ?_⟩
        simp [expandShifts] at hT
      | some Next =>
        rw [hnext] at h
        simp only at h ⊢
        obtain ⟨hchk, hty, k, hk, hNext, hlater⟩ := MachoGetNextSegment64_some t hprev hnext
        subst hNext
        cases hseg : expandSegment K m cfuel Context DestinationSize HeaderSize st
            (cmdAddr m (hdrCommands Context.MachHeader) k) with
        | none =>
          rw [hseg] at h
          cases h
        | some r =>
          obtain ⟨flag, st1⟩ := r
          cases flag with
          | false =>
            rw [hseg] at h
            simp only [Option.some.injEq, Prod.mk.injEq, Bool.false_eq_true, false_and] at h
          | true =>
            rw [hseg] at h
            simp only at h
            obtain ⟨_, c1, c2, _, _⟩ := segmentChecks_true hchk
            have c1 : 72 ≤ cmdSize m (cmdAddr m (hdrCommands Context.MachHeader) k) := c1
            have c2 : 72 + 80 * segNumSections m (cmdAddr m (hdrCommands Context.MachHeader) k)
                ≤ cmdSize m (cmdAddr m (hdrCommands Context.MachHeader) k) := c2
            have hwk := t.addr_lt_top hk
            have hown := hinv k hk hchk hty hlater
            have hsec := expandSegment_sections e hk hchk hty hcd hown hseg
            obtain ⟨hagree, _, _, _, _⟩ := expandSegment_step e hk hchk hty hcd
              (hown.sub (Nat.le_refl _) (by omega)) hseg
            obtain ⟨hle, hd1, hcs, _⟩ := expandSegment_delta hseg
            have hcd1 : st1.CurrentDelta < U32 := by
              rw [hd1]
              exact Nat.mod_lt _ (by decide)
            have havk := (avoidsTables_tile e).1 k hk hty
            -- the commands behind this one are still as copied
            have hinv1 : CommandsKept K m Context
                (some (cmdAddr m (hdrCommands Context.MachHeader) k)) st1.dst := by
              intro k2 hk2 hchk2 hty2 hlater2
              have hkk : k < k2 := hlater2 k rfl hk
              have hle2 := t.addr_le hkk (Nat.le_of_lt hk2)
              have hw2 := t.addr_lt_top hk2
              have hprevk := hinv k2 hk2 hchk2 hty2
                (fun j hj hjn => Nat.lt_trans (hlater j hj hjn) hkk)
              exact hprevk.carry (hagree _ _ (by omega)
                ((avoidsTables_tile e).1 k2 hk2 hty2) (Or.inr (Or.inr (by omega))))
            obtain ⟨hnil, hsize, hrest⟩ := ih
              (some (cmdAddr m (hdrCommands Context.MachHeader) k)) st1 st2
              (fun p hp => by cases hp; exact ⟨k, hk, rfl⟩) hcd1 hinv1 h
            -- the rest of the loop leaves this command alone
            obtain ⟨_, hframe⟩ := expandLoop_spec t e.headerSize_lt (Nat.le_of_eq hHdr)
              e.fileSize_lt
              (fun k2 hk2 _ hty2 =>
                ((avoidsTables_tile e).1 k2 hk2 hty2).inside (by omega)
                  (by
                    have := (segmentChecks_true (by assumption)).2.1
                    unfold sizeofSegment64 at this
                    omega))
              fuel (some (cmdAddr m (hdrCommands Context.MachHeader) k)) st1 st2
              (fun p hp => by cases hp; exact ⟨k, hk, rfl⟩) hcd1 h
            have hHS : HeaderSize
                ≤ copyFileOffset m (cmdAddr m (hdrCommands Context.MachHeader) k) HeaderSize := by
              unfold copyFileOffset
              split <;> omega
            simp only [expandShifts]
            rw [← hd1]
            refine ⟨fun h0 => by simp at h0, fun _ => ?_, fun T hT i hi => ?_⟩
            · by_cases hw : segmentWalk K m cfuel Context fuel
                  (some (cmdAddr m (hdrCommands Context.MachHeader) k)) = []
              · rw [hnil hw, hcs]
                omega
              · exact hsize hw
            · rcases List.mem_cons.1 hT with hT | hT
              · subst hT
                simp only at hi ⊢
                have hkeep := hframe
                  (segSection (cmdAddr m (hdrCommands Context.MachHeader) k - Context.MachHeader) i
                    + 48)
                  (segSection (cmdAddr m (hdrCommands Context.MachHeader) k - Context.MachHeader) i
                    + 52)
                  (cmdAddr m (hdrCommands Context.MachHeader) k - Context.MachHeader
                    + cmdSize m (cmdAddr m (hdrCommands Context.MachHeader) k))
                  (fun k2 hk2 hlater2 => by
                    have hkk : k < k2 := hlater2 k rfl hk
                    have := t.addr_le hkk (Nat.le_of_lt hk2)
                    omega)
                  (by unfold segSection sizeofSegment64 sizeofSection64; omega)
                  (havk.inside (by unfold segSection; omega)
                    (by unfold segSection sizeofSegment64 sizeofSection64; omega))
                unfold sectOffset
                rw [hkeep.rd32 (Nat.le_refl _) (Nat.le_refl _)]
                exact hsec i hi
              · exact hrest T hT i hi

/-- The offsets of `rewrittenOffsets` by the running delta: a nonzero `Offset`
is moved by the running delta, and an `Offset` of zero with no nonzero
`Offset` before it becomes the start position plus the running delta. -/
theorem rewrittenOffsets_getD :
    ∀ (l : List (Nat × Nat)) (Delta Position i : Nat), i < l.length →
      ((l.getD i (0, 0)).1 ≠ 0 →
        (rewrittenOffsets l Delta Position).getD i 0
          = ((l.getD i (0, 0)).1 + runningDelta l Delta i) % U32)
      ∧ ((l.getD i (0, 0)).1 = 0 → (∀ j, j < i → (l.getD j (0, 0)).1 = 0) →
        (rewrittenOffsets l Delta Position).getD i 0
          = (Position % U32 + runningDelta l Delta i) % U32) := by
  intro l
  induction l with
  | nil => intro _ _ i hi; simp at hi
  | cons a rest ih =>
    obtain ⟨O, S⟩ := a
    intro d p i hi
    cases i with
    | zero =>
      simp only [List.getD_cons_zero, rewrittenOffsets, runningDelta]
      by_cases h0 : O = 0
      · simp [h0]
      · simp [h0]
    | succ j =>
      have hj : j < rest.length := by simpa using hi
      simp only [List.getD_cons_succ, rewrittenOffsets, runningDelta]
      by_cases h0 : O = 0
      · rw [if_pos h0, if_pos h0, List.getD_cons_succ]
        obtain ⟨a1, a2⟩ := ih ((d + S % U32) % U32) p j hj
        refine ⟨a1, fun hz hall => a2 hz (fun k hk => ?_)⟩
        have := hall (k + 1) (by omega)
        simpa using this
      · rw [if_neg h0, if_neg h0, List.getD_cons_succ]
        obtain ⟨a1, _⟩ := ih d (((O + d) % U32 + S) % U64) j hj
        refine ⟨a1, fun _ hall => ?_⟩
        have := hall 0 (by omega)
        simp only [List.getD_cons_zero] at this
        exact absurd this h0

theorem sectionFields_getD (m : Mem) (S n i : Nat) (hi : i < n) :
    (sectionFields m S 0 n).getD i (0, 0)
      = (sectOffset m (segSection S i), sectSize m (segSection S i)) := by
  unfold sectionFields
  rw [List.getD_eq_getElem?_getD, List.getElem?_map, List.getElem?_range hi]
  simp

/-- Claim C31, amended.  Let the context be an initialised one whose first
symtab and first dysymtab command, where present, have at least the size of
their structures, and let `MachoExpandImage64` with `Strip = FALSE` succeed.
Take a walked segment `S`, moved by the page-aligned running shift of
`expandShifts`, and let the running delta start at that shift and grow by the
`Size` of every section whose source `Offset` is zero (`runningDelta`).  Then
a section whose source `Offset` is nonzero gets its source `Offset` plus the
running delta, and a section whose source `Offset` is zero and which has no
section with a nonzero `Offset` before it is assigned `S->FileOffset` plus the
running delta (32-bit sums). -/
theorem C31_section_offsets (K : MachoConstants) (m : Mem) (fuel : Nat)
    (Context : OC_MACHO_CONTEXT) (dst0 : Mem) (DestinationSize : Nat) (r : Mem × Nat)
    (hinit : Initialized K m Context)
    (hK1 : K.MACH_LOAD_COMMAND_SYMTAB ≠ K.MACH_LOAD_COMMAND_SEGMENT_64)
    (hK2 : K.MACH_LOAD_COMMAND_DYSYMTAB ≠ K.MACH_LOAD_COMMAND_SEGMENT_64)
    (hsym : ∀ c, InternalGetNextCommand64 m fuel Context K.MACH_LOAD_COMMAND_SYMTAB none
      = some (some c) → 24 ≤ cmdSize m c)
    (hdys : ∀ c, InternalGetNextCommand64 m fuel Context K.MACH_LOAD_COMMAND_DYSYMTAB none
      = some (some c) → 80 ≤ cmdSize m c)
    (hfuel : hdrNumCommands m Context.MachHeader < fuel)
    (hres : MachoExpandImage64 K m fuel Context dst0 DestinationSize false = some r)
    (hok : r.2 ≠ 0) :
    ∀ T ∈ expandShifts m (segmentWalk K m fuel Context fuel none) 0,
      ∀ i, i < segNumSections m T.1 →
        (sectOffset m (segSection T.1 i) ≠ 0 →
          sectOffset r.1 (segSection (T.1 - Context.MachHeader) i)
            = (sectOffset m (segSection T.1 i)
                + runningDelta (sectionFields m T.1 0 (segNumSections m T.1)) T.2.2 i) % U32)
        ∧ (sectOffset m (segSection T.1 i) = 0 →
          (∀ j, j < i → sectOffset m (segSection T.1 j) = 0) →
          sectOffset r.1 (segSection (T.1 - Context.MachHeader) i)
            = (segFileOffset m T.1 % U32
                + runningDelta (sectionFields m T.1 0 (segNumSections m T.1)) T.2.2 i) % U32) := by
  have t := hinit.tiled
  have hlt := hinit.header_lt
  have e : ExpandSetup K m fuel Context (sizeofHeader64 + hdrCommandsSize m Context.MachHeader) :=
    ⟨t, rfl, hlt, hinit.fileSize_lt, Nat.le_of_lt hfuel, hK1, hK2, hsym, hdys⟩
  have hHS : (sizeofHeader64 + hdrCommandsSize m Context.MachHeader) % U32
      = sizeofHeader64 + hdrCommandsSize m Context.MachHeader := Nat.mod_eq_of_lt hlt
  have hcm : hdrCommands Context.MachHeader = Context.MachHeader + 32 := rfl
  have hsz : sizeofHeader64 = 32 := rfl
  have hinv0 : CommandsKept K m Context none
      (CopyMem dst0 0 m Context.MachHeader
        (sizeofHeader64 + hdrCommandsSize m Context.MachHeader)) := by
    intro k hk _ _ _
    have hw := t.addr_lt_top hk
    exact (headerKept_copy dst0 m Context.MachHeader
      (sizeofHeader64 + hdrCommandsSize m Context.MachHeader)).sub (Nat.zero_le _) (by omega)
  unfold MachoExpandImage64 at hres
  simp only [hHS] at hres
  split at hres
  · simp only [Option.some.injEq] at hres
    rw [← hres] at hok
    exact absurd rfl hok
  split at hres
  · cases hres
  · simp only [Option.some.injEq] at hres
    rw [← hres] at hok
    exact absurd rfl hok
  rename_i st hloop
  obtain ⟨_, hsize, hsec⟩ := expandLoop_sections e fuel none _ st (fun p hp => by cases hp)
    (by show 0 < U32; decide) hinv0 hloop
  intro T hT i hi
  have hne : segmentWalk K m fuel Context fuel none ≠ [] := by
    intro h0
    rw [h0] at hT
    simp [expandShifts] at hT
  have hcur : st.CurrentSize ≠ 0 := by
    have := hsize hne
    omega
  simp only [hcur, if_false, Bool.false_eq_true, Option.some.injEq] at hres
  rw [← hres]
  simp only
  rw [hsec T hT i hi]
  obtain ⟨a1, a2⟩ := rewrittenOffsets_getD (sectionFields m T.1 0 (segNumSections m T.1)) T.2.2
    (segFileOffset m T.1) i (by simp [sectionFields]; exact hi)
  rw [sectionFields_getD m T.1 _ i hi] at a1 a2
  refine ⟨a1, fun hz hall => a2 hz (fun j hj => ?_)⟩
  rw [sectionFields_getD m T.1 _ j (by omega)]
  exact hall j hj

/-- Claim C31, amended, on `bssFirstImage`: in the segment at `0x1068`, moved
by `0x1000`, the section `__bss` (source `Offset` 0, the first section) gets
`0x1000 + 0x1000`, the running delta grows by its `Size` to `0x1080`, and the
section `__data` (source `Offset` `0x1000`) gets `0x1000 + 0x1080`. -/
theorem C31_section_offsets_witness :
    ∃ r, MachoExpandImage64 appleConstants bssFirstImage 4 (initializedContext 0x1000 0x1080)
        blankDestination 0x3000 false = some r
      ∧ r.2 = 0x2100
      ∧ expandShifts bssFirstImage
          (segmentWalk appleConstants bssFirstImage 4 (initializedContext 0x1000 0x1080) 4 none) 0
        = [(0x1020, 0, 0), (0x1068, 0x1000, 0x1000)]
      ∧ sectionFields bssFirstImage 0x1068 0 (segNumSections bssFirstImage 0x1068)
        = [(0, 0x80), (0x1000, 0x80)]
      ∧ sectOffset r.1 (segSection 0x68 0) = 0x2000
      ∧ sectOffset r.1 (segSection 0x68 1) = 0x2080 := by
  have hret : (MachoExpandImage64 appleConstants bssFirstImage 4
      (initializedContext 0x1000 0x1080) blankDestination 0x3000 false).map Prod.snd
      = some 0x2100 := by decide
  have hsh : expandShifts bssFirstImage
      (segmentWalk appleConstants bssFirstImage 4 (initializedContext 0x1000 0x1080) 4 none) 0
      = [(0x1020, 0, 0), (0x1068, 0x1000, 0x1000)] := by decide
  cases hr : MachoExpandImage64 appleConstants bssFirstImage 4
      (initializedContext 0x1000 0x1080) blankDestination 0x3000 false with
  | none =>
    rw [hr] at hret
    cases hret
  | some r =>
    rw [hr] at hret
    simp only [Option.map_some', Option.some.injEq] at hret
    have h := C31_section_offsets appleConstants bssFirstImage 4
      (initializedContext 0x1000 0x1080) blankDestination 0x3000 r
      ⟨zeroContext, 0x1000, 0x1080, by decide, by decide, by decide⟩
      (by decide) (by decide)
      (fun c hc => by
        rw [show InternalGetNextCommand64 bssFirstImage 4 (initializedContext 0x1000 0x1080)
          appleConstants.MACH_LOAD_COMMAND_SYMTAB none = some none by decide] at hc
        cases hc)
      (fun c hc => by
        rw [show InternalGetNextCommand64 bssFirstImage 4 (initializedContext 0x1000 0x1080)
          appleConstants.MACH_LOAD_COMMAND_DYSYMTAB none = some none by decide] at hc
        cases hc)
      (by decide) hr (by rw [hret]; decide)
    rw [hsh] at h
    have h0 := (h (0x1068, 0x1000, 0x1000) (by decide) 0 (by decide)).2 (by decide)
      (fun j hj => absurd hj (Nat.not_lt_zero j))
    have h1 := (h (0x1068, 0x1000, 0x1000) (by decide) 1 (by decide)).1 (by decide)
    have e0 : (segFileOffset bssFirstImage 0x1068 % U32
        + runningDelta (sectionFields bssFirstImage 0x1068 0 (segNumSections bssFirstImage 0x1068))
            0x1000 0) % U32 = 0x2000 := by decide
    have e1 : (sectOffset bssFirstImage (segSection 0x1068 1)
        + runningDelta (sectionFields bssFirstImage 0x1068 0 (segNumSections bssFirstImage 0x1068))
            0x1000 1) % U32 = 0x2080 := by decide
    simp only at h0 h1
    rw [e0] at h0
    rw [e1] at h1
    exact ⟨r, rfl, hret, hsh, by decide, h0, h1⟩

/-! ## `InternalStripLoadCommands64`: the size of the commands -/

/-- Claim C33 (the code departs from it): `unevenImage` has the load commands
`__TEXT` (72 bytes), code signature (16 bytes) and UUID (24 bytes), 112 bytes
in all.  `MachoExpandImage64` with `Strip = TRUE` returns `0x1000`, and
`InternalStripLoadCommands64` has removed the code-signature command: the
destination header has `NumCommands = 2`, and the two commands left, `__TEXT`
and UUID, take `72 + 24 = 96` bytes.  `CommandsSize` however is `88`: the loop
subtracts `LoadCommand->CommandSize` after it has moved the UUID command into
the place of the removed one, so it takes off 24 bytes, not 16.
`MachoInitializeContext` rejects the stripped header. -/
theorem C33_strip_subtracts_size_of_next_command :
    MachoInitializeContext appleConstants unevenImage zeroContext 0x1000 0x1000
      = (true, initializedContext 0x1000 0x1000)
    ∧ [hdrNumCommands unevenImage 0x1000, hdrCommandsSize unevenImage 0x1000,
        cmdSize unevenImage (cmdAddr unevenImage 0x1020 0),
        cmdSize unevenImage (cmdAddr unevenImage 0x1020 1),
        cmdSize unevenImage (cmdAddr unevenImage 0x1020 2)] = [3, 112, 72, 16, 24]
    ∧ (MachoExpandImage64 appleConstants unevenImage 5 (initializedContext 0x1000 0x1000)
        blankDestination 0x1000 true).map
        (fun r => [r.2, hdrNumCommands r.1 0, hdrCommandsSize r.1 0,
          cmdType r.1 (cmdAddr r.1 32 0), cmdSize r.1 (cmdAddr r.1 32 0),
          cmdType r.1 (cmdAddr r.1 32 1), cmdSize r.1 (cmdAddr r.1 32 1),
          cmdSizeSum r.1 32 (hdrNumCommands r.1 0)])
      = some [0x1000, 2, 88, 0x19, 72, 0x1B, 24, 96]
    ∧ (MachoExpandImage64 appleConstants unevenImage 5 (initializedContext 0x1000 0x1000)
        blankDestination 0x1000 true).map
        (fun r => (MachoInitializeContext appleConstants (memAt 0x1000 r.1) zeroContext
          0x1000 0x1000).1)
      = some false := by
  refine ⟨by decide, by decide, by decide, by decide⟩

/-! ## `MachoGetSectionByIndex64` -/

/-- The loop of `MachoGetSectionByIndex64` from the segment after `prev` on,
with the running count `SectionIndex` at most `Index`: a section it returns is
record `i` of a walked segment `S`, where `Index` is `SectionIndex` plus the
section counts of the segments walked before `S` plus `i`, and `i` is below the
count of `S`; it returns `NULL` when `Index` is not below the total. -/
theorem sectionByIndexLoop_spec {K : MachoConstants} {m : Mem} {cfuel : Nat}
    {Context : OC_MACHO_CONTEXT} {Index : Nat} (hI : Index < U32) :
    ∀ (fuel : Nat) (prev : Option Nat) (SectionIndex : Nat) (r : Option Nat),
      SectionIndex ≤ Index →
      sectionByIndexLoop K m cfuel Context Index fuel prev SectionIndex = some r →
      (∀ Section, r = some Section →
        ∃ pre S post i, segmentWalk K m cfuel Context fuel prev = pre ++ S :: post
          ∧ Index = SectionIndex + (pre.map (segNumSections m)).sum + i
          ∧ i < segNumSections m S
          ∧ Section = segSection S i
          ∧ InternalSectionIsSane m Context Section S = true)
      ∧ (SectionIndex + ((segmentWalk K m cfuel Context fuel prev).map (segNumSections m)).sum
          ≤ Index → r = none) := by
  have hU : U32 = 4294967296 := rfl
  intro fuel
  induction fuel with
  | zero =>
    intro prev SI r _ h
    cases h
  | succ fuel ih =>
    intro prev SI r hSI h
    rw [sectionByIndexLoop] at h
    rw [segmentWalk]
    cases hnext : MachoGetNextSegment64 K m cfuel Context prev with
    | none =>
      rw [hnext] at h
      cases h
    | some o =>
      cases o with
      | none =>
        rw [hnext] at h
        simp only [Option.some.injEq] at h
        subst h
        exact ⟨fun _ hs => (by cases hs), fun _ => rfl⟩
      | some Next =>
        rw [hnext] at h
        simp only at h ⊢
        have hn := rd32_lt m (Next + 64)
        have hnn : segNumSections m Next = rd32 m (Next + 64) := rfl
        simp only [OcOverflowAddU32, decide_eq_true_eq] at h
        by_cases hc : U32 ≤ SI + segNumSections m Next
            ∨ Index < (SI + segNumSections m Next) % U32
        · rw [if_pos hc] at h
          have hlt : Index < SI + segNumSections m Next := by
            rcases hc with hc | hc
            · omega
            · by_cases ho : U32 ≤ SI + segNumSections m Next
              · omega
              · rw [Nat.mod_eq_of_lt (by omega)] at hc
                exact hc
          have hidx : (Index + U32 - SI) % U32 = Index - SI := by
            rw [show Index + U32 - SI = (Index - SI) + U32 by omega, Nat.add_mod_right]
            exact Nat.mod_eq_of_lt (by omega)
          rw [hidx] at h
          by_cases hs : InternalSectionIsSane m Context (segSection Next (Index - SI)) Next = true
          · rw [if_pos hs] at h
            simp only [Option.some.injEq] at h
            subst h
            refine ⟨fun Section hS => ?_, fun hle => ?_⟩
            · simp only [Option.some.injEq] at hS
              subst hS
              exact ⟨[], Next, _, Index - SI, rfl, (by simp; omega), (by omega), rfl, hs⟩
            · simp only [List.map_cons, List.sum_cons] at hle
              omega
          · rw [if_neg hs] at h
            simp only [Option.some.injEq] at h
            subst h
            exact ⟨fun _ hS => (by cases hS), fun _ => rfl⟩
        · rw [if_neg hc] at h
          simp only [not_or, not_le, not_lt] at hc
          have hmod : (SI + segNumSections m Next) % U32 = SI + segNumSections m Next :=
            Nat.mod_eq_of_lt hc.1
          rw [hmod] at h hc
          obtain ⟨h1, h2⟩ := ih (some Next) _ r hc.2 h
          refine ⟨fun Section hS => ?_, fun hle => ?_⟩
          · obtain ⟨pre, S, post, i, e1, e2, e3, e4, e5⟩ := h1 Section hS
            refine ⟨Next :: pre, S, post, i, (by rw [e1]; rfl), ?_, e3, e4, e5⟩
            simp only [List.map_cons, List.sum_cons]
            omega
          · apply h2
            simp only [List.map_cons, List.sum_cons] at hle
            omega

/-- The loop of `MachoGetSectionByIndex64` returns when the header is tiled by
its load commands and the fuel exceeds the number of commands left. -/
theorem sectionByIndexLoop_terminates {K : MachoConstants} {m : Mem} {cfuel : Nat}
    {Context : OC_MACHO_CONTEXT} {Index : Nat} (t : Tiled m Context.MachHeader)
    (hcf : hdrNumCommands m Context.MachHeader ≤ cfuel) :
    ∀ (fuel : Nat) (prev : Option Nat) (SectionIndex : Nat),
      (∀ p, prev = some p → IsLoadCommand m Context.MachHeader p) →
      (∀ k, k ≤ hdrNumCommands m Context.MachHeader →
        (∀ j, prev = some (cmdAddr m (hdrCommands Context.MachHeader) j) →
          j < hdrNumCommands m Context.MachHeader → j < k) →
        hdrNumCommands m Context.MachHeader - k + 1 ≤ fuel) →
      sectionByIndexLoop K m cfuel Context Index fuel prev SectionIndex ≠ none := by
  intro fuel
  induction fuel with
  | zero =>
    intro prev _ _ hf
    have := hf _ (Nat.le_refl _) (fun j _ hj => hj)
    omega
  | succ fuel ih =>
    intro prev SI hprev hf
    rw [sectionByIndexLoop]
    cases hnext : MachoGetNextSegment64 K m cfuel Context prev with
    | none => exact absurd hnext (MachoGetNextSegment64_terminates t hcf hprev)
    | some o =>
      cases o with
      | none => simp
      | some Next =>
        simp only
        obtain ⟨_, _, k, hk, hNext, hlater⟩ := MachoGetNextSegment64_some t hprev hnext
        split
        · split <;> simp
        · refine ih (some Next) _ (fun p hp => by cases hp; exact ⟨k, hk, hNext⟩) ?_
          intro k2 hk2 hj
          have h1 := hf k (Nat.le_of_lt hk) hlater
          have h2 := hj k (by rw [hNext]) hk
          omega

/-- Claim C37.  For a section index `Index` (a `UINT32`),
`MachoGetSectionByIndex64` returns, when the result is not `NULL`, the record
`Sections[i]` of a segment `S` of the enumeration (`segmentWalk`, the order of
`MachoGetNextSegment64`) such that `Index` is the number of sections of the
segments enumerated before `S` plus `i`: the section at position `Index` of
the concatenated section arrays.  The array index `i` is below
`S->NumSections`, also where the 32-bit sum `SectionIndex + NumSections` wraps
around.  It returns `NULL` when `Index` is at least the total number of
sections.  For an initialised context the function returns once the fuel
exceeds the number of load commands. -/
theorem C37_section_by_index (K : MachoConstants) (m : Mem) (fuel : Nat)
    (Context : OC_MACHO_CONTEXT) (Index : Nat) (hIndex : Index < U32) :
    (∀ r, MachoGetSectionByIndex64 K m fuel Context Index = some r →
      (∀ Section, r = some Section →
        ∃ pre S post i, segmentWalk K m fuel Context fuel none = pre ++ S :: post
          ∧ Index = (pre.map (segNumSections m)).sum + i
          ∧ i < segNumSections m S
          ∧ Section = segSection S i
          ∧ InternalSectionIsSane m Context Section S = true)
      ∧ (((segmentWalk K m fuel Context fuel none).map (segNumSections m)).sum ≤ Index →
          r = none))
    ∧ (Initialized K m Context → hdrNumCommands m Context.MachHeader < fuel →
        MachoGetSectionByIndex64 K m fuel Context Index ≠ none) := by
  refine ⟨fun r h => ?_, fun hinit hfuel => ?_⟩
  · obtain ⟨h1, h2⟩ := sectionByIndexLoop_spec hIndex fuel none 0 r (Nat.zero_le _) h
    refine ⟨fun Section hS => ?_, fun hle => h2 (by omega)⟩
    obtain ⟨pre, S, post, i, e1, e2, e3, e4, e5⟩ := h1 Section hS
    exact ⟨pre, S, post, i, e1, (by omega), e3, e4, e5⟩
  · exact sectionByIndexLoop_terminates hinit.tiled (Nat.le_of_lt hfuel) fuel none 0
      (fun p hp => by cases hp) (fun k hk _ => by omega)

/-- Claim C37 on `bssImage`, whose second segment has the sections `__data` and
`__bss`: index 1 is record 1 of the segment at `0x1068`, behind the 0 sections
of the segment at `0x1020`, and index 2, the total, gives `NULL`. -/
theorem C37_section_by_index_witness :
    MachoGetSectionByIndex64 appleConstants bssImage 4 (initializedContext 0x1000 0x1080) 1
      = some (some (segSection 0x1068 1))
    ∧ MachoGetSectionByIndex64 appleConstants bssImage 4 (initializedContext 0x1000 0x1080) 2
      = some none
    ∧ (segmentWalk appleConstants bssImage 4 (initializedContext 0x1000 0x1080) 4 none).map
        (segNumSections bssImage) = [0, 2]
    ∧ ∀ r, MachoGetSectionByIndex64 appleConstants bssImage 4
        (initializedContext 0x1000 0x1080) 1 = some r →
      (∀ Section, r = some Section →
        ∃ pre S post i,
          segmentWalk appleConstants bssImage 4 (initializedContext 0x1000 0x1080) 4 none
            = pre ++ S :: post
          ∧ 1 = (pre.map (segNumSections bssImage)).sum + i
          ∧ i < segNumSections bssImage S
          ∧ Section = segSection S i
          ∧ InternalSectionIsSane bssImage (initializedContext 0x1000 0x1080) Section S = true)
      ∧ (((segmentWalk appleConstants bssImage 4 (initializedContext 0x1000 0x1080) 4 none).map
          (segNumSections bssImage)).sum ≤ 1 → r = none) :=
  ⟨by decide, by decide, by decide,
    (C37_section_by_index appleConstants bssImage 4 (initializedContext 0x1000 0x1080) 1
      (by decide)).1⟩

/-! ## `InternalInitializeVtableByEntriesAndRelocations64`, slot by slot -/

theorem drop_eq_cons {α : Type} (l : List α) (i : Nat) (a : α) (r : List α)
    (h : l.drop i = a :: r) : l[i]? = some a ∧ l.drop (i + 1) = r := by
  constructor
  · have := congrArg List.head? h
    simpa [List.head?_drop] using this
  · rw [← List.drop_drop, h]
    rfl

theorem endSlot_ge (L : LinkHelpers) (VtableData : Nat → Nat) (NumSolve : Nat) :
    ∀ k i, i ≤ endSlot L VtableData NumSolve k i ∧ endSlot L VtableData NumSolve k i ≤ i + k := by
  intro k
  induction k with
  | zero => intro i; exact ⟨Nat.le_refl _, Nat.le_refl _⟩
  | succ k ih =>
    intro i
    rw [endSlot]
    split
    · omega
    · have := ih (i + 1)
      omega

/-- The end slot is the first slot whose data word is zero with all solve
symbols taken. -/
theorem endSlot_spec (L : LinkHelpers) (VtableData : Nat → Nat) (NumSolve : Nat) :
    ∀ k i,
      (∀ j, i ≤ j → j < endSlot L VtableData NumSolve k i →
        ¬ (VtableData (j + L.VTABLE_HEADER_LEN_64) = 0
          ∧ NumSolve ≤ zeroWordsBefore L VtableData j))
      ∧ (endSlot L VtableData NumSolve k i < i + k →
        VtableData (endSlot L VtableData NumSolve k i + L.VTABLE_HEADER_LEN_64) = 0
          ∧ NumSolve ≤ zeroWordsBefore L VtableData (endSlot L VtableData NumSolve k i)) := by
  intro k
  induction k with
  | zero =>
    intro i
    exact ⟨fun j h1 h2 => by rw [endSlot] at h2; omega, fun h => by rw [endSlot] at h; omega⟩
  | succ k ih =>
    intro i
    rw [endSlot]
    split
    · rename_i hc
      exact ⟨fun j h1 h2 => by omega, fun _ => hc⟩
    · rename_i hc
      obtain ⟨h1, h2⟩ := ih (i + 1)
      refine ⟨fun j hj1 hj2 => ?_, fun h => h2 (by omega)⟩
      by_cases hji : j = i
      · subst hji
        exact hc
      · exact h1 j (by omega) hj2

theorem initializeVtableLoop_nil (H : VtableHelpers) (L : LinkHelpers) (VtableName : String)
    (VtableData : Nat → Nat) (Index : Nat) (SolveSymbols : List (Option Nat))
    (Symbols : Nat → MACH_NLIST_64) :
    initializeVtableLoop H L VtableName VtableData [] Index SolveSymbols Symbols
      = some (Symbols, []) := rfl

theorem initializeVtableLoop_cons (H : VtableHelpers) (L : LinkHelpers) (VtableName : String)
    (VtableData : Nat → Nat) (SuperEntry : PRELINKED_VTABLE_ENTRY)
    (SuperEntries : List PRELINKED_VTABLE_ENTRY) (Index : Nat)
    (SolveSymbols : List (Option Nat)) (Symbols : Nat → MACH_NLIST_64) :
    initializeVtableLoop H L VtableName VtableData (SuperEntry :: SuperEntries) Index
        SolveSymbols Symbols
      = if VtableData (Index + L.VTABLE_HEADER_LEN_64) ≠ 0 then
          match initializeVtableLoop H L VtableName VtableData SuperEntries (Index + 1)
              SolveSymbols Symbols with
          | none => none
          | some (Symbols1, Entries) =>
            match L.InternalOcGetSymbolValue (VtableData (Index + L.VTABLE_HEADER_LEN_64)) with
            | some OcSymbol =>
              some (Symbols1, { Name := some OcSymbol.1, Address := OcSymbol.2 } :: Entries)
            | none => some (Symbols1, { Name := none, Address := 0 } :: Entries)
        else
          match SolveSymbols with
          | [] => some (Symbols, [])
          | none :: rest =>
            match initializeVtableLoop H L VtableName VtableData SuperEntries (Index + 1) rest
                Symbols with
            | none => none
            | some (Symbols1, Entries) =>
              some (Symbols1, { Name := none, Address := 0 } :: Entries)
          | some Symbol :: rest =>
            if (InternalPatchVtableSymbol H SuperEntry VtableName (Symbols Symbol)).1 = false then
              none
            else
              match initializeVtableLoop H L VtableName VtableData SuperEntries (Index + 1) rest
                  (setSymbol Symbols Symbol
                    (InternalPatchVtableSymbol H SuperEntry VtableName (Symbols Symbol)).2) with
              | none => none
              | some (Symbols1, Entries) =>
                some (Symbols1,
                  { Name := some (H.MachoGetSymbolName64
                      (InternalPatchVtableSymbol H SuperEntry VtableName (Symbols Symbol)).2)
                    Address := (InternalPatchVtableSymbol H SuperEntry VtableName
                      (Symbols Symbol)).2.Value } :: Entries) := rfl

/-- The loop of `InternalInitializeVtableByEntriesAndRelocations64`, slot by
slot.  It has reached slot `Index` with the entries `rest` of the super vtable
left, the solve symbols not taken by the slots below, and the symbol table of
that moment.  When every patch from there to the end slot succeeds, it writes
the entries `slotEntry` of these slots and leaves the symbol table of the end
slot; when one of them fails, the function returns `FALSE`. -/
theorem initializeVtableLoop_slots (H : VtableHelpers) (L : LinkHelpers) (VtableName : String)
    (VtableData : Nat → Nat) (Es : List PRELINKED_VTABLE_ENTRY) (Ss : List (Option Nat))
    (Sy0 : Nat → MACH_NLIST_64) :
    ∀ (rest : List PRELINKED_VTABLE_ENTRY) (Index : Nat) (Ssrest : List (Option Nat))
      (Sy : Nat → MACH_NLIST_64),
      Es.drop Index = rest →
      Ss.drop (zeroWordsBefore L VtableData Index) = Ssrest →
      Sy = symbolsBefore H L VtableName VtableData Es Ss Sy0 Index →
      ((∀ i, Index ≤ i → i < endSlot L VtableData Ss.length rest.length Index →
          ∀ P, slotPatch H L VtableName VtableData Es Ss Sy0 i = some P → P.1 = true) →
        initializeVtableLoop H L VtableName VtableData rest Index Ssrest Sy
          = some (symbolsBefore H L VtableName VtableData Es Ss Sy0
              (endSlot L VtableData Ss.length rest.length Index),
            (List.range' Index (endSlot L VtableData Ss.length rest.length Index - Index)).map
              (slotEntry H L VtableName VtableData Es Ss Sy0)))
      ∧ ((∃ i P, Index ≤ i ∧ i < endSlot L VtableData Ss.length rest.length Index
            ∧ slotPatch H L VtableName VtableData Es Ss Sy0 i = some P ∧ P.1 = false) →
        initializeVtableLoop H L VtableName VtableData rest Index Ssrest Sy = none) := by
  intro rest
  induction rest with
  | nil =>
    intro Index Ssrest Sy _ _ hSy
    simp only [List.length_nil, endSlot, initializeVtableLoop_nil]
    refine ⟨fun _ => ?_, fun ⟨i, _, h1, h2, _⟩ => by omega⟩
    rw [hSy]
    simp
  | cons E rest ih =>
    intro Index Ssrest Sy hE hS hSy
    obtain ⟨hEi, hEd⟩ := drop_eq_cons Es Index E rest hE
    have hge := endSlot_ge L VtableData Ss.length rest.length (Index + 1)
    have hrange : ∀ e, Index + 1 ≤ e →
        List.range' Index (e - Index) = Index :: List.range' (Index + 1) (e - (Index + 1)) := by
      intro e he
      rw [show e - Index = (e - (Index + 1)) + 1 by omega, List.range'_succ]
    simp only [List.length_cons]
    rw [endSlot]
    rw [initializeVtableLoop_cons]
    by_cases hz : VtableData (Index + L.VTABLE_HEADER_LEN_64) = 0
    · -- a zero data word
      have hzb : zeroWordsBefore L VtableData (Index + 1)
          = zeroWordsBefore L VtableData Index + 1 := by
        rw [zeroWordsBefore, if_pos hz]
      rw [if_neg (show ¬ (VtableData (Index + L.VTABLE_HEADER_LEN_64) ≠ 0) from fun h => h hz)]
      cases Ssrest with
      | nil =>
        have hlen : Ss.length ≤ zeroWordsBefore L VtableData Index := by
          have := congrArg List.length hS
          simp only [List.length_drop, List.length_nil] at this
          omega
        rw [if_pos (show VtableData (Index + L.VTABLE_HEADER_LEN_64) = 0
          ∧ Ss.length ≤ zeroWordsBefore L VtableData Index from ⟨hz, hlen⟩)]
        refine ⟨fun _ => ?_, fun ⟨i, _, h1, h2, _⟩ => by omega⟩
        rw [hSy]
        simp
      | cons s r =>
        obtain ⟨hsi, hsd⟩ := drop_eq_cons Ss _ s r hS
        have hlen : ¬ Ss.length ≤ zeroWordsBefore L VtableData Index := by
          intro hle
          rw [List.getElem?_eq_none hle] at hsi
          cases hsi
        rw [if_neg (show ¬ (VtableData (Index + L.VTABLE_HEADER_LEN_64) = 0
          ∧ Ss.length ≤ zeroWordsBefore L VtableData Index) from fun h => hlen h.2)]
        have hS1 : Ss.drop (zeroWordsBefore L VtableData (Index + 1)) = r := by
          rw [hzb]; exact hsd
        cases s with
        | none =>
          have hSy1 : Sy = symbolsBefore H L VtableName VtableData Es Ss Sy0 (Index + 1) := by
            rw [symbolsBefore, if_pos hz, hsi, hSy]
          have hent : slotEntry H L VtableName VtableData Es Ss Sy0 Index
              = { Name := none, Address := 0 } := by
            simp [slotEntry, slotPatch, hz, hsi]
          have hpat : slotPatch H L VtableName VtableData Es Ss Sy0 Index = none := by
            simp [slotPatch, hz, hsi]
          obtain ⟨ih1, ih2⟩ := ih (Index + 1) r Sy hEd hS1 hSy1
          simp only
          refine ⟨fun hok => ?_, fun ⟨i, P, h1, h2, h3, h4⟩ => ?_⟩
          · rw [ih1 (fun i hi1 hi2 => hok i (by omega) hi2), hrange _ hge.1, List.map_cons, hent]
          · have hne : i ≠ Index := by
              intro hi; subst hi; rw [hpat] at h3; cases h3
            rw [ih2 ⟨i, P, by omega, h2, h3, h4⟩]
        | some Symbol =>
          have hpat : slotPatch H L VtableName VtableData Es Ss Sy0 Index
              = some (InternalPatchVtableSymbol H E VtableName (Sy Symbol)) := by
            simp [slotPatch, hz, hsi, hEi, hSy]
          simp only
          by_cases hp : (InternalPatchVtableSymbol H E VtableName (Sy Symbol)).1 = false
          · rw [if_pos hp]
            refine ⟨fun hok => ?_, fun _ => rfl⟩
            have := hok Index (Nat.le_refl _) (by omega) _ hpat
            rw [hp] at this
            cases this
          · rw [if_neg hp]
            have hSy1 : setSymbol Sy Symbol (InternalPatchVtableSymbol H E VtableName (Sy Symbol)).2
                = symbolsBefore H L VtableName VtableData Es Ss Sy0 (Index + 1) := by
              rw [symbolsBefore, if_pos hz, hsi, hEi, hSy]
            have hent : slotEntry H L VtableName VtableData Es Ss Sy0 Index
                = { Name := some (H.MachoGetSymbolName64
                      (InternalPatchVtableSymbol H E VtableName (Sy Symbol)).2)
                    Address := (InternalPatchVtableSymbol H E VtableName (Sy Symbol)).2.Value } := by
              simp [slotEntry, hpat, hz]
            obtain ⟨ih1, ih2⟩ := ih (Index + 1) r _ hEd hS1 hSy1
            refine ⟨fun hok => ?_, fun ⟨i, P, h1, h2, h3, h4⟩ => ?_⟩
            · rw [ih1 (fun i hi1 hi2 => hok i (by omega) hi2), hrange _ hge.1, List.map_cons,
                hent]
            · have hne : i ≠ Index := by
                intro hi
                subst hi
                rw [hpat] at h3
                cases h3
                exact hp h4
              rw [ih2 ⟨i, P, by omega, h2, h3, h4⟩]
    · -- a nonzero data word
      have hzb : zeroWordsBefore L VtableData (Index + 1) = zeroWordsBefore L VtableData Index := by
        rw [zeroWordsBefore, if_neg hz]; rfl
      rw [if_pos (show VtableData (Index + L.VTABLE_HEADER_LEN_64) ≠ 0 from hz),
        if_neg (show ¬ (VtableData (Index + L.VTABLE_HEADER_LEN_64) = 0
          ∧ Ss.length ≤ zeroWordsBefore L VtableData Index) from fun h => hz h.1)]
      have hS1 : Ss.drop (zeroWordsBefore L VtableData (Index + 1)) = Ssrest := by
        rw [hzb]; exact hS
      have hSy1 : Sy = symbolsBefore H L VtableName VtableData Es Ss Sy0 (Index + 1) := by
        rw [symbolsBefore, if_neg hz, hSy]
      have hpat : slotPatch H L VtableName VtableData Es Ss Sy0 Index = none := by
        simp [slotPatch, hz]
      obtain ⟨ih1, ih2⟩ := ih (Index + 1) Ssrest Sy hEd hS1 hSy1
      refine ⟨fun hok => ?_, fun ⟨i, P, h1, h2, h3, h4⟩ => ?_⟩
      · rw [ih1 (fun i hi1 hi2 => hok i (by omega) hi2), hrange _ hge.1, List.map_cons]
        simp only [slotEntry, if_pos hz]
        cases L.InternalOcGetSymbolValue (VtableData (Index + L.VTABLE_HEADER_LEN_64)) <;> rfl
      · have hne : i ≠ Index := by
          intro hi; subst hi; rw [hpat] at h3; cases h3
        rw [ih2 ⟨i, P, by omega, h2, h3, h4⟩]

/-- The closed form of `InternalInitializeVtableByEntriesAndRelocations64`: the
end slot is within the super vtable and is the first slot with a zero data word
and all solve symbols taken; a vtable the function produces has the entries
`slotEntry` of the slots below the end slot; and the function returns `FALSE`
exactly when the patch of one of these slots fails. -/
theorem initializeVtable_closed (H : VtableHelpers) (L : LinkHelpers)
    (SuperVtable : PRELINKED_VTABLE) (VtableSymbol : Nat) (VtableData : Nat → Nat)
    (NumSolveSymbols : Nat) (SolveSymbols : List (Option Nat)) (Symbols : Nat → MACH_NLIST_64) :
    endSlot L VtableData (SolveSymbols.take NumSolveSymbols).length SuperVtable.Entries.length 0
        ≤ SuperVtable.Entries.length
    ∧ (∀ j, j < endSlot L VtableData (SolveSymbols.take NumSolveSymbols).length
          SuperVtable.Entries.length 0 →
        ¬ (VtableData (j + L.VTABLE_HEADER_LEN_64) = 0
          ∧ (SolveSymbols.take NumSolveSymbols).length ≤ zeroWordsBefore L VtableData j))
    ∧ (endSlot L VtableData (SolveSymbols.take NumSolveSymbols).length
          SuperVtable.Entries.length 0 < SuperVtable.Entries.length →
        VtableData (endSlot L VtableData (SolveSymbols.take NumSolveSymbols).length
            SuperVtable.Entries.length 0 + L.VTABLE_HEADER_LEN_64) = 0
        ∧ (SolveSymbols.take NumSolveSymbols).length
          ≤ zeroWordsBefore L VtableData
            (endSlot L VtableData (SolveSymbols.take NumSolveSymbols).length
              SuperVtable.Entries.length 0))
    ∧ (∀ r, InternalInitializeVtableByEntriesAndRelocations64 H L SuperVtable VtableSymbol
          VtableData NumSolveSymbols SolveSymbols Symbols = some r →
        r.2.Name = H.MachoGetSymbolName64 (Symbols VtableSymbol)
        ∧ r.2.Entries
          = (List.range (endSlot L VtableData (SolveSymbols.take NumSolveSymbols).length
              SuperVtable.Entries.length 0)).map
            (slotEntry H L (H.MachoGetSymbolName64 (Symbols VtableSymbol)) VtableData
              SuperVtable.Entries (SolveSymbols.take NumSolveSymbols) Symbols)
        ∧ r.1 = symbolsBefore H L (H.MachoGetSymbolName64 (Symbols VtableSymbol)) VtableData
            SuperVtable.Entries (SolveSymbols.take NumSolveSymbols) Symbols
            (endSlot L VtableData (SolveSymbols.take NumSolveSymbols).length
              SuperVtable.Entries.length 0))
    ∧ (InternalInitializeVtableByEntriesAndRelocations64 H L SuperVtable VtableSymbol
          VtableData NumSolveSymbols SolveSymbols Symbols = none
        ↔ ∃ i P, i < endSlot L VtableData (SolveSymbols.take NumSolveSymbols).length
              SuperVtable.Entries.length 0
            ∧ slotPatch H L (H.MachoGetSymbolName64 (Symbols VtableSymbol)) VtableData
                SuperVtable.Entries (SolveSymbols.take NumSolveSymbols) Symbols i = some P
            ∧ P.1 = false) := by
  have hge := endSlot_ge L VtableData (SolveSymbols.take NumSolveSymbols).length
    SuperVtable.Entries.length 0
  have hspec := endSlot_spec L VtableData (SolveSymbols.take NumSolveSymbols).length
    SuperVtable.Entries.length 0
  obtain ⟨hA, hB⟩ := initializeVtableLoop_slots H L (H.MachoGetSymbolName64 (Symbols VtableSymbol))
    VtableData SuperVtable.Entries (SolveSymbols.take NumSolveSymbols) Symbols
    SuperVtable.Entries 0 (SolveSymbols.take NumSolveSymbols) Symbols rfl rfl rfl
  refine ⟨by omega, fun j hj => hspec.1 j (Nat.zero_le _) hj, fun h => hspec.2 (by omega), ?_, ?_⟩
  · intro r hr
    by_cases hex : ∃ i P, 0 ≤ i
        ∧ i < endSlot L VtableData (SolveSymbols.take NumSolveSymbols).length
          SuperVtable.Entries.length 0
        ∧ slotPatch H L (H.MachoGetSymbolName64 (Symbols VtableSymbol)) VtableData
            SuperVtable.Entries (SolveSymbols.take NumSolveSymbols) Symbols i = some P
        ∧ P.1 = false
    · unfold InternalInitializeVtableByEntriesAndRelocations64 at hr
      rw [hB hex] at hr
      cases hr
    · have hok := hA (fun i h1 h2 P hP => by
        cases hP1 : P.1 with
        | true => rfl
        | false => exact absurd ⟨i, P, h1, h2, hP, hP1⟩ hex)
      unfold InternalInitializeVtableByEntriesAndRelocations64 at hr
      rw [hok] at hr
      simp only [Option.some.injEq] at hr
      subst hr
      simp only [Nat.sub_zero, List.range_eq_range', true_and]
  · constructor
    · intro hnone
      by_contra hex
      have hok := hA (fun i h1 h2 P hP => by
        cases hP1 : P.1 with
        | true => rfl
        | false => exact absurd ⟨i, P, h2, hP, hP1⟩ hex)
      unfold InternalInitializeVtableByEntriesAndRelocations64 at hnone
      rw [hok] at hnone
      cases hnone
    · rintro ⟨i, P, h1, h2, h3⟩
      unfold InternalInitializeVtableByEntriesAndRelocations64
      rw [hB ⟨i, P, Nat.zero_le _, h1, h2, h3⟩]

/-- Claim C34.  Let `n` be the end slot for the super vtable's entries and the
first `NumSolveSymbols` solve symbols: `n` is the super vtable's `NumEntries`
unless a slot below it has a zero data word with all solve symbols taken, and
then `n` is the first such slot.  When
`InternalInitializeVtableByEntriesAndRelocations64` succeeds, the vtable has
the name of the vtable symbol and `n` entries, entry `i` being `slotEntry`: for
a nonzero data word the name and value of the C++ symbol found for it or
`{NULL, 0}`, for a zero data word `{NULL, 0}` if the next solve symbol is
`NULL` and else the name and value of that symbol after its patch against entry
`i` of the super vtable; the symbol table is the one these patches leave.  The
function returns `FALSE` exactly when one of these patches fails. -/
theorem C34_initialize_vtable_by_entries (H : VtableHelpers) (L : LinkHelpers)
    (SuperVtable : PRELINKED_VTABLE) (VtableSymbol : Nat) (VtableData : Nat → Nat)
    (NumSolveSymbols : Nat) (SolveSymbols : List (Option Nat)) (Symbols : Nat → MACH_NLIST_64) :
    endSlot L VtableData (SolveSymbols.take NumSolveSymbols).length SuperVtable.Entries.length 0
        ≤ SuperVtable.Entries.length
    ∧ (∀ j, j < endSlot L VtableData (SolveSymbols.take NumSolveSymbols).length
          SuperVtable.Entries.length 0 →
        ¬ (VtableData (j + L.VTABLE_HEADER_LEN_64) = 0
          ∧ (SolveSymbols.take NumSolveSymbols).length ≤ zeroWordsBefore L VtableData j))
    ∧ (endSlot L VtableData (SolveSymbols.take NumSolveSymbols).length
          SuperVtable.Entries.length 0 < SuperVtable.Entries.length →
        VtableData (endSlot L VtableData (SolveSymbols.take NumSolveSymbols).length
            SuperVtable.Entries.length 0 + L.VTABLE_HEADER_LEN_64) = 0
        ∧ (SolveSymbols.take NumSolveSymbols).length
          ≤ zeroWordsBefore L VtableData
            (endSlot L VtableData (SolveSymbols.take NumSolveSymbols).length
              SuperVtable.Entries.length 0))
    ∧ (∀ r, InternalInitializeVtableByEntriesAndRelocations64 H L SuperVtable VtableSymbol
          VtableData NumSolveSymbols SolveSymbols Symbols = some r →
        r.2.Name = H.MachoGetSymbolName64 (Symbols VtableSymbol)
        ∧ r.2.Entries
          = (List.range (endSlot L VtableData (SolveSymbols.take NumSolveSymbols).length
              SuperVtable.Entries.length 0)).map
            (slotEntry H L (H.MachoGetSymbolName64 (Symbols VtableSymbol)) VtableData
              SuperVtable.Entries (SolveSymbols.take NumSolveSymbols) Symbols)
        ∧ r.1 = symbolsBefore H L (H.MachoGetSymbolName64 (Symbols VtableSymbol)) VtableData
            SuperVtable.Entries (SolveSymbols.take NumSolveSymbols) Symbols
            (endSlot L VtableData (SolveSymbols.take NumSolveSymbols).length
              SuperVtable.Entries.length 0))
    ∧ (InternalInitializeVtableByEntriesAndRelocations64 H L SuperVtable VtableSymbol
          VtableData NumSolveSymbols SolveSymbols Symbols = none
        ↔ ∃ i P, i < endSlot L VtableData (SolveSymbols.take NumSolveSymbols).length
              SuperVtable.Entries.length 0
            ∧ slotPatch H L (H.MachoGetSymbolName64 (Symbols VtableSymbol)) VtableData
                SuperVtable.Entries (SolveSymbols.take NumSolveSymbols) Symbols i = some P
            ∧ P.1 = false) :=
  initializeVtable_closed H L SuperVtable VtableSymbol VtableData NumSolveSymbols SolveSymbols
    Symbols

/-- Claim C34 on the vtable of the class `1A` with the data `childData` and the
solve symbols 12 and `NULL`, against `rootVtable`: slot 0 holds the address of
`__ZN1B3fooEv`, slot 1 takes symbol 12, which is patched to the address
`0x2000` of entry 1 of the super vtable, slot 2 takes the `NULL` symbol, and at
slot 3 no solve symbol is left, so the vtable has 3 entries. -/
theorem C34_initialize_vtable_by_entries_witness :
    (InternalInitializeVtableByEntriesAndRelocations64 classHelpers classLinks rootVtable 6
        childData 2 [some 12, none] classSymbols).map
        (fun r => (r.2.Name, r.2.Entries, (r.1 12).Value))
      = some ("__ZTV1A",
          [{ Name := some "__ZN1B3fooEv", Address := 0x5000 },
           { Name := some "__ZN1Q3fooEv", Address := 0x2000 },
           { Name := none, Address := 0 }], 0x2000)
    ∧ endSlot classLinks childData ([some 12, none].take 2).length rootVtable.Entries.length 0 = 3
    ∧ endSlot classLinks childData ([some 12, none].take 2).length rootVtable.Entries.length 0
      ≤ rootVtable.Entries.length :=
  ⟨by decide, by decide,
    (C34_initialize_vtable_by_entries classHelpers classLinks rootVtable 6 childData 2
      [some 12, none] classSymbols).1⟩

/-! ## `InternalInitializeVtablePatchData` -/

theorem zeroSlots_self (m : Mem) (VtableData lo : Nat) : zeroSlots m VtableData lo lo = [] := by
  simp [zeroSlots]

theorem zeroSlots_step (m : Mem) (VtableData lo e : Nat) (h : lo < e) :
    zeroSlots m VtableData lo e
      = if vtableWord m VtableData lo = 0 then lo :: zeroSlots m VtableData (lo + 1) e
        else zeroSlots m VtableData (lo + 1) e := by
  unfold zeroSlots
  rw [show e - lo = (e - (lo + 1)) + 1 by omega, List.range'_succ, List.filter_cons]
  by_cases hz : vtableWord m VtableData lo = 0 <;> simp [hz]

/-- The scan of `InternalInitializeVtablePatchData`, when it returns `TRUE`
at slot `e`: `e` is the terminator within the slots left, and the pointers
stored are those of the zero slots before it, in slot order, within the
capacity.  No 64-bit sum of the scan wraps when the symbol's value plus the
size of the scanned slots fits 64 bits. -/
theorem patchDataLoop_some (P : PatchDataHelpers) (m : Mem) (VtableData Value MaxSymbols : Nat) :
    ∀ (n EntryOffset : Nat) (Syms : List (Option Nat)) (e : Nat) (S : List (Option Nat)),
      Value + VTABLE_ENTRY_SIZE_64 * (EntryOffset + n) ≤ U64 →
      Syms.length ≤ MaxSymbols →
      patchDataLoop P m VtableData Value MaxSymbols n EntryOffset Syms = some (e, S) →
      IsTerminator P m VtableData Value EntryOffset e
      ∧ e < EntryOffset + n
      ∧ S = Syms ++ (zeroSlots m VtableData EntryOffset e).map (slotSymbol P Value)
      ∧ S.length ≤ MaxSymbols := by
  have hU : U64 = 18446744073709551616 := rfl
  have hV : VTABLE_ENTRY_SIZE_64 = 8 := rfl
  intro n
  induction n with
  | zero =>
    intro EO Syms e S _ _ h
    cases h
  | succ n ih =>
    intro EO Syms e S hfit hcap h
    rw [patchDataLoop] at h
    have hlt : Value + EO * VTABLE_ENTRY_SIZE_64 < U64 := by rw [hV] at hfit ⊢; omega
    by_cases hz : vtableWord m VtableData EO = 0
    · rw [if_pos hz, OcOverflowAddU64_of_lt hlt] at h
      simp only [Bool.false_eq_true, if_false] at h
      rw [show Value + EO * VTABLE_ENTRY_SIZE_64 = Value + VTABLE_ENTRY_SIZE_64 * EO by
        rw [Nat.mul_comm]] at h
      cases hr : P.MachoGetSymbolByExternRelocationOffset64 (Value + VTABLE_ENTRY_SIZE_64 * EO) with
      | none =>
        rw [hr] at h
        simp only [Option.some.injEq, Prod.mk.injEq] at h
        obtain ⟨h1, h2⟩ := h
        subst h1 h2
        refine ⟨⟨Nat.le_refl _, hz, hr, fun j h1 h2 => by omega⟩, by omega, ?_, hcap⟩
        rw [zeroSlots_self]
        simp
      | some Symbol =>
        rw [hr] at h
        simp only at h
        by_cases hc : Syms.length ≥ MaxSymbols
        · rw [if_pos hc] at h
          cases h
        · rw [if_neg hc] at h
          obtain ⟨⟨t1, t2, t3, t4⟩, h2, h3, h4⟩ := ih (EO + 1) (Syms ++ [Symbol]) e S
            (by rw [hV] at hfit ⊢; omega) (by simp; omega) h
          refine ⟨⟨by omega, t2, t3, fun j hj1 hj2 hj3 => ?_⟩, by omega, ?_, h4⟩
          · by_cases hj : j = EO
            · subst hj
              rw [hr]
              simp
            · exact t4 j (by omega) hj2 hj3
          · rw [h3, zeroSlots_step m VtableData EO e (by omega), if_pos hz, List.map_cons,
              List.append_assoc]
            simp [slotSymbol, hr]
    · rw [if_neg hz] at h
      obtain ⟨⟨t1, t2, t3, t4⟩, h2, h3, h4⟩ := ih (EO + 1) Syms e S
        (by rw [hV] at hfit ⊢; omega) hcap h
      refine ⟨⟨by omega, t2, t3, fun j hj1 hj2 hj3 => ?_⟩, by omega, ?_, h4⟩
      · by_cases hj : j = EO
        · subst hj
          exact absurd hj3 hz
        · exact t4 j (by omega) hj2 hj3
      · rw [h3, zeroSlots_step m VtableData EO e (by omega), if_neg hz]

/-- The scan returns `TRUE` at the terminator when it lies within the slots
left and the zero slots before it do not exceed the capacity. -/
theorem patchDataLoop_terminator (P : PatchDataHelpers) (m : Mem)
    (VtableData Value MaxSymbols : Nat) :
    ∀ (n EntryOffset : Nat) (Syms : List (Option Nat)) (e : Nat),
      Value + VTABLE_ENTRY_SIZE_64 * (EntryOffset + n) ≤ U64 →
      IsTerminator P m VtableData Value EntryOffset e →
      e < EntryOffset + n →
      Syms.length + (zeroSlots m VtableData EntryOffset e).length ≤ MaxSymbols →
      patchDataLoop P m VtableData Value MaxSymbols n EntryOffset Syms
        = some (e, Syms ++ (zeroSlots m VtableData EntryOffset e).map (slotSymbol P Value)) := by
  have hU : U64 = 18446744073709551616 := rfl
  have hV : VTABLE_ENTRY_SIZE_64 = 8 := rfl
  intro n
  induction n with
  | zero =>
    intro EO Syms e _ ht hlt _
    have := ht.1
    omega
  | succ n ih =>
    intro EO Syms e hfit ht hlt hcap
    obtain ⟨t1, t2, t3, t4⟩ := ht
    rw [patchDataLoop]
    have hlt2 : Value + EO * VTABLE_ENTRY_SIZE_64 < U64 := by rw [hV] at hfit ⊢; omega
    by_cases he : e = EO
    · subst he
      rw [if_pos t2, OcOverflowAddU64_of_lt hlt2]
      simp only [Bool.false_eq_true, if_false]
      rw [show Value + e * VTABLE_ENTRY_SIZE_64 = Value + VTABLE_ENTRY_SIZE_64 * e by
        rw [Nat.mul_comm], t3, zeroSlots_self]
      simp
    · have hstep := zeroSlots_step m VtableData EO e (by omega)
      by_cases hz : vtableWord m VtableData EO = 0
      · rw [if_pos hz, OcOverflowAddU64_of_lt hlt2]
        simp only [Bool.false_eq_true, if_false]
        rw [show Value + EO * VTABLE_ENTRY_SIZE_64 = Value + VTABLE_ENTRY_SIZE_64 * EO by
          rw [Nat.mul_comm]]
        rw [if_pos hz] at hstep
        rw [hstep] at hcap ⊢
        simp only [List.length_cons] at hcap
        cases hr : P.MachoGetSymbolByExternRelocationOffset64
            (Value + VTABLE_ENTRY_SIZE_64 * EO) with
        | none => exact absurd hr (t4 EO (Nat.le_refl _) (by omega) hz)
        | some Symbol =>
          simp only
          rw [if_neg (by omega), ih (EO + 1) (Syms ++ [Symbol]) e (by rw [hV] at hfit ⊢; omega)
            ⟨by omega, t2, t3, fun j h1 h2 h3 => t4 j (by omega) h2 h3⟩ (by omega)
            (by simp; omega)]
          simp [slotSymbol, hr]
      · rw [if_neg hz]
        rw [if_neg hz] at hstep
        rw [hstep] at hcap ⊢
        exact ih (EO + 1) Syms e (by rw [hV] at hfit ⊢; omega)
          ⟨by omega, t2, t3, fun j h1 h2 h3 => t4 j (by omega) h2 h3⟩ (by omega) hcap

/-- The solve symbols the slots below `t` have taken are the zero words of the
data array in these slots. -/
theorem zeroWordsBefore_zeroSlots (L : LinkHelpers) (m : Mem) (VtableData : Nat) :
    ∀ t, zeroWordsBefore L (vtableWord m VtableData) t
      = (zeroSlots m VtableData L.VTABLE_HEADER_LEN_64 (L.VTABLE_HEADER_LEN_64 + t)).length := by
  intro t
  induction t with
  | zero => simp [zeroWordsBefore, zeroSlots]
  | succ t ih =>
    rw [zeroWordsBefore, ih]
    unfold zeroSlots
    rw [show L.VTABLE_HEADER_LEN_64 + (t + 1) - L.VTABLE_HEADER_LEN_64 = t + 1 by omega,
      show L.VTABLE_HEADER_LEN_64 + t - L.VTABLE_HEADER_LEN_64 = t by omega,
      List.range'_concat, List.filter_append, List.length_append]
    simp only [Nat.one_mul, List.filter_cons, List.filter_nil]
    rw [show L.VTABLE_HEADER_LEN_64 + t = t + L.VTABLE_HEADER_LEN_64 by omega]
    by_cases hz : vtableWord m VtableData (t + L.VTABLE_HEADER_LEN_64) = 0 <;> simp [hz]

/-- For one vtable: the entries `InternalInitializeVtableByEntriesAndRelocations64`
writes are at most the `NumEntries` that `InternalInitializeVtablePatchData`
reported for the same data, when it is called with the reported number of
solve symbols, whatever the super vtable and the symbols are. -/
theorem written_le_reported (H : VtableHelpers) (L : LinkHelpers) (P : PatchDataHelpers)
    (m : Mem) (MachHeader : Nat) (Symbol : MACH_NLIST_64) (MaxSize : Nat)
    (Reported : VTABLE_PATCH_DATA) (SuperVtable : PRELINKED_VTABLE) (VtableSymbol : Nat)
    (SolveSymbols : List (Option Nat)) (Symbols : Nat → MACH_NLIST_64)
    (r : (Nat → MACH_NLIST_64) × PRELINKED_VTABLE)
    (hfit : ∀ VtableOffset VtableMaxSize,
      P.MachoSymbolGetFileOffset64 Symbol = some (VtableOffset, VtableMaxSize) →
      Symbol.Value + VtableMaxSize ≤ U64)
    (hrep : InternalInitializeVtablePatchData L P m MachHeader Symbol MaxSize = some Reported)
    (hr : InternalInitializeVtableByEntriesAndRelocations64 H L SuperVtable VtableSymbol
      (vtableWord m Reported.VtableDataPtr) Reported.NumSymbols SolveSymbols Symbols = some r) :
    r.2.Entries.length ≤ Reported.NumEntries
    ∧ r.2.Entries.length ≤ SuperVtable.Entries.length := by
  have hV : VTABLE_ENTRY_SIZE_64 = 8 := rfl
  obtain ⟨hle, hbefore, _, hsome, _⟩ := initializeVtable_closed H L SuperVtable VtableSymbol
    (vtableWord m Reported.VtableDataPtr) Reported.NumSymbols SolveSymbols Symbols
  obtain ⟨_, hent, _⟩ := hsome r hr
  rw [hent, List.length_map, List.length_range]
  refine ⟨?_, hle⟩
  -- the terminator the scan found
  unfold InternalInitializeVtablePatchData at hrep
  cases hoff : P.MachoSymbolGetFileOffset64 Symbol with
  | none => rw [hoff] at hrep; cases hrep
  | some os =>
    obtain ⟨off, size⟩ := os
    rw [hoff] at hrep
    simp only at hrep
    split at hrep
    · cases hrep
    · cases hloop : patchDataLoop P m ((MachHeader + off) % U64) Symbol.Value
          (MaxSize / sizeofSymbolPointer)
          (size / VTABLE_ENTRY_SIZE_64 - L.VTABLE_HEADER_LEN_64) L.VTABLE_HEADER_LEN_64 [] with
      | none => rw [hloop] at hrep; cases hrep
      | some eS =>
        obtain ⟨e, S⟩ := eS
        rw [hloop] at hrep
        simp only [Option.some.injEq] at hrep
        subst hrep
        simp only at hbefore ⊢
        have hn : L.VTABLE_HEADER_LEN_64 < size / VTABLE_ENTRY_SIZE_64 := by
          by_contra hle
          rw [show size / VTABLE_ENTRY_SIZE_64 - L.VTABLE_HEADER_LEN_64 = 0 by omega] at hloop
          cases hloop
        have hf := hfit off size hoff
        obtain ⟨⟨t1, t2, _, _⟩, _, hS, _⟩ := patchDataLoop_some P m _ _ _ _ _ _ e S
          (by rw [hV] at hn ⊢; omega) (by simp) hloop
        simp only [List.nil_append] at hS
        by_contra hgt
        apply hbefore (e - L.VTABLE_HEADER_LEN_64) (by omega)
        rw [zeroWordsBefore_zeroSlots,
          show e - L.VTABLE_HEADER_LEN_64 + L.VTABLE_HEADER_LEN_64 = e by omega,
          show L.VTABLE_HEADER_LEN_64 + (e - L.VTABLE_HEADER_LEN_64) = e by omega]
        refine ⟨t2, ?_⟩
        rw [hS, List.length_map]
        exact List.length_take_le _ _

theorem discoverLoop_eq (H : VtableHelpers) (L : LinkHelpers) (P : PatchDataHelpers)
    (D : DiscoveryHelpers) (m : Mem) (MachHeader : Nat) (Symbols : Nat → MACH_NLIST_64)
    (fuel Index : Nat) (st : DiscoveryState) :
    discoverLoop H L P D m MachHeader Symbols (fuel + 1) Index st
      = match D.MachoGetSymbolByIndex64 Index with
        | none => some (some st)
        | some Smcp =>
          if (Symbols Smcp).SymbolType &&& D.MACH_N_TYPE_STAB = 0
              ∧ D.MachoSymbolNameIsSmcp64 (H.MachoGetSymbolName64 (Symbols Smcp)) = true then
            match discoverEntry L P D m MachHeader Symbols Smcp
                (H.MachoGetSymbolName64 (Symbols Smcp)) st with
            | none => some none
            | some st1 => discoverLoop H L P D m MachHeader Symbols fuel (Index + 1) st1
          else discoverLoop H L P D m MachHeader Symbols fuel (Index + 1) st := rfl

/-- Every word of `wideImage` before the one at `0xCCDCDCE0` is nonzero. -/
theorem wideImage_word (j : Nat) (h : j < 0x1999999C) : vtableWord wideImage 0x101000 j ≠ 0 := by
  have h1 : rd8 wideImage (0x101000 + 8 * j) = 1 := by
    unfold rd8 wideImage
    rw [if_neg (by omega)]
  unfold vtableWord rd64 rd32
  rw [h1]
  omega

/-- On `wideImage` the scan of `InternalInitializeVtablePatchData` reports
`0x1999999A` entries and no solve symbol for every symbol at `0x8000`. -/
theorem wide_patch_data (Symbol : MACH_NLIST_64) (hs : Symbol.Value = 0x8000) (MaxSize : Nat)
    (hMax : MaxSize < U32) :
    InternalInitializeVtablePatchData wideLinks wideData wideImage 0x100000 Symbol MaxSize
      = some { MaxSize := MaxSize, VtableDataPtr := 0x101000, NumEntries := 0x1999999A,
               NumSymbols := 0, SolveSymbols := [] } := by
  have hU : U32 = 4294967296 := rfl
  have hzero : zeroSlots wideImage 0x101000 2 0x1999999C = [] := by
    unfold zeroSlots
    rw [List.filter_eq_nil_iff]
    intro j hj
    rw [List.mem_range'_1] at hj
    simp only [decide_eq_true_eq]
    exact wideImage_word j (by omega)
  have hterm : IsTerminator wideData wideImage 0x101000 Symbol.Value 2 0x1999999C :=
    ⟨by omega, by decide, rfl, fun j _ h2 h3 => absurd h3 (wideImage_word j h2)⟩
  have hloop := patchDataLoop_terminator wideData wideImage 0x101000 Symbol.Value
    (MaxSize / sizeofSymbolPointer) (0xCCCCCCE8 / VTABLE_ENTRY_SIZE_64 - 2) 2 [] 0x1999999C
    (by rw [hs]; decide) hterm (by decide) (by rw [hzero]; simp)
  rw [hzero] at hloop
  have hmax : (MaxSize + U32 - ([] : List (Option Nat)).length * sizeofSymbolPointer % U32) % U32
      = MaxSize := by
    simp only [List.length_nil, Nat.zero_mul, Nat.zero_mod, Nat.sub_zero, Nat.add_mod_right]
    exact Nat.mod_eq_of_lt hMax
  unfold InternalInitializeVtablePatchData
  rw [show wideData.MachoSymbolGetFileOffset64 Symbol = some (0x1000, 0xCCCCCCE8) from rfl]
  simp only []
  rw [show wideLinks.VTABLE_HEADER_LEN_64 = 2 from rfl,
    show (0x100000 + 0x1000) % U64 = 0x101000 by decide, if_neg (by decide), hloop]
  simp only [List.map_nil, List.append_nil]
  rw [hmax]
  rfl

theorem discoverEntry_some (L : LinkHelpers) (P : PatchDataHelpers) (D : DiscoveryHelpers)
    (m : Mem) (MachHeader : Nat) (Symbols : Nat → MACH_NLIST_64) (Smcp : Nat) (Name : String)
    (st : DiscoveryState) (Vtable MetaVtable : Nat) (Class Meta : VTABLE_PATCH_DATA)
    (h0 : ¬ st.MaxSize < D.sizeofPatchEntry)
    (hv : D.MachoGetVtableSymbolsFromSmcp64 Name = some (Vtable, MetaVtable))
    (h1 : InternalInitializeVtablePatchData L P m MachHeader (Symbols Vtable) st.MaxSize
      = some Class)
    (h2 : InternalInitializeVtablePatchData L P m MachHeader (Symbols MetaVtable) Class.MaxSize
      = some Meta) :
    discoverEntry L P D m MachHeader Symbols Smcp Name st
      = some
          { MaxSize := Meta.MaxSize
            NumTables := (st.NumTables + 1) % U32
            NumEntries := ((st.NumEntries + Class.NumEntries) % U32 + Meta.NumEntries) % U32
            Entries := st.Entries ++
              [{ Smcp := some Smcp, Vtable := Vtable
                 VtableData := vtableWord m Class.VtableDataPtr
                 MetaVtable := MetaVtable
                 MetaVtableData := vtableWord m Meta.VtableDataPtr
                 MetaSymsIndex := Class.NumSymbols
                 NumSolveSymbols := (Meta.NumSymbols + Class.NumSymbols) % U32
                 SolveSymbols := Class.SolveSymbols ++ Meta.SolveSymbols }] } := by
  unfold discoverEntry
  rw [if_neg h0, hv]
  simp only []
  rw [h1]
  simp only []
  rw [h2]

theorem wide_discover_entry (i : Nat) (hi : i < 5) (t n : Nat)
    (es : List OC_VTABLE_PATCH_ENTRY) :
    discoverEntry wideLinks wideData wideDiscovery wideImage 0x100000 wideSymbols i
        (wideHelpers.MachoGetSymbolName64 (wideSymbols i))
        { MaxSize := 0x10000, NumTables := t, NumEntries := n, Entries := es }
      = some { MaxSize := 0x10000, NumTables := (t + 1) % U32,
               NumEntries := ((n + 0x1999999A) % U32 + 0x1999999A) % U32,
               Entries := es ++ [wideEntry i] } := by
  have hv : wideDiscovery.MachoGetVtableSymbolsFromSmcp64
      (wideHelpers.MachoGetSymbolName64 (wideSymbols i)) = some (6 + 2 * i, 7 + 2 * i) := by
    interval_cases i <;> decide
  exact discoverEntry_some wideLinks wideData wideDiscovery wideImage 0x100000 wideSymbols i _
    { MaxSize := 0x10000, NumTables := t, NumEntries := n, Entries := es } _ _ _ _
    (show ¬ ((0x10000 : Nat) < wideDiscovery.sizeofPatchEntry) by decide) hv
    (wide_patch_data (wideSymbols (6 + 2 * i)) rfl 0x10000 (by decide))
    (wide_patch_data (wideSymbols (7 + 2 * i)) rfl 0x10000 (by decide))

theorem discoverLoop_entry (H : VtableHelpers) (L : LinkHelpers) (P : PatchDataHelpers)
    (D : DiscoveryHelpers) (m : Mem) (MachHeader : Nat) (Symbols : Nat → MACH_NLIST_64)
    (fuel Index Smcp : Nat) (st st1 : DiscoveryState)
    (hsym : D.MachoGetSymbolByIndex64 Index = some Smcp)
    (hc : (Symbols Smcp).SymbolType &&& D.MACH_N_TYPE_STAB = 0
      ∧ D.MachoSymbolNameIsSmcp64 (H.MachoGetSymbolName64 (Symbols Smcp)) = true)
    (hent : discoverEntry L P D m MachHeader Symbols Smcp
      (H.MachoGetSymbolName64 (Symbols Smcp)) st = some st1) :
    discoverLoop H L P D m MachHeader Symbols (fuel + 1) Index st
      = discoverLoop H L P D m MachHeader Symbols fuel (Index + 1) st1 := by
  rw [discoverLoop_eq, hsym]
  simp only []
  rw [if_pos hc, hent]

theorem discoverLoop_skip (H : VtableHelpers) (L : LinkHelpers) (P : PatchDataHelpers)
    (D : DiscoveryHelpers) (m : Mem) (MachHeader : Nat) (Symbols : Nat → MACH_NLIST_64)
    (fuel Index Smcp : Nat) (st : DiscoveryState)
    (hsym : D.MachoGetSymbolByIndex64 Index = some Smcp)
    (hc : ¬ ((Symbols Smcp).SymbolType &&& D.MACH_N_TYPE_STAB = 0
      ∧ D.MachoSymbolNameIsSmcp64 (H.MachoGetSymbolName64 (Symbols Smcp)) = true)) :
    discoverLoop H L P D m MachHeader Symbols (fuel + 1) Index st
      = discoverLoop H L P D m MachHeader Symbols fuel (Index + 1) st := by
  rw [discoverLoop_eq, hsym]
  simp only []
  rw [if_neg hc]

theorem discoverLoop_end (H : VtableHelpers) (L : LinkHelpers) (P : PatchDataHelpers)
    (D : DiscoveryHelpers) (m : Mem) (MachHeader : Nat) (Symbols : Nat → MACH_NLIST_64)
    (fuel Index : Nat) (st : DiscoveryState)
    (hsym : D.MachoGetSymbolByIndex64 Index = none) :
    discoverLoop H L P D m MachHeader Symbols (fuel + 1) Index st = some (some st) := by
  rw [discoverLoop_eq, hsym]

theorem wide_loop_entry (fuel i : Nat) (hi : i < 5) (t n : Nat)
    (es : List OC_VTABLE_PATCH_ENTRY) :
    discoverLoop wideHelpers wideLinks wideData wideDiscovery wideImage 0x100000 wideSymbols
        (fuel + 1) i { MaxSize := 0x10000, NumTables := t, NumEntries := n, Entries := es }
      = discoverLoop wideHelpers wideLinks wideData wideDiscovery wideImage 0x100000 wideSymbols
          fuel (i + 1)
          { MaxSize := 0x10000, NumTables := (t + 1) % U32,
            NumEntries := ((n + 0x1999999A) % U32 + 0x1999999A) % U32,
            Entries := es ++ [wideEntry i] } :=
  discoverLoop_entry _ _ _ _ _ _ _ fuel i i _ _
    (by interval_cases i <;> rfl) (by interval_cases i <;> decide) (wide_discover_entry i hi t n es)

theorem wide_loop_skip (fuel k : Nat) (h1 : 5 ≤ k) (h2 : k < 16) (st : DiscoveryState) :
    discoverLoop wideHelpers wideLinks wideData wideDiscovery wideImage 0x100000 wideSymbols
        (fuel + 1) k st
      = discoverLoop wideHelpers wideLinks wideData wideDiscovery wideImage 0x100000 wideSymbols
          fuel (k + 1) st :=
  discoverLoop_skip _ _ _ _ _ _ _ fuel k k st
    (by interval_cases k <;> rfl) (by interval_cases k <;> decide)

/-- The first part of `InternalPatchByVtables64` on the kext of `wideImage`:
five classes are found, each of the ten vtables is reported with `0x1999999A`
entries, and the 32-bit sum `NumEntries` is 4. -/
theorem wide_discovery :
    discoverVtables wideHelpers wideLinks wideData wideDiscovery wideImage 0x100000 wideSymbols
        17 0x10000
      = some (some { MaxSize := 0x10000, NumTables := 5, NumEntries := 4,
                     Entries := [wideEntry 0, wideEntry 1, wideEntry 2, wideEntry 3,
                       wideEntry 4] }) := by
  unfold discoverVtables
  rw [wide_loop_entry 16 0 (by decide), wide_loop_entry 15 1 (by decide),
    wide_loop_entry 14 2 (by decide), wide_loop_entry 13 3 (by decide),
    wide_loop_entry 12 4 (by decide)]
  rw [wide_loop_skip 11 5 (by decide) (by decide), wide_loop_skip 10 6 (by decide) (by decide),
    wide_loop_skip 9 7 (by decide) (by decide), wide_loop_skip 8 8 (by decide) (by decide),
    wide_loop_skip 7 9 (by decide) (by decide), wide_loop_skip 6 10 (by decide) (by decide),
    wide_loop_skip 5 11 (by decide) (by decide), wide_loop_skip 4 12 (by decide) (by decide),
    wide_loop_skip 3 13 (by decide) (by decide), wide_loop_skip 2 14 (by decide) (by decide),
    wide_loop_skip 1 15 (by decide) (by decide),
    discoverLoop_end _ _ _ _ _ _ _ 0 16 _ rfl]
  rfl

/-- Claim C36 (the code departs from it): the kext of `wideImage` has five
classes whose ten vtable symbols all lie at the same address.
`InternalInitializeVtablePatchData` reports `0x1999999A` entries for each of
them, and the first part of `InternalPatchByVtables64` adds the ten counts in
32 bits: `NumEntries` is 4, so the block allocated has room for ten vtable
records and 4 entries.  The patch loop returns `TRUE` and has written ten
vtables of one entry each (the super vtables have one entry): 10 entries. -/
theorem C36_entries_exceed_allocated_block :
    (InternalInitializeVtablePatchData wideLinks wideData wideImage 0x100000 (wideSymbols 6)
        0x10000).map (fun r => r.NumEntries) = some 0x1999999A
    ∧ 10 * 0x1999999A = U32 + 4
    ∧ ∃ st, discoverVtables wideHelpers wideLinks wideData wideDiscovery wideImage 0x100000
          wideSymbols 17 0x10000 = some (some st)
        ∧ st.NumTables = 5
        ∧ st.NumEntries = 4
        ∧ (InternalPatchByVtables64 wideHelpers wideLinks 3 6 classContext 0 wideSymbols
            st.Entries).map
            (fun r => r.map fun final =>
              (kextAt final.Context 0).LinkedVtables.map fun v => v.Entries.length)
          = some (some [1, 1, 1, 1, 1, 1, 1, 1, 1, 1]) := by
  refine ⟨?_, by decide, _, wide_discovery, rfl, rfl, by decide⟩
  rw [wide_patch_data (wideSymbols 6) rfl 0x10000 (by decide)]
  rfl

/-! ## Vtable lookup on contexts that differ in one kext -/

theorem kextAt_lockKext_eq (c : PRELINKED_CONTEXT) (k j : Nat) :
    kextAt (lockKext c k) j
      = if j = k ∧ k < c.length then { kextAt c k with Processed := true } else kextAt c j := by
  by_cases h : j = k
  · subst h
    by_cases hl : j < c.length
    · rw [if_pos ⟨rfl, hl⟩]
      exact kextAt_lockKext c j hl
    · rw [if_neg (fun h => hl h.2)]
      unfold lockKext
      rw [List.set_eq_of_length_le (by omega)]
  · rw [if_neg (fun h1 => h h1.1)]
    exact kextAt_lockKext_ne c k j h

theorem sameKextsBut_lock {Kext : Nat} {c c1 : PRELINKED_CONTEXT} (h : SameKextsBut Kext c c1)
    (k : Nat) : SameKextsBut Kext (lockKext c k) (lockKext c1 k) := by
  refine ⟨by simp [lockKext, h.1], fun j hj => ?_⟩
  rw [kextAt_lockKext_eq, kextAt_lockKext_eq, h.1]
  by_cases hk : j = k ∧ k < c.length
  · rw [if_pos hk, if_pos hk, h.2 k (by rw [← hk.1]; exact hj)]
  · rw [if_neg hk, if_neg hk, h.2 j hj]

theorem sameKextsBut_unlock {Kext : Nat} {c c1 : PRELINKED_CONTEXT} (h : SameKextsBut Kext c c1) :
    SameKextsBut Kext (InternalUnlockContextKexts c) (InternalUnlockContextKexts c1) := by
  refine ⟨by simp [InternalUnlockContextKexts, h.1], fun j hj => ?_⟩
  rw [kextAt_unlock, kextAt_unlock, h.2 j hj]

/-- The loop over dependencies other than `Kext` gives the same vtable on two
contexts that differ in `Kext` only, when the calls do. -/
theorem dependencyLoop_agree (Kext : Nat) (c0 : PRELINKED_CONTEXT)
    (q : PRELINKED_CONTEXT → Nat → Option (Option PRELINKED_VTABLE × PRELINKED_CONTEXT))
    (deps : List Nat) (hd : ∀ d ∈ deps, d ≠ Kext)
    (hq : ∀ c c1 d, d ∈ deps →
      InternalUnlockContextKexts c = InternalUnlockContextKexts c0 → SameKextsBut Kext c c1 →
      LookupAgree Kext c0 (q c d) (q c1 d)) :
    ∀ c c1, InternalUnlockContextKexts c = InternalUnlockContextKexts c0 →
      SameKextsBut Kext c c1 →
      LookupAgree Kext c0 (dependencyLoop q deps c) (dependencyLoop q deps c1) := by
  induction deps with
  | nil =>
    intro c c1 hc hs
    exact ⟨rfl, hs, hc⟩
  | cons d rest ih =>
    intro c c1 hc hs
    have ih2 := ih (fun e he => hd e (List.mem_cons_of_mem _ he))
      (fun c c1 e he => hq c c1 e (List.mem_cons_of_mem _ he))
    simp only [dependencyLoop]
    rw [hs.2 d (hd d (List.mem_cons_self _ _))]
    by_cases hp : (kextAt c d).Processed = true
    · rw [if_pos hp, if_pos hp]
      exact ih2 c c1 hc hs
    · rw [if_neg hp, if_neg hp]
      have a := hq c c1 d (List.mem_cons_self _ _) hc hs
      unfold LookupAgree at a
      cases h1 : q c d with
      | none =>
        cases h2 : q c1 d with
        | none => trivial
        | some x1 => rw [h1, h2] at a; exact a.elim
      | some x =>
        cases h2 : q c1 d with
        | none => rw [h1, h2] at a; exact a.elim
        | some x1 =>
          rw [h1, h2] at a
          obtain ⟨v, cx⟩ := x
          obtain ⟨v1, cx1⟩ := x1
          simp only at a
          obtain ⟨a1, a2, a3⟩ := a
          subst a1
          cases v1 with
          | some V => exact ⟨rfl, a2, a3⟩
          | none => exact ih2 cx cx1 a3 a2

/-- The call of the worker followed by `InternalUnlockContextKexts`, as the loop
over the dependencies makes it, agrees on two contexts when the worker does. -/
theorem unlockQuery_agree (Kext : Nat) (c0 : PRELINKED_CONTEXT)
    (r r1 : Option (Option PRELINKED_VTABLE × PRELINKED_CONTEXT)) :
    LookupAgree Kext c0 r r1 →
    LookupAgree Kext c0
      (match r with
        | none => none
        | some (Vtable, Context2) => some (Vtable, InternalUnlockContextKexts Context2))
      (match r1 with
        | none => none
        | some (Vtable, Context2) => some (Vtable, InternalUnlockContextKexts Context2)) := by
  intro a
  unfold LookupAgree at a ⊢
  cases r with
  | none =>
    cases r1 with
    | none => trivial
    | some x1 => exact a.elim
  | some x =>
    cases r1 with
    | none => exact a.elim
    | some x1 =>
      simp only at a ⊢
      exact ⟨a.1, sameKextsBut_unlock a.2.1, by rw [unlock_unlock, a.2.2]⟩

/-- On a context whose dependencies descend along a rank, the worker of the
vtable lookup on a kext below `Kext` returns the same vtable whatever is linked
in `Kext`: it never looks at that kext. -/
theorem worker_agree (Name : String) (Kext : Nat) (c0 : PRELINKED_CONTEXT) (rank : Nat → Nat)
    (hrank : ∀ j d, d ∈ (kextAt c0 j).Dependencies → rank d < rank j) :
    ∀ (fuel : Nat) (c c1 : PRELINKED_CONTEXT) (k : Nat),
      InternalUnlockContextKexts c = InternalUnlockContextKexts c0 → SameKextsBut Kext c c1 →
      rank k < rank Kext →
      LookupAgree Kext c0 (InternalGetOcVtableByNameWorker Name fuel c k)
        (InternalGetOcVtableByNameWorker Name fuel c1 k) := by
  intro fuel
  induction fuel with
  | zero => intro c c1 k _ _ _; trivial
  | succ f ih =>
    intro c c1 k hc hs hk
    have hne : k ≠ Kext := fun h => by rw [h] at hk; omega
    have hl := sameKextsBut_lock hs k
    have hlc : InternalUnlockContextKexts (lockKext c k) = InternalUnlockContextKexts c0 := by
      rw [unlock_lockKext, hc]
    rw [InternalGetOcVtableByNameWorker, InternalGetOcVtableByNameWorker, hl.2 k hne]
    cases hf : findVtable (kextAt (lockKext c k) k) Name with
    | some V => exact ⟨rfl, hl, hlc⟩
    | none =>
      simp only []
      have hdep := dependencies_of_unlock c0 (lockKext c k) hlc k
      refine dependencyLoop_agree Kext c0 _ _ (fun d hd => ?_) (fun c2 c3 d hd h2 h3 => ?_)
        _ _ hlc hl
      · rw [hdep] at hd
        have := hrank k d hd
        intro h
        rw [h] at this
        omega
      · rw [hdep] at hd
        exact unlockQuery_agree _ _ _ _ (ih c2 c3 d h2 h3 (by have := hrank k d hd; omega))
theorem findVtable_lockKext (c : PRELINKED_CONTEXT) (k : Nat) (Name : String) :
    findVtable (kextAt (lockKext c k) k) Name = findVtable (kextAt c k) Name := by
  rw [kextAt_lockKext_eq]
  split
  · rfl
  · rfl

/-- The worker on `Kext` itself, where neither context has a counted vtable of
the name in `Kext`: the search of the dependencies gives the same vtable. -/
theorem worker_agree_top (Name : String) (Kext : Nat) (c0 c : PRELINKED_CONTEXT)
    (rank : Nat → Nat)
    (hrank : ∀ j d, d ∈ (kextAt c0 j).Dependencies → rank d < rank j)
    (hs : SameKextsBut Kext c0 c)
    (hd : (kextAt c Kext).Dependencies = (kextAt c0 Kext).Dependencies)
    (h0 : findVtable (kextAt c0 Kext) Name = none)
    (h1 : findVtable (kextAt c Kext) Name = none) (fuel : Nat) :
    LookupAgree Kext c0 (InternalGetOcVtableByNameWorker Name fuel c0 Kext)
      (InternalGetOcVtableByNameWorker Name fuel c Kext) := by
  cases fuel with
  | zero => trivial
  | succ f =>
    rw [InternalGetOcVtableByNameWorker, InternalGetOcVtableByNameWorker, findVtable_lockKext,
      findVtable_lockKext, h0, h1]
    simp only []
    have hdl : (kextAt (lockKext c Kext) Kext).Dependencies
        = (kextAt (lockKext c0 Kext) Kext).Dependencies := by
      rw [kextAt_lockKext_eq, kextAt_lockKext_eq]
      split <;> split <;> exact hd
    rw [hdl]
    have hdep := dependencies_of_unlock c0 (lockKext c0 Kext) (unlock_lockKext c0 Kext) Kext
    refine dependencyLoop_agree Kext c0 _ _ (fun d hd1 => ?_) (fun c2 c3 d hd1 h2 h3 => ?_)
      _ _ (unlock_lockKext c0 Kext) (sameKextsBut_lock hs Kext)
    · rw [hdep] at hd1
      have := hrank Kext d hd1
      intro h
      rw [h] at this
      omega
    · rw [hdep] at hd1
      exact unlockQuery_agree _ _ _ _
        (worker_agree Name Kext c0 rank hrank f c2 c3 d h2 h3 (hrank Kext d hd1))

/-- The vtable lookup from `Kext` on an acyclic context, after vtables were
linked in `Kext`: the first of the counted vtables of `Kext` with the name, and
without one what the lookup gave before the vtables were linked. -/
theorem lookup_evolved (Name : String) (fuel Kext : Nat) (c0 c : PRELINKED_CONTEXT)
    (rank : Nat → Nat)
    (hrank : ∀ j d, d ∈ (kextAt c0 j).Dependencies → rank d < rank j)
    (hs : SameKextsBut Kext c0 c) (hu : InternalUnlockContextKexts c = c)
    (hd : (kextAt c Kext).Dependencies = (kextAt c0 Kext).Dependencies)
    (h0 : findVtable (kextAt c0 Kext) Name = none)
    (dv : Option PRELINKED_VTABLE) (x : PRELINKED_CONTEXT)
    (hl : InternalGetOcVtableByName Name fuel c0 Kext = some (dv, x)) :
    InternalGetOcVtableByName Name fuel c Kext
      = some ((findVtable (kextAt c Kext) Name).orElse fun _ => dv, c) := by
  have hfr : ∀ r, InternalGetOcVtableByName Name fuel c Kext = some r → r.2 = c := by
    intro r hr
    rw [lookup_frame Name fuel c Kext r hr, hu]
  cases hf : findVtable (kextAt c Kext) Name with
  | some V =>
    cases fuel with
    | zero => cases hl
    | succ f =>
      unfold InternalGetOcVtableByName at hfr ⊢
      rw [InternalGetOcVtableByNameWorker, findVtable_lockKext, hf] at hfr ⊢
      simp only [] at hfr ⊢
      have := hfr _ rfl
      simp only at this
      rw [this]
      rfl
  | none =>
    have a := worker_agree_top Name Kext c0 c rank hrank hs hd h0 hf fuel
    unfold InternalGetOcVtableByName at hl hfr ⊢
    unfold LookupAgree at a
    cases hw0 : InternalGetOcVtableByNameWorker Name fuel c0 Kext with
    | none => rw [hw0] at hl; cases hl
    | some y =>
      cases hw : InternalGetOcVtableByNameWorker Name fuel c Kext with
      | none => rw [hw0, hw] at a; exact a.elim
      | some y1 =>
        rw [hw0, hw] at a
        rw [hw0] at hl
        rw [hw] at hfr
        simp only [Option.some.injEq, Prod.mk.injEq] at hl a ⊢
        have e := hfr _ rfl
        simp only at e
        exact ⟨by rw [a.1, hl.1]; rfl, e⟩
/-! ## Vtable initialisation when every patch of a symbol succeeds -/

theorem sameNames_refl (H : VtableHelpers) (s : Nat → MACH_NLIST_64) : SameNames H s s :=
  fun _ => rfl

theorem sameNames_trans {H : VtableHelpers} {s s1 s2 : Nat → MACH_NLIST_64}
    (h1 : SameNames H s s1) (h2 : SameNames H s1 s2) : SameNames H s s2 :=
  fun i => (h2 i).trans (h1 i)

/-- The symbol `InternalPatchVtableSymbol` leaves has the name it had, when
solving a symbol keeps its name. -/
theorem patchVtableSymbol_name (H : VtableHelpers)
    (hname : ∀ a s, H.MachoGetSymbolName64 (H.InternalSolveSymbolValue64 a s)
      = H.MachoGetSymbolName64 s)
    (ParentEntry : PRELINKED_VTABLE_ENTRY) (VtableName : String) (Symbol : MACH_NLIST_64) :
    H.MachoGetSymbolName64 (InternalPatchVtableSymbol H ParentEntry VtableName Symbol).2
      = H.MachoGetSymbolName64 Symbol := by
  unfold InternalPatchVtableSymbol patchVtableSymbol
  repeat' split
  all_goals first | rfl | exact hname _ _

theorem sameNames_set {H : VtableHelpers} {s s1 : Nat → MACH_NLIST_64} (h : SameNames H s s1)
    (i : Nat) (x : MACH_NLIST_64)
    (hx : H.MachoGetSymbolName64 x = H.MachoGetSymbolName64 (s1 i)) :
    SameNames H s (setSymbol s1 i x) := by
  intro j
  unfold setSymbol
  by_cases hj : j = i
  · rw [if_pos hj, hx, hj]
    exact h i
  · rw [if_neg hj]
    exact h j

/-- When every patch of a symbol succeeds and solving keeps names, the loop of
`InternalInitializeVtableByEntriesAndRelocations64` returns `TRUE` and leaves
every symbol its name. -/
theorem initializeVtableLoop_total (H : VtableHelpers) (L : LinkHelpers)
    (hpatch : ∀ ParentEntry VtableName Symbol,
      (InternalPatchVtableSymbol H ParentEntry VtableName Symbol).1 = true)
    (hname : ∀ a s, H.MachoGetSymbolName64 (H.InternalSolveSymbolValue64 a s)
      = H.MachoGetSymbolName64 s)
    (VtableName : String) (VtableData : Nat → Nat) :
    ∀ (SuperEntries : List PRELINKED_VTABLE_ENTRY) (Index : Nat)
      (SolveSymbols : List (Option Nat)) (Symbols : Nat → MACH_NLIST_64),
      ∃ Symbols1 Entries,
        initializeVtableLoop H L VtableName VtableData SuperEntries Index SolveSymbols Symbols
          = some (Symbols1, Entries)
        ∧ SameNames H Symbols Symbols1 := by
  intro SuperEntries
  induction SuperEntries with
  | nil =>
    intro Index SolveSymbols Symbols
    exact ⟨Symbols, [], rfl, sameNames_refl H Symbols⟩
  | cons SuperEntry rest ih =>
    intro Index SolveSymbols Symbols
    rw [initializeVtableLoop_cons]
    by_cases hz : VtableData (Index + L.VTABLE_HEADER_LEN_64) ≠ 0
    · rw [if_pos hz]
      obtain ⟨s1, es, h1, h2⟩ := ih (Index + 1) SolveSymbols Symbols
      rw [h1]
      simp only []
      cases L.InternalOcGetSymbolValue (VtableData (Index + L.VTABLE_HEADER_LEN_64)) with
      | some o => exact ⟨s1, _, rfl, h2⟩
      | none => exact ⟨s1, _, rfl, h2⟩
    · rw [if_neg hz]
      cases SolveSymbols with
      | nil => exact ⟨Symbols, [], rfl, sameNames_refl H Symbols⟩
      | cons x xs =>
        cases x with
        | none =>
          obtain ⟨s1, es, h1, h2⟩ := ih (Index + 1) xs Symbols
          simp only []
          rw [h1]
          exact ⟨s1, _, rfl, h2⟩
        | some Symbol =>
          simp only []
          rw [if_neg (by rw [hpatch]; decide)]
          obtain ⟨s1, es, h1, h2⟩ := ih (Index + 1) xs
            (setSymbol Symbols Symbol
              (InternalPatchVtableSymbol H SuperEntry VtableName (Symbols Symbol)).2)
          rw [h1]
          refine ⟨s1, _, rfl, sameNames_trans ?_ h2⟩
          exact sameNames_set (sameNames_refl H Symbols) Symbol _
            (patchVtableSymbol_name H hname SuperEntry VtableName (Symbols Symbol))

/-- When every patch of a symbol succeeds and solving keeps names,
`InternalInitializeVtableByEntriesAndRelocations64` returns `TRUE`; the vtable
it writes has the name of the vtable symbol, and every symbol keeps its name. -/
theorem initializeVtable_total (H : VtableHelpers) (L : LinkHelpers)
    (hpatch : ∀ ParentEntry VtableName Symbol,
      (InternalPatchVtableSymbol H ParentEntry VtableName Symbol).1 = true)
    (hname : ∀ a s, H.MachoGetSymbolName64 (H.InternalSolveSymbolValue64 a s)
      = H.MachoGetSymbolName64 s)
    (SuperVtable : PRELINKED_VTABLE) (VtableSymbol : Nat) (VtableData : Nat → Nat)
    (NumSolveSymbols : Nat) (SolveSymbols : List (Option Nat)) (Symbols : Nat → MACH_NLIST_64) :
    ∃ Symbols1 Vtable,
      InternalInitializeVtableByEntriesAndRelocations64 H L SuperVtable VtableSymbol VtableData
          NumSolveSymbols SolveSymbols Symbols = some (Symbols1, Vtable)
      ∧ Vtable.Name = H.MachoGetSymbolName64 (Symbols VtableSymbol)
      ∧ SameNames H Symbols Symbols1 := by
  obtain ⟨s1, es, h1, h2⟩ := initializeVtableLoop_total H L hpatch hname
    (H.MachoGetSymbolName64 (Symbols VtableSymbol)) VtableData SuperVtable.Entries 0
    (SolveSymbols.take NumSolveSymbols) Symbols
  unfold InternalInitializeVtableByEntriesAndRelocations64
  rw [h1]
  exact ⟨s1, _, rfl, rfl, h2⟩

/-- The names a round builds depend on the names of the symbols only. -/
theorem patchNames_congr (H : VtableHelpers) (L : LinkHelpers) (s s1 : Nat → MACH_NLIST_64)
    (h : SameNames H s s1) (Smcp : Nat) : patchNames H L s1 Smcp = patchNames H L s Smcp := by
  unfold patchNames
  rw [h Smcp]
  cases L.MachoGetClassNameFromSuperMetaClassPointer (H.MachoGetSymbolName64 (s Smcp))
      H.SYM_MAX_NAME_LEN with
  | none => rfl
  | some cn =>
    simp only []
    cases L.MachoGetVtableNameFromClassName cn H.SYM_MAX_NAME_LEN with
    | none => rfl
    | some vn =>
      simp only []
      cases L.MachoGetMetaclassSymbolFromSmcpSymbol64 Smcp with
      | none => rfl
      | some mc =>
        simp only []
        rw [h mc]
/-! ## The rounds of the patch loop on an acyclic context -/

theorem unlock_set (c : PRELINKED_CONTEXT) (k : Nat) (x : PRELINKED_KEXT)
    (hc : InternalUnlockContextKexts c = c) (hx : x.Processed = false) :
    InternalUnlockContextKexts (c.set k x) = c.set k x := by
  unfold InternalUnlockContextKexts at hc ⊢
  rw [List.map_set, hc]
  cases x
  simp only at hx
  subst hx
  rfl

theorem processed_of_unlocked (c : PRELINKED_CONTEXT) (hc : InternalUnlockContextKexts c = c)
    (j : Nat) : (kextAt c j).Processed = false := by
  have := kextAt_unlock c j
  rw [hc] at this
  rw [this]

theorem sameKextsBut_set {Kext : Nat} {c0 c : PRELINKED_CONTEXT} (h : SameKextsBut Kext c0 c)
    (x : PRELINKED_KEXT) : SameKextsBut Kext c0 (c.set Kext x) :=
  ⟨by rw [List.length_set]; exact h.1, fun j hj => by rw [kextAt_set_ne c Kext j x hj, h.2 j hj]⟩

/-- No counted vtable of the kext has the name `Name` when the counted vtables
have the names `names` and none of these compares equal to it. -/
theorem findVtable_none (k : PRELINKED_KEXT) (names : List String) (Name : String)
    (hn : ((k.LinkedVtables.take k.NumberOfVtables).map fun v => v.Name) = names)
    (h : ∀ n ∈ names, AsciiStrCmp n Name ≠ 0) : findVtable k Name = none := by
  unfold findVtable
  rw [List.find?_eq_none]
  intro v hv
  have : v.Name ∈ names := by
    rw [← hn]
    exact List.mem_map_of_mem _ hv
  simpa using h _ this

/-- A counted vtable of the kext is found for `Name` when one of the names
`names` of the counted vtables compares equal to it. -/
theorem findVtable_some (k : PRELINKED_KEXT) (names : List String) (Name : String)
    (hn : ((k.LinkedVtables.take k.NumberOfVtables).map fun v => v.Name) = names)
    (n : String) (hmem : n ∈ names) (h : AsciiStrCmp n Name = 0) :
    ∃ V, findVtable k Name = some V := by
  unfold findVtable
  rw [← hn, List.mem_map] at hmem
  obtain ⟨v, hv, hvn⟩ := hmem
  have hs : ((k.LinkedVtables.take k.NumberOfVtables).find? fun Vtable =>
      decide (AsciiStrCmp Vtable.Name Name = 0)).isSome = true := by
    rw [List.find?_isSome]
    exact ⟨v, hv, by rw [hvn]; simpa using h⟩
  exact Option.isSome_iff_exists.1 hs

theorem mem_linkedNames (H : VtableHelpers) (Symbols : Nat → MACH_NLIST_64)
    (T : Nat → ClassRound) (lnk : List Nat) (n : String) :
    n ∈ linkedNames H Symbols T lnk
      ↔ ∃ Y ∈ lnk, n = linkedName H Symbols T Y ∨ n = linkedMetaName H Symbols T Y := by
  unfold linkedNames
  rw [List.mem_flatMap]
  constructor
  · rintro ⟨Y, hY, hn⟩
    exact ⟨Y, hY, by simpa using hn⟩
  · rintro ⟨Y, hY, hn⟩
    exact ⟨Y, hY, by simpa using hn⟩

theorem length_linkedNames (H : VtableHelpers) (Symbols : Nat → MACH_NLIST_64)
    (T : Nat → ClassRound) (lnk : List Nat) :
    (linkedNames H Symbols T lnk).length = 2 * lnk.length := by
  unfold linkedNames
  induction lnk with
  | nil => rfl
  | cons a t ih =>
    rw [List.flatMap_cons, List.length_append, ih]
    simp only [List.length_cons, List.length_nil]
    omega

/-- The vtable lookup from `Kext` during the patch loop, on a context that is
`C0` but for the vtables of `Kext`, for a name that none of the counted vtables
of `Kext` has and that the lookup on `C0` does not find: `NULL`. -/
theorem lookup_unlinked (Name : String) (lookupFuel Kext : Nat) (C0 c : PRELINKED_CONTEXT)
    (rank : Nat → Nat)
    (hrank : ∀ j d, d ∈ (kextAt C0 j).Dependencies → rank d < rank j)
    (hC0 : (kextAt C0 Kext).LinkedVtables = [])
    (hs : SameKextsBut Kext C0 c) (hu : InternalUnlockContextKexts c = c)
    (hd : (kextAt c Kext).Dependencies = (kextAt C0 Kext).Dependencies)
    (names : List String)
    (hn : (((kextAt c Kext).LinkedVtables.take (kextAt c Kext).NumberOfVtables).map
      fun v => v.Name) = names)
    (h : ∀ n ∈ names, AsciiStrCmp n Name ≠ 0)
    (x : PRELINKED_CONTEXT)
    (hl : InternalGetOcVtableByName Name lookupFuel C0 Kext = some (none, x)) :
    InternalGetOcVtableByName Name lookupFuel c Kext = some (none, c) := by
  have h0 : findVtable (kextAt C0 Kext) Name = none := by
    unfold findVtable
    rw [hC0, List.take_nil]
    rfl
  rw [lookup_evolved Name lookupFuel Kext C0 c rank hrank hs hu hd h0 none x hl,
    findVtable_none _ names Name hn h]
  rfl

/-- The vtable lookup from `Kext` during the patch loop for a name that a
counted vtable of `Kext` has or that the lookup on `C0` finds: a vtable. -/
theorem lookup_linked (Name : String) (lookupFuel Kext : Nat) (C0 c : PRELINKED_CONTEXT)
    (rank : Nat → Nat)
    (hrank : ∀ j d, d ∈ (kextAt C0 j).Dependencies → rank d < rank j)
    (hC0 : (kextAt C0 Kext).LinkedVtables = [])
    (hs : SameKextsBut Kext C0 c) (hu : InternalUnlockContextKexts c = c)
    (hd : (kextAt c Kext).Dependencies = (kextAt C0 Kext).Dependencies)
    (names : List String)
    (hn : (((kextAt c Kext).LinkedVtables.take (kextAt c Kext).NumberOfVtables).map
      fun v => v.Name) = names)
    (dv : Option PRELINKED_VTABLE) (x : PRELINKED_CONTEXT)
    (hl : InternalGetOcVtableByName Name lookupFuel C0 Kext = some (dv, x))
    (h : (∃ n ∈ names, AsciiStrCmp n Name = 0) ∨ ∃ V, dv = some V) :
    ∃ V, InternalGetOcVtableByName Name lookupFuel c Kext = some (some V, c) := by
  have h0 : findVtable (kextAt C0 Kext) Name = none := by
    unfold findVtable
    rw [hC0, List.take_nil]
    rfl
  rw [lookup_evolved Name lookupFuel Kext C0 c rank hrank hs hu hd h0 dv x hl]
  cases hf : findVtable (kextAt c Kext) Name with
  | some V => exact ⟨V, rfl⟩
  | none =>
    rcases h with ⟨n, hmem, hcmp⟩ | ⟨V, hV⟩
    · obtain ⟨V, hV⟩ := findVtable_some _ names Name hn n hmem hcmp
      rw [hV] at hf
      cases hf
    · subst hV
      exact ⟨V, rfl⟩
theorem kextAt_writeVtable (c : PRELINKED_CONTEXT) (k : Nat) (v : PRELINKED_VTABLE)
    (h : k < c.length) :
    kextAt (writeVtable c k v) k
      = { kextAt c k with LinkedVtables := (kextAt c k).LinkedVtables ++ [v] } :=
  kextAt_set c k _ h

theorem kextAt_countVtables (c : PRELINKED_CONTEXT) (k : Nat) (h : k < c.length) :
    kextAt (countVtables c k) k
      = { kextAt c k with NumberOfVtables := ((kextAt c k).NumberOfVtables + 2) % U32 } :=
  kextAt_set c k _ h

/-- A round that finds the vtable of the super class, on the state after the
classes `lnk`: the class is patched, and the state is that after `lnk` and the
class. -/
theorem patchRound_ready (H : VtableHelpers) (L : LinkHelpers) (lookupFuel Kext : Nat)
    (C0 : PRELINKED_CONTEXT) (Symbols : Nat → MACH_NLIST_64) (rank : Nat → Nat)
    (T : Nat → ClassRound) (parent : Nat → Option Nat) (classes : List Nat)
    (F : ChainFacts H L lookupFuel Kext C0 Symbols rank T parent classes)
    (lnk : List Nat) (c : PRELINKED_CONTEXT) (s : Nat → MACH_NLIST_64)
    (inv : PatchInv H Kext C0 Symbols T lnk c s) (X : Nat) (hX : X ∈ classes)
    (hsub : ∀ Y ∈ lnk, Y ∈ classes) (hnew : X ∉ lnk) (hbound : 2 * lnk.length + 2 < U32)
    (hready : chainReady parent lnk X = true) :
    ∃ c1 s1, patchRound H L lookupFuel Kext (T X).Entry (T X).Smcp c s
        = PatchRound.patched c1 s1
      ∧ PatchInv H Kext C0 Symbols T (lnk ++ [X]) c1 s1 := by
  have hk : Kext < c.length := by rw [inv.same.1]; exact F.kext_lt
  have hlen : (kextAt c Kext).LinkedVtables.length = 2 * lnk.length := by
    have := congrArg List.length inv.linked
    rwa [List.length_map, length_linkedNames] at this
  have hpF : (kextAt c Kext).Processed = false := processed_of_unlocked c inv.unlocked Kext
  -- the counted vtables of the state
  have hn : (((kextAt c Kext).LinkedVtables.take (kextAt c Kext).NumberOfVtables).map
      fun v => v.Name) = linkedNames H Symbols T lnk := by
    rw [inv.counted, ← hlen, List.take_length, inv.linked]
  -- the vtable of the super class
  have hsuper : ∃ V, InternalGetOcVtableByName (T X).SuperVtableName lookupFuel c Kext
      = some (some V, c) := by
    cases hP : parent X with
    | none =>
      obtain ⟨V, x, hl⟩ := F.root_found X hX hP
      exact lookup_linked _ lookupFuel Kext C0 c rank F.rank_desc F.none_linked inv.same
        inv.unlocked inv.deps _ hn (some V) x hl (Or.inr ⟨V, rfl⟩)
    | some P =>
      obtain ⟨_, hcmp, ⟨x, hl⟩, _, _⟩ := F.parent_class X hX P hP
      have hPl : P ∈ lnk := by
        unfold chainReady at hready
        rw [hP] at hready
        simpa using hready
      exact lookup_linked _ lookupFuel Kext C0 c rank F.rank_desc F.none_linked inv.same
        inv.unlocked inv.deps _ hn none x hl
        (Or.inl ⟨linkedName H Symbols T P,
          (mem_linkedNames H Symbols T lnk _).2 ⟨P, hPl, Or.inl rfl⟩, hcmp⟩)
  obtain ⟨SV, hSV⟩ := hsuper
  -- the class vtable
  obtain ⟨s1, V1, hI1, hN1, hS1⟩ := initializeVtable_total H L F.patch_ok F.solve_name SV
    (T X).Entry.Vtable (T X).Entry.VtableData (T X).Entry.MetaSymsIndex (T X).Entry.SolveSymbols s
  -- the context with the class vtable written
  have hk2 : Kext < (writeVtable c Kext V1).length := by
    rw [(writeVtable_kext c Kext V1 hk).1]; exact hk
  have e2 := kextAt_writeVtable c Kext V1 hk
  have hu2 : InternalUnlockContextKexts (writeVtable c Kext V1) = writeVtable c Kext V1 :=
    unlock_set c Kext _ inv.unlocked hpF
  have hs2 : SameKextsBut Kext C0 (writeVtable c Kext V1) := sameKextsBut_set inv.same _
  have hd2 : (kextAt (writeVtable c Kext V1) Kext).Dependencies
      = (kextAt C0 Kext).Dependencies := by rw [e2]; exact inv.deps
  have hn2 : (((kextAt (writeVtable c Kext V1) Kext).LinkedVtables.take
      (kextAt (writeVtable c Kext V1) Kext).NumberOfVtables).map fun v => v.Name)
      = linkedNames H Symbols T lnk := by
    rw [e2]
    simp only
    rw [inv.counted, ← hlen, List.take_left, inv.linked]
  have hmeta : InternalGetOcVtableByName (T X).MetaVtableName lookupFuel
      (writeVtable c Kext V1) Kext = some (none, writeVtable c Kext V1) := by
    obtain ⟨x, hl⟩ := F.meta_unlinked X hX
    refine lookup_unlinked _ lookupFuel Kext C0 _ rank F.rank_desc F.none_linked hs2 hu2 hd2 _
      hn2 (fun n hnm => ?_) x hl
    obtain ⟨Y, hY, hor⟩ := (mem_linkedNames H Symbols T lnk n).1 hnm
    have hYX : Y ≠ X := fun h => hnew (h ▸ hY)
    rcases hor with h | h
    · rw [h]; exact (F.meta_differs X hX Y (hsub Y hY)).1
    · rw [h]; exact (F.meta_differs X hX Y (hsub Y hY)).2 hYX
  have hosm : ∃ V, InternalGetOcVtableByName L.OS_METACLASS_VTABLE_NAME lookupFuel
      (writeVtable c Kext V1) Kext = some (some V, writeVtable c Kext V1) := by
    obtain ⟨V, x, hl⟩ := F.metaclass_found
    exact lookup_linked _ lookupFuel Kext C0 _ rank F.rank_desc F.none_linked hs2 hu2 hd2 _
      hn2 (some V) x hl (Or.inr ⟨V, rfl⟩)
  obtain ⟨MV, hMV⟩ := hosm
  obtain ⟨s2, V2, hI2, hN2, hS2⟩ := initializeVtable_total H L F.patch_ok F.solve_name MV
    (T X).Entry.MetaVtable (T X).Entry.MetaVtableData
    (((T X).Entry.NumSolveSymbols + U32 - (T X).Entry.MetaSymsIndex) % U32)
    ((T X).Entry.SolveSymbols.drop (T X).Entry.MetaSymsIndex) s1
  refine ⟨countVtables (writeVtable (writeVtable c Kext V1) Kext V2) Kext, s2, ?_, ?_⟩
  · unfold patchRound
    rw [patchNames_congr H L Symbols s inv.symbols, F.names X hX]
    simp only []
    rw [hSV]
    simp only []
    unfold patchClassVtable
    rw [F.final_name X hX]
    simp only []
    rw [(F.final_absent X hX).1, (F.final_absent X hX).2]
    simp only [Bool.false_eq_true, if_false]
    rw [hI1]
    simp only []
    unfold patchMetaVtable
    rw [F.meta_name X hX]
    simp only []
    rw [hmeta]
    simp only []
    rw [hMV]
    simp only []
    rw [hI2]
  · have hk3 : Kext < (writeVtable (writeVtable c Kext V1) Kext V2).length := by
      rw [(writeVtable_kext _ Kext V2 hk2).1]; exact hk2
    have e3 := kextAt_writeVtable (writeVtable c Kext V1) Kext V2 hk2
    have e4 := kextAt_countVtables (writeVtable (writeVtable c Kext V1) Kext V2) Kext hk3
    have hp2 : (kextAt (writeVtable c Kext V1) Kext).Processed = false :=
      processed_of_unlocked _ hu2 Kext
    have hu3 : InternalUnlockContextKexts (writeVtable (writeVtable c Kext V1) Kext V2)
        = writeVtable (writeVtable c Kext V1) Kext V2 := unlock_set _ Kext _ hu2 hp2
    have hp3 : (kextAt (writeVtable (writeVtable c Kext V1) Kext V2) Kext).Processed = false :=
      processed_of_unlocked _ hu3 Kext
    refine ⟨unlock_set _ Kext _ hu3 hp3, sameKextsBut_set (sameKextsBut_set hs2 _) _, ?_, ?_, ?_,
      sameNames_trans (sameNames_trans inv.symbols hS1) hS2⟩
    · rw [e4, e3, e2]
      exact inv.deps
    · rw [e4, e3, e2]
      simp only [List.map_append, List.map_cons, List.map_nil]
      rw [inv.linked, hN1, hN2, inv.symbols, hS1, inv.symbols]
      unfold linkedNames
      rw [List.flatMap_append, List.flatMap_singleton, List.append_assoc]
      rfl
    · rw [e4, e3, e2]
      simp only
      rw [inv.counted, List.length_append, List.length_singleton]
      have hU : U32 = 4294967296 := rfl
      rw [hU] at hbound ⊢
      omega
/-- A round that does not find the vtable of the super class, because the class
derives from a class of the kext that is not patched yet: it ends in
`continue`, and the state is as it was. -/
theorem patchRound_waiting (H : VtableHelpers) (L : LinkHelpers) (lookupFuel Kext : Nat)
    (C0 : PRELINKED_CONTEXT) (Symbols : Nat → MACH_NLIST_64) (rank : Nat → Nat)
    (T : Nat → ClassRound) (parent : Nat → Option Nat) (classes : List Nat)
    (F : ChainFacts H L lookupFuel Kext C0 Symbols rank T parent classes)
    (lnk : List Nat) (c : PRELINKED_CONTEXT) (s : Nat → MACH_NLIST_64)
    (inv : PatchInv H Kext C0 Symbols T lnk c s) (X : Nat) (hX : X ∈ classes)
    (hsub : ∀ Y ∈ lnk, Y ∈ classes) (hwait : chainReady parent lnk X = false) :
    patchRound H L lookupFuel Kext (T X).Entry (T X).Smcp c s = PatchRound.skip c := by
  have hlen : (kextAt c Kext).LinkedVtables.length = 2 * lnk.length := by
    have := congrArg List.length inv.linked
    rwa [List.length_map, length_linkedNames] at this
  have hn : (((kextAt c Kext).LinkedVtables.take (kextAt c Kext).NumberOfVtables).map
      fun v => v.Name) = linkedNames H Symbols T lnk := by
    rw [inv.counted, ← hlen, List.take_length, inv.linked]
  unfold chainReady at hwait
  cases hP : parent X with
  | none => rw [hP] at hwait; cases hwait
  | some P =>
    rw [hP] at hwait
    have hPl : P ∉ lnk := by simpa using hwait
    obtain ⟨_, _, ⟨x, hl⟩, hdiff, hmdiff⟩ := F.parent_class X hX P hP
    have hlook := lookup_unlinked (T X).SuperVtableName lookupFuel Kext C0 c rank F.rank_desc
      F.none_linked inv.same inv.unlocked inv.deps _ hn (fun n hnm => by
        obtain ⟨Y, hY, hor⟩ := (mem_linkedNames H Symbols T lnk n).1 hnm
        rcases hor with h | h
        · rw [h]; exact hdiff Y (hsub Y hY) (fun e => hPl (e ▸ hY))
        · rw [h]; exact hmdiff Y (hsub Y hY)) x hl
    unfold patchRound
    rw [patchNames_congr H L Symbols s inv.symbols, F.names X hX]
    simp only []
    rw [hlook]

/-! ## The patch loop by class -/

theorem chainPass_mono (parent : Nat → Option Nat) :
    ∀ (xs lnk : List Nat) (ok : Bool) (Y : Nat), Y ∈ lnk → Y ∈ (chainPass parent xs lnk ok).1 := by
  intro xs
  induction xs with
  | nil => intro lnk ok Y h; exact h
  | cons X rest ih =>
    intro lnk ok Y h
    rw [chainPass]
    split
    · exact ih lnk ok Y h
    · split
      · exact ih _ _ Y (List.mem_append_left _ h)
      · exact ih lnk ok Y h

theorem chainPass_mem (parent : Nat → Option Nat) :
    ∀ (xs lnk : List Nat) (ok : Bool) (Y : Nat), Y ∈ (chainPass parent xs lnk ok).1 →
      Y ∈ lnk ∨ Y ∈ xs := by
  intro xs
  induction xs with
  | nil => intro lnk ok Y h; exact Or.inl h
  | cons X rest ih =>
    intro lnk ok Y h
    rw [chainPass] at h
    split at h
    · rcases ih lnk ok Y h with h1 | h1
      · exact Or.inl h1
      · exact Or.inr (List.mem_cons_of_mem _ h1)
    · split at h
      · rcases ih _ _ Y h with h1 | h1
        · rcases List.mem_append.1 h1 with h2 | h2
          · exact Or.inl h2
          · rw [List.mem_singleton] at h2
            exact Or.inr (h2 ▸ List.mem_cons_self _ _)
        · exact Or.inr (List.mem_cons_of_mem _ h1)
      · rcases ih lnk ok Y h with h1 | h1
        · exact Or.inl h1
        · exact Or.inr (List.mem_cons_of_mem _ h1)

theorem chainEntries_congr (T : Nat → ClassRound) (lnk lnk1 xs : List Nat)
    (h : ∀ X ∈ xs, (X ∈ lnk1 ↔ X ∈ lnk)) : chainEntries T lnk1 xs = chainEntries T lnk xs := by
  unfold chainEntries
  refine List.map_congr_left (fun X hX => ?_)
  unfold markEntry
  by_cases hl : X ∈ lnk
  · rw [if_pos hl, if_pos ((h X hX).2 hl)]
  · rw [if_neg hl, if_neg (fun h1 => hl ((h X hX).1 h1))]

theorem patchPass_cons_done (H : VtableHelpers) (L : LinkHelpers) (lookupFuel Kext : Nat)
    (Entry : OC_VTABLE_PATCH_ENTRY) (rest : List OC_VTABLE_PATCH_ENTRY) (st : PatchState)
    (ok : Bool) (h : Entry.Smcp = none) :
    patchPass H L lookupFuel Kext (Entry :: rest) st ok
      = patchPass H L lookupFuel Kext rest { st with Entries := st.Entries ++ [Entry] } ok := by
  rw [patchPass, h]

theorem patchPass_cons_skip (H : VtableHelpers) (L : LinkHelpers) (lookupFuel Kext : Nat)
    (Entry : OC_VTABLE_PATCH_ENTRY) (rest : List OC_VTABLE_PATCH_ENTRY) (st : PatchState)
    (ok : Bool) (Smcp : Nat) (c1 : PRELINKED_CONTEXT) (h : Entry.Smcp = some Smcp)
    (hr : patchRound H L lookupFuel Kext Entry Smcp st.Context st.Symbols = PatchRound.skip c1) :
    patchPass H L lookupFuel Kext (Entry :: rest) st ok
      = patchPass H L lookupFuel Kext rest
          { st with Context := c1, Entries := st.Entries ++ [Entry] } ok := by
  rw [patchPass, h]
  simp only []
  rw [hr]

theorem patchPass_cons_patched (H : VtableHelpers) (L : LinkHelpers) (lookupFuel Kext : Nat)
    (Entry : OC_VTABLE_PATCH_ENTRY) (rest : List OC_VTABLE_PATCH_ENTRY) (st : PatchState)
    (ok : Bool) (Smcp : Nat) (c1 : PRELINKED_CONTEXT) (s1 : Nat → MACH_NLIST_64)
    (h : Entry.Smcp = some Smcp)
    (hr : patchRound H L lookupFuel Kext Entry Smcp st.Context st.Symbols
      = PatchRound.patched c1 s1) :
    patchPass H L lookupFuel Kext (Entry :: rest) st ok
      = patchPass H L lookupFuel Kext rest
          { Context := c1, Symbols := s1,
            Entries := st.Entries ++ [{ Entry with Smcp := none }],
            NumPatched := st.NumPatched + 1 } true := by
  rw [patchPass, h]
  simp only []
  rw [hr]
/-- A pass of the patch loop over the entries of the classes `xs`, on the state
after the classes `lnk`, goes as `chainPass` says: it ends with the state after
the classes `chainPass` gives, and it is successful when `chainPass` is. -/
theorem patchPass_chain (H : VtableHelpers) (L : LinkHelpers) (lookupFuel Kext : Nat)
    (C0 : PRELINKED_CONTEXT) (Symbols : Nat → MACH_NLIST_64) (rank : Nat → Nat)
    (T : Nat → ClassRound) (parent : Nat → Option Nat) (classes : List Nat)
    (F : ChainFacts H L lookupFuel Kext C0 Symbols rank T parent classes) :
    ∀ (xs lnk : List Nat) (st : PatchState) (ok : Bool),
      (∀ X ∈ xs, X ∈ classes) → xs.Nodup → (∀ Y ∈ lnk, Y ∈ classes) →
      PatchInv H Kext C0 Symbols T lnk st.Context st.Symbols →
      st.NumPatched = lnk.length → 2 * lnk.length + 2 * xs.length < U32 →
      ∃ st1, patchPass H L lookupFuel Kext (chainEntries T lnk xs) st ok
          = PatchPass.done st1 (chainPass parent xs lnk ok).2
        ∧ PatchInv H Kext C0 Symbols T (chainPass parent xs lnk ok).1 st1.Context st1.Symbols
        ∧ st1.NumPatched = (chainPass parent xs lnk ok).1.length
        ∧ st1.Entries = st.Entries ++ chainEntries T (chainPass parent xs lnk ok).1 xs
        ∧ ∀ Y ∈ (chainPass parent xs lnk ok).1, Y ∈ classes := by
  intro xs
  induction xs with
  | nil =>
    intro lnk st ok _ _ hsub inv hnum _
    exact ⟨st, rfl, inv, hnum, by simp [chainEntries], hsub⟩
  | cons X rest ih =>
    intro lnk st ok hcl hnd hsub inv hnum hb
    have hX : X ∈ classes := hcl X (List.mem_cons_self _ _)
    have hcl2 : ∀ Y ∈ rest, Y ∈ classes := fun Y hY => hcl Y (List.mem_cons_of_mem _ hY)
    have hXr : X ∉ rest := (List.nodup_cons.1 hnd).1
    have hnd2 : rest.Nodup := (List.nodup_cons.1 hnd).2
    have hlen : (X :: rest).length = rest.length + 1 := rfl
    rw [hlen] at hb
    have hce : ∀ l, chainEntries T l (X :: rest) = markEntry T l X :: chainEntries T l rest :=
      fun l => rfl
    rw [hce, chainPass]
    by_cases hl : X ∈ lnk
    · -- the class is patched already
      rw [if_pos hl]
      have hm : markEntry T lnk X = { (T X).Entry with Smcp := none } := by
        unfold markEntry
        rw [if_pos hl]
      rw [hm, patchPass_cons_done _ _ _ _ _ _ _ _ rfl]
      obtain ⟨st1, h1, h2, h3, h4, h5⟩ := ih lnk
        { st with Entries := st.Entries ++ [{ (T X).Entry with Smcp := none }] } ok hcl2 hnd2
        hsub inv hnum (by omega)
      refine ⟨st1, h1, h2, h3, ?_, h5⟩
      rw [h4, hce]
      have hm1 : markEntry T (chainPass parent rest lnk ok).1 X
          = { (T X).Entry with Smcp := none } := by
        unfold markEntry
        rw [if_pos (chainPass_mono parent rest lnk ok X hl)]
      rw [hm1]
      simp
    · rw [if_neg hl]
      have hm : markEntry T lnk X = (T X).Entry := by
        unfold markEntry
        rw [if_neg hl]
      rw [hm]
      by_cases hr : chainReady parent lnk X = true
      · -- the class is patched in this round
        rw [if_pos hr]
        have hU : U32 = 4294967296 := rfl
        obtain ⟨c1, s1, hround, inv1⟩ := patchRound_ready H L lookupFuel Kext C0 Symbols rank T
          parent classes F lnk st.Context st.Symbols inv X hX hsub hl
          (by rw [hU] at hb ⊢; omega) hr
        rw [patchPass_cons_patched _ _ _ _ _ _ _ _ _ c1 s1 (F.smcp X hX) hround]
        have hcong : chainEntries T lnk rest = chainEntries T (lnk ++ [X]) rest :=
          (chainEntries_congr T lnk (lnk ++ [X]) rest (fun Y hY => by
            rw [List.mem_append, List.mem_singleton]
            constructor
            · rintro (h | h)
              · exact h
              · exact absurd (h ▸ hY) hXr
            · exact Or.inl)).symm
        rw [hcong]
        obtain ⟨st1, h1, h2, h3, h4, h5⟩ := ih (lnk ++ [X])
          { Context := c1, Symbols := s1,
            Entries := st.Entries ++ [{ (T X).Entry with Smcp := none }],
            NumPatched := st.NumPatched + 1 } true hcl2 hnd2
          (fun Y hY => by
            rcases List.mem_append.1 hY with h | h
            · exact hsub Y h
            · rw [List.mem_singleton] at h
              exact h ▸ hX)
          inv1 (by simp [hnum]) (by rw [List.length_append, List.length_singleton]; omega)
        refine ⟨st1, h1, h2, h3, ?_, h5⟩
        rw [h4, hce]
        have hm1 : markEntry T (chainPass parent rest (lnk ++ [X]) true).1 X
            = { (T X).Entry with Smcp := none } := by
          unfold markEntry
          rw [if_pos (chainPass_mono parent rest _ true X (by simp))]
        rw [hm1]
        simp
      · -- the round ends in `continue`
        rw [if_neg hr]
        have hw := patchRound_waiting H L lookupFuel Kext C0 Symbols rank T parent classes F lnk
          st.Context st.Symbols inv X hX hsub (by simpa using hr)
        rw [patchPass_cons_skip _ _ _ _ _ _ _ _ _ st.Context (F.smcp X hX) hw]
        obtain ⟨st1, h1, h2, h3, h4, h5⟩ := ih lnk
          { st with Context := st.Context, Entries := st.Entries ++ [(T X).Entry] } ok hcl2 hnd2
          hsub inv hnum (by omega)
        refine ⟨st1, h1, h2, h3, ?_, h5⟩
        rw [h4, hce]
        have hm1 : markEntry T (chainPass parent rest lnk ok).1 X = (T X).Entry := by
          unfold markEntry
          rw [if_neg (fun h => by
            rcases chainPass_mem parent rest lnk ok X h with h1 | h1
            · exact hl h1
            · exact hXr h1)]
        rw [hm1]
        simp

/-- The patch loop over the entries of the classes `xs` goes as `chainLoop`
says: where `chainLoop` ends with the classes `lnk1`, the loop returns `TRUE`
in the state after these classes. -/
theorem patchLoop_chain (H : VtableHelpers) (L : LinkHelpers) (lookupFuel Kext : Nat)
    (C0 : PRELINKED_CONTEXT) (Symbols : Nat → MACH_NLIST_64) (rank : Nat → Nat)
    (T : Nat → ClassRound) (parent : Nat → Option Nat) (classes : List Nat)
    (F : ChainFacts H L lookupFuel Kext C0 Symbols rank T parent classes)
    (xs : List Nat) (hcl : ∀ X ∈ xs, X ∈ classes) (hnd : xs.Nodup)
    (hb : 4 * xs.length < U32) :
    ∀ (fuel : Nat) (lnk : List Nat) (st : PatchState) (lnk1 : List Nat),
      (∀ Y ∈ lnk, Y ∈ classes) →
      PatchInv H Kext C0 Symbols T lnk st.Context st.Symbols →
      st.NumPatched = lnk.length → st.Entries = chainEntries T lnk xs →
      chainLoop parent xs fuel lnk = some (some lnk1) →
      ∃ st1, patchLoop H L lookupFuel Kext fuel st = some (some st1)
        ∧ PatchInv H Kext C0 Symbols T lnk1 st1.Context st1.Symbols
        ∧ st1.NumPatched = lnk1.length
        ∧ st1.Entries = chainEntries T lnk1 xs := by
  intro fuel
  induction fuel with
  | zero => intro lnk st lnk1 _ _ _ _ h; cases h
  | succ f ih =>
    intro lnk st lnk1 hsub inv hnum hent h
    have hel : st.Entries.length = xs.length := by rw [hent]; simp [chainEntries]
    rw [chainLoop] at h
    rw [patchLoop]
    by_cases hlt : lnk.length < xs.length
    · rw [if_pos hlt] at h
      rw [if_pos (by rw [hnum, hel]; exact hlt)]
      have hU : U32 = 4294967296 := rfl
      obtain ⟨st1, h1, h2, h3, h4, h5⟩ := patchPass_chain H L lookupFuel Kext C0 Symbols rank T
        parent classes F xs lnk { st with Entries := [] } false hcl hnd hsub inv hnum
        (by rw [hU] at hb ⊢; omega)
      rw [hent, h1]
      simp only []
      by_cases hok : (chainPass parent xs lnk false).2 = true
      · rw [if_pos hok] at h ⊢
        exact ih _ st1 lnk1 h5 h2 h3 (by rw [h4]; rfl) h
      · rw [if_neg hok] at h
        cases h
    · rw [if_neg hlt] at h
      rw [if_neg (by rw [hnum, hel]; exact hlt)]
      simp only [Option.some.injEq] at h
      subst h
      exact ⟨st, rfl, inv, hnum, hent⟩
theorem set_kextAt_self (c : PRELINKED_CONTEXT) (k : Nat) (hk : k < c.length) :
    c.set k (kextAt c k) = c := by
  unfold kextAt
  induction c generalizing k with
  | nil => rfl
  | cons a t ih =>
    cases k with
    | zero => rfl
    | succ n =>
      simp only [List.set_cons_succ, List.getD_cons_succ, List.cons.injEq, true_and]
      exact ih n (by simpa using hk)

theorem chainLoop_threeChain (xs : List Nat) (hxs : xs.Perm [0, 1, 2]) :
    chainLoop threeChain xs 4 [] = some (some [0, 1, 2]) := by
  have hmem := List.mem_permutations.2 hxs
  simp only [List.permutations, List.permutationsAux_cons, List.permutationsAux2,
    List.permutationsAux_nil, List.foldr, List.mem_cons, List.mem_singleton, List.append_nil,
    List.nil_append, List.cons_append, id, List.mem_append, List.not_mem_nil, or_false,
    false_or, List.map] at hmem
  rcases hmem with h | h | h | h | h | h <;> subst h <;> decide

/-- A kext that declares three classes of which the first derives from a class
whose vtable the lookup finds, the second from the first and the third from
the second, under the premises `ChainFacts`: for every order of the three
entries and with four or more passes allowed, `InternalPatchByVtables64`
returns `TRUE`, has counted six vtables and has linked the class vtable and the
metaclass vtable of the first, of the second and of the third class, in this
order, and every entry has its `Smcp` cleared. -/
theorem patchByVtables_chain (H : VtableHelpers) (L : LinkHelpers) (lookupFuel fuel : Nat)
    (Context : PRELINKED_CONTEXT) (Kext : Nat) (Symbols : Nat → MACH_NLIST_64)
    (rank : Nat → Nat) (T : Nat → ClassRound)
    (F : ChainFacts H L lookupFuel Kext Context Symbols rank T threeChain [0, 1, 2])
    (xs : List Nat) (hxs : xs.Perm [0, 1, 2]) (hfuel : 4 ≤ fuel) :
    ∃ st1,
      InternalPatchByVtables64 H L lookupFuel fuel Context Kext Symbols
          (xs.map fun X => (T X).Entry) = some (some st1)
      ∧ (kextAt st1.Context Kext).NumberOfVtables = 6
      ∧ ((kextAt st1.Context Kext).LinkedVtables.map fun v => v.Name)
        = linkedNames H Symbols T [0, 1, 2]
      ∧ st1.NumPatched = 3
      ∧ st1.Entries = xs.map fun X => { (T X).Entry with Smcp := none } := by
  have hlen : xs.length = 3 := by rw [hxs.length_eq]; rfl
  have hcl : ∀ X ∈ xs, X ∈ [0, 1, 2] := fun X hX => hxs.subset hX
  have hnd : xs.Nodup := hxs.nodup_iff.2 (by decide)
  have hC : Context.set Kext { kextAt Context Kext with LinkedVtables := [] } = Context := by
    have e : ({ kextAt Context Kext with LinkedVtables := [] } : PRELINKED_KEXT)
        = kextAt Context Kext := by
      have h := F.none_linked
      revert h
      cases kextAt Context Kext
      intro h
      simp only at h
      subst h
      rfl
    rw [e]
    exact set_kextAt_self Context Kext F.kext_lt
  have inv0 : PatchInv H Kext Context Symbols T [] Context Symbols :=
    ⟨F.unlocked, ⟨rfl, fun _ _ => rfl⟩, rfl, by rw [F.none_linked]; rfl,
      by rw [F.none_counted]; rfl, sameNames_refl H Symbols⟩
  have hent : (xs.map fun X => (T X).Entry) = chainEntries T [] xs := by
    unfold chainEntries
    refine List.map_congr_left (fun X _ => ?_)
    unfold markEntry
    rw [if_neg (List.not_mem_nil X)]
  obtain ⟨st1, h1, h2, h3, h4⟩ := patchLoop_chain H L lookupFuel Kext Context Symbols rank T
    threeChain [0, 1, 2] F xs hcl hnd (by rw [hlen]; decide) 4 []
    { Context := Context, Symbols := Symbols, Entries := xs.map fun X => (T X).Entry,
      NumPatched := 0 } [0, 1, 2]
    (fun Y hY => absurd hY (List.not_mem_nil Y)) inv0 rfl hent (chainLoop_threeChain xs hxs)
  refine ⟨st1, ?_, ?_, h2.linked, h3, ?_⟩
  · unfold InternalPatchByVtables64
    rw [hC, patchLoop_pass_bound H L lookupFuel Kext 3 _ (by simp [hlen]) fuel (by omega)]
    exact h1
  · rw [h2.counted]
    rfl
  · rw [h4]
    unfold chainEntries
    refine List.map_congr_left (fun X hX => ?_)
    unfold markEntry
    rw [if_pos (hcl X hX)]
/-- The premises `ChainFacts` hold for the kext of `classContext` with the
helpers `solidHelpers`. -/
theorem solidClass_facts :
    ChainFacts solidHelpers classLinks 3 0 classContext classSymbols classRank classRounds
      threeChain [0, 1, 2] where
  kext_lt := by decide
  rank_desc := by
    intro j d hd
    match j with
    | 0 =>
      have : d = 1 := by simpa [classContext, kextAt] using hd
      subst this
      decide
    | 1 => simp [classContext, kextAt] at hd
    | n + 2 =>
      have e : kextAt classContext (n + 2) = default := rfl
      rw [e] at hd
      cases hd
  unlocked := by decide
  none_linked := rfl
  none_counted := rfl
  patch_ok := by
    intro ParentEntry VtableName Symbol
    unfold InternalPatchVtableSymbol patchVtableSymbol
    have hp : ∀ n, solidHelpers.MachoSymbolNameIsPadslot n = false := fun _ => rfl
    have hdef : ∀ s, solidHelpers.MachoSymbolIsDefined s = true := fun _ => rfl
    simp only [hp, hdef, Bool.false_eq_true, Bool.true_eq_false, if_false]
    repeat' split
    all_goals rfl
  solve_name := fun _ _ => rfl
  metaclass_found :=
    ⟨{ Name := "__ZTV11OSMetaClass",
       Entries := [{ Name := some "__ZN11OSMetaClass4freeEv", Address := 0x2000 }] },
      classContext, by decide⟩
  smcp := by decide
  names := by decide
  final_name := by decide
  final_absent := by decide
  meta_name := by decide
  meta_unlinked := by
    intro X hX
    simp only [List.mem_cons, List.mem_singleton, List.not_mem_nil, or_false] at hX
    rcases hX with rfl | rfl | rfl <;> exact ⟨classContext, by decide⟩
  meta_differs := by decide
  root_found := by
    intro X hX hP
    simp only [List.mem_cons, List.mem_singleton, List.not_mem_nil, or_false] at hX
    rcases hX with rfl | rfl | rfl
    · exact ⟨{ Name := "__ZTV8OSObject",
               Entries := [{ Name := some "__ZN8OSObject4freeEv", Address := 0x1000 }] },
        classContext, by decide⟩
    · exact absurd hP (by decide)
    · exact absurd hP (by decide)
  parent_class := by
    intro X hX P hP
    simp only [List.mem_cons, List.mem_singleton, List.not_mem_nil, or_false] at hX
    rcases hX with rfl | rfl | rfl
    · have : threeChain 0 = none := by decide
      rw [this] at hP
      cases hP
    · have : P = 0 := by
        have : threeChain 1 = some 0 := by decide
        rw [this] at hP
        exact (Option.some.inj hP).symm
      subst this
      exact ⟨by decide, by decide, ⟨classContext, by decide⟩, by decide, by decide⟩
    · have : P = 1 := by
        have : threeChain 2 = some 1 := by decide
        rw [this] at hP
        exact (Option.some.inj hP).symm
      subst this
      exact ⟨by decide, by decide, ⟨classContext, by decide⟩, by decide, by decide⟩

/-- The kext of `classContext` with the helpers `solidHelpers`: for every order
of the entries of its three classes and with four or more passes allowed,
`InternalPatchByVtables64` returns `TRUE` with six vtables counted and linked
under the names of the six vtable symbols. -/
theorem solidClass_any_order (xs : List Nat) (hxs : xs.Perm [0, 1, 2]) (fuel : Nat)
    (hfuel : 4 ≤ fuel) :
    ∃ st1,
      InternalPatchByVtables64 solidHelpers classLinks 3 fuel classContext 0 classSymbols
          (xs.map fun X => (classRounds X).Entry) = some (some st1)
      ∧ (kextAt st1.Context 0).NumberOfVtables = 6
      ∧ ((kextAt st1.Context 0).LinkedVtables.map fun v => v.Name)
        = ["__ZTV1A", "__ZTVN1A9MetaClassE", "__ZTV1B", "__ZTVN1B9MetaClassE",
            "__ZTV1C", "__ZTVN1C9MetaClassE"]
      ∧ st1.NumPatched = 3 := by
  obtain ⟨st1, h1, h2, h3, h4, _⟩ := patchByVtables_chain solidHelpers classLinks 3 fuel
    classContext 0 classSymbols classRank classRounds solidClass_facts xs hxs hfuel
  exact ⟨st1, h1, h2, by rw [h3]; decide, h4⟩

end OcMacho
